import Mathlib

/-! ALE mesh motion (`src/base/cs_ale.c`): embedding and verified properties.

The C functions of `cs_ale.c` are embedded as Lean functions over explicit
state.  Conventions of the embedding:

* a `cs_real_t` is an exact rational number, or `nan` when it is the result
  of a division by zero or of an operation on such a result;
* a C array of reals is a function of the flat index; `a[v][i]` on a
  `cs_real_3_t *` is index `3*v+i`, `a[c][i][j]` on a `cs_real_33_t *` is
  index `9*c+3*i+j`, `a[f][k]` on a `cs_lnum_2_t *` is index `2*f+k`;
* a `for` loop is `forLoop`, which runs its body for `0, 1, ..., n-1`;
* functions of other files (equation engine, geometry engine, field store,
  partition interfaces) are arguments or are modelled from the specification.
-/

namespace CsAle

/-! ## Real numbers -/

/-- Value of a C `cs_real_t` in exact arithmetic. -/
inductive cs_real_t where
  | real (q : ℚ)
  | nan
deriving DecidableEq

namespace cs_real_t

/-- Sum; undefined as soon as one operand is. -/
def add : cs_real_t → cs_real_t → cs_real_t
  | real a, real b => real (a + b)
  | _, _ => nan

/-- Difference; undefined as soon as one operand is. -/
def sub : cs_real_t → cs_real_t → cs_real_t
  | real a, real b => real (a - b)
  | _, _ => nan

/-- Product; undefined as soon as one operand is. -/
def mul : cs_real_t → cs_real_t → cs_real_t
  | real a, real b => real (a * b)
  | _, _ => nan

/-- Quotient; undefined when the divisor is zero. -/
def div : cs_real_t → cs_real_t → cs_real_t
  | real a, real b => if b = 0 then nan else real (a / b)
  | _, _ => nan

/-- The C comparison `a <= b`, false when an operand is undefined. -/
def le : cs_real_t → cs_real_t → Bool
  | real a, real b => decide (a ≤ b)
  | _, _ => false

/-- The C comparison `a > b`, false when an operand is undefined. -/
def gt : cs_real_t → cs_real_t → Bool
  | real a, real b => decide (b < a)
  | _, _ => false

instance : Add cs_real_t := ⟨add⟩
instance : Sub cs_real_t := ⟨sub⟩
instance : Mul cs_real_t := ⟨mul⟩
instance : Div cs_real_t := ⟨div⟩
instance : Zero cs_real_t := ⟨real 0⟩
instance : One cs_real_t := ⟨real 1⟩
instance : Coe ℚ cs_real_t := ⟨real⟩
instance : Inhabited cs_real_t := ⟨nan⟩

/-- A value is defined when it is a real number. -/
def isReal : cs_real_t → Bool
  | real _ => true
  | nan => false

end cs_real_t

/-! ## Loops and arrays -/

/-- The loop `for (i = 0; i < n; i++) s = body(i, s)`. -/
def forLoop {σ : Type} : Nat → (Nat → σ → σ) → σ → σ
  | 0, _, s => s
  | n + 1, body, s => body n (forLoop n body s)

/-- The loop `for (j = lo; j < hi; j++) s = body(j, s)`. -/
def forRange {σ : Type} (lo hi : Nat) (body : Nat → σ → σ) (s : σ) : σ :=
  forLoop (hi - lo) (fun k => body (lo + k)) s

/-- The assignment `a[k] = x`. -/
def setAt {α : Type} (a : Nat → α) (k : Nat) (x : α) : Nat → α :=
  fun n => if n = k then x else a n

/-! ## Data model -/

/-- Modelled from the spec: the boundary motion tags of `cs_ale.h` stored in
`ale_bc_type` (the header is not part of the sources at hand); `other`
stands for any further integer value. -/
inductive cs_ale_bc_t where
  | CS_ALE_FIXED
  | CS_ALE_SLIDING
  | CS_ALE_IMPOSED_VEL
  | CS_FREE_SURFACE
  | other (k : Nat)
deriving DecidableEq

/-- Modelled from the spec: the values of `cs_glob_ale` declared in `cs_ale.h`. -/
inductive cs_ale_type_t where
  | CS_ALE_NONE
  | CS_ALE_LEGACY
  | CS_ALE_CDO
deriving DecidableEq

/-- Modelled from the spec: the mesh locations a field may live on
(`cs_mesh_location.h`). -/
inductive cs_mesh_location_type_t where
  | CS_MESH_LOCATION_NONE
  | CS_MESH_LOCATION_CELLS
  | CS_MESH_LOCATION_INTERIOR_FACES
  | CS_MESH_LOCATION_BOUNDARY_FACES
  | CS_MESH_LOCATION_VERTICES
deriving DecidableEq

/-- Vertices of this partition that have copies on other partitions: for a
local vertex, the (partition, vertex id there) pairs of its copies. -/
structure cs_interface_set_t where
  copies : Nat → List (Nat × Nat)

/-- The members of `cs_mesh_t` read or written by `cs_ale.c`. -/
structure cs_mesh_t where
  dim : Nat
  n_cells : Nat
  n_cells_with_ghosts : Nat
  n_i_faces : Nat
  n_b_faces : Nat
  n_vertices : Nat
  vtx_coord : Nat → cs_real_t
  i_face_cells : Nat → Nat
  b_face_cells : Nat → Nat
  i_face_vtx_idx : Nat → Nat
  i_face_vtx_lst : Nat → Nat
  b_face_vtx_idx : Nat → Nat
  b_face_vtx_lst : Nat → Nat
  vtx_interfaces : Option cs_interface_set_t

/-- The members of `cs_mesh_quantities_t` read or written by `cs_ale.c`. -/
structure cs_mesh_quantities_t where
  cell_cen : Nat → cs_real_t
  cell_vol : Nat → cs_real_t
  b_face_normal : Nat → cs_real_t
  b_face_cog : Nat → cs_real_t
  b_face_surf : Nat → cs_real_t
  b_dist : Nat → cs_real_t
  min_vol : cs_real_t
  max_vol : cs_real_t
  tot_vol : cs_real_t

/-- The members of `cs_time_step_t` used by `cs_ale.c`. -/
structure cs_time_step_t where
  nt_cur : Int
  nt_max : Int

/-- Boundary-condition coefficient arrays of a field (`cs_field_bc_coeffs_t`):
`a`, `af` are `cs_real_3_t` arrays and `b`, `bf` are `cs_real_33_t` arrays
over the boundary faces. -/
structure cs_field_bc_coeffs_t where
  a : Nat → cs_real_t
  b : Nat → cs_real_t
  af : Nat → cs_real_t
  bf : Nat → cs_real_t

/-- The members of `cs_var_cal_opt_t` read or written by `cs_ale.c`, and
`iconv`, which is passed on to the equation engine. -/
structure cs_var_cal_opt_t where
  iwarni : Int
  iconv : Int
  istat : Int
  idifft : Int
  idften : Int
  relaxv : cs_real_t
  thetav : cs_real_t

/-- A field: its location, its current and previous value arrays, its
boundary-condition coefficients and its calculation options. -/
structure cs_field_t where
  location_id : cs_mesh_location_type_t
  val : Nat → cs_real_t
  val_pre : Nat → cs_real_t
  bc_coeffs : cs_field_bc_coeffs_t
  var_cal_opt : cs_var_cal_opt_t

/-- A boundary zone (`cs_zone_t`). -/
structure cs_zone_t where
  id : Int
  name : String
  n_elts : Nat
  elt_ids : Nat → Nat

/-- The evaluators of `cs_ale.c` that can be registered as analytic boundary
conditions (the function pointer of a definition). -/
inductive ale_analytic_func_t where
  | _fixed_velocity
  | _fixed_displacement
  | _free_surface
  | user_func (k : Nat)
deriving DecidableEq

/-- Modelled from the spec: the kinds of boundary condition of the equation
engine that `cs_ale.c` names (`cs_param.h`). -/
inductive cs_param_bc_type_t where
  | CS_PARAM_BC_HMG_DIRICHLET
  | CS_PARAM_BC_DIRICHLET
  | CS_PARAM_BC_HMG_NEUMANN
  | CS_PARAM_BC_NEUMANN
  | CS_PARAM_BC_ROBIN
deriving DecidableEq

/-- How a boundary-condition definition gives its values: a constant, or an
analytic function together with the address of its input, here the index of
the closure in the table `_input_bc`. -/
inductive cs_xdef_value_t where
  | by_value (v : cs_real_t)
  | by_analytic (func : ale_analytic_func_t) (input : Nat)
deriving DecidableEq

/-- A boundary-condition definition of an equation (`cs_xdef_t`). -/
structure cs_xdef_t where
  z_id : Int
  bc_type : cs_param_bc_type_t
  value : cs_xdef_value_t
deriving DecidableEq

/-- The parameters of an equation that `cs_ale.c` reads or writes: the
list `bc_defs` of `n_bc_defs` boundary-condition definitions. -/
structure cs_equation_param_t where
  bc_defs : List cs_xdef_t

/-- Calls made to the domain and to the equation engine, in the order they
are made. -/
inductive engine_call_t where
  | equation_init
  | solve_steady_state
  | build_system
  | solve_deprecated
  | iterative_solve_vector
  | domain_set_cdo_mode
  | equation_add
  | equation_set_param (key value : String)
deriving DecidableEq

/-- The global objects the functions of `cs_ale.c` work on: `cs_glob_mesh`,
`cs_glob_mesh_quantities`, the global time step, the reference time step
`cs_glob_time_step_options->dtref`, the fields looked up by name or through
`CS_F_`, absent (`none`) when they have not been created, the boundary
zones, the parameters of the equation named mesh_velocity, the physical
constants and the static variables of the file. -/
structure ale_globals where
  mesh : cs_mesh_t
  mq : cs_mesh_quantities_t
  ts : cs_time_step_t
  dtref : cs_real_t
  idtvar : Int
  disale : Option cs_field_t
  mesh_u : Option cs_field_t
  i_massflux : Nat → cs_real_t
  b_massflux : Nat → cs_real_t
  rho_b : Nat → cs_real_t
  vism : Nat → cs_real_t
  dt : Nat → cs_real_t
  gravity : Nat → cs_real_t
  zones : List cs_zone_t
  mesh_velocity_eqp : Option cs_equation_param_t
  uses_new_mechanism : Bool
  engine_calls : List engine_call_t
  cs_glob_ale : cs_ale_type_t
  _active : Bool
  _vtx_coord0 : Option (Nat → cs_real_t)
  _input_bc : Option (Nat → String)

/-! ## `cs_ale_update_mesh` -/

/-- The function `cs_ale_update_mesh_quantities`: recompute the geometry and
detect bad cells (both done by the geometry engine, here the argument
`compute`), then copy the three volumes to the output arguments. -/
def cs_ale_update_mesh_quantities
    (compute : cs_mesh_t → cs_mesh_quantities_t → cs_mesh_quantities_t)
    (m : cs_mesh_t) (mq : cs_mesh_quantities_t) : cs_mesh_quantities_t :=
  let mq1 := compute m mq
  { mq1 with min_vol := mq1.min_vol, max_vol := mq1.max_vol, tot_vol := mq1.tot_vol }

/-- The geometry loop of `cs_ale_update_mesh` (lines 864-869) on the pair
(`vtx_coord`, `disala`). -/
def update_geometry (n_vertices ndim : Nat) (xyzno0 disale : Nat → cs_real_t)
    (st : (Nat → cs_real_t) × (Nat → cs_real_t)) :
    (Nat → cs_real_t) × (Nat → cs_real_t) :=
  forLoop n_vertices (fun inod st1 =>
    forLoop ndim (fun idim st2 =>
      let vtx_coord := setAt st2.1 (3 * inod + idim)
        (xyzno0 (3 * inod + idim) + disale (3 * inod + idim))
      let disala := setAt st2.2 (3 * inod + idim)
        (vtx_coord (3 * inod + idim) - xyzno0 (3 * inod + idim))
      (vtx_coord, disala)) st1) st

/-- The revert loops of `cs_ale_update_mesh` (lines 882-898). -/
def revert_mesh_velocity (m : cs_mesh_t) (f : cs_field_t) : cs_field_t :=
  if f.location_id = cs_mesh_location_type_t.CS_MESH_LOCATION_VERTICES then
    { f with val := forLoop m.n_vertices (fun inod v1 =>
        forLoop m.dim (fun idim v2 =>
          setAt v2 (3 * inod + idim) (f.val_pre (3 * inod + idim))) v1) f.val }
  else if f.location_id = cs_mesh_location_type_t.CS_MESH_LOCATION_CELLS then
    { f with val := forLoop m.n_cells_with_ghosts (fun cell_id v1 =>
        forLoop m.dim (fun idim v2 =>
          setAt v2 (3 * cell_id + idim) (f.val_pre (3 * cell_id + idim))) v1) f.val }
  else f

/-- The function `cs_ale_update_mesh`.  A field that does not exist makes the
lookup fail (`none`); otherwise the new global state is returned. -/
def cs_ale_update_mesh
    (compute : cs_mesh_t → cs_mesh_quantities_t → cs_mesh_quantities_t)
    (itrale : Int) (xyzno0 : Nat → cs_real_t) (g : ale_globals) :
    Option ale_globals :=
  match g.mesh_u, g.disale with
  | some mesh_u, some dis =>
    let geo := update_geometry g.mesh.n_vertices g.mesh.dim xyzno0 dis.val
      (g.mesh.vtx_coord, dis.val_pre)
    let m1 := { g.mesh with vtx_coord := geo.1 }
    let dis1 := { dis with val_pre := geo.2 }
    let mq1 := cs_ale_update_mesh_quantities compute m1 g.mq
    let ts1 := if cs_real_t.le mq1.min_vol 0 then { g.ts with nt_max := g.ts.nt_cur }
      else g.ts
    let mesh_u1 := if itrale = 0 then revert_mesh_velocity m1 mesh_u else mesh_u
    some { g with mesh := m1, mq := mq1, ts := ts1, disale := some dis1,
                  mesh_u := some mesh_u1 }
  | _, _ => none

/-! ## `cs_ale_project_displacement` -/

/-- The arrays `cs_ale_project_displacement` accumulates in: the output
`disp_proj` and the local arrays `vtx_counter`, `vtx_interior_indicator`. -/
structure proj_acc where
  disp_proj : Nat → cs_real_t
  vtx_counter : Nat → cs_real_t
  vtx_interior_indicator : Nat → Bool

/-- The arguments of `cs_ale_project_displacement`, with the global mesh and
mesh quantities it reads. -/
structure proj_args where
  m : cs_mesh_t
  mq : cs_mesh_quantities_t
  ale_bc_type : Nat → cs_ale_bc_t
  meshv : Nat → cs_real_t
  gradm : Nat → cs_real_t
  claale : Nat → cs_real_t
  clbale : Nat → cs_real_t
  dt : Nat → cs_real_t

/-- Lines 639-647: reset of the counter, the indicator and the output. -/
def proj_init (p : proj_args) (st : proj_acc) : proj_acc :=
  forLoop p.m.n_vertices (fun vtx_id st1 =>
    { vtx_counter := setAt st1.vtx_counter vtx_id 0,
      vtx_interior_indicator := setAt st1.vtx_interior_indicator vtx_id true,
      disp_proj := forLoop p.m.dim (fun i d => setAt d (3 * vtx_id + i) 0) st1.disp_proj }) st

/-- Lines 653-669: the vertices of a boundary face that is not sliding are
boundary vertices. -/
def proj_tag (p : proj_args) (st : proj_acc) : proj_acc :=
  forLoop p.m.n_b_faces (fun face_id st1 =>
    if p.ale_bc_type face_id ≠ cs_ale_bc_t.CS_ALE_SLIDING then
      forRange (p.m.b_face_vtx_idx face_id) (p.m.b_face_vtx_idx (face_id + 1)) (fun j st2 =>
        let vtx_id := p.m.b_face_vtx_lst j
        { st2 with vtx_interior_indicator := setAt st2.vtx_interior_indicator vtx_id false })
        st1
    else st1) st

/-- Lines 694-712: the value an interior face with adjacent cells `cell_id1`,
`cell_id2` adds to component `i` of `disp_proj[vtx_id]`. -/
def proj_interior_term (p : proj_args) (cell_id1 cell_id2 : Nat) (dvol1 dvol2 : cs_real_t)
    (vtx_id i : Nat) : cs_real_t :=
  let cen1_node := fun k => p.m.vtx_coord (3 * vtx_id + k) - p.mq.cell_cen (3 * cell_id1 + k)
  let cen2_node := fun k => p.m.vtx_coord (3 * vtx_id + k) - p.mq.cell_cen (3 * cell_id2 + k)
  dvol1 * (p.meshv (3 * cell_id1 + i) + p.gradm (9 * cell_id1 + 3 * i + 0) * cen1_node 0
                                       + p.gradm (9 * cell_id1 + 3 * i + 1) * cen1_node 1
                                       + p.gradm (9 * cell_id1 + 3 * i + 2) * cen1_node 2)
    * p.dt cell_id1
  + dvol2 * (p.meshv (3 * cell_id2 + i) + p.gradm (9 * cell_id2 + 3 * i + 0) * cen2_node 0
                                         + p.gradm (9 * cell_id2 + 3 * i + 1) * cen2_node 1
                                         + p.gradm (9 * cell_id2 + 3 * i + 2) * cen2_node 2)
    * p.dt cell_id2

/-- Lines 688-717: what an interior face with adjacent cells `cell_id1`,
`cell_id2` does at its vertex `vtx_id`. -/
def proj_interior_vtx (p : proj_args) (cell_id1 cell_id2 : Nat) (dvol1 dvol2 : cs_real_t)
    (vtx_id : Nat) (st : proj_acc) : proj_acc :=
  if st.vtx_interior_indicator vtx_id then
    let disp_proj := forLoop 3 (fun i d =>
      setAt d (3 * vtx_id + i)
        (d (3 * vtx_id + i) + proj_interior_term p cell_id1 cell_id2 dvol1 dvol2 vtx_id i))
      st.disp_proj
    { st with disp_proj := disp_proj,
              vtx_counter := setAt st.vtx_counter vtx_id (st.vtx_counter vtx_id + (dvol1 + dvol2)) }
  else st

/-- Lines 674-723: interior faces, for the interior vertices. -/
def proj_interior (p : proj_args) (st : proj_acc) : proj_acc :=
  forLoop p.m.n_i_faces (fun face_id st1 =>
    let cell_id1 := p.m.i_face_cells (2 * face_id + 0)
    let cell_id2 := p.m.i_face_cells (2 * face_id + 1)
    let dvol1 := 1 / p.mq.cell_vol cell_id1
    let dvol2 := 1 / p.mq.cell_vol cell_id2
    if cell_id1 < p.m.n_cells then
      forRange (p.m.i_face_vtx_idx face_id) (p.m.i_face_vtx_idx (face_id + 1)) (fun j st2 =>
        proj_interior_vtx p cell_id1 cell_id2 dvol1 dvol2 (p.m.i_face_vtx_lst j) st2) st1
    else st1) st

/-- Lines 740-762: the value the boundary face `face_id` with adjacent cell
`cell_id` adds to component `i` of `disp_proj[vtx_id]`. -/
def proj_boundary_term (p : proj_args) (face_id cell_id vtx_id i : Nat) : cs_real_t :=
  let face_node := fun k => p.m.vtx_coord (3 * vtx_id + k) - p.mq.b_face_cog (3 * face_id + k)
  let vel_node := fun k => p.claale (3 * face_id + k)
                    + p.gradm (9 * cell_id + 3 * k + 0) * face_node 0
                    + p.gradm (9 * cell_id + 3 * k + 1) * face_node 1
                    + p.gradm (9 * cell_id + 3 * k + 2) * face_node 2
  let dsurf := 1 / p.mq.b_face_surf face_id
  dsurf * p.dt cell_id *
    (vel_node i + p.clbale (9 * face_id + 3 * i + 0) * p.meshv (3 * cell_id + 0)
                + p.clbale (9 * face_id + 3 * i + 1) * p.meshv (3 * cell_id + 1)
                + p.clbale (9 * face_id + 3 * i + 2) * p.meshv (3 * cell_id + 2))

/-- Lines 736-766: what the boundary face `face_id` with adjacent cell
`cell_id` does at its vertex `vtx_id`. -/
def proj_boundary_vtx (p : proj_args) (face_id cell_id vtx_id : Nat) (st : proj_acc) :
    proj_acc :=
  if !st.vtx_interior_indicator vtx_id then
    let dsurf := 1 / p.mq.b_face_surf face_id
    let disp_proj := forLoop 3 (fun i d =>
      setAt d (3 * vtx_id + i)
        (d (3 * vtx_id + i) + proj_boundary_term p face_id cell_id vtx_id i)) st.disp_proj
    { st with disp_proj := disp_proj,
              vtx_counter := setAt st.vtx_counter vtx_id (st.vtx_counter vtx_id + dsurf) }
  else st

/-- Lines 728-770: boundary faces, for the boundary vertices. -/
def proj_boundary (p : proj_args) (st : proj_acc) : proj_acc :=
  forLoop p.m.n_b_faces (fun face_id st1 =>
    let cell_id := p.m.b_face_cells face_id
    forRange (p.m.b_face_vtx_idx face_id) (p.m.b_face_vtx_idx (face_id + 1)) (fun j st2 =>
      proj_boundary_vtx p face_id cell_id (p.m.b_face_vtx_lst j) st2) st1) st

/-- Lines 785-794: the three assignments made to `disp_proj[vtx_id]` for the
sliding face `face_id`, one after the other on the same array. -/
def proj_sliding_vtx (clbale : Nat → cs_real_t) (face_id vtx_id : Nat)
    (d : Nat → cs_real_t) : Nat → cs_real_t :=
  let d1 := setAt d (3 * vtx_id + 0)
    (clbale (9 * face_id + 3 * 0 + 0) * d (3 * vtx_id + 0)
     + clbale (9 * face_id + 3 * 0 + 1) * d (3 * vtx_id + 1)
     + clbale (9 * face_id + 3 * 0 + 2) * d (3 * vtx_id + 2))
  let d2 := setAt d1 (3 * vtx_id + 1)
    (clbale (9 * face_id + 3 * 1 + 0) * d1 (3 * vtx_id + 0)
     + clbale (9 * face_id + 3 * 1 + 1) * d1 (3 * vtx_id + 1)
     + clbale (9 * face_id + 3 * 1 + 2) * d1 (3 * vtx_id + 2))
  setAt d2 (3 * vtx_id + 2)
    (clbale (9 * face_id + 3 * 2 + 0) * d2 (3 * vtx_id + 0)
     + clbale (9 * face_id + 3 * 2 + 1) * d2 (3 * vtx_id + 1)
     + clbale (9 * face_id + 3 * 2 + 2) * d2 (3 * vtx_id + 2))

/-- Lines 776-800: the sliding faces. -/
def proj_sliding (p : proj_args) (st : proj_acc) : proj_acc :=
  forLoop p.m.n_b_faces (fun face_id st1 =>
    if p.ale_bc_type face_id = cs_ale_bc_t.CS_ALE_SLIDING then
      forRange (p.m.b_face_vtx_idx face_id) (p.m.b_face_vtx_idx (face_id + 1)) (fun j st2 =>
        { st2 with disp_proj := (proj_sliding_vtx p.clbale face_id (p.m.b_face_vtx_lst j)
                                  st2.disp_proj) }) st1
    else st1) st

/-- Lines 636-770: the accumulated, not yet projected nor normalized
displacement and the weights; `heap` is the content of `disp_proj` and of the
freshly allocated local arrays on entry. -/
def proj_accumulate (p : proj_args) (heap : proj_acc) : proj_acc :=
  proj_boundary p (proj_interior p (proj_tag p (proj_init p heap)))

/-- Lines 636-800: what this partition holds when the reduction starts. -/
def proj_local (p : proj_args) (heap : proj_acc) : proj_acc :=
  proj_sliding p (proj_accumulate p heap)

/-- Modelled from the spec: the reduction primitive `cs_interface_set_sum`
of the partition interfaces, which is not part of the sources at hand: every
entry of an array with `stride` values per vertex receives the sum of the
entries of the copies of its vertex, `peer_var r` being the array partition
`r` holds. -/
def cs_interface_set_sum (ifs : cs_interface_set_t) (stride : Nat)
    (peer_var : Nat → Nat → cs_real_t) (var : Nat → cs_real_t) : Nat → cs_real_t :=
  fun k => (ifs.copies (k / stride)).foldl
    (fun acc c => acc + peer_var c.1 (stride * c.2 + k % stride)) (var k)

/-- Lines 802-815: the two reductions, made when the mesh has vertex
interfaces; `peers r` is what partition `r` holds at that point. -/
def proj_reduce (m : cs_mesh_t) (peers : Nat → proj_acc) (st : proj_acc) : proj_acc :=
  match m.vtx_interfaces with
  | some ifs =>
    { st with disp_proj := cs_interface_set_sum ifs 3 (fun r => (peers r).disp_proj) st.disp_proj,
              vtx_counter := (cs_interface_set_sum ifs 1 (fun r => (peers r).vtx_counter)
                               st.vtx_counter) }
  | none => st

/-- Lines 817-819: division by the weight. -/
def proj_normalize (m : cs_mesh_t) (st : proj_acc) : Nat → cs_real_t :=
  forLoop m.n_vertices (fun vtx_id d1 =>
    forLoop m.dim (fun i d2 =>
      setAt d2 (3 * vtx_id + i) (d2 (3 * vtx_id + i) / st.vtx_counter vtx_id)) d1) st.disp_proj

/-- The function `cs_ale_project_displacement`; the result is the array
`disp_proj` on return. -/
def cs_ale_project_displacement (peers : Nat → proj_acc) (p : proj_args) (heap : proj_acc) :
    Nat → cs_real_t :=
  proj_normalize p.m (proj_reduce p.m peers (proj_local p heap))

/-- The weight of vertex `v` when `cs_ale_project_displacement` normalizes:
the entry of `vtx_counter` after the reduction. -/
def proj_weight (peers : Nat → proj_acc) (p : proj_args) (heap : proj_acc) (v : Nat) :
    cs_real_t :=
  (proj_reduce p.m peers (proj_local p heap)).vtx_counter v

/-- Vertex `v` is in the vertex list of boundary face `f`. -/
def b_face_has_vtx (m : cs_mesh_t) (f v : Nat) : Prop :=
  ∃ k, k < m.b_face_vtx_idx (f + 1) - m.b_face_vtx_idx f ∧
    m.b_face_vtx_lst (m.b_face_vtx_idx f + k) = v

instance (m : cs_mesh_t) (f v : Nat) : Decidable (b_face_has_vtx m f v) :=
  inferInstanceAs (Decidable (∃ k, k < m.b_face_vtx_idx (f + 1) - m.b_face_vtx_idx f ∧
    m.b_face_vtx_lst (m.b_face_vtx_idx f + k) = v))

/-- Vertex `v` is in the vertex list of interior face `f`. -/
def i_face_has_vtx (m : cs_mesh_t) (f v : Nat) : Prop :=
  ∃ k, k < m.i_face_vtx_idx (f + 1) - m.i_face_vtx_idx f ∧
    m.i_face_vtx_lst (m.i_face_vtx_idx f + k) = v

instance (m : cs_mesh_t) (f v : Nat) : Decidable (i_face_has_vtx m f v) :=
  inferInstanceAs (Decidable (∃ k, k < m.i_face_vtx_idx (f + 1) - m.i_face_vtx_idx f ∧
    m.i_face_vtx_lst (m.i_face_vtx_idx f + k) = v))

/-- The arrays the projection reads hold real numbers. -/
def proj_real_inputs (p : proj_args) : Prop :=
  (∀ k, (p.m.vtx_coord k).isReal = true) ∧ (∀ k, (p.mq.cell_cen k).isReal = true) ∧
  (∀ k, (p.mq.b_face_cog k).isReal = true) ∧ (∀ k, (p.meshv k).isReal = true) ∧
  (∀ k, (p.gradm k).isReal = true) ∧ (∀ k, (p.claale k).isReal = true) ∧
  (∀ k, (p.clbale k).isReal = true) ∧ (∀ k, (p.dt k).isReal = true)

/-- The mesh velocity, its gradient and the boundary coefficient `claale`
are zero. -/
def proj_zero_velocity (p : proj_args) : Prop :=
  (∀ k, p.meshv k = 0) ∧ (∀ k, p.gradm k = 0) ∧ (∀ k, p.claale k = 0)

/-- The copies an interface gives for the vertices of a partition are
vertices of the partitions they name. -/
def copies_in_range (world : Nat → proj_args) (rank : Nat) : Prop :=
  ∀ ifs, (world rank).m.vtx_interfaces = some ifs →
    ∀ v c, c ∈ ifs.copies v → c.2 < (world c.1).m.n_vertices

/-- The invariant of the zero-velocity case: where the weight of a vertex of
the mesh is defined, its accumulated displacement is zero. -/
def zero_inv (n : Nat) (st : proj_acc) : Prop :=
  ∀ q, q / 3 < n → st.vtx_counter (q / 3) ≠ cs_real_t.nan → st.disp_proj q = 0

/-- Vertex `v` of a partition is a Dirichlet vertex for the velocity `u` and
the time step `dt`: it lies on a boundary face, and every boundary face it
lies on is not sliding, has a positive surface, the coefficients
`claale = u` and `clbale = 0`, and an adjacent cell with time step `dt` and
zero velocity gradient. -/
def dirichlet_vertex (p : proj_args) (u : Nat → ℚ) (dt : ℚ) (v : Nat) : Prop :=
  (∃ f, f < p.m.n_b_faces ∧ b_face_has_vtx p.m f v) ∧
  ∀ f, f < p.m.n_b_faces → b_face_has_vtx p.m f v →
    p.ale_bc_type f ≠ cs_ale_bc_t.CS_ALE_SLIDING ∧
    (∃ s : ℚ, 0 < s ∧ p.mq.b_face_surf f = cs_real_t.real s) ∧
    (∀ i, i < 3 → p.claale (3 * f + i) = cs_real_t.real (u i)) ∧
    (∀ i j, i < 3 → j < 3 → p.clbale (9 * f + 3 * i + j) = 0) ∧
    p.dt (p.m.b_face_cells f) = cs_real_t.real dt ∧
    (∀ i j, i < 3 → j < 3 → p.gradm (9 * p.m.b_face_cells f + 3 * i + j) = 0)

/-- The invariant of a Dirichlet vertex `v`: it is tagged boundary, its
weight is a real number `c >= 0`, positive once `touched` holds, and its
accumulated displacement is `c * (dt * u)`. -/
def dirichlet_inv (u : Nat → ℚ) (dt : ℚ) (v : Nat) (touched : Prop) (st : proj_acc) : Prop :=
  st.vtx_interior_indicator v = false ∧
  ∃ c : ℚ, 0 ≤ c ∧ st.vtx_counter v = cs_real_t.real c ∧
    (∀ i, i < 3 → st.disp_proj (3 * v + i) = cs_real_t.real (c * (dt * u i))) ∧
    (touched → 0 < c)

/-- The function `cs_ale_project_displacement` run by every partition of a
distributed mesh: partition `r` runs it on `world r`, and the reduction sums
what the partitions have accumulated. -/
def cs_ale_project_displacement_spmd (world : Nat → proj_args) (heaps : Nat → proj_acc)
    (rank : Nat) : Nat → cs_real_t :=
  cs_ale_project_displacement (fun r => proj_local (world r) (heaps r)) (world rank) (heaps rank)

/-! ## `cs_ale_setup_boundaries` -/

/-- The variables the zone loop of `cs_ale_setup_boundaries` updates: the
closure table and its fill count, the definitions of the equation, and the
locals `face_type`, `imp_dis`, which keep their value from one zone to the
next. -/
structure setup_locals where
  _n_input_bc : Nat
  input_bc : Nat → String
  bc_defs : List cs_xdef_t
  face_type : cs_ale_bc_t
  imp_dis : Int

/-- Modelled from the spec: the id the equation engine records for a zone
name (`cs_boundary_zone_by_name(z_name)->id`, not part of the sources at
hand); the names passed by `cs_ale.c` are names of zones of the table. -/
def zone_id_by_name (zones : List cs_zone_t) (z_name : String) : Int :=
  match zones.find? (fun z => z.name = z_name) with
  | some z => z.id
  | none => 0

/-- Modelled from the spec: `cs_equation_add_bc_by_value` appends to the
definitions of the equation one definition by value for the named zone. -/
def cs_equation_add_bc_by_value (zones : List cs_zone_t) (bc_defs : List cs_xdef_t)
    (bc_type : cs_param_bc_type_t) (z_name : String) (v : cs_real_t) : List cs_xdef_t :=
  bc_defs ++ [{ z_id := zone_id_by_name zones z_name, bc_type := bc_type,
                value := cs_xdef_value_t.by_value v }]

/-- Modelled from the spec: `cs_equation_add_bc_by_analytic` appends to the
definitions of the equation one definition by analytic function for the
named zone, with the function and the address of its input. -/
def cs_equation_add_bc_by_analytic (zones : List cs_zone_t) (bc_defs : List cs_xdef_t)
    (bc_type : cs_param_bc_type_t) (z_name : String) (func : ale_analytic_func_t)
    (input : Nat) : List cs_xdef_t :=
  bc_defs ++ [{ z_id := zone_id_by_name zones z_name, bc_type := bc_type,
                value := cs_xdef_value_t.by_analytic func input }]

/-- Lines 988-1057: the body of the zone loop for the zone `z`. -/
def setup_zone (m : cs_mesh_t) (zones : List cs_zone_t) (impale : Nat → Int)
    (ale_bc_type : Nat → cs_ale_bc_t) (z : cs_zone_t) (st : setup_locals) : setup_locals :=
  if z.id > 0 ∧ z.name ≠ "domain_walls" then
    let is_defined := st.bc_defs.any (fun d => decide (d.z_id = z.id))
    if is_defined then st
    else
      let st1 :=
        if 0 < z.n_elts then
          let f_id := z.elt_ids 0
          let inod0 := m.b_face_vtx_lst (m.b_face_vtx_idx f_id)
          { st with face_type := ale_bc_type f_id, imp_dis := impale inod0 }
        else st
      if st1.face_type = cs_ale_bc_t.CS_ALE_FIXED then
        { st1 with bc_defs := (cs_equation_add_bc_by_value zones st1.bc_defs
            cs_param_bc_type_t.CS_PARAM_BC_HMG_DIRICHLET z.name 0) }
      else if st1.face_type = cs_ale_bc_t.CS_ALE_IMPOSED_VEL ∧ st1.imp_dis = 0 then
        { st1 with input_bc := setAt st1.input_bc st1._n_input_bc z.name,
                   bc_defs := (cs_equation_add_bc_by_analytic zones st1.bc_defs
                     cs_param_bc_type_t.CS_PARAM_BC_DIRICHLET z.name
                     ale_analytic_func_t._fixed_velocity st1._n_input_bc),
                   _n_input_bc := st1._n_input_bc + 1 }
      else if st1.face_type = cs_ale_bc_t.CS_ALE_IMPOSED_VEL ∧ st1.imp_dis ≠ 0 then
        { st1 with input_bc := setAt st1.input_bc st1._n_input_bc z.name,
                   bc_defs := (cs_equation_add_bc_by_analytic zones st1.bc_defs
                     cs_param_bc_type_t.CS_PARAM_BC_DIRICHLET z.name
                     ale_analytic_func_t._fixed_displacement st1._n_input_bc),
                   _n_input_bc := st1._n_input_bc + 1 }
      else if st1.face_type = cs_ale_bc_t.CS_FREE_SURFACE then
        { st1 with input_bc := setAt st1.input_bc st1._n_input_bc z.name,
                   bc_defs := (cs_equation_add_bc_by_analytic zones st1.bc_defs
                     cs_param_bc_type_t.CS_PARAM_BC_DIRICHLET z.name
                     ale_analytic_func_t._free_surface st1._n_input_bc),
                   _n_input_bc := st1._n_input_bc + 1 }
      else st1
  else st

/-- Lines 987-1058: the loop over the boundary zones. -/
def setup_zones (m : cs_mesh_t) (zones : List cs_zone_t) (impale : Nat → Int)
    (ale_bc_type : Nat → cs_ale_bc_t) (st : setup_locals) : setup_locals :=
  forLoop zones.length (fun j st1 =>
    match zones.get? j with
    | some z => setup_zone m zones impale ale_bc_type z st1
    | none => st1) st

/-- The function `cs_ale_setup_boundaries`.  `table0` is the content of the
freshly allocated closure table, `face_type0` and `imp_dis0` the values the
locals `face_type` and `imp_dis` hold before they are first assigned.  The
call fails when the equation named mesh_velocity does not exist. -/
def cs_ale_setup_boundaries (table0 : Nat → String) (face_type0 : cs_ale_bc_t)
    (imp_dis0 : Int) (impale : Nat → Int) (ale_bc_type : Nat → cs_ale_bc_t)
    (g : ale_globals) : Option ale_globals :=
  match g.mesh_velocity_eqp with
  | some eqp =>
    let st := setup_zones g.mesh g.zones impale ale_bc_type
      { _n_input_bc := 0, input_bc := table0, bc_defs := eqp.bc_defs,
        face_type := face_type0, imp_dis := imp_dis0 }
    some { g with _input_bc := some st.input_bc,
                  mesh_velocity_eqp := some { eqp with bc_defs := st.bc_defs } }
  | none => none

/-! ## The two solvers of the mesh velocity -/

/-- The uninitialised memory the solvers work with: the closure table, the
locals of `cs_ale_setup_boundaries`, the arrays of the projection, and the
work arrays `smbr`, `fimp`, `b_visc` of the legacy solver. -/
structure ale_heap where
  table0 : Nat → String
  face_type0 : cs_ale_bc_t
  imp_dis0 : Int
  proj : proj_acc
  smbr0 : Nat → cs_real_t
  fimp0 : Nat → cs_real_t
  b_visc0 : Nat → cs_real_t

/-- The displacement loop of `_ale_solve_poisson_cdo` (lines 296-303). -/
def cdo_update_displacement (n_vertices : Nat) (impale : Nat → Int) (dtref : cs_real_t)
    (disala m_vel disale : Nat → cs_real_t) : Nat → cs_real_t :=
  forLoop n_vertices (fun inod d1 =>
    if impale inod = 0 then
      forLoop 3 (fun c_id d2 =>
        setAt d2 (3 * inod + c_id) (disala (3 * inod + c_id) + m_vel (3 * inod + c_id) * dtref))
        d1
    else d1) disale

/-- Lines 258-270 of `_ale_solve_poisson_cdo`: on the first call, the
snapshot of the vertex coordinates, the boundary setup and the initialisation
of the equations. -/
def cdo_first_call (heap : ale_heap) (impale : Nat → Int) (ale_bc_type : Nat → cs_ale_bc_t)
    (g : ale_globals) : Option ale_globals :=
  match g._vtx_coord0 with
  | none =>
    let g1 := { g with _vtx_coord0 := some (fun k =>
      if k < 3 * g.mesh.n_vertices then g.mesh.vtx_coord k else cs_real_t.nan) }
    match cs_ale_setup_boundaries heap.table0 heap.face_type0 heap.imp_dis0 impale ale_bc_type
        g1 with
    | some g2 => some { g2 with engine_calls := g2.engine_calls ++ [engine_call_t.equation_init] }
    | none => none
  | some _ => some g

/-- The function `_ale_solve_poisson_cdo`.  The equation engine is the
argument `solve`: from the global state it gives the new current values of
the unknown, the field named mesh_velocity.  A missing field or equation
makes the call fail. -/
def _ale_solve_poisson_cdo (solve : ale_globals → Nat → cs_real_t) (heap : ale_heap)
    (g : ale_globals) (impale : Nat → Int) (ale_bc_type : Nat → cs_ale_bc_t) :
    Option ale_globals :=
  match g.disale with
  | none => none
  | some dis =>
    match cdo_first_call heap impale ale_bc_type g with
    | none => none
    | some g1 =>
      match g1.mesh_velocity_eqp, g1.mesh_u with
      | some _, some mesh_u =>
        let calls := if g1.uses_new_mechanism then [engine_call_t.solve_steady_state]
          else [engine_call_t.build_system, engine_call_t.solve_deprecated]
        let mesh_u1 := { mesh_u with val := solve g1 }
        let m_vel := mesh_u1.val
        let dis1 := { dis with val := (cdo_update_displacement g1.mesh.n_vertices impale g1.dtref
                                        dis.val_pre m_vel dis.val) }
        some { g1 with engine_calls := g1.engine_calls ++ calls, mesh_u := some mesh_u1,
                       disale := some dis1 }
      | _, _ => none

/-- The functions of other files `_ale_solve_poisson_legacy` calls. -/
structure legacy_engine where
  is_isotropic : Int → Bool
  is_anisotropic_left : Int → Bool
  cs_math_infinite_r : cs_real_t
  set_dirichlet_vector_aniso :
    (Nat → cs_real_t) → (Nat → cs_real_t) → (Nat → cs_real_t) → cs_field_bc_coeffs_t
  face_viscosity : cs_mesh_t → cs_mesh_quantities_t → (Nat → cs_real_t) →
    (Nat → cs_real_t) × (Nat → cs_real_t)
  face_anisotropic_viscosity_vector : cs_mesh_t → cs_mesh_quantities_t → (Nat → cs_real_t) →
    (Nat → cs_real_t) × (Nat → cs_real_t)
  field_gradient_vector : cs_mesh_t → cs_mesh_quantities_t → cs_field_t → Bool → Int →
    Nat → cs_real_t

/-- The arguments `_ale_solve_poisson_legacy` passes to
`cs_equation_iterative_solve_vector`. -/
structure solve_vector_args where
  idtvar : Int
  iterns : Int
  ivisep : Int
  iescap : Int
  var_cal_opt : cs_var_cal_opt_t
  pvara : Nat → cs_real_t
  pvark : Nat → cs_real_t
  coefav : Nat → cs_real_t
  coefbv : Nat → cs_real_t
  cofafv : Nat → cs_real_t
  cofbfv : Nat → cs_real_t
  i_massflux : Nat → cs_real_t
  b_massflux : Nat → cs_real_t
  i_viscm : Option (Nat → cs_real_t)
  b_viscm : Nat → cs_real_t
  i_visc : Option (Nat → cs_real_t)
  b_visc : Nat → cs_real_t
  icvflv : Int
  fimp : Nat → cs_real_t
  smbr : Nat → cs_real_t

/-- The function `cs_math_3_dot_product` of `cs_math.h` on `u` and on the
vector of index `f` of the `cs_real_3_t` array `v`. -/
def cs_math_3_dot_product (u : Nat → cs_real_t) (v : Nat → cs_real_t) (f : Nat) : cs_real_t :=
  u 0 * v (3 * f + 0) + u 1 * v (3 * f + 1) + u 2 * v (3 * f + 2)

/-- Lines 391-419 of `_ale_solve_poisson_legacy`: the Dirichlet condition set
on the free-surface faces. -/
def legacy_free_surface_bc (ext : legacy_engine) (g : ale_globals)
    (ale_bc_type : Nat → cs_ale_bc_t) (idftnp : Int) (bc : cs_field_bc_coeffs_t) :
    cs_field_bc_coeffs_t :=
  forLoop g.mesh.n_b_faces (fun face_id bc1 =>
    if ale_bc_type face_id = cs_ale_bc_t.CS_FREE_SURFACE then
      let cell_id := g.mesh.b_face_cells face_id
      let distbf := g.mq.b_dist face_id
      let hintt0 : Nat → cs_real_t := fun _ => 0
      let hintt :=
        if ext.is_isotropic idftnp then
          forLoop 3 (fun isou h => setAt h isou (g.vism cell_id / distbf)) hintt0
        else if ext.is_anisotropic_left idftnp then
          forLoop 6 (fun isou h => setAt h isou (g.vism (6 * cell_id + isou) / distbf)) hintt0
        else hintt0
      let prosrf := cs_math_3_dot_product g.gravity g.mq.b_face_normal face_id
      let pimpv : Nat → cs_real_t := fun i =>
        g.gravity i * g.b_massflux face_id / (g.rho_b face_id * prosrf)
      let rinfiv : Nat → cs_real_t := fun _ => ext.cs_math_infinite_r
      let c := ext.set_dirichlet_vector_aniso pimpv hintt rinfiv
      { a := fun k => if k / 3 = face_id then c.a (k % 3) else bc1.a k,
        af := fun k => if k / 3 = face_id then c.af (k % 3) else bc1.af k,
        b := fun k => if k / 9 = face_id then c.b (k % 9) else bc1.b k,
        bf := fun k => if k / 9 = face_id then c.bf (k % 9) else bc1.bf k }
    else bc1) bc

/-- The displacement loop of `_ale_solve_poisson_legacy` (lines 531-536). -/
def legacy_update_displacement (n_vertices : Nat) (impale : Nat → Int)
    (disala dproj disale : Nat → cs_real_t) : Nat → cs_real_t :=
  forLoop n_vertices (fun inod d1 =>
    if impale inod = 0 then
      forLoop 3 (fun isou d2 =>
        setAt d2 (3 * inod + isou) (disala (3 * inod + isou) + dproj (3 * inod + isou))) d1
    else d1) disale

/-- Lines 349-495 of `_ale_solve_poisson_legacy`: the field `CS_F_(mesh_u)`
after the boundary condition of the free surface has been set and the
equation solved.  `solve` stands for `cs_equation_iterative_solve_vector`,
which gives the new mesh velocity from its arguments. -/
def legacy_solve (ext : legacy_engine) (solve : solve_vector_args → Nat → cs_real_t)
    (heap : ale_heap) (g : ale_globals) (iterns : Int) (ale_bc_type : Nat → cs_ale_bc_t)
    (mesh_u : cs_field_t) : cs_field_t :=
  let n_cells_ext := g.mesh.n_cells_with_ghosts
  let mshvela := mesh_u.val_pre
  let var_cal_opt := mesh_u.var_cal_opt
  let idftnp := var_cal_opt.idften
  let bc_coeffs := legacy_free_surface_bc ext g ale_bc_type idftnp mesh_u.bc_coeffs
  let sf := forLoop n_cells_ext (fun cell_id st =>
    forLoop 3 (fun isou st1 =>
      (setAt st1.1 (3 * cell_id + isou) 0,
       forLoop 3 (fun jsou a => setAt a (9 * cell_id + 3 * jsou + isou) 0) st1.2)) st)
    (heap.smbr0, heap.fimp0)
  let smbr := sf.1
  let fimp := sf.2
  let visc : Option (Nat → cs_real_t) × (Nat → cs_real_t) :=
    if ext.is_isotropic idftnp then
      let r := ext.face_viscosity g.mesh g.mq g.vism
      (some r.1, r.2)
    else if ext.is_anisotropic_left idftnp then
      let r := ext.face_anisotropic_viscosity_vector g.mesh g.mq g.vism
      (some r.1, r.2)
    else (none, heap.b_visc0)
  let var_cal_opt1 := { var_cal_opt with relaxv := 1, thetav := 1, istat := -1, idifft := -1 }
  let mshvel := solve
    { idtvar := g.idtvar, iterns := iterns, ivisep := 0, iescap := 0,
      var_cal_opt := var_cal_opt1, pvara := mshvela, pvark := mshvela,
      coefav := bc_coeffs.a, coefbv := bc_coeffs.b, cofafv := bc_coeffs.af,
      cofbfv := bc_coeffs.bf, i_massflux := g.i_massflux, b_massflux := g.b_massflux,
      i_viscm := visc.1, b_viscm := visc.2, i_visc := visc.1, b_visc := visc.2,
      icvflv := 0, fimp := fimp, smbr := smbr }
  { mesh_u with val := mshvel, bc_coeffs := bc_coeffs }

/-- Lines 505-526 of `_ale_solve_poisson_legacy`: the array `dproj`, output
of `cs_ale_project_displacement` for the solved mesh velocity `mesh_u1` and
its gradient.  `peers` is what the other partitions hold when the projection
reduces. -/
def legacy_dproj (ext : legacy_engine) (peers : Nat → proj_acc) (heap : ale_heap)
    (g : ale_globals) (ale_bc_type : Nat → cs_ale_bc_t) (mesh_u1 : cs_field_t) :
    Nat → cs_real_t :=
  let gradm := ext.field_gradient_vector g.mesh g.mq mesh_u1 false 1
  cs_ale_project_displacement peers
    { m := g.mesh, mq := g.mq, ale_bc_type := ale_bc_type, meshv := mesh_u1.val, gradm := gradm,
      claale := mesh_u1.bc_coeffs.a, clbale := mesh_u1.bc_coeffs.b, dt := g.dt } heap.proj

/-- The function `_ale_solve_poisson_legacy`.  A missing field makes the call
fail. -/
def _ale_solve_poisson_legacy (ext : legacy_engine)
    (solve : solve_vector_args → Nat → cs_real_t) (peers : Nat → proj_acc) (heap : ale_heap)
    (g : ale_globals) (iterns : Int) (impale : Nat → Int) (ale_bc_type : Nat → cs_ale_bc_t) :
    Option ale_globals :=
  match g.mesh_u, g.disale with
  | some mesh_u, some dis =>
    let mesh_u1 := legacy_solve ext solve heap g iterns ale_bc_type mesh_u
    let dproj := legacy_dproj ext peers heap g ale_bc_type mesh_u1
    let dis1 := { dis with val := (legacy_update_displacement g.mesh.n_vertices impale
                                    dis.val_pre dproj dis.val) }
    some { g with engine_calls := g.engine_calls ++ [engine_call_t.iterative_solve_vector],
                  mesh_u := some mesh_u1, disale := some dis1 }
  | _, _ => none

/-- The function `cs_ale_solve_mesh_velocity`: dispatch on `cs_glob_ale`. -/
def cs_ale_solve_mesh_velocity (ext : legacy_engine)
    (solve_legacy : solve_vector_args → Nat → cs_real_t)
    (solve_cdo : ale_globals → Nat → cs_real_t) (peers : Nat → proj_acc) (heap : ale_heap)
    (g : ale_globals) (iterns : Int) (impale : Nat → Int) (ale_bc_type : Nat → cs_ale_bc_t) :
    Option ale_globals :=
  if g.cs_glob_ale = cs_ale_type_t.CS_ALE_LEGACY then
    _ale_solve_poisson_legacy ext solve_legacy peers heap g iterns impale ale_bc_type
  else if g.cs_glob_ale = cs_ale_type_t.CS_ALE_CDO then
    _ale_solve_poisson_cdo solve_cdo heap g impale ale_bc_type
  else some g

/-! ## A one-cell mesh used to evaluate the functions

The tetrahedron with vertices `O = (0,0,0)`, `A = (1,0,0)`, `B = (0,1,0)`,
`C = (0,0,2)` (vertex ids 0 to 3).  Its boundary faces are `OAB` (id 0, area
1/2), `OBC` (id 1, area 1), `OAC` (id 2, area 1) and `ABC` (id 3, area 3/2,
normal direction `(2,2,1)`); its volume is 1/3. -/

/-- An array given by the list of its first values, zero beyond. -/
def ofList (l : List ℚ) : Nat → cs_real_t :=
  fun k => cs_real_t.real (l.getD k 0)

/-- An index array given by the list of its first values, 0 beyond. -/
def idxList (l : List Nat) : Nat → Nat :=
  fun k => (l.get? k).getD 0

/-- The one-tetrahedron mesh. -/
def tet_mesh : cs_mesh_t :=
  { dim := 3, n_cells := 1, n_cells_with_ghosts := 1, n_i_faces := 0, n_b_faces := 4,
    n_vertices := 4,
    vtx_coord := ofList [0, 0, 0, 1, 0, 0, 0, 1, 0, 0, 0, 2],
    i_face_cells := idxList [],
    b_face_cells := idxList [0, 0, 0, 0],
    i_face_vtx_idx := idxList [0],
    i_face_vtx_lst := idxList [],
    b_face_vtx_idx := idxList [0, 3, 6, 9, 12],
    b_face_vtx_lst := idxList [0, 1, 2, 0, 2, 3, 0, 1, 3, 1, 2, 3],
    vtx_interfaces := none }

/-- The geometric quantities of the one-tetrahedron mesh. -/
def tet_quantities : cs_mesh_quantities_t :=
  { cell_cen := ofList [1/4, 1/4, 1/2],
    cell_vol := ofList [1/3],
    b_face_normal := ofList [0, 0, -1/2, -1, 0, 0, 0, -1, 0, 1, 1, 1/2],
    b_face_cog := ofList [1/3, 1/3, 0, 0, 1/3, 2/3, 1/3, 0, 2/3, 1/3, 1/3, 2/3],
    b_face_surf := ofList [1/2, 1, 1, 3/2],
    b_dist := ofList [1/2, 1/4, 1/4, 1/6],
    min_vol := cs_real_t.real (1/3),
    max_vol := cs_real_t.real (1/3),
    tot_vol := cs_real_t.real (1/3) }

/-- The array that is zero everywhere. -/
def zeros : Nat → cs_real_t := fun _ => 0

/-- A field with the given current and previous values. -/
def mk_field (loc : cs_mesh_location_type_t) (val val_pre : Nat → cs_real_t) : cs_field_t :=
  { location_id := loc, val := val, val_pre := val_pre,
    bc_coeffs := { a := zeros, b := zeros, af := zeros, bf := zeros },
    var_cal_opt := { iwarni := 0, iconv := 0, istat := 0, idifft := 1, idften := 1,
                     relaxv := 1, thetav := 1 } }

/-- A global state on the one-tetrahedron mesh: vertex `C` is displaced by
`(0,0,-1/10)`, the mesh velocity is a vertex field, the time step is 1/10. -/
def tet_globals : ale_globals :=
  { mesh := tet_mesh, mq := tet_quantities, ts := { nt_cur := 5, nt_max := 100 },
    dtref := cs_real_t.real (1/10), idtvar := 0,
    disale := some (mk_field cs_mesh_location_type_t.CS_MESH_LOCATION_VERTICES
      (ofList [0, 0, 0, 0, 0, 0, 0, 0, 0, 0, 0, -1/10]) (ofList [0, 0, 0, 0, 0, 0, 0, 0, 0, 0, 0, 0])),
    mesh_u := some (mk_field cs_mesh_location_type_t.CS_MESH_LOCATION_VERTICES
      (ofList [0, 0, 0, 0, 0, 0, 0, 0, 0, 0, 0, -1]) (ofList [0, 0, 0, 0, 0, 0, 0, 0, 0, 0, 0, 0])),
    i_massflux := zeros, b_massflux := zeros, rho_b := fun _ => 1, vism := fun _ => 1,
    dt := fun _ => cs_real_t.real (1/10), gravity := ofList [0, 0, -981/100],
    zones := [], mesh_velocity_eqp := some { bc_defs := [] }, uses_new_mechanism := true,
    engine_calls := [], cs_glob_ale := cs_ale_type_t.CS_ALE_CDO, _active := true,
    _vtx_coord0 := none, _input_bc := none }

/-- A geometry engine for the evaluations: it reports the volume `vol` as
minimum, maximum and total volume and leaves the other quantities. -/
def const_volume (vol : ℚ) : cs_mesh_t → cs_mesh_quantities_t → cs_mesh_quantities_t :=
  fun _ mq => { mq with min_vol := cs_real_t.real vol, max_vol := cs_real_t.real vol,
                        tot_vol := cs_real_t.real vol }

/-- An equation engine for the evaluations: the Dirichlet setter stores the
imposed value in `a` and zero in `b`, as the specification describes, and
the face viscosities and the gradient are zero. -/
def tet_engine : legacy_engine :=
  { is_isotropic := fun _ => true,
    is_anisotropic_left := fun _ => false,
    cs_math_infinite_r := cs_real_t.real 1000000,
    set_dirichlet_vector_aniso := fun pimpv _ _ =>
      { a := pimpv, b := zeros, af := zeros, bf := zeros },
    face_viscosity := fun _ _ _ => (zeros, zeros),
    face_anisotropic_viscosity_vector := fun _ _ _ => (zeros, zeros),
    field_gradient_vector := fun _ _ _ _ _ => zeros }

/-- Uninitialised memory for the evaluations. -/
def tet_heap : ale_heap :=
  { table0 := fun _ => "", face_type0 := cs_ale_bc_t.other 0, imp_dis0 := 0,
    proj := { disp_proj := fun _ => cs_real_t.nan, vtx_counter := fun _ => cs_real_t.nan,
              vtx_interior_indicator := fun _ => false },
    smbr0 := fun _ => cs_real_t.nan, fimp0 := fun _ => cs_real_t.nan,
    b_visc0 := fun _ => cs_real_t.nan }

/-- A CDO equation engine for the evaluations: the solved mesh velocity is
`(0,0,-1)` at vertex `C` and zero at the other vertices. -/
def tet_solve_cdo : ale_globals → Nat → cs_real_t :=
  fun _ => ofList [0, 0, 0, 0, 0, 0, 0, 0, 0, 0, 0, -1]

/-- A legacy equation engine for the evaluations: the solved mesh velocity
is zero in the cell. -/
def tet_solve_legacy : solve_vector_args → Nat → cs_real_t :=
  fun _ => ofList [0, 0, 0]

/-- Projection data on the one-tetrahedron mesh with zero mesh velocity,
zero gradient, zero boundary coefficients and unit time step, every boundary
face having the type `t`. -/
def tet_zero_args (t : cs_ale_bc_t) : proj_args :=
  { m := tet_mesh, mq := tet_quantities, ale_bc_type := fun _ => t,
    meshv := zeros, gradm := zeros, claale := zeros, clbale := zeros, dt := fun _ => 1 }

/-- Projection data on the one-tetrahedron mesh with fixed boundary faces
that all carry the Dirichlet value `(1,2,3)` (`claale = (1,2,3)`,
`clbale = 0`), time step 1/10, and the given cell velocity and gradient. -/
def tet_dirichlet_args (meshv gradm : Nat → cs_real_t) : proj_args :=
  { m := tet_mesh, mq := tet_quantities, ale_bc_type := fun _ => cs_ale_bc_t.CS_ALE_FIXED,
    meshv := meshv, gradm := gradm,
    claale := ofList [1, 2, 3, 1, 2, 3, 1, 2, 3, 1, 2, 3], clbale := zeros,
    dt := fun _ => cs_real_t.real (1/10) }

/-- The boundary types of the sliding evaluation: face `OAB` has an imposed
velocity, faces `OBC` and `OAC` are fixed, face `ABC` is sliding. -/
def tet_sliding_types : Nat → cs_ale_bc_t :=
  fun f => if f = 0 then cs_ale_bc_t.CS_ALE_IMPOSED_VEL
    else if f = 3 then cs_ale_bc_t.CS_ALE_SLIDING else cs_ale_bc_t.CS_ALE_FIXED

/-- Projection data on the one-tetrahedron mesh for the sliding evaluation:
face `OAB` imposes the velocity `(1,0,0)`; on the sliding face `ABC`, of
normal direction `n = (2,2,1)`, `clbale` is the tangential projector
`I - n n^T / (n.n)`; the cell velocity and its gradient are zero and the time
step is 1. -/
def tet_sliding_args : proj_args :=
  { m := tet_mesh, mq := tet_quantities, ale_bc_type := tet_sliding_types,
    meshv := zeros, gradm := zeros,
    claale := ofList [1, 0, 0, 0, 0, 0, 0, 0, 0, 0, 0, 0],
    clbale := ofList [0, 0, 0, 0, 0, 0, 0, 0, 0,
                      0, 0, 0, 0, 0, 0, 0, 0, 0,
                      0, 0, 0, 0, 0, 0, 0, 0, 0,
                      5/9, -4/9, -2/9, -4/9, 5/9, -2/9, -2/9, -2/9, 8/9],
    dt := fun _ => 1 }

/-! ## Sums and the formulas of the specification for the projection -/

/-- The sum `f 0 + f 1 + ... + f (n-1)`, accumulated from zero as the C loops
accumulate. -/
def sum_upto (n : Nat) (f : Nat → cs_real_t) : cs_real_t :=
  forLoop n (fun k acc => acc + f k) 0

/-- The velocity of cell `c` extrapolated to vertex `v`, component `i`:
`meshv[c] + gradm[c] * (x_v - cell_cen[c])`. -/
def cell_extrapolation (p : proj_args) (c v i : Nat) : cs_real_t :=
  p.meshv (3 * c + i)
    + p.gradm (9 * c + 3 * i + 0) * (p.m.vtx_coord (3 * v + 0) - p.mq.cell_cen (3 * c + 0))
    + p.gradm (9 * c + 3 * i + 1) * (p.m.vtx_coord (3 * v + 1) - p.mq.cell_cen (3 * c + 1))
    + p.gradm (9 * c + 3 * i + 2) * (p.m.vtx_coord (3 * v + 2) - p.mq.cell_cen (3 * c + 2))

/-- The numerator of the interior formula of the specification for vertex
`v`, component `i`: the sum, over the interior faces whose first cell is owned
and over the occurrences of `v` in their vertex lists, of
`(dt[c]/cell_vol[c]) * (meshv[c] + gradm[c]*(x_v - cell_cen[c]))` for the two
adjacent cells `c`. -/
def interior_numerator (p : proj_args) (v i : Nat) : cs_real_t :=
  sum_upto p.m.n_i_faces (fun f =>
    sum_upto (p.m.i_face_vtx_idx (f + 1) - p.m.i_face_vtx_idx f) (fun k =>
      if p.m.i_face_cells (2 * f + 0) < p.m.n_cells ∧
          p.m.i_face_vtx_lst (p.m.i_face_vtx_idx f + k) = v then
        p.dt (p.m.i_face_cells (2 * f + 0)) / p.mq.cell_vol (p.m.i_face_cells (2 * f + 0))
            * cell_extrapolation p (p.m.i_face_cells (2 * f + 0)) v i
          + p.dt (p.m.i_face_cells (2 * f + 1)) / p.mq.cell_vol (p.m.i_face_cells (2 * f + 1))
            * cell_extrapolation p (p.m.i_face_cells (2 * f + 1)) v i
      else 0))

/-- The denominator of the interior formula of the specification for vertex
`v`: the sum over the same faces and occurrences of
`1/cell_vol[c1] + 1/cell_vol[c2]`. -/
def interior_denominator (p : proj_args) (v : Nat) : cs_real_t :=
  sum_upto p.m.n_i_faces (fun f =>
    sum_upto (p.m.i_face_vtx_idx (f + 1) - p.m.i_face_vtx_idx f) (fun k =>
      if p.m.i_face_cells (2 * f + 0) < p.m.n_cells ∧
          p.m.i_face_vtx_lst (p.m.i_face_vtx_idx f + k) = v then
        1 / p.mq.cell_vol (p.m.i_face_cells (2 * f + 0))
          + 1 / p.mq.cell_vol (p.m.i_face_cells (2 * f + 1))
      else 0))

/-- The boundary value of face `f` with adjacent cell `c` extrapolated to
vertex `v`, component `i`:
`claale[f] + gradm[c]*(x_v - b_face_cog[f]) + clbale[f]*meshv[c]`. -/
def face_extrapolation (p : proj_args) (f c v i : Nat) : cs_real_t :=
  p.claale (3 * f + i)
    + (p.gradm (9 * c + 3 * i + 0) * (p.m.vtx_coord (3 * v + 0) - p.mq.b_face_cog (3 * f + 0))
       + p.gradm (9 * c + 3 * i + 1) * (p.m.vtx_coord (3 * v + 1) - p.mq.b_face_cog (3 * f + 1))
       + p.gradm (9 * c + 3 * i + 2) * (p.m.vtx_coord (3 * v + 2) - p.mq.b_face_cog (3 * f + 2)))
    + (p.clbale (9 * f + 3 * i + 0) * p.meshv (3 * c + 0)
       + p.clbale (9 * f + 3 * i + 1) * p.meshv (3 * c + 1)
       + p.clbale (9 * f + 3 * i + 2) * p.meshv (3 * c + 2))

/-- The numerator of the boundary formula of the specification for vertex
`v`, component `i`: the sum, over the boundary faces and the occurrences of
`v` in their vertex lists, of `(dt[c_f]/b_face_surf[f])` times the
extrapolated boundary value. -/
def boundary_numerator (p : proj_args) (v i : Nat) : cs_real_t :=
  sum_upto p.m.n_b_faces (fun f =>
    sum_upto (p.m.b_face_vtx_idx (f + 1) - p.m.b_face_vtx_idx f) (fun k =>
      if p.m.b_face_vtx_lst (p.m.b_face_vtx_idx f + k) = v then
        p.dt (p.m.b_face_cells f) / p.mq.b_face_surf f
          * face_extrapolation p f (p.m.b_face_cells f) v i
      else 0))

/-- The denominator of the boundary formula of the specification for vertex
`v`: the sum over the same faces and occurrences of `1/b_face_surf[f]`. -/
def boundary_denominator (p : proj_args) (v : Nat) : cs_real_t :=
  sum_upto p.m.n_b_faces (fun f =>
    sum_upto (p.m.b_face_vtx_idx (f + 1) - p.m.b_face_vtx_idx f) (fun k =>
      if p.m.b_face_vtx_lst (p.m.b_face_vtx_idx f + k) = v then 1 / p.mq.b_face_surf f
      else 0))

/-- The volumes of the cells adjacent to the interior faces and the surfaces
of the boundary faces are strictly positive real numbers. -/
def positive_geometry (p : proj_args) : Prop :=
  (∀ f, f < p.m.n_i_faces →
    (∃ s : ℚ, 0 < s ∧ p.mq.cell_vol (p.m.i_face_cells (2 * f + 0)) = cs_real_t.real s) ∧
    (∃ s : ℚ, 0 < s ∧ p.mq.cell_vol (p.m.i_face_cells (2 * f + 1)) = cs_real_t.real s)) ∧
  (∀ f, f < p.m.n_b_faces → ∃ s : ℚ, 0 < s ∧ p.mq.b_face_surf f = cs_real_t.real s)

/-- The tag of vertex `v` after the tagging loop of the projection (lines
639-669): `true` for interior, `false` for boundary. -/
def vtx_interior_tag (p : proj_args) (heap : proj_acc) (v : Nat) : Bool :=
  (proj_tag p (proj_init p heap)).vtx_interior_indicator v

/-! ## A mesh with an interior vertex used to evaluate the functions

The octahedron with vertices `(1,0,0)`, `(-1,0,0)`, `(0,1,0)`, `(0,-1,0)`,
`(0,0,2)`, `(0,0,-2)` (vertex ids 1 to 6) cut into eight tetrahedra around
its centre `(0,0,0)` (vertex id 0).  Every cell has volume 1/3 and one
boundary face, of area 3/2; the twelve interior faces contain the centre,
which lies on no boundary face. -/

/-- The octahedron mesh. -/
def octa_mesh : cs_mesh_t :=
  { dim := 3, n_cells := 8, n_cells_with_ghosts := 8, n_i_faces := 12, n_b_faces := 8,
    n_vertices := 7,
    vtx_coord := ofList [0, 0, 0, 1, 0, 0, -1, 0, 0, 0, 1, 0, 0, -1, 0, 0, 0, 2, 0, 0, -2],
    i_face_cells := idxList [0, 1, 2, 3, 0, 2, 1, 3, 4, 5, 6, 7, 4, 6, 5, 7, 0, 4, 1, 5, 2, 6,
                             3, 7],
    b_face_cells := idxList [0, 1, 2, 3, 4, 5, 6, 7],
    i_face_vtx_idx := idxList [0, 3, 6, 9, 12, 15, 18, 21, 24, 27, 30, 33, 36],
    i_face_vtx_lst := idxList [0, 1, 3, 0, 1, 4, 0, 1, 5, 0, 1, 6, 0, 2, 3, 0, 2, 4, 0, 2, 5, 0,
                               2, 6, 0, 3, 5, 0, 3, 6, 0, 4, 5, 0, 4, 6],
    b_face_vtx_idx := idxList [0, 3, 6, 9, 12, 15, 18, 21, 24],
    b_face_vtx_lst := idxList [1, 3, 5, 1, 3, 6, 1, 4, 5, 1, 4, 6, 2, 3, 5, 2, 3, 6, 2, 4, 5, 2,
                               4, 6],
    vtx_interfaces := none }

/-- The geometric quantities of the octahedron mesh. -/
def octa_quantities : cs_mesh_quantities_t :=
  { cell_cen := ofList [1/4, 1/4, 1/2, 1/4, 1/4, -1/2, 1/4, -1/4, 1/2, 1/4, -1/4, -1/2, -1/4,
                         1/4, 1/2, -1/4, 1/4, -1/2, -1/4, -1/4, 1/2, -1/4, -1/4, -1/2],
    cell_vol := ofList [1/3, 1/3, 1/3, 1/3, 1/3, 1/3, 1/3, 1/3],
    b_face_normal := ofList [1, 1, 1/2, 1, 1, -1/2, 1, -1, 1/2, 1, -1, -1/2, -1, 1, 1/2, -1, 1,
                              -1/2, -1, -1, 1/2, -1, -1, -1/2],
    b_face_cog := ofList [1/3, 1/3, 2/3, 1/3, 1/3, -2/3, 1/3, -1/3, 2/3, 1/3, -1/3, -2/3, -1/3,
                           1/3, 2/3, -1/3, 1/3, -2/3, -1/3, -1/3, 2/3, -1/3, -1/3, -2/3],
    b_face_surf := ofList [3/2, 3/2, 3/2, 3/2, 3/2, 3/2, 3/2, 3/2],
    b_dist := ofList [1/6, 1/6, 1/6, 1/6, 1/6, 1/6, 1/6, 1/6],
    min_vol := cs_real_t.real (1/3),
    max_vol := cs_real_t.real (1/3),
    tot_vol := cs_real_t.real (8/3) }

/-- Projection data on the octahedron mesh: fixed boundary faces with zero
boundary coefficients, the cell velocity `(c, 0, 1)` in cell `c`, zero
gradient and time step 1/10. -/
def octa_args : proj_args :=
  { m := octa_mesh, mq := octa_quantities, ale_bc_type := fun _ => cs_ale_bc_t.CS_ALE_FIXED,
    meshv := ofList [0, 0, 1, 1, 0, 1, 2, 0, 1, 3, 0, 1, 4, 0, 1, 5, 0, 1, 6, 0, 1, 7, 0, 1],
    gradm := zeros, claale := zeros, clbale := zeros,
    dt := fun _ => cs_real_t.real (1/10) }

/-! ## The analytic evaluators -/

/-- The closure of an analytic boundary condition (`cs_ale_bc_input_t`). -/
structure cs_ale_bc_input_t where
  z_name : String

/-- The id of the `p`-th query point: `(pt_ids != NULL) ? pt_ids[p] : p`. -/
def point_id (pt_ids : Option (Nat → Nat)) (p : Nat) : Nat :=
  match pt_ids with
  | some ids => ids p
  | none => p

/-- The output slot of the `p`-th query point: `(compact) ? p : id`. -/
def point_slot (compact : Bool) (pt_ids : Option (Nat → Nat)) (p : Nat) : Nat :=
  if compact then p else point_id pt_ids p

/-- The function `_fixed_velocity`.  `gui` stands for
`cs_gui_mobile_mesh_get_fixed_velocity`: from the zone name and the content
of `vel` on entry (zero) it gives the content of `vel` on return. -/
def _fixed_velocity (gui : String → (Nat → cs_real_t) → Nat → cs_real_t)
    (time : cs_real_t) (n_pts : Nat) (pt_ids : Option (Nat → Nat)) (xyz : Nat → cs_real_t)
    (compact : Bool) (input : cs_ale_bc_input_t) (res : Nat → cs_real_t) : Nat → cs_real_t :=
  let vel := gui input.z_name (fun _ => 0)
  forLoop n_pts (fun p r =>
    let id := 3 * point_id pt_ids p
    let off := if compact then 3 * p else id
    setAt (setAt (setAt r off (vel 0)) (off + 1) (vel 1)) (off + 2) (vel 2)) res

/-- The function `_fixed_displacement`.  The call fails when the field
disale does not exist, and when a point is evaluated although the snapshot
`_vtx_coord0` of the reference coordinates has not been taken. -/
def _fixed_displacement (g : ale_globals) (time : cs_real_t) (n_pts : Nat)
    (pt_ids : Option (Nat → Nat)) (xyz : Nat → cs_real_t) (compact : Bool)
    (input : cs_ale_bc_input_t) (res : Nat → cs_real_t) : Option (Nat → cs_real_t) :=
  match g.disale with
  | none => none
  | some dis =>
    if n_pts = 0 then some res
    else
      match g._vtx_coord0 with
      | none => none
      | some vtx_coord0 =>
        some (forLoop n_pts (fun p r =>
          let id := point_id pt_ids p
          let off := if compact then p else id
          forLoop 3 (fun c_id r2 =>
            let ddep := dis.val (3 * id + c_id) + vtx_coord0 (3 * id + c_id)
              - g.mesh.vtx_coord (3 * id + c_id)
            setAt r2 (3 * off + c_id) (ddep / g.dtref)) r) res)

/-- Lines 190-213 of `_free_surface`: the array `_mesh_vel`, reset for the
vertices of the mesh and then increased, at every vertex of every face of the
zone, by the flux-driven velocity of the face.  `mesh_vel0` is the content of
the freshly allocated array. -/
def free_surface_mesh_vel (g : ale_globals) (z : cs_zone_t) (mesh_vel0 : Nat → cs_real_t) :
    Nat → cs_real_t :=
  let reset := forLoop g.mesh.n_vertices (fun v_id mv =>
    setAt (setAt (setAt mv (3 * v_id + 0) 0) (3 * v_id + 1) 0) (3 * v_id + 2) 0) mesh_vel0
  forLoop z.n_elts (fun elt_id mv =>
    let face_id := z.elt_ids elt_id
    let _distance := g.b_massflux face_id / g.rho_b face_id
    let g_dot_s := cs_math_3_dot_product g.gravity g.mq.b_face_normal face_id
    forRange (g.mesh.b_face_vtx_idx face_id) (g.mesh.b_face_vtx_idx (face_id + 1))
      (fun k mv2 =>
        let v_id := g.mesh.b_face_vtx_lst k
        forLoop 3 (fun i mv3 =>
          setAt mv3 (3 * v_id + i)
            (mv3 (3 * v_id + i)
              + g.b_massflux face_id * g.gravity i / (g_dot_s * g.rho_b face_id))) mv2) mv)
    reset

/-- The function `_free_surface`.  The call fails when no boundary zone has
the name of the closure and when the assertion `pt_ids != NULL` fails.
`peer_vel r` is the array `_mesh_vel` partition `r` holds when the reduction
starts. -/
def _free_surface (peer_vel : Nat → Nat → cs_real_t) (mesh_vel0 : Nat → cs_real_t)
    (g : ale_globals) (time : cs_real_t) (n_pts : Nat) (pt_ids : Option (Nat → Nat))
    (xyz : Nat → cs_real_t) (compact : Bool) (input : cs_ale_bc_input_t)
    (res : Nat → cs_real_t) : Option (Nat → cs_real_t) :=
  match g.zones.find? (fun z => z.name = input.z_name) with
  | none => none
  | some z =>
    if pt_ids.isNone then none
    else
      let mesh_vel := free_surface_mesh_vel g z mesh_vel0
      let reduced := match g.mesh.vtx_interfaces with
        | some ifs => cs_interface_set_sum ifs 3 peer_vel mesh_vel
        | none => mesh_vel
      some (forLoop n_pts (fun p r =>
        let v_id := point_id pt_ids p
        let off := if compact then p else v_id
        forLoop 3 (fun i r2 => setAt r2 (3 * off + i) (reduced (3 * v_id + i))) r) res)

/-- The formula of the specification for the free-surface velocity of vertex
`v`, component `i`: the sum, over the faces `f` of the zone and the
occurrences of `v` in the vertex list of `f`, of
`b_mass_flux[f] * grav / ((grav . b_face_normal[f]) * rho_b[f])`. -/
def free_surface_sum (g : ale_globals) (z : cs_zone_t) (v i : Nat) : cs_real_t :=
  sum_upto z.n_elts (fun e =>
    sum_upto (g.mesh.b_face_vtx_idx (z.elt_ids e + 1) - g.mesh.b_face_vtx_idx (z.elt_ids e))
      (fun k =>
        if g.mesh.b_face_vtx_lst (g.mesh.b_face_vtx_idx (z.elt_ids e) + k) = v then
          g.b_massflux (z.elt_ids e) * g.gravity i
            / (cs_math_3_dot_product g.gravity g.mq.b_face_normal (z.elt_ids e)
                * g.rho_b (z.elt_ids e))
        else 0))

/-- The sum of the boundary mass flux over the faces of a zone. -/
def zone_mass_flux (g : ale_globals) (z : cs_zone_t) : cs_real_t :=
  sum_upto z.n_elts (fun e => g.b_massflux (z.elt_ids e))

/-- Component `i` of the mean, over the vertices of boundary face `f`, of the
vertex velocities `vel`. -/
def face_mean_velocity (m : cs_mesh_t) (vel : Nat → cs_real_t) (f i : Nat) : cs_real_t :=
  sum_upto (m.b_face_vtx_idx (f + 1) - m.b_face_vtx_idx f)
      (fun k => vel (3 * m.b_face_vtx_lst (m.b_face_vtx_idx f + k) + i))
    / cs_real_t.real (m.b_face_vtx_idx (f + 1) - m.b_face_vtx_idx f : Nat)

/-- The flux the vertex velocities `vel` imply through the faces of a zone:
the sum over its faces of `rho_b[f] * (mean vertex velocity) . b_face_normal[f]`. -/
def zone_implied_flux (g : ale_globals) (z : cs_zone_t) (vel : Nat → cs_real_t) : cs_real_t :=
  sum_upto z.n_elts (fun e =>
    g.rho_b (z.elt_ids e) *
      cs_math_3_dot_product (face_mean_velocity g.mesh vel (z.elt_ids e)) g.mq.b_face_normal
        (z.elt_ids e))

/-- A free-surface zone of the one-tetrahedron mesh made of the faces `OAB`
and `ABC`, which share the vertices `A` and `B`. -/
def tet_fs_zone : cs_zone_t :=
  { id := 1, name := "free_surface", n_elts := 2, elt_ids := idxList [0, 3] }

/-- A global state on the one-tetrahedron mesh with the free-surface zone,
unit boundary mass flux and density on its two faces, and gravity
`(0,0,-1)`. -/
def tet_fs_globals : ale_globals :=
  { tet_globals with zones := [tet_fs_zone], b_massflux := ofList [1, 0, 0, 1],
                     rho_b := fun _ => 1, gravity := ofList [0, 0, -1] }

/-- A setting of the fixed velocity for the evaluations: `(1,2,3)` for every
zone. -/
def tet_gui : String → (Nat → cs_real_t) → Nat → cs_real_t :=
  fun _ _ => ofList [1, 2, 3]

/-- The function `_free_surface` on rank `rank` of a distributed mesh:
partition `r` runs it on `world r`, with the freshly allocated array
`heaps r`, and the reduction sums the arrays `_mesh_vel` the partitions have
filled. -/
def _free_surface_spmd (world : Nat → ale_globals) (heaps : Nat → Nat → cs_real_t)
    (rank : Nat) (time : cs_real_t) (n_pts : Nat) (pt_ids : Option (Nat → Nat))
    (xyz : Nat → cs_real_t) (compact : Bool) (input : cs_ale_bc_input_t)
    (res : Nat → cs_real_t) : Option (Nat → cs_real_t) :=
  _free_surface
    (fun r => match (world r).zones.find? (fun z => z.name = input.z_name) with
      | some z => free_surface_mesh_vel (world r) z (heaps r)
      | none => heaps r)
    (heaps rank) (world rank) time n_pts pt_ids xyz compact input res

/-- The formula of the specification on a distributed mesh, `zs r` being the
zone on partition `r`: the sum over the faces of the zone on this partition,
and on the partitions that hold a copy of the vertex. -/
def free_surface_total (world : Nat → ale_globals) (zs : Nat → cs_zone_t) (rank v i : Nat) :
    cs_real_t :=
  match (world rank).mesh.vtx_interfaces with
  | some ifs =>
    (ifs.copies v).foldl
      (fun acc c => acc + free_surface_sum (world c.1) (zs c.1) c.2 i)
      (free_surface_sum (world rank) (zs rank) v i)
  | none => free_surface_sum (world rank) (zs rank) v i

/-- The array `out` is the array `res` after the vector `vec p` has been
written at slot `slot p` for each of the `n_pts` query points: the slot of
every point holds its vector, and the entries outside the slots are those of
`res`. -/
def writes_slots (n_pts : Nat) (slot : Nat → Nat) (vec : Nat → Nat → cs_real_t)
    (res out : Nat → cs_real_t) : Prop :=
  (∀ p, p < n_pts → ∀ i, i < 3 → out (3 * slot p + i) = vec p i) ∧
  (∀ q, (∀ p, p < n_pts → q / 3 ≠ slot p) → out q = res q)

/-- The table of boundary zones is well formed: the zones have distinct ids,
and the lookup of a zone by its name gives its id. -/
def zones_wf (zones : List cs_zone_t) : Prop :=
  zones.Pairwise (fun a b => a.id ≠ b.id) ∧
  ∀ z ∈ zones, zone_id_by_name zones z.name = z.id

/-- Boundary zones of the one-tetrahedron mesh: the zone of all boundary
faces, then `inlet` (face `OAB`), `slide` (face `ABC`) and `bottom` (faces
`OBC` and `OAC`). -/
def tet_setup_zones : List cs_zone_t :=
  [{ id := 0, name := "boundary_faces", n_elts := 4, elt_ids := idxList [0, 1, 2, 3] },
   { id := 1, name := "inlet", n_elts := 1, elt_ids := idxList [0] },
   { id := 2, name := "slide", n_elts := 1, elt_ids := idxList [3] },
   { id := 3, name := "bottom", n_elts := 2, elt_ids := idxList [1, 2] }]

/-- The global state of the one-tetrahedron mesh with these zones and no
boundary condition defined on the equation of the mesh velocity. -/
def tet_setup_globals : ale_globals :=
  { tet_globals with zones := tet_setup_zones }

/-- Lines 676-721: the body of the loop over the interior faces, for the
face `face_id`. -/
def proj_interior_face (p : proj_args) (face_id : Nat) (st1 : proj_acc) : proj_acc :=
  let cell_id1 := p.m.i_face_cells (2 * face_id + 0)
  let cell_id2 := p.m.i_face_cells (2 * face_id + 1)
  let dvol1 := 1 / p.mq.cell_vol cell_id1
  let dvol2 := 1 / p.mq.cell_vol cell_id2
  if cell_id1 < p.m.n_cells then
    forRange (p.m.i_face_vtx_idx face_id) (p.m.i_face_vtx_idx (face_id + 1)) (fun j st2 =>
      proj_interior_vtx p cell_id1 cell_id2 dvol1 dvol2 (p.m.i_face_vtx_lst j) st2) st1
  else st1

/-- Lines 406-410 of `_ale_solve_poisson_legacy`: component `i` of the vector
`pimpv` of the free-surface face `face_id`. -/
def legacy_pimpv (g : ale_globals) (face_id i : Nat) : cs_real_t :=
  g.gravity i * g.b_massflux face_id
    / (g.rho_b face_id * cs_math_3_dot_product g.gravity g.mq.b_face_normal face_id)

/-- Lines 203-212 of `_free_surface`: component `i` of the value added to
every vertex of the face `face_id` of the zone. -/
def free_surface_face_velocity (g : ale_globals) (face_id i : Nat) : cs_real_t :=
  g.b_massflux face_id * g.gravity i
    / (cs_math_3_dot_product g.gravity g.mq.b_face_normal face_id * g.rho_b face_id)

/-! ## Activation, release and the sequences of calls -/

/-- Modelled from the spec: `cs_equation_add` registers an equation under the
name mesh_velocity; the lookup by name gives the parameters of the first
equation registered under the name, a new equation having no boundary
definition. -/
def cs_equation_add (g : ale_globals) : ale_globals :=
  { g with engine_calls := g.engine_calls ++ [engine_call_t.equation_add],
           mesh_velocity_eqp := (match g.mesh_velocity_eqp with
             | some eqp => some eqp
             | none => some { bc_defs := [] }) }

/-- The function `cs_ale_activate`; `have_petsc` says whether the file is
compiled with `HAVE_PETSC`. -/
def cs_ale_activate (have_petsc : Bool) (g : ale_globals) : ale_globals :=
  if g._active then g
  else
    let g1 := { g with _active := true }
    let g2 := { g1 with engine_calls := g1.engine_calls ++ [engine_call_t.domain_set_cdo_mode] }
    let g3 := cs_equation_add g2
    let params :=
      [engine_call_t.equation_set_param "CS_EQKEY_ITSOL" "cg"] ++
      (if have_petsc then
        [engine_call_t.equation_set_param "CS_EQKEY_SOLVER_FAMILY" "petsc",
         engine_call_t.equation_set_param "CS_EQKEY_PRECOND" "amg"]
       else [engine_call_t.equation_set_param "CS_EQKEY_PRECOND" "jacobi"]) ++
      [engine_call_t.equation_set_param "CS_EQKEY_SPACE_SCHEME" "cdo_vb",
       engine_call_t.equation_set_param "CS_EQKEY_BC_ENFORCEMENT" "algebraic"]
    { g3 with engine_calls := g3.engine_calls ++ params }

/-- The function `cs_ale_is_activated`. -/
def cs_ale_is_activated (g : ale_globals) : Bool :=
  if g._active then true else false

/-- The function `cs_ale_destroy_all`: `BFT_FREE` releases the array and
resets the pointer to `NULL`. -/
def cs_ale_destroy_all (g : ale_globals) : ale_globals :=
  { g with _vtx_coord0 := none, _input_bc := none }

/-- A call of a public function of `cs_ale.c` that changes the global state,
with its arguments and with what the call takes from outside the file (the
geometry and equation engines, uninitialised memory, the other partitions). -/
inductive ale_call where
  | activate (have_petsc : Bool)
  | setup_boundaries (heap : ale_heap) (impale : Nat → Int) (ale_bc_type : Nat → cs_ale_bc_t)
  | solve_mesh_velocity (ext : legacy_engine)
      (solve_legacy : solve_vector_args → Nat → cs_real_t)
      (solve_cdo : ale_globals → Nat → cs_real_t) (peers : Nat → proj_acc) (heap : ale_heap)
      (iterns : Int) (impale : Nat → Int) (ale_bc_type : Nat → cs_ale_bc_t)
  | update_mesh (compute : cs_mesh_t → cs_mesh_quantities_t → cs_mesh_quantities_t)
      (itrale : Int) (xyzno0 : Nat → cs_real_t)
  | update_mesh_quantities
      (compute : cs_mesh_t → cs_mesh_quantities_t → cs_mesh_quantities_t)
  | destroy_all

/-- The call is a call of `cs_ale_activate`. -/
def ale_call.is_activate : ale_call → Bool
  | ale_call.activate _ => true
  | _ => false

/-- The call is a call of `cs_ale_solve_mesh_velocity`. -/
def ale_call.is_solve : ale_call → Bool
  | ale_call.solve_mesh_velocity _ _ _ _ _ _ _ _ => true
  | _ => false

/-- The call is a call of `cs_ale_update_mesh`. -/
def ale_call.is_update_mesh : ale_call → Bool
  | ale_call.update_mesh _ _ _ => true
  | _ => false

/-- The state after one call; `none` when the call fails. -/
def ale_step (c : ale_call) (g : ale_globals) : Option ale_globals :=
  match c with
  | ale_call.activate have_petsc => some (cs_ale_activate have_petsc g)
  | ale_call.setup_boundaries heap impale ale_bc_type =>
    cs_ale_setup_boundaries heap.table0 heap.face_type0 heap.imp_dis0 impale ale_bc_type g
  | ale_call.solve_mesh_velocity ext solve_legacy solve_cdo peers heap iterns impale
      ale_bc_type =>
    cs_ale_solve_mesh_velocity ext solve_legacy solve_cdo peers heap g iterns impale ale_bc_type
  | ale_call.update_mesh compute itrale xyzno0 => cs_ale_update_mesh compute itrale xyzno0 g
  | ale_call.update_mesh_quantities compute =>
    some { g with mq := cs_ale_update_mesh_quantities compute g.mesh g.mq }
  | ale_call.destroy_all => some (cs_ale_destroy_all g)

/-- The state after a sequence of calls; `none` when one of them fails. -/
def ale_run : List ale_call → ale_globals → Option ale_globals
  | [], g => some g
  | c :: cs, g =>
    match ale_step c g with
    | some g1 => ale_run cs g1
    | none => none

/-- The number of registrations of an equation among the recorded calls. -/
def n_equation_add (g : ale_globals) : Nat :=
  g.engine_calls.count engine_call_t.equation_add

/-- The number of initialisations of the equations among the recorded
calls. -/
def n_equation_init (g : ale_globals) : Nat :=
  g.engine_calls.count engine_call_t.equation_init

/-- The state of the one-tetrahedron mesh at program start: the static
variables of `cs_ale.c` hold their initial values, `cs_glob_ale` is 0 and no
equation is registered. -/
def tet_start_globals : ale_globals :=
  { tet_globals with cs_glob_ale := cs_ale_type_t.CS_ALE_NONE, _active := false,
                     mesh_velocity_eqp := none }

/-- Lines 349-495 of `_ale_solve_poisson_legacy`: the arguments passed to
`cs_equation_iterative_solve_vector`. -/
def legacy_solve_args (ext : legacy_engine) (heap : ale_heap) (g : ale_globals) (iterns : Int)
    (ale_bc_type : Nat → cs_ale_bc_t) (mesh_u : cs_field_t) : solve_vector_args :=
  let n_cells_ext := g.mesh.n_cells_with_ghosts
  let mshvela := mesh_u.val_pre
  let var_cal_opt := mesh_u.var_cal_opt
  let idftnp := var_cal_opt.idften
  let bc_coeffs := legacy_free_surface_bc ext g ale_bc_type idftnp mesh_u.bc_coeffs
  let sf := forLoop n_cells_ext (fun cell_id st =>
    forLoop 3 (fun isou st1 =>
      (setAt st1.1 (3 * cell_id + isou) 0,
       forLoop 3 (fun jsou a => setAt a (9 * cell_id + 3 * jsou + isou) 0) st1.2)) st)
    (heap.smbr0, heap.fimp0)
  let smbr := sf.1
  let fimp := sf.2
  let visc : Option (Nat → cs_real_t) × (Nat → cs_real_t) :=
    if ext.is_isotropic idftnp then
      let r := ext.face_viscosity g.mesh g.mq g.vism
      (some r.1, r.2)
    else if ext.is_anisotropic_left idftnp then
      let r := ext.face_anisotropic_viscosity_vector g.mesh g.mq g.vism
      (some r.1, r.2)
    else (none, heap.b_visc0)
  let var_cal_opt1 := { var_cal_opt with relaxv := 1, thetav := 1, istat := -1, idifft := -1 }
  { idtvar := g.idtvar, iterns := iterns, ivisep := 0, iescap := 0,
    var_cal_opt := var_cal_opt1, pvara := mshvela, pvark := mshvela,
    coefav := bc_coeffs.a, coefbv := bc_coeffs.b, cofafv := bc_coeffs.af,
    cofbfv := bc_coeffs.bf, i_massflux := g.i_massflux, b_massflux := g.b_massflux,
    i_viscm := visc.1, b_viscm := visc.2, i_visc := visc.1, b_visc := visc.2,
    icvflv := 0, fimp := fimp, smbr := smbr }

/-- The slots of the closure table that the definitions by analytic function
of a list refer to, in the order of the list. -/
def closure_slots (defs : List cs_xdef_t) : List Nat :=
  defs.filterMap (fun d =>
    match d.value with
    | cs_xdef_value_t.by_analytic _ k => some k
    | cs_xdef_value_t.by_value _ => none)

/-- What a definition registers, the slot of its closure left out: the zone,
the kind of condition, and the constant value or the evaluator. -/
def xdef_kind (d : cs_xdef_t) :
    Int × cs_param_bc_type_t × Option cs_real_t × Option ale_analytic_func_t :=
  match d.value with
  | cs_xdef_value_t.by_value v => (d.z_id, d.bc_type, some v, none)
  | cs_xdef_value_t.by_analytic func _ => (d.z_id, d.bc_type, none, some func)

/-- The two inputs of `cs_ale_setup_boundaries` agree on what is sampled for
the zone `z`: the type of its first face and the flag of the first vertex of
that face. -/
def same_sample (m : cs_mesh_t) (z : cs_zone_t) (impale impale2 : Nat → Int)
    (ale_bc_type ale_bc_type2 : Nat → cs_ale_bc_t) : Prop :=
  ale_bc_type (z.elt_ids 0) = ale_bc_type2 (z.elt_ids 0) ∧
  impale (m.b_face_vtx_lst (m.b_face_vtx_idx (z.elt_ids 0)))
    = impale2 (m.b_face_vtx_lst (m.b_face_vtx_idx (z.elt_ids 0)))

/-- A call of `cs_ale_update_mesh` in a sequence is made with the reference
coordinates `xyzno0`. -/
def ale_call.uses_reference (xyzno0 : Nat → cs_real_t) : ale_call → Prop
  | ale_call.update_mesh _ _ x => x = xyzno0
  | _ => True

/-- What the specification says `cs_ale_setup_boundaries` registers for a
zone of id `zid` whose sampled type is `ft` and sampled flag `fl`: a
homogeneous Dirichlet value 0 for Fixed, the evaluator `_fixed_velocity` or
`_fixed_displacement` for ImposedVelocity according to the flag,
`_free_surface` for FreeSurface, nothing for another type. -/
def registered_kinds (zid : Int) (ft : cs_ale_bc_t) (fl : Int) :
    List (Int × cs_param_bc_type_t × Option cs_real_t × Option ale_analytic_func_t) :=
  if ft = cs_ale_bc_t.CS_ALE_FIXED then
    [(zid, cs_param_bc_type_t.CS_PARAM_BC_HMG_DIRICHLET, some 0, none)]
  else if ft = cs_ale_bc_t.CS_ALE_IMPOSED_VEL then
    if fl = 0 then
      [(zid, cs_param_bc_type_t.CS_PARAM_BC_DIRICHLET, none,
        some ale_analytic_func_t._fixed_velocity)]
    else
      [(zid, cs_param_bc_type_t.CS_PARAM_BC_DIRICHLET, none,
        some ale_analytic_func_t._fixed_displacement)]
  else if ft = cs_ale_bc_t.CS_FREE_SURFACE then
    [(zid, cs_param_bc_type_t.CS_PARAM_BC_DIRICHLET, none,
      some ale_analytic_func_t._free_surface)]
  else []

/-! ## A two-cell mesh and its split into two partitions

Cells `OABC` and `ABCD` with `O = (0,0,0)`, `A = (1,0,0)`, `B = (0,1,0)`,
`C = (0,0,2)`, `D = (1,1,2)`; they share the interior face `ABC`. Boundary
faces `OAB`, `OBC`, `OAC` belong to the first cell, `ABD`, `BCD`, `ACD` to
the second one. -/

/-- The two-cell mesh in one piece. -/
def duo_mesh : cs_mesh_t :=
  { dim := 3, n_cells := 2, n_cells_with_ghosts := 2, n_i_faces := 1, n_b_faces := 6,
    n_vertices := 5,
    vtx_coord := ofList [0, 0, 0, 1, 0, 0, 0, 1, 0, 0, 0, 2, 1, 1, 2],
    i_face_cells := idxList [0, 1],
    b_face_cells := idxList [0, 0, 0, 1, 1, 1],
    i_face_vtx_idx := idxList [0, 3],
    i_face_vtx_lst := idxList [1, 2, 3],
    b_face_vtx_idx := idxList [0, 3, 6, 9, 12, 15, 18],
    b_face_vtx_lst := idxList [0, 1, 2, 0, 2, 3, 0, 1, 3, 1, 2, 4, 2, 3, 4, 1, 3, 4],
    vtx_interfaces := none }

/-- The geometric quantities of the two-cell mesh. -/
def duo_quantities : cs_mesh_quantities_t :=
  { cell_cen := ofList [1/4, 1/4, 1/2, 1/2, 1/2, 1],
    cell_vol := ofList [1/3, 2/3],
    b_face_normal := ofList [0, 0, -1/2, -1, 0, 0, 0, -1, 0,
                             1, 1, -1/2, -1, 1, 1/2, 1, -1, 1/2],
    b_face_cog := ofList [1/3, 1/3, 0, 0, 1/3, 2/3, 1/3, 0, 2/3,
                          2/3, 2/3, 2/3, 1/3, 2/3, 4/3, 2/3, 1/3, 4/3],
    b_face_surf := ofList [1/2, 1, 1, 3/2, 3/2, 3/2],
    b_dist := ofList [1/2, 1/4, 1/4, 1/3, 1/3, 1/3],
    min_vol := cs_real_t.real (1/3),
    max_vol := cs_real_t.real (2/3),
    tot_vol := cs_real_t.real 1 }

/-- Projection data on the two-cell mesh: face `OAB` is sliding with
`clbale = diag(1,1,0)` and `claale = 0`, the other boundary faces are fixed
with `claale = (0,0,1)` and `clbale = 0`; the cell velocity and its gradient
are zero and the time step is 1. -/
def duo_args : proj_args :=
  { m := duo_mesh, mq := duo_quantities,
    ale_bc_type := fun f =>
      if f = 0 then cs_ale_bc_t.CS_ALE_SLIDING else cs_ale_bc_t.CS_ALE_FIXED,
    meshv := zeros, gradm := zeros,
    claale := ofList [0, 0, 0, 0, 0, 1, 0, 0, 1, 0, 0, 1, 0, 0, 1, 0, 0, 1],
    clbale := ofList [1, 0, 0, 0, 1, 0, 0, 0, 0],
    dt := fun _ => 1 }

/-- The first partition of the two-cell mesh: cell `OABC` with the ghost
cell `ABCD`, the vertices `O, A, B, C`, and the boundary faces of its cell;
`A, B, C` have a copy on partition 1. -/
def duo_part0_mesh : cs_mesh_t :=
  { dim := 3, n_cells := 1, n_cells_with_ghosts := 2, n_i_faces := 1, n_b_faces := 3,
    n_vertices := 4,
    vtx_coord := ofList [0, 0, 0, 1, 0, 0, 0, 1, 0, 0, 0, 2],
    i_face_cells := idxList [0, 1],
    b_face_cells := idxList [0, 0, 0],
    i_face_vtx_idx := idxList [0, 3],
    i_face_vtx_lst := idxList [1, 2, 3],
    b_face_vtx_idx := idxList [0, 3, 6, 9],
    b_face_vtx_lst := idxList [0, 1, 2, 0, 2, 3, 0, 1, 3],
    vtx_interfaces := some { copies := fun v =>
      if v = 1 then [(1, 0)] else if v = 2 then [(1, 1)] else if v = 3 then [(1, 2)] else [] } }

/-- The geometric quantities of the first partition. -/
def duo_part0_quantities : cs_mesh_quantities_t :=
  { cell_cen := ofList [1/4, 1/4, 1/2, 1/2, 1/2, 1],
    cell_vol := ofList [1/3, 2/3],
    b_face_normal := ofList [0, 0, -1/2, -1, 0, 0, 0, -1, 0],
    b_face_cog := ofList [1/3, 1/3, 0, 0, 1/3, 2/3, 1/3, 0, 2/3],
    b_face_surf := ofList [1/2, 1, 1],
    b_dist := ofList [1/2, 1/4, 1/4],
    min_vol := cs_real_t.real (1/3),
    max_vol := cs_real_t.real (2/3),
    tot_vol := cs_real_t.real 1 }

/-- The second partition of the two-cell mesh: cell `ABCD` (local cell 0)
with the ghost cell `OABC` (local cell 1), the vertices `A, B, C, D` (local
ids 0 to 3), and the boundary faces of its cell; `A, B, C` have a copy on
partition 0. -/
def duo_part1_mesh : cs_mesh_t :=
  { dim := 3, n_cells := 1, n_cells_with_ghosts := 2, n_i_faces := 1, n_b_faces := 3,
    n_vertices := 4,
    vtx_coord := ofList [1, 0, 0, 0, 1, 0, 0, 0, 2, 1, 1, 2],
    i_face_cells := idxList [1, 0],
    b_face_cells := idxList [0, 0, 0],
    i_face_vtx_idx := idxList [0, 3],
    i_face_vtx_lst := idxList [0, 1, 2],
    b_face_vtx_idx := idxList [0, 3, 6, 9],
    b_face_vtx_lst := idxList [0, 1, 3, 1, 2, 3, 0, 2, 3],
    vtx_interfaces := some { copies := fun v =>
      if v = 0 then [(0, 1)] else if v = 1 then [(0, 2)] else if v = 2 then [(0, 3)] else [] } }

/-- The geometric quantities of the second partition. -/
def duo_part1_quantities : cs_mesh_quantities_t :=
  { cell_cen := ofList [1/2, 1/2, 1, 1/4, 1/4, 1/2],
    cell_vol := ofList [2/3, 1/3],
    b_face_normal := ofList [1, 1, -1/2, -1, 1, 1/2, 1, -1, 1/2],
    b_face_cog := ofList [2/3, 2/3, 2/3, 1/3, 2/3, 4/3, 2/3, 1/3, 4/3],
    b_face_surf := ofList [3/2, 3/2, 3/2],
    b_dist := ofList [1/3, 1/3, 1/3],
    min_vol := cs_real_t.real (1/3),
    max_vol := cs_real_t.real (2/3),
    tot_vol := cs_real_t.real 1 }

/-- The data of `duo_args` as the two partitions hold them: partition 0 has
the sliding face `OAB` and the fixed faces `OBC`, `OAC`, partition 1 the
fixed faces `ABD`, `BCD`, `ACD`. -/
def duo_world (r : Nat) : proj_args :=
  if r = 0 then
    { m := duo_part0_mesh, mq := duo_part0_quantities,
      ale_bc_type := fun f =>
        if f = 0 then cs_ale_bc_t.CS_ALE_SLIDING else cs_ale_bc_t.CS_ALE_FIXED,
      meshv := zeros, gradm := zeros,
      claale := ofList [0, 0, 0, 0, 0, 1, 0, 0, 1],
      clbale := ofList [1, 0, 0, 0, 1, 0, 0, 0, 0],
      dt := fun _ => 1 }
  else
    { m := duo_part1_mesh, mq := duo_part1_quantities,
      ale_bc_type := fun _ => cs_ale_bc_t.CS_ALE_FIXED,
      meshv := zeros, gradm := zeros,
      claale := ofList [0, 0, 1, 0, 0, 1, 0, 0, 1],
      clbale := zeros,
      dt := fun _ => 1 }

/-! ## Affine velocity fields -/

/-- Component `i` of `A x + u0`, the value at the point `x` of the affine
field of matrix `A` and offset `u0`. -/
def affine_value (A : Nat → Nat → ℚ) (u0 : Nat → ℚ) (x : Nat → ℚ) (i : Nat) : ℚ :=
  A i 0 * x 0 + A i 1 * x 1 + A i 2 * x 2 + u0 i

/-- Cell `c` carries the affine field: `meshv[c] = A * cell_cen[c] + u0`,
`gradm[c] = A`, and its time step is `dtq`. -/
def affine_cell (p : proj_args) (A : Nat → Nat → ℚ) (u0 : Nat → ℚ) (dtq : ℚ) (c : Nat) : Prop :=
  p.dt c = cs_real_t.real dtq ∧
  (∀ i j, i < 3 → j < 3 → p.gradm (9 * c + 3 * i + j) = cs_real_t.real (A i j)) ∧
  ∃ y : Nat → ℚ, (∀ j, j < 3 → p.mq.cell_cen (3 * c + j) = cs_real_t.real (y j)) ∧
    ∀ i, i < 3 → p.meshv (3 * c + i) = cs_real_t.real (affine_value A u0 y i)

/-- Boundary face `f` carries the affine field:
`claale[f] = A * b_face_cog[f] + u0` and `clbale[f] = 0`. -/
def affine_face (p : proj_args) (A : Nat → Nat → ℚ) (u0 : Nat → ℚ) (f : Nat) : Prop :=
  (∀ i j, i < 3 → j < 3 → p.clbale (9 * f + 3 * i + j) = 0) ∧
  ∃ y : Nat → ℚ, (∀ j, j < 3 → p.mq.b_face_cog (3 * f + j) = cs_real_t.real (y j)) ∧
    ∀ i, i < 3 → p.claale (3 * f + i) = cs_real_t.real (affine_value A u0 y i)

/-- The data of the projection sample the affine field of matrix `A` and
offset `u0` with the uniform time step `dtq`: every cell and every boundary
face that is not sliding carries it. -/
def affine_data (p : proj_args) (A : Nat → Nat → ℚ) (u0 : Nat → ℚ) (dtq : ℚ) : Prop :=
  (∀ c, c < p.m.n_cells_with_ghosts → affine_cell p A u0 dtq c) ∧
  (∀ f, f < p.m.n_b_faces → p.ale_bc_type f ≠ cs_ale_bc_t.CS_ALE_SLIDING →
    affine_face p A u0 f)

/-- The cells the face connectivity names are cells of the mesh. -/
def face_cells_in_range (m : cs_mesh_t) : Prop :=
  (∀ f, f < m.n_i_faces → m.i_face_cells (2 * f + 0) < m.n_cells_with_ghosts ∧
    m.i_face_cells (2 * f + 1) < m.n_cells_with_ghosts) ∧
  (∀ f, f < m.n_b_faces → m.b_face_cells f < m.n_cells_with_ghosts)

/-- The invariant of the affine field at a vertex where it takes the value
`k` times the inverse of the time step: the weight is undefined, or it is a
real number `W` and the accumulated displacement is `W * k`. -/
def affine_inv (k : Nat → ℚ) (w d0 d1 d2 : cs_real_t) : Prop :=
  w = cs_real_t.nan ∨
  ∃ W : ℚ, w = cs_real_t.real W ∧ d0 = cs_real_t.real (W * k 0) ∧
    d1 = cs_real_t.real (W * k 1) ∧ d2 = cs_real_t.real (W * k 2)

/-- The matrix of the affine field of the evaluations. -/
def affine_example_A : Nat → Nat → ℚ :=
  fun i j => ([[1, 2, 0], [0, 1, 0], [3, 0, 1]].getD i []).getD j 0

/-- The offset of the affine field of the evaluations. -/
def affine_example_u0 : Nat → ℚ :=
  fun i => [1, 2, 3].getD i 0

/-- Component `i` of the affine field of the evaluations at point `n` of the
array of points `pts`. -/
def affine_example_at (pts : Nat → cs_real_t) (n i : Nat) : cs_real_t :=
  cs_real_t.real (affine_example_A i 0) * pts (3 * n + 0)
    + cs_real_t.real (affine_example_A i 1) * pts (3 * n + 1)
    + cs_real_t.real (affine_example_A i 2) * pts (3 * n + 2)
    + cs_real_t.real (affine_example_u0 i)

/-- Projection data on the octahedron mesh that sample the affine field of
the evaluations: its value at the cell centres and at the centres of the
boundary faces, which are fixed, its matrix as gradient, and the time step
1/10. -/
def octa_affine_args : proj_args :=
  { m := octa_mesh, mq := octa_quantities, ale_bc_type := fun _ => cs_ale_bc_t.CS_ALE_FIXED,
    meshv := fun k => affine_example_at octa_quantities.cell_cen (k / 3) (k % 3),
    gradm := fun k => cs_real_t.real (affine_example_A (k % 9 / 3) (k % 3)),
    claale := fun k => affine_example_at octa_quantities.b_face_cog (k / 3) (k % 3),
    clbale := zeros,
    dt := fun _ => cs_real_t.real (1/10) }

/-! ## Bounds of the interior interpolation -/

/-- The two cells of every interior face have a positive volume. -/
def positive_volumes (p : proj_args) : Prop :=
  ∀ f, f < p.m.n_i_faces →
    (∃ s : ℚ, 0 < s ∧ p.mq.cell_vol (p.m.i_face_cells (2 * f + 0)) = cs_real_t.real s) ∧
    (∃ s : ℚ, 0 < s ∧ p.mq.cell_vol (p.m.i_face_cells (2 * f + 1)) = cs_real_t.real s)

/-- Component `i` of the displacement `dt[c] * meshv[c]` of cell `c` is a
real number between `lo` and `hi`. -/
def cell_displacement_bounded (p : proj_args) (c i : Nat) (lo hi : ℚ) : Prop :=
  ∃ q : ℚ, p.dt c * p.meshv (3 * c + i) = cs_real_t.real q ∧ lo ≤ q ∧ q ≤ hi

/-- Component `i` of the displacement of the two cells of every interior face
that contributes to vertex `v` (its first cell is owned and it contains `v`)
lies between `lo` and `hi`. -/
def interior_faces_bounded (p : proj_args) (v i : Nat) (lo hi : ℚ) : Prop :=
  ∀ f, f < p.m.n_i_faces → p.m.i_face_cells (2 * f + 0) < p.m.n_cells →
    i_face_has_vtx p.m f v →
    cell_displacement_bounded p (p.m.i_face_cells (2 * f + 0)) i lo hi ∧
    cell_displacement_bounded p (p.m.i_face_cells (2 * f + 1)) i lo hi

/-- The invariant of a weighted mean between `lo` and `hi`: the weight is a
real number `d >= 0`, positive once `t` holds, and the accumulated value is a
real number between `lo * d` and `hi * d`. -/
def convex_inv (lo hi : ℚ) (t : Prop) (w x : cs_real_t) : Prop :=
  ∃ d n : ℚ, w = cs_real_t.real d ∧ x = cs_real_t.real n ∧ 0 ≤ d ∧ (t → 0 < d) ∧
    lo * d ≤ n ∧ n ≤ hi * d

namespace cs_real_t

@[simp] theorem real_add_real (a b : ℚ) : (real a + real b : cs_real_t) = real (a + b) := rfl
@[simp] theorem real_sub_real (a b : ℚ) : (real a - real b : cs_real_t) = real (a - b) := rfl
@[simp] theorem real_mul_real (a b : ℚ) : (real a * real b : cs_real_t) = real (a * b) := rfl
@[simp] theorem nan_add (x : cs_real_t) : (nan + x : cs_real_t) = nan := rfl
@[simp] theorem add_nan (x : cs_real_t) : (x + nan : cs_real_t) = nan := by cases x <;> rfl
@[simp] theorem nan_sub (x : cs_real_t) : (nan - x : cs_real_t) = nan := rfl
@[simp] theorem sub_nan (x : cs_real_t) : (x - nan : cs_real_t) = nan := by cases x <;> rfl
@[simp] theorem nan_mul (x : cs_real_t) : (nan * x : cs_real_t) = nan := rfl
@[simp] theorem mul_nan (x : cs_real_t) : (x * nan : cs_real_t) = nan := by cases x <;> rfl
@[simp] theorem nan_div (x : cs_real_t) : (nan / x : cs_real_t) = nan := rfl
@[simp] theorem div_nan (x : cs_real_t) : (x / nan : cs_real_t) = nan := by cases x <;> rfl
theorem real_div_real (a b : ℚ) :
    (real a / real b : cs_real_t) = if b = 0 then nan else real (a / b) := rfl
theorem zero_eq : (0 : cs_real_t) = real 0 := rfl
theorem one_eq : (1 : cs_real_t) = real 1 := rfl

end cs_real_t

/-- Loop invariant rule: a property that holds on entry and is kept by every
iteration holds on exit. -/
theorem forLoop_inv {σ : Type} (P : Nat → σ → Prop) (n : Nat) (body : Nat → σ → σ) (s : σ)
    (h0 : P 0 s) (hs : ∀ k, k < n → ∀ st, P k st → P (k + 1) (body k st)) :
    P n (forLoop n body s) := by
  induction n with
  | zero => exact h0
  | succ n ih =>
    exact hs n (Nat.lt_succ_self n) _ (ih (fun k hk st h => hs k (Nat.lt_succ_of_lt hk) st h))

/-- Loop invariant rule for a property that does not mention the counter. -/
theorem forLoop_keep {σ : Type} (P : σ → Prop) (n : Nat) (body : Nat → σ → σ) (s : σ)
    (h0 : P s) (hs : ∀ k, k < n → ∀ st, P st → P (body k st)) : P (forLoop n body s) :=
  forLoop_inv (fun _ st => P st) n body s h0 hs

/-- Loop invariant rule for `forRange`. -/
theorem forRange_keep {σ : Type} (P : σ → Prop) (lo hi : Nat) (body : Nat → σ → σ) (s : σ)
    (h0 : P s) (hs : ∀ j, lo ≤ j → j < hi → ∀ st, P st → P (body j st)) :
    P (forRange lo hi body s) := by
  unfold forRange
  apply forLoop_keep P _ _ s h0
  intro k hk st h
  exact hs (lo + k) (Nat.le_add_right lo k) (by omega) st h

@[simp] theorem setAt_same {α : Type} (a : Nat → α) (k : Nat) (x : α) : setAt a k x k = x := by
  simp [setAt]

theorem setAt_other {α : Type} (a : Nat → α) (k n : Nat) (x : α) (h : n ≠ k) :
    setAt a k x n = a n := by
  simp [setAt, h]

/-- After the geometry loop, every entry in the range written by the loop
holds the sum of reference coordinate and displacement (first array) and that
sum minus the reference coordinate (second array). -/
theorem update_geometry_spec (n ndim : Nat) (xyzno0 disale : Nat → cs_real_t)
    (st : (Nat → cs_real_t) × (Nat → cs_real_t)) (v i : Nat) (hv : v < n) (hi : i < ndim) :
    (update_geometry n ndim xyzno0 disale st).1 (3 * v + i)
        = xyzno0 (3 * v + i) + disale (3 * v + i) ∧
    (update_geometry n ndim xyzno0 disale st).2 (3 * v + i)
        = xyzno0 (3 * v + i) + disale (3 * v + i) - xyzno0 (3 * v + i) := by
  -- `good st p`: position `p` holds the two values
  let good : ((Nat → cs_real_t) × (Nat → cs_real_t)) → Nat → Prop := fun st p =>
    st.1 p = xyzno0 p + disale p ∧ st.2 p = xyzno0 p + disale p - xyzno0 p
  have step : ∀ (q : Nat) (st2 : (Nat → cs_real_t) × (Nat → cs_real_t)),
      let st3 : (Nat → cs_real_t) × (Nat → cs_real_t) :=
        (setAt st2.1 q (xyzno0 q + disale q),
         setAt st2.2 q (setAt st2.1 q (xyzno0 q + disale q) q - xyzno0 q))
      good st3 q ∧ ∀ p, good st2 p → good st3 p := by
    intro q st2
    refine ⟨⟨by simp, by simp⟩, ?_⟩
    intro p hp
    by_cases hpq : p = q
    · subst hpq; exact ⟨by simp, by simp⟩
    · exact ⟨by simp [setAt_other _ _ _ _ hpq, hp.1], by simp [setAt_other _ _ _ _ hpq, hp.2]⟩
  have main : ∀ w, w < n → ∀ j, j < ndim →
      good (update_geometry n ndim xyzno0 disale st) (3 * w + j) := by
    unfold update_geometry
    refine forLoop_inv (fun k s => ∀ w, w < k → ∀ j, j < ndim → good s (3 * w + j)) n _ st
      (fun w hw => absurd hw (Nat.not_lt_zero w)) ?_
    intro k _ s hk
    have inner := forLoop_inv
      (fun m s2 => (∀ w, w < k → ∀ j, j < ndim → good s2 (3 * w + j)) ∧
                   ∀ j, j < m → good s2 (3 * k + j)) ndim
      (fun idim st2 =>
        let vtx_coord := setAt st2.1 (3 * k + idim) (xyzno0 (3 * k + idim) + disale (3 * k + idim))
        let disala := setAt st2.2 (3 * k + idim)
          (vtx_coord (3 * k + idim) - xyzno0 (3 * k + idim))
        (vtx_coord, disala)) s
      ⟨hk, fun j hj => absurd hj (Nat.not_lt_zero j)⟩
      (by
        intro m _ s2 hm
        obtain ⟨hq, hp⟩ := step (3 * k + m) s2
        refine ⟨fun w hw j hj => hp _ (hm.1 w hw j hj), fun j hj => ?_⟩
        rcases Nat.lt_succ_iff_lt_or_eq.mp hj with h | h
        · exact hp _ (hm.2 j h)
        · subst h; exact hq)
    intro w hw j hj
    rcases Nat.lt_succ_iff_lt_or_eq.mp hw with h | h
    · exact inner.1 w h j hj
    · subst h; exact inner.2 j hj
  exact main v hv i hi

/-! ## `cs_ale_update_mesh` -/

/-- When both fields exist, `cs_ale_update_mesh` returns a state; its parts
are given in terms of the geometry loop and of the geometry engine. -/
theorem cs_ale_update_mesh_eq
    (compute : cs_mesh_t → cs_mesh_quantities_t → cs_mesh_quantities_t)
    (itrale : Int) (xyzno0 : Nat → cs_real_t) (g : ale_globals) (mesh_u dis : cs_field_t)
    (hu : g.mesh_u = some mesh_u) (hd : g.disale = some dis) :
    ∃ g1 : ale_globals, cs_ale_update_mesh compute itrale xyzno0 g = some g1 ∧
      g1.mesh.vtx_coord = (update_geometry g.mesh.n_vertices g.mesh.dim xyzno0 dis.val
        (g.mesh.vtx_coord, dis.val_pre)).1 ∧
      g1.disale = some { dis with val_pre := (update_geometry g.mesh.n_vertices g.mesh.dim
        xyzno0 dis.val (g.mesh.vtx_coord, dis.val_pre)).2 } ∧
      g1.mq = compute g1.mesh g.mq ∧
      g1.ts.nt_cur = g.ts.nt_cur ∧
      g1.ts.nt_max = (if cs_real_t.le g1.mq.min_vol 0 then g.ts.nt_cur else g.ts.nt_max) := by
  refine ⟨_, by simp only [cs_ale_update_mesh, hu, hd]; rfl, rfl, rfl, rfl, ?_, ?_⟩
  · simp only []
    split <;> rfl
  · simp only []
    split <;> rfl

/-- C1: after `cs_ale_update_mesh(itrale, xyzno0)`, for every vertex `v` and
component `i < dim`, `vtx_coord[v][i] = xyzno0[v][i] + disale[v][i]` with the
displacement `disale` held on entry, and `disale` itself is not modified. -/
theorem cs_ale_update_mesh_coords
    (compute : cs_mesh_t → cs_mesh_quantities_t → cs_mesh_quantities_t)
    (itrale : Int) (xyzno0 : Nat → cs_real_t) (g : ale_globals) (mesh_u dis : cs_field_t)
    (hu : g.mesh_u = some mesh_u) (hd : g.disale = some dis) :
    ∃ (g1 : ale_globals) (dis1 : cs_field_t),
      cs_ale_update_mesh compute itrale xyzno0 g = some g1 ∧
      g1.disale = some dis1 ∧ dis1.val = dis.val ∧
      ∀ v i, v < g.mesh.n_vertices → i < g.mesh.dim →
        g1.mesh.vtx_coord (3 * v + i) = xyzno0 (3 * v + i) + dis.val (3 * v + i) := by
  obtain ⟨g1, h1, hc, hdis, -⟩ := cs_ale_update_mesh_eq compute itrale xyzno0 g mesh_u dis hu hd
  refine ⟨g1, _, h1, hdis, rfl, ?_⟩
  intro v i hv hi
  rw [hc]
  exact (update_geometry_spec _ _ xyzno0 dis.val _ v i hv hi).1

/-- Evaluation of C1 on the one-tetrahedron state, with the vertex
coordinates of the mesh as reference coordinates. -/
theorem cs_ale_update_mesh_coords_witness :
    ∃ (g1 : ale_globals) (dis1 : cs_field_t),
      cs_ale_update_mesh (const_volume (1/3)) 1 tet_mesh.vtx_coord tet_globals = some g1 ∧
      g1.disale = some dis1 ∧
      dis1.val = (mk_field cs_mesh_location_type_t.CS_MESH_LOCATION_VERTICES
        (ofList [0, 0, 0, 0, 0, 0, 0, 0, 0, 0, 0, -1/10])
        (ofList [0, 0, 0, 0, 0, 0, 0, 0, 0, 0, 0, 0])).val ∧
      ∀ v i, v < tet_globals.mesh.n_vertices → i < tet_globals.mesh.dim →
        g1.mesh.vtx_coord (3 * v + i) = tet_mesh.vtx_coord (3 * v + i)
          + (mk_field cs_mesh_location_type_t.CS_MESH_LOCATION_VERTICES
              (ofList [0, 0, 0, 0, 0, 0, 0, 0, 0, 0, 0, -1/10])
              (ofList [0, 0, 0, 0, 0, 0, 0, 0, 0, 0, 0, 0])).val (3 * v + i) :=
  cs_ale_update_mesh_coords (const_volume (1/3)) 1 tet_mesh.vtx_coord tet_globals _ _ rfl rfl

/-- In exact arithmetic `(x + d) - x = d`, also when `d` is undefined. -/
theorem real_add_sub_cancel (x : ℚ) (d : cs_real_t) :
    cs_real_t.real x + d - cs_real_t.real x = d := by
  cases d with
  | real q => simp
  | nan => simp

/-- C2: after `cs_ale_update_mesh` called with real reference coordinates,
the previous displacement equals the current displacement:
`disala[v][i] = disale[v][i]` for every vertex `v` and component `i < dim`. -/
theorem cs_ale_update_mesh_previous
    (compute : cs_mesh_t → cs_mesh_quantities_t → cs_mesh_quantities_t)
    (itrale : Int) (xyzno0 : Nat → ℚ) (g : ale_globals) (mesh_u dis : cs_field_t)
    (hu : g.mesh_u = some mesh_u) (hd : g.disale = some dis) :
    ∃ (g1 : ale_globals) (dis1 : cs_field_t),
      cs_ale_update_mesh compute itrale (fun k => cs_real_t.real (xyzno0 k)) g = some g1 ∧
      g1.disale = some dis1 ∧
      ∀ v i, v < g.mesh.n_vertices → i < g.mesh.dim →
        dis1.val_pre (3 * v + i) = dis1.val (3 * v + i) := by
  obtain ⟨g1, h1, -, hdis, -⟩ :=
    cs_ale_update_mesh_eq compute itrale (fun k => cs_real_t.real (xyzno0 k)) g mesh_u dis hu hd
  refine ⟨g1, _, h1, hdis, ?_⟩
  intro v i hv hi
  have h := (update_geometry_spec g.mesh.n_vertices g.mesh.dim
    (fun k => cs_real_t.real (xyzno0 k)) dis.val (g.mesh.vtx_coord, dis.val_pre) v i hv hi).2
  simp only [h]
  exact real_add_sub_cancel _ _

/-- Evaluation of C2 on the one-tetrahedron state. -/
theorem cs_ale_update_mesh_previous_witness :
    ∃ (g1 : ale_globals) (dis1 : cs_field_t),
      cs_ale_update_mesh (const_volume (1/3)) 1
        (fun k => cs_real_t.real ([0, 0, 0, 1, 0, 0, 0, 1, 0, 0, 0, 2].getD k 0))
        tet_globals = some g1 ∧
      g1.disale = some dis1 ∧
      ∀ v i, v < tet_globals.mesh.n_vertices → i < tet_globals.mesh.dim →
        dis1.val_pre (3 * v + i) = dis1.val (3 * v + i) :=
  cs_ale_update_mesh_previous (const_volume (1/3)) 1
    (fun k => [0, 0, 0, 1, 0, 0, 0, 1, 0, 0, 0, 2].getD k 0) tet_globals _ _ rfl rfl

/-- C3: `cs_ale_update_mesh` returns normally, never modifies `nt_cur`, and
sets `nt_max = nt_cur` exactly when the recomputed minimum cell volume is
non-positive: `nt_max` is `nt_cur` if `min_vol <= 0` and is unchanged if
`min_vol > 0`. -/
theorem cs_ale_update_mesh_soft_stop
    (compute : cs_mesh_t → cs_mesh_quantities_t → cs_mesh_quantities_t)
    (itrale : Int) (xyzno0 : Nat → cs_real_t) (g : ale_globals) (mesh_u dis : cs_field_t)
    (hu : g.mesh_u = some mesh_u) (hd : g.disale = some dis) :
    ∃ g1 : ale_globals, cs_ale_update_mesh compute itrale xyzno0 g = some g1 ∧
      g1.mq.min_vol = (compute g1.mesh g.mq).min_vol ∧
      g1.ts.nt_cur = g.ts.nt_cur ∧
      (cs_real_t.le g1.mq.min_vol 0 = true → g1.ts.nt_max = g.ts.nt_cur) ∧
      (cs_real_t.gt g1.mq.min_vol 0 = true → g1.ts.nt_max = g.ts.nt_max) ∧
      (g1.ts.nt_max ≠ g.ts.nt_max → cs_real_t.le g1.mq.min_vol 0 = true) := by
  obtain ⟨g1, h1, -, -, hmq, hcur, hmax⟩ :=
    cs_ale_update_mesh_eq compute itrale xyzno0 g mesh_u dis hu hd
  refine ⟨g1, h1, by rw [hmq], hcur, ?_, ?_, ?_⟩
  · intro hle
    rw [hmax, hle]; rfl
  · intro hgt
    have : cs_real_t.le g1.mq.min_vol 0 = false := by
      cases hv : g1.mq.min_vol with
      | nan => rfl
      | real q =>
        rw [hv] at hgt
        have hq : (0 : ℚ) < q := by simpa [cs_real_t.gt, cs_real_t.zero_eq] using hgt
        simp [cs_real_t.le, cs_real_t.zero_eq, hq]
    rw [hmax, this]; rfl
  · intro hne
    by_contra hle
    apply hne
    rw [hmax]
    simp [hle]

/-- Evaluation of C3 on the one-tetrahedron state when the geometry engine
reports a negative minimum volume: `nt_max` becomes `nt_cur = 5`. -/
theorem cs_ale_update_mesh_soft_stop_witness :
    (∃ g1 : ale_globals,
      cs_ale_update_mesh (const_volume (-1)) 1 tet_mesh.vtx_coord tet_globals = some g1 ∧
      g1.mq.min_vol = (const_volume (-1) g1.mesh tet_globals.mq).min_vol ∧
      g1.ts.nt_cur = tet_globals.ts.nt_cur ∧
      (cs_real_t.le g1.mq.min_vol 0 = true → g1.ts.nt_max = tet_globals.ts.nt_cur) ∧
      (cs_real_t.gt g1.mq.min_vol 0 = true → g1.ts.nt_max = tet_globals.ts.nt_max) ∧
      (g1.ts.nt_max ≠ tet_globals.ts.nt_max → cs_real_t.le g1.mq.min_vol 0 = true)) ∧
    (cs_ale_update_mesh (const_volume (-1)) 1 tet_mesh.vtx_coord tet_globals).map
      (fun g1 => (g1.ts.nt_cur, g1.ts.nt_max)) = some (5, 5) ∧
    (cs_ale_update_mesh (const_volume (1/3)) 1 tet_mesh.vtx_coord tet_globals).map
      (fun g1 => (g1.ts.nt_cur, g1.ts.nt_max)) = some (5, 100) :=
  ⟨cs_ale_update_mesh_soft_stop (const_volume (-1)) 1 tet_mesh.vtx_coord tet_globals _ _ rfl rfl,
   by decide!, by decide!⟩

/-! ## The displacement update of the two solvers -/

/-- The displacement loop shared by the two solvers: the entries of the
vertices below `n` whose flag is 0 receive the new value, every other entry
keeps its value. -/
theorem displacement_loop_spec (n : Nat) (impale : Nat → Int) (F d0 : Nat → cs_real_t)
    (p : Nat) :
    forLoop n (fun inod d1 =>
      if impale inod = 0 then
        forLoop 3 (fun c d2 => setAt d2 (3 * inod + c) (F (3 * inod + c))) d1
      else d1) d0 p
      = if p / 3 < n ∧ impale (p / 3) = 0 then F p else d0 p := by
  induction n with
  | zero => simp [forLoop]
  | succ n ih =>
    simp only [forLoop] at ih ⊢
    by_cases hn : impale n = 0
    · simp only [hn, if_true, setAt]
      by_cases h2 : p = 3 * n + 2
      · subst h2
        have : (3 * n + 2) / 3 = n := by omega
        simp [this, hn]
      by_cases h1 : p = 3 * n + 1
      · subst h1
        have : (3 * n + 1) / 3 = n := by omega
        simp [this, hn]
      by_cases h0 : p = 3 * n + 0
      · subst h0
        have : (3 * n + 0) / 3 = n := by omega
        simp [this, hn]
      · simp only [h2, h1, h0, if_false]
        rw [ih]
        have hne : p / 3 ≠ n := by omega
        by_cases hlt : p / 3 < n
        · have : p / 3 < n + 1 := by omega
          simp [hlt, this]
        · have : ¬ p / 3 < n + 1 := by omega
          simp [hlt, this]
    · simp only [hn, if_false]
      rw [ih]
      by_cases hlt : p / 3 < n
      · have : p / 3 < n + 1 := by omega
        simp [hlt, this]
      · by_cases heq : p / 3 = n
        · simp [heq, hn]
        · have : ¬ p / 3 < n + 1 := by omega
          simp [hlt, this]

theorem cdo_update_displacement_spec (n : Nat) (impale : Nat → Int) (dtref : cs_real_t)
    (disala m_vel disale : Nat → cs_real_t) (p : Nat) :
    cdo_update_displacement n impale dtref disala m_vel disale p
      = if p / 3 < n ∧ impale (p / 3) = 0 then disala p + m_vel p * dtref else disale p :=
  displacement_loop_spec n impale (fun k => disala k + m_vel k * dtref) disale p

theorem legacy_update_displacement_spec (n : Nat) (impale : Nat → Int)
    (disala dproj disale : Nat → cs_real_t) (p : Nat) :
    legacy_update_displacement n impale disala dproj disale p
      = if p / 3 < n ∧ impale (p / 3) = 0 then disala p + dproj p else disale p :=
  displacement_loop_spec n impale (fun k => disala k + dproj k) disale p

/-- The first-call block of the CDO solver succeeds when the equation
exists, and changes neither the mesh, the reference time step, the fields
nor the existence of the equation. -/
theorem cdo_first_call_frame (heap : ale_heap) (impale : Nat → Int)
    (ale_bc_type : Nat → cs_ale_bc_t) (g : ale_globals) (eqp : cs_equation_param_t)
    (he : g.mesh_velocity_eqp = some eqp) :
    ∃ g1 : ale_globals, cdo_first_call heap impale ale_bc_type g = some g1 ∧
      g1.mesh = g.mesh ∧ g1.dtref = g.dtref ∧ g1.disale = g.disale ∧ g1.mesh_u = g.mesh_u ∧
      g1.uses_new_mechanism = g.uses_new_mechanism ∧
      ∃ eqp1, g1.mesh_velocity_eqp = some eqp1 := by
  unfold cdo_first_call
  cases h0 : g._vtx_coord0 with
  | some c => exact ⟨g, rfl, rfl, rfl, rfl, rfl, rfl, eqp, he⟩
  | none =>
    simp only [cs_ale_setup_boundaries, he]
    exact ⟨_, rfl, rfl, rfl, rfl, rfl, rfl, _, rfl⟩

/-- When the fields and the equation exist, `_ale_solve_poisson_cdo` returns
a state whose displacement field is the result of the displacement loop on
the solved mesh velocity. -/
theorem cdo_solve_eq (solve : ale_globals → Nat → cs_real_t) (heap : ale_heap)
    (g : ale_globals) (impale : Nat → Int) (ale_bc_type : Nat → cs_ale_bc_t)
    (dis mesh_u : cs_field_t) (eqp : cs_equation_param_t)
    (hd : g.disale = some dis) (hu : g.mesh_u = some mesh_u)
    (he : g.mesh_velocity_eqp = some eqp) :
    ∃ (g1 : ale_globals) (mesh_u1 : cs_field_t),
      _ale_solve_poisson_cdo solve heap g impale ale_bc_type = some g1 ∧
      g1.mesh_u = some mesh_u1 ∧ g1.dtref = g.dtref ∧ g1.mesh = g.mesh ∧
      g1.disale = some { dis with val := (cdo_update_displacement g.mesh.n_vertices impale
        g.dtref dis.val_pre mesh_u1.val dis.val) } := by
  obtain ⟨g0, h0, hm, ht, hdis, hmu, -, eqp1, he1⟩ :=
    cdo_first_call_frame heap impale ale_bc_type g eqp he
  simp only [_ale_solve_poisson_cdo, hd, h0, he1, hmu.trans hu, hm, ht]
  exact ⟨_, _, rfl, rfl, rfl, rfl, rfl⟩

/-- When the fields exist, `_ale_solve_poisson_legacy` returns a state whose
displacement field is the result of the displacement loop on the projected
displacement `dproj`. -/
theorem legacy_solve_eq (ext : legacy_engine) (solve : solve_vector_args → Nat → cs_real_t)
    (peers : Nat → proj_acc) (heap : ale_heap) (g : ale_globals) (iterns : Int)
    (impale : Nat → Int) (ale_bc_type : Nat → cs_ale_bc_t) (dis mesh_u : cs_field_t)
    (hd : g.disale = some dis) (hu : g.mesh_u = some mesh_u) :
    ∃ g1 : ale_globals,
      _ale_solve_poisson_legacy ext solve peers heap g iterns impale ale_bc_type = some g1 ∧
      g1.disale = some { dis with val := (legacy_update_displacement g.mesh.n_vertices impale
        dis.val_pre (legacy_dproj ext peers heap g ale_bc_type
          (legacy_solve ext solve heap g iterns ale_bc_type mesh_u)) dis.val) } := by
  simp only [_ale_solve_poisson_legacy, hd, hu]
  exact ⟨_, rfl, rfl⟩

/-- Flags outside the indicator values 0 and 1 are read as imposed, the loop
of the legacy solver testing `impale == 0`: on the one-tetrahedron state with
every flag equal to 2, the solver returns and leaves `disale[3][2] = -1/10`,
the value on entry, while `disala[3][2] + dproj[3][2] = 0`. -/
theorem legacy_update_skips_flag_two :
    (fun _ => (2 : Int)) 3 ≠ 1 ∧
    ∃ (g1 : ale_globals) (dis dis1 mesh_u : cs_field_t),
      tet_globals.disale = some dis ∧ tet_globals.mesh_u = some mesh_u ∧
      _ale_solve_poisson_legacy tet_engine tet_solve_legacy (fun _ => tet_heap.proj) tet_heap
        tet_globals 1 (fun _ => (2 : Int)) (fun _ => cs_ale_bc_t.CS_ALE_FIXED) = some g1 ∧
      g1.disale = some dis1 ∧
      dis1.val (3 * 3 + 2) = cs_real_t.real (-1/10) ∧
      dis.val_pre (3 * 3 + 2) + legacy_dproj tet_engine (fun _ => tet_heap.proj) tet_heap
        tet_globals (fun _ => cs_ale_bc_t.CS_ALE_FIXED)
        (legacy_solve tet_engine tet_solve_legacy tet_heap tet_globals 1
          (fun _ => cs_ale_bc_t.CS_ALE_FIXED) mesh_u) (3 * 3 + 2) = cs_real_t.real 0 := by
  refine ⟨by decide, _, _, _, _, rfl, rfl, rfl, rfl, by decide!, by decide!⟩

/-- C5: in the CDO backend, after the solve, for every vertex `v` with
`impale[v] = 0` and every component `i`,
`disale[v][i] = disala[v][i] + mesh_velocity[v][i] * dtref`; in particular
with `disala[v] = 0`, `mesh_velocity[v] = (0,0,-1)` and `dtref = 1/10` the
displacement is `(0,0,-1/10)`. -/
theorem cdo_displacement_update (solve : ale_globals → Nat → cs_real_t) (heap : ale_heap)
    (g : ale_globals) (impale : Nat → Int) (ale_bc_type : Nat → cs_ale_bc_t)
    (dis mesh_u : cs_field_t) (eqp : cs_equation_param_t)
    (hd : g.disale = some dis) (hu : g.mesh_u = some mesh_u)
    (he : g.mesh_velocity_eqp = some eqp) :
    ∃ (g1 : ale_globals) (dis1 mesh_u1 : cs_field_t),
      _ale_solve_poisson_cdo solve heap g impale ale_bc_type = some g1 ∧
      g1.disale = some dis1 ∧ g1.mesh_u = some mesh_u1 ∧ dis1.val_pre = dis.val_pre ∧
      (∀ v i, v < g.mesh.n_vertices → impale v = 0 → i < 3 →
        dis1.val (3 * v + i) = dis.val_pre (3 * v + i) + mesh_u1.val (3 * v + i) * g.dtref) ∧
      (∀ v, v < g.mesh.n_vertices → impale v = 0 →
        dis.val_pre (3 * v + 0) = 0 → dis.val_pre (3 * v + 1) = 0 → dis.val_pre (3 * v + 2) = 0 →
        mesh_u1.val (3 * v + 0) = 0 → mesh_u1.val (3 * v + 1) = 0 →
        mesh_u1.val (3 * v + 2) = cs_real_t.real (-1) → g.dtref = cs_real_t.real (1/10) →
        dis1.val (3 * v + 0) = 0 ∧ dis1.val (3 * v + 1) = 0 ∧
        dis1.val (3 * v + 2) = cs_real_t.real (-1/10)) := by
  obtain ⟨g1, mesh_u1, h1, hmu, -, -, hdis⟩ :=
    cdo_solve_eq solve heap g impale ale_bc_type dis mesh_u eqp hd hu he
  have key : ∀ v i, v < g.mesh.n_vertices → impale v = 0 → i < 3 →
      cdo_update_displacement g.mesh.n_vertices impale g.dtref dis.val_pre mesh_u1.val dis.val
        (3 * v + i) = dis.val_pre (3 * v + i) + mesh_u1.val (3 * v + i) * g.dtref := by
    intro v i hv h0 hi
    rw [cdo_update_displacement_spec]
    have : (3 * v + i) / 3 = v := by omega
    simp [this, hv, h0]
  refine ⟨g1, _, mesh_u1, h1, hdis, hmu, rfl, key, ?_⟩
  intro v hv h0 p0 p1 p2 m0 m1 m2 ht
  refine ⟨?_, ?_, ?_⟩
  · show cdo_update_displacement _ _ _ _ _ _ _ = _
    rw [key v 0 hv h0 (by omega), p0, m0, ht]
    simp [cs_real_t.zero_eq]
  · show cdo_update_displacement _ _ _ _ _ _ _ = _
    rw [key v 1 hv h0 (by omega), p1, m1, ht]
    simp [cs_real_t.zero_eq]
  · show cdo_update_displacement _ _ _ _ _ _ _ = _
    rw [key v 2 hv h0 (by omega), p2, m2, ht]
    simp [cs_real_t.zero_eq]
    norm_num

/-- Evaluation of C5 on the one-tetrahedron state: with the velocity
`(0,0,-1)` at vertex `C`, zero previous displacement and `dtref = 1/10`, the
displacement of `C` becomes `(0,0,-1/10)`. -/
theorem cdo_displacement_update_witness :
    (∃ (g1 : ale_globals) (dis1 mesh_u1 : cs_field_t),
      _ale_solve_poisson_cdo tet_solve_cdo tet_heap tet_globals (fun _ => 0)
        (fun _ => cs_ale_bc_t.CS_ALE_IMPOSED_VEL) = some g1 ∧
      g1.disale = some dis1 ∧ g1.mesh_u = some mesh_u1 ∧
      dis1.val_pre = (ofList [0, 0, 0, 0, 0, 0, 0, 0, 0, 0, 0, 0]) ∧
      (∀ v i, v < tet_globals.mesh.n_vertices → (fun _ => (0 : Int)) v = 0 → i < 3 →
        dis1.val (3 * v + i) = (ofList [0, 0, 0, 0, 0, 0, 0, 0, 0, 0, 0, 0]) (3 * v + i)
          + mesh_u1.val (3 * v + i) * tet_globals.dtref) ∧
      (∀ v, v < tet_globals.mesh.n_vertices → (fun _ => (0 : Int)) v = 0 →
        (ofList [0, 0, 0, 0, 0, 0, 0, 0, 0, 0, 0, 0]) (3 * v + 0) = 0 →
        (ofList [0, 0, 0, 0, 0, 0, 0, 0, 0, 0, 0, 0]) (3 * v + 1) = 0 →
        (ofList [0, 0, 0, 0, 0, 0, 0, 0, 0, 0, 0, 0]) (3 * v + 2) = 0 →
        mesh_u1.val (3 * v + 0) = 0 → mesh_u1.val (3 * v + 1) = 0 →
        mesh_u1.val (3 * v + 2) = cs_real_t.real (-1) →
        tet_globals.dtref = cs_real_t.real (1/10) →
        dis1.val (3 * v + 0) = 0 ∧ dis1.val (3 * v + 1) = 0 ∧
        dis1.val (3 * v + 2) = cs_real_t.real (-1/10))) ∧
    ((_ale_solve_poisson_cdo tet_solve_cdo tet_heap tet_globals (fun _ => 0)
        (fun _ => cs_ale_bc_t.CS_ALE_IMPOSED_VEL)).bind (fun g1 => g1.disale)).map
      (fun d => (d.val 9, d.val 10, d.val 11))
      = some (cs_real_t.real 0, cs_real_t.real 0, cs_real_t.real (-1/10)) :=
  ⟨cdo_displacement_update tet_solve_cdo tet_heap tet_globals (fun _ => 0)
     (fun _ => cs_ale_bc_t.CS_ALE_IMPOSED_VEL) _ _ _ rfl rfl rfl, by decide!⟩

/-- C6: in both backends, the displacement update of
`cs_ale_solve_mesh_velocity` leaves `disale[v]` unchanged at every vertex `v`
whose displacement is imposed by the user (`impale[v] = 1`). -/
theorem solve_mesh_velocity_keeps_imposed (ext : legacy_engine)
    (solve_legacy : solve_vector_args → Nat → cs_real_t)
    (solve_cdo : ale_globals → Nat → cs_real_t) (peers : Nat → proj_acc) (heap : ale_heap)
    (g : ale_globals) (iterns : Int) (impale : Nat → Int) (ale_bc_type : Nat → cs_ale_bc_t)
    (dis mesh_u : cs_field_t) (eqp : cs_equation_param_t)
    (hd : g.disale = some dis) (hu : g.mesh_u = some mesh_u)
    (he : g.mesh_velocity_eqp = some eqp) :
    ∃ (g1 : ale_globals) (dis1 : cs_field_t),
      cs_ale_solve_mesh_velocity ext solve_legacy solve_cdo peers heap g iterns impale
        ale_bc_type = some g1 ∧
      g1.disale = some dis1 ∧
      ∀ v i, impale v = 1 → i < 3 → dis1.val (3 * v + i) = dis.val (3 * v + i) := by
  unfold cs_ale_solve_mesh_velocity
  by_cases hl : g.cs_glob_ale = cs_ale_type_t.CS_ALE_LEGACY
  · obtain ⟨g1, h1, hdis⟩ :=
      legacy_solve_eq ext solve_legacy peers heap g iterns impale ale_bc_type dis mesh_u hd hu
    refine ⟨g1, _, by simpa [hl] using h1, hdis, ?_⟩
    intro v i hv hi
    show legacy_update_displacement _ _ _ _ _ _ = _
    rw [legacy_update_displacement_spec]
    have : (3 * v + i) / 3 = v := by omega
    simp [this, hv]
  · by_cases hc : g.cs_glob_ale = cs_ale_type_t.CS_ALE_CDO
    · obtain ⟨g1, mesh_u1, h1, -, -, -, hdis⟩ :=
        cdo_solve_eq solve_cdo heap g impale ale_bc_type dis mesh_u eqp hd hu he
      refine ⟨g1, _, by simpa [hl, hc] using h1, hdis, ?_⟩
      intro v i hv hi
      show cdo_update_displacement _ _ _ _ _ _ _ = _
      rw [cdo_update_displacement_spec]
      have : (3 * v + i) / 3 = v := by omega
      simp [this, hv]
    · exact ⟨g, dis, by simp [hl, hc], hd, fun _ _ _ _ => rfl⟩

/-- Evaluation of C6 on the one-tetrahedron state (CDO backend selected),
every vertex being imposed. -/
theorem solve_mesh_velocity_keeps_imposed_witness :
    ∃ (g1 : ale_globals) (dis1 : cs_field_t),
      cs_ale_solve_mesh_velocity tet_engine tet_solve_legacy tet_solve_cdo
        (fun _ => tet_heap.proj) tet_heap tet_globals 1 (fun _ => 1)
        (fun _ => cs_ale_bc_t.CS_ALE_IMPOSED_VEL) = some g1 ∧
      g1.disale = some dis1 ∧
      ∀ v i, (fun _ => (1 : Int)) v = 1 → i < 3 →
        dis1.val (3 * v + i) = (ofList [0, 0, 0, 0, 0, 0, 0, 0, 0, 0, 0, -1/10]) (3 * v + i) :=
  solve_mesh_velocity_keeps_imposed tet_engine tet_solve_legacy tet_solve_cdo
    (fun _ => tet_heap.proj) tet_heap tet_globals 1 (fun _ => 1)
    (fun _ => cs_ale_bc_t.CS_ALE_IMPOSED_VEL) _ _ _ rfl rfl rfl

/-! ## `cs_ale_project_displacement`: the steps -/

/-- Loop invariant rule for `forRange`, with the position reached. -/
theorem forRange_inv {σ : Type} (P : Nat → σ → Prop) (lo hi : Nat) (body : Nat → σ → σ) (s : σ)
    (h0 : P lo s) (hs : ∀ j, lo ≤ j → j < hi → ∀ st, P j st → P (j + 1) (body j st)) :
    P (lo + (hi - lo)) (forRange lo hi body s) := by
  unfold forRange
  refine forLoop_inv (fun m st => P (lo + m) st) (hi - lo) _ s h0 ?_
  intro k hk st h
  exact hs (lo + k) (Nat.le_add_right lo k) (by omega) st h

/-- A loop over the three components of the vector of index `w`. -/
theorem forLoop3_setAt (w : Nat) (G : Nat → cs_real_t → cs_real_t) (d0 : Nat → cs_real_t)
    (q : Nat) :
    forLoop 3 (fun i d => setAt d (3 * w + i) (G i (d (3 * w + i)))) d0 q
      = if q / 3 = w then G (q % 3) (d0 q) else d0 q := by
  simp only [forLoop, setAt]
  by_cases h2 : q = 3 * w + 2
  · subst h2
    have e1 : (3 * w + 2) / 3 = w := by omega
    have e2 : (3 * w + 2) % 3 = 2 := by omega
    simp [e1, e2]
  by_cases h1 : q = 3 * w + 1
  · subst h1
    have e1 : (3 * w + 1) / 3 = w := by omega
    have e2 : (3 * w + 1) % 3 = 1 := by omega
    simp [e1, e2]
  by_cases h0 : q = 3 * w + 0
  · subst h0
    have e1 : (3 * w + 0) / 3 = w := by omega
    have e2 : (3 * w + 0) % 3 = 0 := by omega
    simp [e1, e2]
  · have e : q / 3 ≠ w := by omega
    have h0' : q ≠ 3 * w := by omega
    simp [h2, h1, h0', e]

/-- A loop over the vertices that rewrites the three components of each. -/
theorem vtx_block_loop (n : Nat) (G : Nat → Nat → cs_real_t → cs_real_t)
    (d0 : Nat → cs_real_t) (q : Nat) :
    forLoop n (fun v d =>
      forLoop 3 (fun i d2 => setAt d2 (3 * v + i) (G v i (d2 (3 * v + i)))) d) d0 q
      = if q / 3 < n then G (q / 3) (q % 3) (d0 q) else d0 q := by
  induction n with
  | zero => simp [forLoop]
  | succ n ih =>
    rw [forLoop, forLoop3_setAt n (G n), ih]
    by_cases h : q / 3 = n
    · have h1 : ¬ q / 3 < n := by omega
      have h2 : q / 3 < n + 1 := by omega
      simp [h, h1, h2]
    · by_cases h1 : q / 3 < n
      · have h2 : q / 3 < n + 1 := by omega
        simp [h, h1, h2]
      · have h2 : ¬ q / 3 < n + 1 := by omega
        simp [h, h1, h2]

/-- The reset loop, for a mesh of dimension 3. -/
theorem proj_init_spec (p : proj_args) (st : proj_acc) (hdim : p.m.dim = 3) :
    (∀ v, (proj_init p st).vtx_counter v = if v < p.m.n_vertices then 0 else st.vtx_counter v) ∧
    (∀ v, (proj_init p st).vtx_interior_indicator v
        = if v < p.m.n_vertices then true else st.vtx_interior_indicator v) ∧
    (∀ q, (proj_init p st).disp_proj q = if q / 3 < p.m.n_vertices then 0 else st.disp_proj q) := by
  unfold proj_init
  rw [hdim]
  generalize p.m.n_vertices = n
  induction n with
  | zero => simp [forLoop]
  | succ n ih =>
    obtain ⟨ih1, ih2, ih3⟩ := ih
    refine ⟨fun v => ?_, fun v => ?_, fun q => ?_⟩
    · simp only [forLoop, setAt]
      by_cases h : v = n
      · subst h; simp
      · rw [if_neg h]
        have := ih1 v
        simp only [forLoop] at this
        rw [this]
        by_cases h1 : v < n
        · have h2 : v < n + 1 := by omega
          simp [h1, h2]
        · have h2 : ¬ v < n + 1 := by omega
          simp [h1, h2]
    · simp only [forLoop, setAt]
      by_cases h : v = n
      · subst h; simp
      · rw [if_neg h]
        have := ih2 v
        simp only [forLoop] at this
        rw [this]
        by_cases h1 : v < n
        · have h2 : v < n + 1 := by omega
          simp [h1, h2]
        · have h2 : ¬ v < n + 1 := by omega
          simp [h1, h2]
    · rw [forLoop]
      simp only []
      rw [forLoop3_setAt n (fun _ _ => (0 : cs_real_t))]
      rw [ih3 q]
      by_cases h : q / 3 = n
      · have h2 : q / 3 < n + 1 := by omega
        simp [h, h2]
      · by_cases h1 : q / 3 < n
        · have h2 : q / 3 < n + 1 := by omega
          simp [h, h1, h2]
        · have h2 : ¬ q / 3 < n + 1 := by omega
          simp [h, h1, h2]

/-- What an interior face does at one of its vertices. -/
theorem proj_interior_vtx_spec (p : proj_args) (c1 c2 : Nat) (dv1 dv2 : cs_real_t) (w : Nat)
    (st : proj_acc) :
    (proj_interior_vtx p c1 c2 dv1 dv2 w st).vtx_interior_indicator
        = st.vtx_interior_indicator ∧
    (∀ x, (proj_interior_vtx p c1 c2 dv1 dv2 w st).vtx_counter x
        = if st.vtx_interior_indicator w = true ∧ x = w then st.vtx_counter w + (dv1 + dv2)
          else st.vtx_counter x) ∧
    (∀ q, (proj_interior_vtx p c1 c2 dv1 dv2 w st).disp_proj q
        = if st.vtx_interior_indicator w = true ∧ q / 3 = w
          then st.disp_proj q + proj_interior_term p c1 c2 dv1 dv2 w (q % 3)
          else st.disp_proj q) := by
  unfold proj_interior_vtx
  by_cases h : st.vtx_interior_indicator w = true
  · simp only [h, if_true, true_and]
    refine ⟨fun x => ?_, fun q => ?_⟩
    · simp only [setAt]
    · exact forLoop3_setAt w (fun i x => x + proj_interior_term p c1 c2 dv1 dv2 w i) _ q
  · simp [h]

/-- What a boundary face does at one of its vertices. -/
theorem proj_boundary_vtx_spec (p : proj_args) (f c w : Nat) (st : proj_acc) :
    (proj_boundary_vtx p f c w st).vtx_interior_indicator = st.vtx_interior_indicator ∧
    (∀ x, (proj_boundary_vtx p f c w st).vtx_counter x
        = if st.vtx_interior_indicator w = false ∧ x = w
          then st.vtx_counter w + 1 / p.mq.b_face_surf f
          else st.vtx_counter x) ∧
    (∀ q, (proj_boundary_vtx p f c w st).disp_proj q
        = if st.vtx_interior_indicator w = false ∧ q / 3 = w
          then st.disp_proj q + proj_boundary_term p f c w (q % 3)
          else st.disp_proj q) := by
  unfold proj_boundary_vtx
  by_cases h : st.vtx_interior_indicator w = true
  · simp [h]
  · have h' : st.vtx_interior_indicator w = false := by simpa using h
    simp only [h', Bool.not_false, if_true, true_and]
    refine ⟨fun x => ?_, fun q => ?_⟩
    · simp only [setAt]
    · exact forLoop3_setAt w (fun i x => x + proj_boundary_term p f c w i) _ q

/-- The three assignments of the sliding step: the second and the third read
the components already overwritten. -/
theorem proj_sliding_vtx_spec (clbale : Nat → cs_real_t) (f w : Nat) (d : Nat → cs_real_t) :
    (∀ q, q / 3 ≠ w → proj_sliding_vtx clbale f w d q = d q) ∧
    proj_sliding_vtx clbale f w d (3 * w + 0)
      = clbale (9 * f + 3 * 0 + 0) * d (3 * w + 0) + clbale (9 * f + 3 * 0 + 1) * d (3 * w + 1)
        + clbale (9 * f + 3 * 0 + 2) * d (3 * w + 2) ∧
    proj_sliding_vtx clbale f w d (3 * w + 1)
      = clbale (9 * f + 3 * 1 + 0) * proj_sliding_vtx clbale f w d (3 * w + 0)
        + clbale (9 * f + 3 * 1 + 1) * d (3 * w + 1)
        + clbale (9 * f + 3 * 1 + 2) * d (3 * w + 2) ∧
    proj_sliding_vtx clbale f w d (3 * w + 2)
      = clbale (9 * f + 3 * 2 + 0) * proj_sliding_vtx clbale f w d (3 * w + 0)
        + clbale (9 * f + 3 * 2 + 1) * proj_sliding_vtx clbale f w d (3 * w + 1)
        + clbale (9 * f + 3 * 2 + 2) * d (3 * w + 2) := by
  refine ⟨fun q hq => ?_, ?_, ?_, ?_⟩
  · have h0 : q ≠ 3 * w + 0 := by omega
    have h1 : q ≠ 3 * w + 1 := by omega
    have h2 : q ≠ 3 * w + 2 := by omega
    have h0' : q ≠ 3 * w := by omega
    simp [proj_sliding_vtx, setAt, h0', h1, h2]
  · simp [proj_sliding_vtx, setAt]
  · simp [proj_sliding_vtx, setAt]
  · simp [proj_sliding_vtx, setAt]

/-! ## Zero velocity gives zero displacement -/

theorem cs_real_t.eq_real_of_isReal {x : cs_real_t} (h : x.isReal = true) :
    ∃ q, x = cs_real_t.real q := by
  cases x with
  | real q => exact ⟨q, rfl⟩
  | nan => simp [cs_real_t.isReal] at h

theorem cs_real_t.eq_real_of_ne_nan {x : cs_real_t} (h : x ≠ cs_real_t.nan) :
    ∃ q, x = cs_real_t.real q := by
  cases x with
  | real q => exact ⟨q, rfl⟩
  | nan => exact absurd rfl h

theorem cs_real_t.add_ne_nan {x y : cs_real_t} (h : x + y ≠ cs_real_t.nan) :
    x ≠ cs_real_t.nan ∧ y ≠ cs_real_t.nan := by
  cases x <;> cases y <;> simp_all

/-- With zero velocity data, an interior face adds zero when the two inverse
volumes are defined. -/
theorem proj_interior_term_zero (p : proj_args) (hz : proj_zero_velocity p)
    (hr : proj_real_inputs p) (c1 c2 : Nat) (a b : ℚ) (w i : Nat) :
    proj_interior_term p c1 c2 (cs_real_t.real a) (cs_real_t.real b) w i = 0 := by
  obtain ⟨hm, hg, -⟩ := hz
  obtain ⟨hx, hc, -, -, -, -, -, hdt⟩ := hr
  obtain ⟨x0, e0⟩ := cs_real_t.eq_real_of_isReal (hx (3 * w + 0))
  obtain ⟨x1, e1⟩ := cs_real_t.eq_real_of_isReal (hx (3 * w + 1))
  obtain ⟨x2, e2⟩ := cs_real_t.eq_real_of_isReal (hx (3 * w + 2))
  obtain ⟨y0, f0⟩ := cs_real_t.eq_real_of_isReal (hc (3 * c1 + 0))
  obtain ⟨y1, f1⟩ := cs_real_t.eq_real_of_isReal (hc (3 * c1 + 1))
  obtain ⟨y2, f2⟩ := cs_real_t.eq_real_of_isReal (hc (3 * c1 + 2))
  obtain ⟨z0, g0⟩ := cs_real_t.eq_real_of_isReal (hc (3 * c2 + 0))
  obtain ⟨z1, g1⟩ := cs_real_t.eq_real_of_isReal (hc (3 * c2 + 1))
  obtain ⟨z2, g2⟩ := cs_real_t.eq_real_of_isReal (hc (3 * c2 + 2))
  obtain ⟨t1, ht1⟩ := cs_real_t.eq_real_of_isReal (hdt c1)
  obtain ⟨t2, ht2⟩ := cs_real_t.eq_real_of_isReal (hdt c2)
  simp only [proj_interior_term, hm, hg, e0, e1, e2, f0, f1, f2, g0, g1, g2, ht1, ht2,
    cs_real_t.zero_eq, cs_real_t.real_add_real, cs_real_t.real_sub_real,
    cs_real_t.real_mul_real]
  simp

/-- With zero velocity data, a boundary face adds zero when the inverse of
its surface is defined. -/
theorem proj_boundary_term_zero (p : proj_args) (hz : proj_zero_velocity p)
    (hr : proj_real_inputs p) (f c w i : Nat) (s : ℚ)
    (hs : 1 / p.mq.b_face_surf f = cs_real_t.real s) :
    proj_boundary_term p f c w i = 0 := by
  obtain ⟨hm, hg, ha⟩ := hz
  obtain ⟨hx, -, hc, -, -, -, hb, hdt⟩ := hr
  obtain ⟨x0, e0⟩ := cs_real_t.eq_real_of_isReal (hx (3 * w + 0))
  obtain ⟨x1, e1⟩ := cs_real_t.eq_real_of_isReal (hx (3 * w + 1))
  obtain ⟨x2, e2⟩ := cs_real_t.eq_real_of_isReal (hx (3 * w + 2))
  obtain ⟨y0, f0⟩ := cs_real_t.eq_real_of_isReal (hc (3 * f + 0))
  obtain ⟨y1, f1⟩ := cs_real_t.eq_real_of_isReal (hc (3 * f + 1))
  obtain ⟨y2, f2⟩ := cs_real_t.eq_real_of_isReal (hc (3 * f + 2))
  obtain ⟨b0, g0⟩ := cs_real_t.eq_real_of_isReal (hb (9 * f + 3 * i + 0))
  obtain ⟨b1, g1⟩ := cs_real_t.eq_real_of_isReal (hb (9 * f + 3 * i + 1))
  obtain ⟨b2, g2⟩ := cs_real_t.eq_real_of_isReal (hb (9 * f + 3 * i + 2))
  obtain ⟨t, ht⟩ := cs_real_t.eq_real_of_isReal (hdt c)
  simp only [proj_boundary_term, hs, hm, hg, ha, e0, e1, e2, f0, f1, f2, g0, g1, g2, ht,
    cs_real_t.zero_eq, cs_real_t.real_add_real, cs_real_t.real_sub_real,
    cs_real_t.real_mul_real]
  simp

theorem zero_inv_interior_vtx (p : proj_args) (hz : proj_zero_velocity p)
    (hr : proj_real_inputs p) (n c1 c2 : Nat) (dv1 dv2 : cs_real_t) (w : Nat) (st : proj_acc)
    (h : zero_inv n st) : zero_inv n (proj_interior_vtx p c1 c2 dv1 dv2 w st) := by
  obtain ⟨-, hc, hd⟩ := proj_interior_vtx_spec p c1 c2 dv1 dv2 w st
  intro q hq hne
  rw [hc] at hne
  rw [hd]
  by_cases hw : st.vtx_interior_indicator w = true ∧ q / 3 = w
  · rw [if_pos hw] at hne
    rw [if_pos hw]
    obtain ⟨h1, h2⟩ := cs_real_t.add_ne_nan hne
    obtain ⟨h3, h4⟩ := cs_real_t.add_ne_nan h2
    obtain ⟨a, ha⟩ := cs_real_t.eq_real_of_ne_nan h3
    obtain ⟨b, hb⟩ := cs_real_t.eq_real_of_ne_nan h4
    rw [ha, hb, proj_interior_term_zero p hz hr, h q hq (by rw [hw.2]; exact h1)]
    simp [cs_real_t.zero_eq]
  · rw [if_neg hw] at hne
    rw [if_neg hw]
    exact h q hq hne

theorem zero_inv_boundary_vtx (p : proj_args) (hz : proj_zero_velocity p)
    (hr : proj_real_inputs p) (n f c w : Nat) (st : proj_acc)
    (h : zero_inv n st) : zero_inv n (proj_boundary_vtx p f c w st) := by
  obtain ⟨-, hc, hd⟩ := proj_boundary_vtx_spec p f c w st
  intro q hq hne
  rw [hc] at hne
  rw [hd]
  by_cases hw : st.vtx_interior_indicator w = false ∧ q / 3 = w
  · rw [if_pos hw] at hne
    rw [if_pos hw]
    obtain ⟨h1, h2⟩ := cs_real_t.add_ne_nan hne
    obtain ⟨s, hs⟩ := cs_real_t.eq_real_of_ne_nan h2
    rw [proj_boundary_term_zero p hz hr f c w _ s hs, h q hq (by rw [hw.2]; exact h1)]
    simp [cs_real_t.zero_eq]
  · rw [if_neg hw] at hne
    rw [if_neg hw]
    exact h q hq hne

theorem zero_inv_sliding_vtx (p : proj_args) (hr : proj_real_inputs p) (n f w : Nat)
    (st : proj_acc) (h : zero_inv n st) :
    zero_inv n { st with disp_proj := (proj_sliding_vtx p.clbale f w st.disp_proj) } := by
  obtain ⟨hother, h0, h1, h2⟩ := proj_sliding_vtx_spec p.clbale f w st.disp_proj
  obtain ⟨-, -, -, -, -, -, hb, -⟩ := hr
  intro q hq hne
  show proj_sliding_vtx p.clbale f w st.disp_proj q = 0
  by_cases hw : q / 3 = w
  · have hn : w < n := by omega
    have z : ∀ j, j < 3 → st.disp_proj (3 * w + j) = 0 := by
      intro j hj
      have e : (3 * w + j) / 3 = w := by omega
      exact h (3 * w + j) (by omega) (by rw [e, ← hw]; exact hne)
    have key : ∀ (x y z : cs_real_t), x.isReal = true → y.isReal = true → z.isReal = true →
        x * 0 + y * 0 + z * 0 = (0 : cs_real_t) := by
      intro x y z hx hy hz
      obtain ⟨a, rfl⟩ := cs_real_t.eq_real_of_isReal hx
      obtain ⟨b, rfl⟩ := cs_real_t.eq_real_of_isReal hy
      obtain ⟨c, rfl⟩ := cs_real_t.eq_real_of_isReal hz
      simp [cs_real_t.zero_eq]
    have r0 : proj_sliding_vtx p.clbale f w st.disp_proj (3 * w + 0) = 0 := by
      rw [h0, z 0 (by omega), z 1 (by omega), z 2 (by omega)]
      exact key _ _ _ (hb _) (hb _) (hb _)
    have r1 : proj_sliding_vtx p.clbale f w st.disp_proj (3 * w + 1) = 0 := by
      rw [h1, r0, z 1 (by omega), z 2 (by omega)]
      exact key _ _ _ (hb _) (hb _) (hb _)
    have r2 : proj_sliding_vtx p.clbale f w st.disp_proj (3 * w + 2) = 0 := by
      rw [h2, r0, r1, z 2 (by omega)]
      exact key _ _ _ (hb _) (hb _) (hb _)
    have hq3 : q = 3 * w + 0 ∨ q = 3 * w + 1 ∨ q = 3 * w + 2 := by omega
    rcases hq3 with e | e | e <;> rw [e]
    · exact r0
    · exact r1
    · exact r2
  · rw [hother q hw]
    exact h q hq hne

/-- With zero velocity data on a mesh of dimension 3, what a partition has
accumulated satisfies the invariant. -/
theorem zero_inv_local (p : proj_args) (heap : proj_acc) (hz : proj_zero_velocity p)
    (hr : proj_real_inputs p) (hdim : p.m.dim = 3) :
    zero_inv p.m.n_vertices (proj_local p heap) := by
  have hinit : zero_inv p.m.n_vertices (proj_init p heap) := by
    intro q hq _
    rw [(proj_init_spec p heap hdim).2.2 q, if_pos hq]
  have htag : zero_inv p.m.n_vertices (proj_tag p (proj_init p heap)) := by
    unfold proj_tag
    refine forLoop_keep _ _ _ _ hinit ?_
    intro f _ st hst
    split
    · exact forRange_keep _ _ _ _ _ hst (fun j _ _ st2 h2 => h2)
    · exact hst
  have hint : zero_inv p.m.n_vertices (proj_interior p (proj_tag p (proj_init p heap))) := by
    unfold proj_interior
    refine forLoop_keep _ _ _ _ htag ?_
    intro f _ st hst
    simp only []
    split
    · exact forRange_keep _ _ _ _ _ hst
        (fun j _ _ st2 h2 => zero_inv_interior_vtx p hz hr _ _ _ _ _ _ st2 h2)
    · exact hst
  have hbnd : zero_inv p.m.n_vertices (proj_accumulate p heap) := by
    unfold proj_accumulate proj_boundary
    refine forLoop_keep _ _ _ _ hint ?_
    intro f _ st hst
    exact forRange_keep _ _ _ _ _ hst
      (fun j _ _ st2 h2 => zero_inv_boundary_vtx p hz hr _ _ _ _ st2 h2)
  unfold proj_local proj_sliding
  refine forLoop_keep _ _ _ _ hbnd ?_
  intro f _ st hst
  split
  · exact forRange_keep _ _ _ _ _ hst
      (fun j _ _ st2 h2 => zero_inv_sliding_vtx p hr _ _ _ st2 h2)
  · exact hst

/-- A sum of contributions that is defined has a defined start and defined
contributions. -/
theorem foldl_add_ne_nan {α : Type} (g : α → cs_real_t) (l : List α) (x : cs_real_t)
    (h : l.foldl (fun acc c => acc + g c) x ≠ cs_real_t.nan) :
    x ≠ cs_real_t.nan ∧ ∀ c ∈ l, g c ≠ cs_real_t.nan := by
  induction l generalizing x with
  | nil => exact ⟨h, fun c hc => absurd hc (List.not_mem_nil c)⟩
  | cons a l ih =>
    obtain ⟨h1, h2⟩ := ih (x + g a) h
    obtain ⟨h3, h4⟩ := cs_real_t.add_ne_nan h1
    refine ⟨h3, fun c hc => ?_⟩
    rcases List.mem_cons.mp hc with e | e
    · rw [e]; exact h4
    · exact h2 c e

/-- A sum of zero contributions from zero is zero. -/
theorem foldl_add_zero {α : Type} (g : α → cs_real_t) (l : List α)
    (h : ∀ c ∈ l, g c = 0) : l.foldl (fun acc c => acc + g c) 0 = 0 := by
  induction l with
  | nil => rfl
  | cons a l ih =>
    rw [List.foldl_cons, h a (List.mem_cons_self a l)]
    have : (0 : cs_real_t) + 0 = 0 := by simp [cs_real_t.zero_eq]
    rw [this]
    exact ih (fun c hc => h c (List.mem_cons_of_mem a hc))

/-- The normalization loop, for a mesh of dimension 3. -/
theorem proj_normalize_spec (m : cs_mesh_t) (st : proj_acc) (hdim : m.dim = 3) (q : Nat) :
    proj_normalize m st q
      = if q / 3 < m.n_vertices then st.disp_proj q / st.vtx_counter (q / 3)
        else st.disp_proj q := by
  unfold proj_normalize
  rw [hdim]
  exact vtx_block_loop m.n_vertices (fun v _ x => x / st.vtx_counter v) st.disp_proj q

/-- With zero velocity data on every partition, the reduced accumulated
displacement of a vertex is zero where its reduced weight is defined. -/
theorem zero_inv_reduce (world : Nat → proj_args) (heaps : Nat → proj_acc) (rank : Nat)
    (hz : ∀ r, proj_zero_velocity (world r)) (hr : ∀ r, proj_real_inputs (world r))
    (hdim : ∀ r, (world r).m.dim = 3) (hcp : copies_in_range world rank) :
    zero_inv (world rank).m.n_vertices
      (proj_reduce (world rank).m (fun r => proj_local (world r) (heaps r))
        (proj_local (world rank) (heaps rank))) := by
  have hloc := fun r => zero_inv_local (world r) (heaps r) (hz r) (hr r) (hdim r)
  unfold proj_reduce
  cases hi : (world rank).m.vtx_interfaces with
  | none => exact hloc rank
  | some ifs =>
    intro q hq hne
    simp only [cs_interface_set_sum] at hne ⊢
    have e1 : q / 3 / 1 = q / 3 := Nat.div_one _
    rw [e1] at hne
    obtain ⟨h1, h2⟩ := foldl_add_ne_nan _ _ _ hne
    rw [hloc rank q hq h1]
    apply foldl_add_zero
    intro c hc
    have hc2 := h2 c hc
    have e2 : 1 * c.2 + q / 3 % 1 = c.2 := by omega
    rw [e2] at hc2
    have e3 : (3 * c.2 + q % 3) / 3 = c.2 := by omega
    exact hloc c.1 (3 * c.2 + q % 3) (by rw [e3]; exact hcp ifs hi (q / 3) c hc)
      (by rw [e3]; exact hc2)

/-- C7 (amended): if on every partition the mesh velocity, its gradient and
the boundary coefficient `claale` are zero (the other data being real
numbers, the meshes of dimension 3), then `cs_ale_project_displacement`
returns a zero displacement increment at every vertex whose weight
accumulator is a non-zero real number, for any `clbale`, time steps and
boundary types. -/
theorem project_zero_velocity (world : Nat → proj_args) (heaps : Nat → proj_acc) (rank : Nat)
    (hz : ∀ r, proj_zero_velocity (world r)) (hr : ∀ r, proj_real_inputs (world r))
    (hdim : ∀ r, (world r).m.dim = 3) (hcp : copies_in_range world rank)
    (v i : Nat) (hv : v < (world rank).m.n_vertices) (hi : i < 3) (w : ℚ) (hw0 : w ≠ 0)
    (hw : proj_weight (fun r => proj_local (world r) (heaps r)) (world rank) (heaps rank) v
      = cs_real_t.real w) :
    cs_ale_project_displacement_spmd world heaps rank (3 * v + i) = 0 := by
  unfold cs_ale_project_displacement_spmd cs_ale_project_displacement
  have e : (3 * v + i) / 3 = v := by omega
  rw [proj_normalize_spec _ _ (hdim rank), e, if_pos hv]
  unfold proj_weight at hw
  have hzero := zero_inv_reduce world heaps rank hz hr hdim hcp (3 * v + i) (by rw [e]; exact hv)
    (by rw [e, hw]; exact fun h => cs_real_t.noConfusion h)
  rw [hzero, hw]
  simp [cs_real_t.zero_eq, cs_real_t.real_div_real, hw0]

/-- Evaluation of the amended C7 on the one-tetrahedron mesh with fixed
boundary faces: vertex `O` has weight `2 + 1 + 1 = 4` and zero displacement. -/
theorem project_zero_velocity_witness :
    proj_weight (fun _ => proj_local (tet_zero_args cs_ale_bc_t.CS_ALE_FIXED) tet_heap.proj)
      (tet_zero_args cs_ale_bc_t.CS_ALE_FIXED) tet_heap.proj 0 = cs_real_t.real 4 ∧
    cs_ale_project_displacement_spmd (fun _ => tet_zero_args cs_ale_bc_t.CS_ALE_FIXED)
      (fun _ => tet_heap.proj) 0 (3 * 0 + 2) = 0 :=
  ⟨by decide!,
   project_zero_velocity (fun _ => tet_zero_args cs_ale_bc_t.CS_ALE_FIXED)
     (fun _ => tet_heap.proj) 0
     (fun _ => ⟨fun _ => rfl, fun _ => rfl, fun _ => rfl⟩)
     (fun _ => ⟨fun _ => rfl, fun _ => rfl, fun _ => rfl, fun _ => rfl, fun _ => rfl,
       fun _ => rfl, fun _ => rfl, fun _ => rfl⟩)
     (fun _ => rfl) (fun ifs h => by cases h) 0 2 (by decide) (by decide) 4 (by norm_num)
     (by decide!)⟩

/-- C7 (counterexample): on the one-tetrahedron mesh with four sliding
boundary faces and zero velocity data, no face contributes to vertex `O`, its
weight is zero and the returned value is undefined, not zero. -/
theorem project_zero_velocity_undefined :
    proj_zero_velocity (tet_zero_args cs_ale_bc_t.CS_ALE_SLIDING) ∧
    proj_weight (fun _ => tet_heap.proj) (tet_zero_args cs_ale_bc_t.CS_ALE_SLIDING)
      tet_heap.proj 0 = 0 ∧
    cs_ale_project_displacement (fun _ => tet_heap.proj)
      (tet_zero_args cs_ale_bc_t.CS_ALE_SLIDING) tet_heap.proj (3 * 0 + 0) = cs_real_t.nan ∧
    cs_ale_project_displacement (fun _ => tet_heap.proj)
      (tet_zero_args cs_ale_bc_t.CS_ALE_SLIDING) tet_heap.proj (3 * 0 + 0) ≠ 0 :=
  ⟨⟨fun _ => rfl, fun _ => rfl, fun _ => rfl⟩, by decide!, by decide!, by decide!⟩

/-! ## Dirichlet vertices -/

/-- The tagging loop writes the indicator only, and tags as boundary every
vertex of a boundary face that is not sliding. -/
theorem proj_tag_spec (p : proj_args) (st : proj_acc) (v : Nat) :
    (proj_tag p st).disp_proj = st.disp_proj ∧
    (proj_tag p st).vtx_counter = st.vtx_counter ∧
    ((∃ f, f < p.m.n_b_faces ∧ p.ale_bc_type f ≠ cs_ale_bc_t.CS_ALE_SLIDING ∧
        b_face_has_vtx p.m f v) → (proj_tag p st).vtx_interior_indicator v = false) := by
  unfold proj_tag
  have key := forLoop_inv
    (fun k s => s.disp_proj = st.disp_proj ∧ s.vtx_counter = st.vtx_counter ∧
      ((∃ f, f < k ∧ p.ale_bc_type f ≠ cs_ale_bc_t.CS_ALE_SLIDING ∧ b_face_has_vtx p.m f v) →
        s.vtx_interior_indicator v = false))
    p.m.n_b_faces
    (fun face_id st1 =>
      if p.ale_bc_type face_id ≠ cs_ale_bc_t.CS_ALE_SLIDING then
        forRange (p.m.b_face_vtx_idx face_id) (p.m.b_face_vtx_idx (face_id + 1)) (fun j st2 =>
          let vtx_id := p.m.b_face_vtx_lst j
          { st2 with vtx_interior_indicator := setAt st2.vtx_interior_indicator vtx_id false })
          st1
      else st1) st
    ⟨rfl, rfl, fun ⟨f, hf, _⟩ => absurd hf (Nat.not_lt_zero f)⟩
    (by
      intro k _ s ⟨hd, hc, hind⟩
      by_cases hs : p.ale_bc_type k ≠ cs_ale_bc_t.CS_ALE_SLIDING
      · beta_reduce
        rw [if_pos hs]
        have inner := forRange_inv
          (fun j s2 => s2.disp_proj = st.disp_proj ∧ s2.vtx_counter = st.vtx_counter ∧
            (((∃ f, f < k ∧ p.ale_bc_type f ≠ cs_ale_bc_t.CS_ALE_SLIDING ∧
                b_face_has_vtx p.m f v) ∨
              (∃ j', p.m.b_face_vtx_idx k ≤ j' ∧ j' < j ∧ p.m.b_face_vtx_lst j' = v)) →
              s2.vtx_interior_indicator v = false))
          (p.m.b_face_vtx_idx k) (p.m.b_face_vtx_idx (k + 1))
          (fun j st2 =>
            let vtx_id := p.m.b_face_vtx_lst j
            { st2 with vtx_interior_indicator := setAt st2.vtx_interior_indicator vtx_id false })
          s
          ⟨hd, hc, fun h => by
            rcases h with h | ⟨j', h1, h2, _⟩
            · exact hind h
            · omega⟩
          (by
            intro j _ _ s2 ⟨hd2, hc2, hi2⟩
            refine ⟨hd2, hc2, fun h => ?_⟩
            show setAt s2.vtx_interior_indicator (p.m.b_face_vtx_lst j) false v = false
            by_cases hv : v = p.m.b_face_vtx_lst j
            · rw [hv]; exact setAt_same _ _ _
            · rw [setAt_other _ _ _ _ hv]
              apply hi2
              rcases h with h | ⟨j', h1, h2, h3⟩
              · exact Or.inl h
              · refine Or.inr ⟨j', h1, ?_, h3⟩
                rcases Nat.lt_succ_iff_lt_or_eq.mp h2 with h4 | h4
                · exact h4
                · exact absurd (h4 ▸ h3).symm hv)
        obtain ⟨i1, i2, i3⟩ := inner
        refine ⟨i1, i2, fun ⟨f, hf, hns, hhas⟩ => ?_⟩
        apply i3
        rcases Nat.lt_succ_iff_lt_or_eq.mp hf with h | h
        · exact Or.inl ⟨f, h, hns, hhas⟩
        · subst h
          obtain ⟨k', hk', hl⟩ := hhas
          exact Or.inr ⟨p.m.b_face_vtx_idx f + k', Nat.le_add_right _ _, by omega, hl⟩
      · beta_reduce
        rw [if_neg hs]
        refine ⟨hd, hc, fun ⟨f, hf, hns, hhas⟩ => ?_⟩
        rcases Nat.lt_succ_iff_lt_or_eq.mp hf with h | h
        · exact hind ⟨f, h, hns, hhas⟩
        · subst h; exact absurd hns hs)
  exact key

/-- The interior faces leave the indicator as it is, and the weight and the
accumulated displacement of a boundary vertex as they are. -/
theorem proj_interior_boundary_vtx (p : proj_args) (st : proj_acc) (v : Nat)
    (hv : st.vtx_interior_indicator v = false) :
    (proj_interior p st).vtx_interior_indicator v = false ∧
    (proj_interior p st).vtx_counter v = st.vtx_counter v ∧
    ∀ q, q / 3 = v → (proj_interior p st).disp_proj q = st.disp_proj q := by
  unfold proj_interior
  refine forLoop_keep
    (fun s : proj_acc => s.vtx_interior_indicator v = false ∧ s.vtx_counter v = st.vtx_counter v ∧
      ∀ q, q / 3 = v → s.disp_proj q = st.disp_proj q) _ _ st ⟨hv, rfl, fun _ _ => rfl⟩ ?_
  intro f _ s hs
  simp only []
  split
  · refine forRange_keep
      (fun s : proj_acc => s.vtx_interior_indicator v = false ∧ s.vtx_counter v = st.vtx_counter v ∧
        ∀ q, q / 3 = v → s.disp_proj q = st.disp_proj q) _ _ _ _ hs ?_
    intro j _ _ s2 ⟨h1, h2, h3⟩
    obtain ⟨e1, e2, e3⟩ := proj_interior_vtx_spec p (p.m.i_face_cells (2 * f + 0))
      (p.m.i_face_cells (2 * f + 1)) (1 / p.mq.cell_vol (p.m.i_face_cells (2 * f + 0)))
      (1 / p.mq.cell_vol (p.m.i_face_cells (2 * f + 1))) (p.m.i_face_vtx_lst j) s2
    refine ⟨by rw [e1]; exact h1, ?_, fun q hq => ?_⟩
    · rw [e2]
      have : ¬ (s2.vtx_interior_indicator (p.m.i_face_vtx_lst j) = true ∧
          v = p.m.i_face_vtx_lst j) := by
        rintro ⟨a, b⟩
        rw [← b, h1] at a
        exact Bool.noConfusion a
      rw [if_neg this]; exact h2
    · rw [e3]
      have : ¬ (s2.vtx_interior_indicator (p.m.i_face_vtx_lst j) = true ∧
          q / 3 = p.m.i_face_vtx_lst j) := by
        rintro ⟨a, b⟩
        rw [← b, hq, h1] at a
        exact Bool.noConfusion a
      rw [if_neg this]; exact h3 q hq
  · exact hs

/-- The sliding faces leave the weights as they are, and the accumulated
displacement of a vertex on no sliding face as it is. -/
theorem proj_sliding_other_vtx (p : proj_args) (st : proj_acc) (v : Nat)
    (hv : ∀ f, f < p.m.n_b_faces → b_face_has_vtx p.m f v →
      p.ale_bc_type f ≠ cs_ale_bc_t.CS_ALE_SLIDING) :
    (proj_sliding p st).vtx_counter = st.vtx_counter ∧
    ∀ q, q / 3 = v → (proj_sliding p st).disp_proj q = st.disp_proj q := by
  unfold proj_sliding
  refine forLoop_keep
    (fun s : proj_acc => s.vtx_counter = st.vtx_counter ∧
      ∀ q, q / 3 = v → s.disp_proj q = st.disp_proj q) _ _ st ⟨rfl, fun _ _ => rfl⟩ ?_
  intro f hf s hs
  split
  · rename_i hsl
    refine forRange_keep
      (fun s : proj_acc => s.vtx_counter = st.vtx_counter ∧
        ∀ q, q / 3 = v → s.disp_proj q = st.disp_proj q) _ _ _ _ hs ?_
    intro j hj1 hj2 s2 ⟨h1, h2⟩
    refine ⟨h1, fun q hq => ?_⟩
    show proj_sliding_vtx p.clbale f (p.m.b_face_vtx_lst j) s2.disp_proj q = _
    have hne : q / 3 ≠ p.m.b_face_vtx_lst j := by
      intro e
      have e2 : p.m.b_face_vtx_idx f + (j - p.m.b_face_vtx_idx f) = j := by omega
      exact hv f hf ⟨j - p.m.b_face_vtx_idx f, by omega, by rw [e2, ← e, hq]⟩ hsl
    rw [(proj_sliding_vtx_spec p.clbale f _ s2.disp_proj).1 q hne]
    exact h2 q hq
  · exact hs

/-- What a Dirichlet boundary face with zero gradient in its cell adds at
one of its vertices: the inverse surface times `dt * u`. -/
theorem dirichlet_boundary_term (p : proj_args) (hr : proj_real_inputs p) (u : Nat → ℚ)
    (dt s : ℚ) (f w i : Nat) (hi : i < 3) (hs : 0 < s)
    (hsurf : p.mq.b_face_surf f = cs_real_t.real s)
    (ha : ∀ i, i < 3 → p.claale (3 * f + i) = cs_real_t.real (u i))
    (hb : ∀ i j, i < 3 → j < 3 → p.clbale (9 * f + 3 * i + j) = 0)
    (hdt : p.dt (p.m.b_face_cells f) = cs_real_t.real dt)
    (hg : ∀ i j, i < 3 → j < 3 → p.gradm (9 * p.m.b_face_cells f + 3 * i + j) = 0) :
    proj_boundary_term p f (p.m.b_face_cells f) w i = cs_real_t.real (1 / s * (dt * u i)) := by
  obtain ⟨hx, -, hc, hm, -, -, -, -⟩ := hr
  obtain ⟨x0, e0⟩ := cs_real_t.eq_real_of_isReal (hx (3 * w + 0))
  obtain ⟨x1, e1⟩ := cs_real_t.eq_real_of_isReal (hx (3 * w + 1))
  obtain ⟨x2, e2⟩ := cs_real_t.eq_real_of_isReal (hx (3 * w + 2))
  obtain ⟨y0, f0⟩ := cs_real_t.eq_real_of_isReal (hc (3 * f + 0))
  obtain ⟨y1, f1⟩ := cs_real_t.eq_real_of_isReal (hc (3 * f + 1))
  obtain ⟨y2, f2⟩ := cs_real_t.eq_real_of_isReal (hc (3 * f + 2))
  obtain ⟨m0, g0⟩ := cs_real_t.eq_real_of_isReal (hm (3 * p.m.b_face_cells f + 0))
  obtain ⟨m1, g1⟩ := cs_real_t.eq_real_of_isReal (hm (3 * p.m.b_face_cells f + 1))
  obtain ⟨m2, g2⟩ := cs_real_t.eq_real_of_isReal (hm (3 * p.m.b_face_cells f + 2))
  have hs0 : s ≠ 0 := ne_of_gt hs
  simp only [proj_boundary_term, hsurf, ha i hi, hb i 0 hi (by omega), hb i 1 hi (by omega),
    hb i 2 hi (by omega), hg i 0 hi (by omega), hg i 1 hi (by omega), hg i 2 hi (by omega),
    hdt, e0, e1, e2, f0, f1, f2, g0, g1, g2, cs_real_t.zero_eq, cs_real_t.one_eq,
    cs_real_t.real_div_real, if_neg hs0, cs_real_t.real_add_real, cs_real_t.real_sub_real,
    cs_real_t.real_mul_real]
  congr 1
  ring

theorem dirichlet_inv_mono (u : Nat → ℚ) (dt : ℚ) (v : Nat) (t1 t2 : Prop) (st : proj_acc)
    (h : dirichlet_inv u dt v t1 st) (ht : t2 → t1) : dirichlet_inv u dt v t2 st := by
  obtain ⟨h1, c, h2, h3, h4, h5⟩ := h
  exact ⟨h1, c, h2, h3, h4, fun t => h5 (ht t)⟩

/-- One boundary-face step keeps the invariant of a Dirichlet vertex, and
the vertex is touched when the step is at that vertex. -/
theorem dirichlet_inv_boundary_vtx (p : proj_args) (hr : proj_real_inputs p) (u : Nat → ℚ)
    (dt : ℚ) (v f w : Nat) (touched : Prop) (st : proj_acc)
    (hface : w = v →
      (∃ s : ℚ, 0 < s ∧ p.mq.b_face_surf f = cs_real_t.real s) ∧
      (∀ i, i < 3 → p.claale (3 * f + i) = cs_real_t.real (u i)) ∧
      (∀ i j, i < 3 → j < 3 → p.clbale (9 * f + 3 * i + j) = 0) ∧
      p.dt (p.m.b_face_cells f) = cs_real_t.real dt ∧
      (∀ i j, i < 3 → j < 3 → p.gradm (9 * p.m.b_face_cells f + 3 * i + j) = 0))
    (h : dirichlet_inv u dt v touched st) :
    dirichlet_inv u dt v (touched ∨ w = v) (proj_boundary_vtx p f (p.m.b_face_cells f) w st) := by
  obtain ⟨h1, c, h2, h3, h4, h5⟩ := h
  obtain ⟨e1, e2, e3⟩ := proj_boundary_vtx_spec p f (p.m.b_face_cells f) w st
  by_cases hw : w = v
  · obtain ⟨⟨s, hs, hsurf⟩, ha, hb, hdt, hg⟩ := hface hw
    have hs0 : s ≠ 0 := ne_of_gt hs
    have hpos : 0 < 1 / s := one_div_pos.mpr hs
    refine ⟨by rw [e1]; exact h1, c + 1 / s, by linarith, ?_, ?_, fun _ => by linarith⟩
    · rw [e2, if_pos ⟨by rw [hw]; exact h1, hw.symm⟩, hw, h3, hsurf]
      simp [cs_real_t.one_eq, cs_real_t.real_div_real, hs0]
    · intro i hi
      have ed : (3 * v + i) / 3 = w := by omega
      have em : (3 * v + i) % 3 = i := by omega
      rw [e3, if_pos ⟨by rw [hw]; exact h1, ed⟩, em, h4 i hi,
        dirichlet_boundary_term p hr u dt s f w i hi hs hsurf ha hb hdt hg]
      simp only [cs_real_t.real_add_real]
      congr 1
      ring
  · refine ⟨by rw [e1]; exact h1, c, h2, ?_, ?_, fun t => ?_⟩
    · rw [e2, if_neg (fun hh => hw hh.2.symm)]; exact h3
    · intro i hi
      have ed : (3 * v + i) / 3 ≠ w := by omega
      rw [e3, if_neg (fun hh => ed hh.2)]; exact h4 i hi
    · rcases t with t | t
      · exact h5 t
      · exact absurd t hw

/-- On a mesh of dimension 3, what a partition has accumulated at a Dirichlet
vertex: a positive weight `c` and the displacement `c * (dt * u)`. -/
theorem dirichlet_local (p : proj_args) (heap : proj_acc) (hr : proj_real_inputs p)
    (hdim : p.m.dim = 3) (u : Nat → ℚ) (dt : ℚ) (v : Nat) (hv : v < p.m.n_vertices)
    (hd : dirichlet_vertex p u dt v) :
    ∃ c : ℚ, 0 < c ∧ (proj_local p heap).vtx_counter v = cs_real_t.real c ∧
      ∀ i, i < 3 → (proj_local p heap).disp_proj (3 * v + i) = cs_real_t.real (c * (dt * u i)) := by
  obtain ⟨⟨f0, hf0, hhas0⟩, hall⟩ := hd
  obtain ⟨i1, -, i3⟩ := proj_init_spec p heap hdim
  obtain ⟨t1, t2, t3⟩ := proj_tag_spec p (proj_init p heap) v
  have tind := t3 ⟨f0, hf0, (hall f0 hf0 hhas0).1, hhas0⟩
  obtain ⟨n1, n2, n3⟩ := proj_interior_boundary_vtx p (proj_tag p (proj_init p heap)) v tind
  -- state before the boundary faces
  have hstart : dirichlet_inv u dt v False (proj_interior p (proj_tag p (proj_init p heap))) := by
    refine ⟨n1, 0, le_refl 0, ?_, ?_, fun h => h.elim⟩
    · rw [n2, t2, i1 v, if_pos hv]; rfl
    · intro i hi
      have e : (3 * v + i) / 3 = v := by omega
      rw [n3 _ e, t1, i3, e, if_pos hv]
      simp [cs_real_t.zero_eq]
  -- the boundary faces
  have hbnd : dirichlet_inv u dt v (∃ f, f < p.m.n_b_faces ∧ b_face_has_vtx p.m f v)
      (proj_accumulate p heap) := by
    unfold proj_accumulate proj_boundary
    refine forLoop_inv
      (fun k st => dirichlet_inv u dt v (∃ f, f < k ∧ b_face_has_vtx p.m f v) st) _ _ _
      (dirichlet_inv_mono u dt v _ _ _ hstart (fun ⟨f, hf, _⟩ => absurd hf (Nat.not_lt_zero f)))
      ?_
    intro k hk st hst
    have inner := forRange_inv
      (fun j st2 => dirichlet_inv u dt v
        ((∃ f, f < k ∧ b_face_has_vtx p.m f v) ∨
          ∃ j', p.m.b_face_vtx_idx k ≤ j' ∧ j' < j ∧ p.m.b_face_vtx_lst j' = v) st2)
      (p.m.b_face_vtx_idx k) (p.m.b_face_vtx_idx (k + 1))
      (fun j st2 => proj_boundary_vtx p k (p.m.b_face_cells k) (p.m.b_face_vtx_lst j) st2) st
      (dirichlet_inv_mono u dt v _ _ _ hst (by
        rintro (h | ⟨j', a, b, _⟩)
        · exact h
        · omega))
      (by
        intro j hj1 hj2 st2 h2
        have hface : p.m.b_face_vtx_lst j = v → _ := fun e =>
          (hall k hk ⟨j - p.m.b_face_vtx_idx k, by omega, by
            rw [show p.m.b_face_vtx_idx k + (j - p.m.b_face_vtx_idx k) = j by omega]
            exact e⟩).2
        refine dirichlet_inv_mono u dt v _ _ _
          (dirichlet_inv_boundary_vtx p hr u dt v k _ _ st2 hface h2) ?_
        rintro (h | ⟨j', a, b, c⟩)
        · exact Or.inl (Or.inl h)
        · rcases Nat.lt_succ_iff_lt_or_eq.mp b with b' | b'
          · exact Or.inl (Or.inr ⟨j', a, b', c⟩)
          · exact Or.inr (b' ▸ c))
    refine dirichlet_inv_mono u dt v _ _ _ inner ?_
    rintro ⟨f, hf, hhas⟩
    rcases Nat.lt_succ_iff_lt_or_eq.mp hf with h | h
    · exact Or.inl ⟨f, h, hhas⟩
    · subst h
      obtain ⟨k', hk', hl⟩ := hhas
      exact Or.inr ⟨p.m.b_face_vtx_idx f + k', Nat.le_add_right _ _, by omega, hl⟩
  -- the sliding faces
  obtain ⟨s1, s2⟩ := proj_sliding_other_vtx p (proj_accumulate p heap) v
    (fun f hf hhas => (hall f hf hhas).1)
  obtain ⟨-, c, -, h3, h4, h5⟩ := hbnd
  refine ⟨c, h5 ⟨f0, hf0, hhas0⟩, ?_, fun i hi => ?_⟩
  · unfold proj_local; rw [s1]; exact h3
  · unfold proj_local
    rw [s2 _ (by omega)]; exact h4 i hi

/-- Summing weights `c` and displacements `c * k` over the copies of a
vertex gives a positive weight `C` and the displacement `C * k`. -/
theorem foldl_add_weighted {α : Type} (gc gd : α → cs_real_t) (k : ℚ) (l : List α)
    (c0 : ℚ) (h0 : 0 < c0)
    (h : ∀ a ∈ l, ∃ c : ℚ, 0 < c ∧ gc a = cs_real_t.real c ∧ gd a = cs_real_t.real (c * k)) :
    ∃ C : ℚ, 0 < C ∧
      l.foldl (fun acc a => acc + gc a) (cs_real_t.real c0) = cs_real_t.real C ∧
      l.foldl (fun acc a => acc + gd a) (cs_real_t.real (c0 * k)) = cs_real_t.real (C * k) := by
  induction l generalizing c0 with
  | nil => exact ⟨c0, h0, rfl, rfl⟩
  | cons a l ih =>
    obtain ⟨c, hc, e1, e2⟩ := h a (List.mem_cons_self a l)
    obtain ⟨C, hC, f1, f2⟩ := ih (c0 + c) (by linarith)
      (fun b hb => h b (List.mem_cons_of_mem a hb))
    refine ⟨C, hC, ?_, ?_⟩
    · rw [List.foldl_cons, e1, cs_real_t.real_add_real]; exact f1
    · rw [List.foldl_cons, e2, cs_real_t.real_add_real, ← add_mul]; exact f2

/-- C8 (amended): for every vertex that lies on a boundary face and all of
whose incident boundary faces, on every partition holding a copy of it, are
non-sliding Dirichlet faces of positive surface with the same prescribed
velocity `u` (`claale = u`, `clbale = 0`) and whose adjacent cells share one
time step `dt` and have zero velocity gradient, `cs_ale_project_displacement`
returns exactly `u * dt` at that vertex, whatever the cell velocities. -/
theorem project_dirichlet_vertex (world : Nat → proj_args) (heaps : Nat → proj_acc)
    (rank : Nat) (u : Nat → ℚ) (dt : ℚ)
    (hr : ∀ r, proj_real_inputs (world r)) (hdim : ∀ r, (world r).m.dim = 3)
    (v : Nat) (hv : v < (world rank).m.n_vertices)
    (hd : dirichlet_vertex (world rank) u dt v)
    (hcp : ∀ ifs, (world rank).m.vtx_interfaces = some ifs → ∀ c ∈ ifs.copies v,
      c.2 < (world c.1).m.n_vertices ∧ dirichlet_vertex (world c.1) u dt c.2)
    (i : Nat) (hi : i < 3) :
    cs_ale_project_displacement_spmd world heaps rank (3 * v + i) = cs_real_t.real (u i * dt) := by
  unfold cs_ale_project_displacement_spmd cs_ale_project_displacement
  have e : (3 * v + i) / 3 = v := by omega
  have em : (3 * v + i) % 3 = i := by omega
  rw [proj_normalize_spec _ _ (hdim rank), e, if_pos hv]
  obtain ⟨c0, hc0, l1, l2⟩ :=
    dirichlet_local (world rank) (heaps rank) (hr rank) (hdim rank) u dt v hv hd
  have fin : ∀ C : ℚ, 0 < C →
      (cs_real_t.real (C * (dt * u i)) / cs_real_t.real C : cs_real_t)
        = cs_real_t.real (u i * dt) := by
    intro C hC
    have hC0 : C ≠ 0 := ne_of_gt hC
    rw [cs_real_t.real_div_real, if_neg hC0]
    congr 1
    field_simp
    ring
  unfold proj_reduce
  cases hitf : (world rank).m.vtx_interfaces with
  | none =>
    simp only []
    rw [l1, l2 i hi]
    exact fin c0 hc0
  | some ifs =>
    simp only [cs_interface_set_sum]
    rw [e, em, Nat.div_one, l1, l2 i hi]
    have hpeers : ∀ a ∈ ifs.copies v, ∃ c : ℚ, 0 < c ∧
        (proj_local (world a.1) (heaps a.1)).vtx_counter (1 * a.2 + v % 1) = cs_real_t.real c ∧
        (proj_local (world a.1) (heaps a.1)).disp_proj (3 * a.2 + i)
          = cs_real_t.real (c * (dt * u i)) := by
      intro a ha
      obtain ⟨hlt, hda⟩ := hcp ifs hitf a ha
      obtain ⟨c, hc, p1, p2⟩ :=
        dirichlet_local (world a.1) (heaps a.1) (hr a.1) (hdim a.1) u dt a.2 hlt hda
      have e2 : 1 * a.2 + v % 1 = a.2 := by omega
      exact ⟨c, hc, by rw [e2]; exact p1, p2 i hi⟩
    obtain ⟨C, hC, f1, f2⟩ := foldl_add_weighted
      (fun a => (proj_local (world a.1) (heaps a.1)).vtx_counter (1 * a.2 + v % 1))
      (fun a => (proj_local (world a.1) (heaps a.1)).disp_proj (3 * a.2 + i))
      (dt * u i) (ifs.copies v) c0 hc0 hpeers
    rw [f1, f2]
    exact fin C hC

/-- The vertex `O` of the one-tetrahedron mesh with Dirichlet faces is a
Dirichlet vertex for `u = (1,2,3)` and `dt = 1/10` when the gradient is zero. -/
theorem tet_dirichlet_vertex :
    dirichlet_vertex (tet_dirichlet_args (ofList [5, 6, 7]) zeros)
      (fun i => [1, 2, 3].getD i 0) (1/10) 0 := by
  refine ⟨⟨0, by decide, by decide⟩, ?_⟩
  intro f hf _
  have hf4 : f < 4 := hf
  refine ⟨by simp [tet_dirichlet_args], ?_, ?_, fun _ _ _ _ => rfl, rfl, fun _ _ _ _ => rfl⟩
  · interval_cases f
    · exact ⟨1/2, by norm_num, by decide!⟩
    · exact ⟨1, by norm_num, by decide!⟩
    · exact ⟨1, by norm_num, by decide!⟩
    · exact ⟨3/2, by norm_num, by decide!⟩
  · intro i hi
    interval_cases f <;> interval_cases i <;> decide!

/-- Evaluation of the amended C8 on the one-tetrahedron mesh: with the cell
velocity `(5,6,7)` and zero gradient the vertex `O` gets `u * dt`. -/
theorem project_dirichlet_vertex_witness :
    cs_ale_project_displacement_spmd
      (fun _ => tet_dirichlet_args (ofList [5, 6, 7]) zeros) (fun _ => tet_heap.proj) 0
      (3 * 0 + 2) = cs_real_t.real ((fun i => [1, 2, 3].getD i 0) 2 * (1/10)) :=
  project_dirichlet_vertex (fun _ => tet_dirichlet_args (ofList [5, 6, 7]) zeros)
    (fun _ => tet_heap.proj) 0 (fun i => [1, 2, 3].getD i 0) (1/10)
    (fun _ => ⟨fun _ => rfl, fun _ => rfl, fun _ => rfl, fun _ => rfl, fun _ => rfl,
      fun _ => rfl, fun _ => rfl, fun _ => rfl⟩)
    (fun _ => rfl) 0 (by decide) tet_dirichlet_vertex (fun ifs h => by cases h) 2 (by decide)

/-- C8 (counterexample): on the one-tetrahedron mesh every boundary face is a
non-sliding Dirichlet face with `claale = (1,2,3)`, `clbale = 0`, and the only
cell has time step 1/10; with the velocity gradient `du_x/dx = 1` in the cell
the value returned at vertex `O` is `3/40`, not `u_x * dt = 1/10`. -/
theorem project_dirichlet_vertex_gradient :
    (∀ f, f < 4 → (tet_dirichlet_args zeros (ofList [1])).ale_bc_type f
        ≠ cs_ale_bc_t.CS_ALE_SLIDING ∧
      (tet_dirichlet_args zeros (ofList [1])).claale (3 * f + 0) = cs_real_t.real 1 ∧
      (tet_dirichlet_args zeros (ofList [1])).clbale (9 * f + 3 * 0 + 0) = 0 ∧
      (tet_dirichlet_args zeros (ofList [1])).clbale (9 * f + 3 * 0 + 1) = 0 ∧
      (tet_dirichlet_args zeros (ofList [1])).clbale (9 * f + 3 * 0 + 2) = 0 ∧
      (tet_dirichlet_args zeros (ofList [1])).dt
        ((tet_dirichlet_args zeros (ofList [1])).m.b_face_cells f) = cs_real_t.real (1/10)) ∧
    cs_ale_project_displacement (fun _ => tet_heap.proj)
      (tet_dirichlet_args zeros (ofList [1])) tet_heap.proj (3 * 0 + 0) = cs_real_t.real (3/40) ∧
    cs_ale_project_displacement (fun _ => tet_heap.proj)
      (tet_dirichlet_args zeros (ofList [1])) tet_heap.proj (3 * 0 + 0)
        ≠ cs_real_t.real (1 * (1/10)) := by
  refine ⟨?_, by decide!, by decide!⟩
  intro f hf
  interval_cases f <;> decide!

/-! ## The sliding step -/

/-- C10 (evaluation at the failing input): on the one-tetrahedron mesh,
vertex `A` lies on the sliding face `ABC` only; before the sliding step its
accumulated vector is `d = (2,0,0)`, and the step leaves
`(10/9, -40/81, -100/729)`, whereas the product of the matrix `clbale[3]` with
`d` is `(10/9, -8/9, -4/9)`: the second and third components are computed
from components already overwritten. -/
theorem sliding_step_in_place :
    (∀ f, f < 4 → (b_face_has_vtx tet_mesh f 1 ∧
        tet_sliding_types f = cs_ale_bc_t.CS_ALE_SLIDING ↔ f = 3)) ∧
    ((proj_accumulate tet_sliding_args tet_heap.proj).disp_proj (3 * 1 + 0) = cs_real_t.real 2 ∧
     (proj_accumulate tet_sliding_args tet_heap.proj).disp_proj (3 * 1 + 1) = cs_real_t.real 0 ∧
     (proj_accumulate tet_sliding_args tet_heap.proj).disp_proj (3 * 1 + 2) = cs_real_t.real 0) ∧
    ((proj_local tet_sliding_args tet_heap.proj).disp_proj (3 * 1 + 0) = cs_real_t.real (10/9) ∧
     (proj_local tet_sliding_args tet_heap.proj).disp_proj (3 * 1 + 1) = cs_real_t.real (-40/81) ∧
     (proj_local tet_sliding_args tet_heap.proj).disp_proj (3 * 1 + 2)
       = cs_real_t.real (-100/729)) ∧
    (tet_sliding_args.clbale (9 * 3 + 3 * 1 + 0)
        * (proj_accumulate tet_sliding_args tet_heap.proj).disp_proj (3 * 1 + 0)
      + tet_sliding_args.clbale (9 * 3 + 3 * 1 + 1)
        * (proj_accumulate tet_sliding_args tet_heap.proj).disp_proj (3 * 1 + 1)
      + tet_sliding_args.clbale (9 * 3 + 3 * 1 + 2)
        * (proj_accumulate tet_sliding_args tet_heap.proj).disp_proj (3 * 1 + 2)
      = cs_real_t.real (-8/9) ∧
     tet_sliding_args.clbale (9 * 3 + 3 * 2 + 0)
        * (proj_accumulate tet_sliding_args tet_heap.proj).disp_proj (3 * 1 + 0)
      + tet_sliding_args.clbale (9 * 3 + 3 * 2 + 1)
        * (proj_accumulate tet_sliding_args tet_heap.proj).disp_proj (3 * 1 + 1)
      + tet_sliding_args.clbale (9 * 3 + 3 * 2 + 2)
        * (proj_accumulate tet_sliding_args tet_heap.proj).disp_proj (3 * 1 + 2)
      = cs_real_t.real (-4/9)) := by
  refine ⟨?_, ⟨by decide!, by decide!, by decide!⟩, ⟨by decide!, by decide!, by decide!⟩,
    ⟨by decide!, by decide!⟩⟩
  intro f hf
  interval_cases f <;> decide!

/-- C9 (evaluation at the failing input): on the one-tetrahedron mesh,
vertex `A` lies on exactly one sliding face, `ABC`, whose normal is
`n = (1,1,1/2)` and whose matrix `clbale[3]` is the tangential projector
`I - n n^T / (n.n)`; the displacement returned at `A` is
`(10/33, -40/297, -100/2673)`, and its normal component `d.n` is `400/2673`,
not zero. -/
theorem sliding_result_not_tangential :
    (∀ f, f < 4 → (b_face_has_vtx tet_mesh f 1 ∧
        tet_sliding_types f = cs_ale_bc_t.CS_ALE_SLIDING ↔ f = 3)) ∧
    (∀ i j, i < 3 → j < 3 →
      tet_sliding_args.clbale (9 * 3 + 3 * i + j)
        = (if i = j then 1 else 0)
          - tet_quantities.b_face_normal (3 * 3 + i) * tet_quantities.b_face_normal (3 * 3 + j)
            / cs_math_3_dot_product (fun k => tet_quantities.b_face_normal (3 * 3 + k))
                tet_quantities.b_face_normal 3) ∧
    proj_weight (fun _ => tet_heap.proj) tet_sliding_args tet_heap.proj 1
      = cs_real_t.real (11/3) ∧
    (cs_ale_project_displacement (fun _ => tet_heap.proj) tet_sliding_args tet_heap.proj
        (3 * 1 + 0) = cs_real_t.real (10/33) ∧
     cs_ale_project_displacement (fun _ => tet_heap.proj) tet_sliding_args tet_heap.proj
        (3 * 1 + 1) = cs_real_t.real (-40/297) ∧
     cs_ale_project_displacement (fun _ => tet_heap.proj) tet_sliding_args tet_heap.proj
        (3 * 1 + 2) = cs_real_t.real (-100/2673)) ∧
    cs_math_3_dot_product
      (fun k => cs_ale_project_displacement (fun _ => tet_heap.proj) tet_sliding_args
        tet_heap.proj (3 * 1 + k))
      tet_quantities.b_face_normal 3 = cs_real_t.real (400/2673) ∧
    cs_math_3_dot_product
      (fun k => cs_ale_project_displacement (fun _ => tet_heap.proj) tet_sliding_args
        tet_heap.proj (3 * 1 + k))
      tet_quantities.b_face_normal 3 ≠ 0 := by
  refine ⟨?_, ?_, by decide!, ⟨by decide!, by decide!, by decide!⟩, by decide!, by decide!⟩
  · intro f hf
    interval_cases f <;> decide!
  · intro i j hi hj
    interval_cases i <;> interval_cases j <;> decide!

/-! ## Accumulation loops as sums -/

theorem radd_assoc (a b c : cs_real_t) : a + b + c = a + (b + c) := by
  cases a <;> cases b <;> cases c <;> simp [add_assoc]

theorem radd_zero (a : cs_real_t) : a + 0 = a := by
  cases a <;> simp [cs_real_t.zero_eq]

theorem rzero_add (a : cs_real_t) : 0 + a = a := by
  cases a <;> simp [cs_real_t.zero_eq]

theorem sum_upto_succ (n : Nat) (f : Nat → cs_real_t) :
    sum_upto (n + 1) f = sum_upto n f + f n := rfl

theorem sum_upto_zero (f : Nat → cs_real_t) : sum_upto 0 f = 0 := rfl

theorem sum_upto_congr (n : Nat) (f g : Nat → cs_real_t) (h : ∀ k, k < n → f k = g k) :
    sum_upto n f = sum_upto n g := by
  induction n with
  | zero => rfl
  | succ n ih =>
    rw [sum_upto_succ, sum_upto_succ, ih (fun k hk => h k (Nat.lt_succ_of_lt hk)),
      h n (Nat.lt_succ_self n)]

theorem sum_upto_const_zero (n : Nat) : sum_upto n (fun _ => 0) = 0 := by
  induction n with
  | zero => rfl
  | succ n ih => rw [sum_upto_succ, ih, radd_zero]

/-- A condition that does not depend on the index can be moved inside a sum. -/
theorem sum_upto_ite (c : Prop) [Decidable c] (n : Nat) (f : Nat → cs_real_t) :
    (if c then sum_upto n f else 0) = sum_upto n (fun k => if c then f k else 0) := by
  by_cases h : c
  · simp [h]
  · simp only [h, if_false]
    exact (sum_upto_const_zero n).symm

/-- A loop whose body adds `inc k` to an observed value, as long as an
invariant holds, adds the sum of the `inc k`. -/
theorem forLoop_sum {σ : Type} (I : σ → Prop) (val : σ → cs_real_t) (n : Nat)
    (body : Nat → σ → σ) (inc : Nat → cs_real_t)
    (hstep : ∀ k, k < n → ∀ s, I s → I (body k s) ∧ val (body k s) = val s + inc k)
    (s : σ) (hs : I s) :
    I (forLoop n body s) ∧ val (forLoop n body s) = val s + sum_upto n inc := by
  induction n with
  | zero => exact ⟨hs, (radd_zero _).symm⟩
  | succ n ih =>
    obtain ⟨h1, h2⟩ := ih (fun k hk => hstep k (Nat.lt_succ_of_lt hk))
    obtain ⟨h3, h4⟩ := hstep n (Nat.lt_succ_self n) _ h1
    refine ⟨h3, ?_⟩
    show val (body n (forLoop n body s)) = _
    rw [h4, h2, sum_upto_succ, radd_assoc]

/-- The same for a loop over a range of positions. -/
theorem forRange_sum {σ : Type} (I : σ → Prop) (val : σ → cs_real_t) (lo hi : Nat)
    (body : Nat → σ → σ) (inc : Nat → cs_real_t)
    (hstep : ∀ j, lo ≤ j → j < hi → ∀ s, I s → I (body j s) ∧ val (body j s) = val s + inc j)
    (s : σ) (hs : I s) :
    I (forRange lo hi body s) ∧
      val (forRange lo hi body s) = val s + sum_upto (hi - lo) (fun k => inc (lo + k)) := by
  unfold forRange
  exact forLoop_sum I val (hi - lo) (fun k => body (lo + k)) (fun k => inc (lo + k))
    (fun k hk s h => hstep (lo + k) (Nat.le_add_right lo k) (by omega) s h) s hs

/-- The interior faces, seen from entry `q` of `disp_proj` and from the
weight of vertex `v`: they add the terms of the faces whose first cell is
owned, at the occurrences of an interior-tagged vertex. -/
theorem proj_interior_sum (p : proj_args) (st : proj_acc) :
    (proj_interior p st).vtx_interior_indicator = st.vtx_interior_indicator ∧
    (∀ q, (proj_interior p st).disp_proj q = st.disp_proj q +
      sum_upto p.m.n_i_faces (fun f =>
        sum_upto (p.m.i_face_vtx_idx (f + 1) - p.m.i_face_vtx_idx f) (fun k =>
          if p.m.i_face_cells (2 * f + 0) < p.m.n_cells ∧
              (st.vtx_interior_indicator (p.m.i_face_vtx_lst (p.m.i_face_vtx_idx f + k)) = true ∧
               q / 3 = p.m.i_face_vtx_lst (p.m.i_face_vtx_idx f + k)) then
            proj_interior_term p (p.m.i_face_cells (2 * f + 0)) (p.m.i_face_cells (2 * f + 1))
              (1 / p.mq.cell_vol (p.m.i_face_cells (2 * f + 0)))
              (1 / p.mq.cell_vol (p.m.i_face_cells (2 * f + 1)))
              (p.m.i_face_vtx_lst (p.m.i_face_vtx_idx f + k)) (q % 3)
          else 0))) ∧
    (∀ v, (proj_interior p st).vtx_counter v = st.vtx_counter v +
      sum_upto p.m.n_i_faces (fun f =>
        sum_upto (p.m.i_face_vtx_idx (f + 1) - p.m.i_face_vtx_idx f) (fun k =>
          if p.m.i_face_cells (2 * f + 0) < p.m.n_cells ∧
              (st.vtx_interior_indicator (p.m.i_face_vtx_lst (p.m.i_face_vtx_idx f + k)) = true ∧
               v = p.m.i_face_vtx_lst (p.m.i_face_vtx_idx f + k)) then
            1 / p.mq.cell_vol (p.m.i_face_cells (2 * f + 0))
              + 1 / p.mq.cell_vol (p.m.i_face_cells (2 * f + 1))
          else 0))) := by
  -- the indicator is not written
  have hind : ∀ (f : Nat) (s : proj_acc),
      s.vtx_interior_indicator = st.vtx_interior_indicator →
      ∀ j, (proj_interior_vtx p (p.m.i_face_cells (2 * f + 0)) (p.m.i_face_cells (2 * f + 1))
        (1 / p.mq.cell_vol (p.m.i_face_cells (2 * f + 0)))
        (1 / p.mq.cell_vol (p.m.i_face_cells (2 * f + 1))) (p.m.i_face_vtx_lst j)
        s).vtx_interior_indicator = st.vtx_interior_indicator := by
    intro f s hs j
    rw [(proj_interior_vtx_spec p _ _ _ _ _ s).1, hs]
  -- one face, one observed value
  have face : ∀ (val : proj_acc → cs_real_t) (inc : Nat → Nat → cs_real_t),
      (∀ f j s, s.vtx_interior_indicator = st.vtx_interior_indicator →
        val (proj_interior_vtx p (p.m.i_face_cells (2 * f + 0)) (p.m.i_face_cells (2 * f + 1))
          (1 / p.mq.cell_vol (p.m.i_face_cells (2 * f + 0)))
          (1 / p.mq.cell_vol (p.m.i_face_cells (2 * f + 1))) (p.m.i_face_vtx_lst j) s)
          = val s + inc f j) →
      val (proj_interior p st) = val st +
        sum_upto p.m.n_i_faces (fun f =>
          sum_upto (p.m.i_face_vtx_idx (f + 1) - p.m.i_face_vtx_idx f) (fun k =>
            if p.m.i_face_cells (2 * f + 0) < p.m.n_cells then inc f (p.m.i_face_vtx_idx f + k)
            else 0)) := by
    intro val inc hval
    unfold proj_interior
    refine (forLoop_sum (fun s => s.vtx_interior_indicator = st.vtx_interior_indicator) val _ _
      _ ?_ st rfl).2
    intro f _ s hs
    simp only []
    by_cases hc : p.m.i_face_cells (2 * f + 0) < p.m.n_cells
    · rw [if_pos hc]
      simp only [hc, if_true]
      exact forRange_sum (fun s => s.vtx_interior_indicator = st.vtx_interior_indicator) val _ _
        _ (fun j => inc f j) (fun j _ _ s2 h2 => ⟨hind f s2 h2 j, hval f j s2 h2⟩) s hs
    · rw [if_neg hc]
      simp only [hc, if_false]
      exact ⟨hs, by rw [sum_upto_const_zero, radd_zero]⟩
  refine ⟨?_, fun q => ?_, fun v => ?_⟩
  · unfold proj_interior
    refine forLoop_keep (fun s : proj_acc => s.vtx_interior_indicator = st.vtx_interior_indicator)
      _ _ _ rfl ?_
    intro f _ s hs
    simp only []
    split
    · exact forRange_keep
        (fun s : proj_acc => s.vtx_interior_indicator = st.vtx_interior_indicator)
        _ _ _ _ hs (fun j _ _ s2 h2 => hind f s2 h2 j)
    · exact hs
  · have := face (fun s => s.disp_proj q)
      (fun f j => if st.vtx_interior_indicator (p.m.i_face_vtx_lst j) = true ∧
          q / 3 = p.m.i_face_vtx_lst j then
        proj_interior_term p (p.m.i_face_cells (2 * f + 0)) (p.m.i_face_cells (2 * f + 1))
          (1 / p.mq.cell_vol (p.m.i_face_cells (2 * f + 0)))
          (1 / p.mq.cell_vol (p.m.i_face_cells (2 * f + 1))) (p.m.i_face_vtx_lst j) (q % 3)
        else 0)
      (by
        intro f j s hs
        simp only []
        rw [(proj_interior_vtx_spec p _ _ _ _ _ s).2.2 q, hs]
        split
        · rfl
        · exact (radd_zero _).symm)
    simp only [] at this
    rw [this]
    congr 1
    refine sum_upto_congr _ _ _ (fun f _ => sum_upto_congr _ _ _ (fun k _ => ?_))
    simp only [ite_and]
  · have := face (fun s => s.vtx_counter v)
      (fun f j => if st.vtx_interior_indicator (p.m.i_face_vtx_lst j) = true ∧
          v = p.m.i_face_vtx_lst j then
        1 / p.mq.cell_vol (p.m.i_face_cells (2 * f + 0))
          + 1 / p.mq.cell_vol (p.m.i_face_cells (2 * f + 1))
        else 0)
      (by
        intro f j s hs
        simp only []
        rw [(proj_interior_vtx_spec p _ _ _ _ _ s).2.1 v, hs]
        split
        · rename_i h; rw [h.2]
        · exact (radd_zero _).symm)
    simp only [] at this
    rw [this]
    congr 1
    refine sum_upto_congr _ _ _ (fun f _ => sum_upto_congr _ _ _ (fun k _ => ?_))
    simp only [ite_and]

/-- The boundary faces, seen from entry `q` of `disp_proj` and from the
weight of vertex `v`: they add their terms at the occurrences of a
boundary-tagged vertex. -/
theorem proj_boundary_sum (p : proj_args) (st : proj_acc) :
    (proj_boundary p st).vtx_interior_indicator = st.vtx_interior_indicator ∧
    (∀ q, (proj_boundary p st).disp_proj q = st.disp_proj q +
      sum_upto p.m.n_b_faces (fun f =>
        sum_upto (p.m.b_face_vtx_idx (f + 1) - p.m.b_face_vtx_idx f) (fun k =>
          if st.vtx_interior_indicator (p.m.b_face_vtx_lst (p.m.b_face_vtx_idx f + k)) = false ∧
              q / 3 = p.m.b_face_vtx_lst (p.m.b_face_vtx_idx f + k) then
            proj_boundary_term p f (p.m.b_face_cells f)
              (p.m.b_face_vtx_lst (p.m.b_face_vtx_idx f + k)) (q % 3)
          else 0))) ∧
    (∀ v, (proj_boundary p st).vtx_counter v = st.vtx_counter v +
      sum_upto p.m.n_b_faces (fun f =>
        sum_upto (p.m.b_face_vtx_idx (f + 1) - p.m.b_face_vtx_idx f) (fun k =>
          if st.vtx_interior_indicator (p.m.b_face_vtx_lst (p.m.b_face_vtx_idx f + k)) = false ∧
              v = p.m.b_face_vtx_lst (p.m.b_face_vtx_idx f + k) then
            1 / p.mq.b_face_surf f
          else 0))) := by
  have hind : ∀ (f : Nat) (s : proj_acc),
      s.vtx_interior_indicator = st.vtx_interior_indicator →
      ∀ j, (proj_boundary_vtx p f (p.m.b_face_cells f) (p.m.b_face_vtx_lst j)
        s).vtx_interior_indicator = st.vtx_interior_indicator := by
    intro f s hs j
    rw [(proj_boundary_vtx_spec p _ _ _ s).1, hs]
  have face : ∀ (val : proj_acc → cs_real_t) (inc : Nat → Nat → cs_real_t),
      (∀ f j s, s.vtx_interior_indicator = st.vtx_interior_indicator →
        val (proj_boundary_vtx p f (p.m.b_face_cells f) (p.m.b_face_vtx_lst j) s)
          = val s + inc f j) →
      val (proj_boundary p st) = val st +
        sum_upto p.m.n_b_faces (fun f =>
          sum_upto (p.m.b_face_vtx_idx (f + 1) - p.m.b_face_vtx_idx f) (fun k =>
            inc f (p.m.b_face_vtx_idx f + k))) := by
    intro val inc hval
    unfold proj_boundary
    refine (forLoop_sum (fun s => s.vtx_interior_indicator = st.vtx_interior_indicator) val _ _
      _ ?_ st rfl).2
    intro f _ s hs
    exact forRange_sum (fun s => s.vtx_interior_indicator = st.vtx_interior_indicator) val _ _
      _ (fun j => inc f j) (fun j _ _ s2 h2 => ⟨hind f s2 h2 j, hval f j s2 h2⟩) s hs
  refine ⟨?_, fun q => ?_, fun v => ?_⟩
  · unfold proj_boundary
    refine forLoop_keep (fun s : proj_acc => s.vtx_interior_indicator = st.vtx_interior_indicator)
      _ _ _ rfl ?_
    intro f _ s hs
    exact forRange_keep
      (fun s : proj_acc => s.vtx_interior_indicator = st.vtx_interior_indicator)
      _ _ _ _ hs (fun j _ _ s2 h2 => hind f s2 h2 j)
  · exact face (fun s => s.disp_proj q)
      (fun f j => if st.vtx_interior_indicator (p.m.b_face_vtx_lst j) = false ∧
          q / 3 = p.m.b_face_vtx_lst j then
        proj_boundary_term p f (p.m.b_face_cells f) (p.m.b_face_vtx_lst j) (q % 3)
        else 0)
      (by
        intro f j s hs
        simp only []
        rw [(proj_boundary_vtx_spec p _ _ _ s).2.2 q, hs]
        split
        · rfl
        · exact (radd_zero _).symm)
  · exact face (fun s => s.vtx_counter v)
      (fun f j => if st.vtx_interior_indicator (p.m.b_face_vtx_lst j) = false ∧
          v = p.m.b_face_vtx_lst j then 1 / p.mq.b_face_surf f else 0)
      (by
        intro f j s hs
        simp only []
        rw [(proj_boundary_vtx_spec p _ _ _ s).2.1 v, hs]
        split
        · rename_i h; rw [h.2]
        · exact (radd_zero _).symm)

/-- For real `x` and `t`, `(1/V) * x * t` and `(t/V) * x` are the same value,
also when `V` is zero or undefined. -/
theorem inv_mul_mul_eq (V : cs_real_t) (x t : ℚ) :
    1 / V * cs_real_t.real x * cs_real_t.real t
      = cs_real_t.real t / V * cs_real_t.real x := by
  cases V with
  | nan => simp
  | real s =>
    by_cases hs : s = 0
    · simp [cs_real_t.one_eq, cs_real_t.real_div_real, hs]
    · simp only [cs_real_t.one_eq, cs_real_t.real_div_real, if_neg hs,
        cs_real_t.real_mul_real]
      congr 1
      field_simp
      ring

/-- For real `x` and `t`, `(1/S) * t * x` and `(t/S) * x` are the same value. -/
theorem inv_mul_mul_eq2 (S : cs_real_t) (x t : ℚ) :
    1 / S * cs_real_t.real t * cs_real_t.real x
      = cs_real_t.real t / S * cs_real_t.real x := by
  cases S with
  | nan => simp
  | real s =>
    by_cases hs : s = 0
    · simp [cs_real_t.one_eq, cs_real_t.real_div_real, hs]
    · simp only [cs_real_t.one_eq, cs_real_t.real_div_real, if_neg hs,
        cs_real_t.real_mul_real]
      congr 1
      field_simp

/-- With real data the extrapolated cell velocity is a real number. -/
theorem cell_extrapolation_real (p : proj_args) (hr : proj_real_inputs p) (c v i : Nat) :
    ∃ x : ℚ, cell_extrapolation p c v i = cs_real_t.real x := by
  obtain ⟨hx, hc, -, hm, hg, -, -, -⟩ := hr
  obtain ⟨x0, e0⟩ := cs_real_t.eq_real_of_isReal (hx (3 * v + 0))
  obtain ⟨x1, e1⟩ := cs_real_t.eq_real_of_isReal (hx (3 * v + 1))
  obtain ⟨x2, e2⟩ := cs_real_t.eq_real_of_isReal (hx (3 * v + 2))
  obtain ⟨y0, f0⟩ := cs_real_t.eq_real_of_isReal (hc (3 * c + 0))
  obtain ⟨y1, f1⟩ := cs_real_t.eq_real_of_isReal (hc (3 * c + 1))
  obtain ⟨y2, f2⟩ := cs_real_t.eq_real_of_isReal (hc (3 * c + 2))
  obtain ⟨m, hm⟩ := cs_real_t.eq_real_of_isReal (hm (3 * c + i))
  obtain ⟨g0, hg0⟩ := cs_real_t.eq_real_of_isReal (hg (9 * c + 3 * i + 0))
  obtain ⟨g1, hg1⟩ := cs_real_t.eq_real_of_isReal (hg (9 * c + 3 * i + 1))
  obtain ⟨g2, hg2⟩ := cs_real_t.eq_real_of_isReal (hg (9 * c + 3 * i + 2))
  refine ⟨m + g0 * (x0 - y0) + g1 * (x1 - y1) + g2 * (x2 - y2), ?_⟩
  simp only [cell_extrapolation, e0, e1, e2, f0, f1, f2, hm, hg0, hg1, hg2,
    cs_real_t.real_add_real, cs_real_t.real_sub_real, cs_real_t.real_mul_real]

/-- With real data, the term the code adds for an interior face is the term
of the formula of the specification. -/
theorem proj_interior_term_formula (p : proj_args) (hr : proj_real_inputs p)
    (c1 c2 v i : Nat) :
    proj_interior_term p c1 c2 (1 / p.mq.cell_vol c1) (1 / p.mq.cell_vol c2) v i
      = p.dt c1 / p.mq.cell_vol c1 * cell_extrapolation p c1 v i
        + p.dt c2 / p.mq.cell_vol c2 * cell_extrapolation p c2 v i := by
  obtain ⟨x1, h1⟩ := cell_extrapolation_real p hr c1 v i
  obtain ⟨x2, h2⟩ := cell_extrapolation_real p hr c2 v i
  obtain ⟨t1, ht1⟩ := cs_real_t.eq_real_of_isReal (hr.2.2.2.2.2.2.2 c1)
  obtain ⟨t2, ht2⟩ := cs_real_t.eq_real_of_isReal (hr.2.2.2.2.2.2.2 c2)
  have e : proj_interior_term p c1 c2 (1 / p.mq.cell_vol c1) (1 / p.mq.cell_vol c2) v i
      = 1 / p.mq.cell_vol c1 * cell_extrapolation p c1 v i * p.dt c1
        + 1 / p.mq.cell_vol c2 * cell_extrapolation p c2 v i * p.dt c2 := rfl
  rw [e, h1, h2, ht1, ht2, inv_mul_mul_eq, inv_mul_mul_eq]

/-- With real data, the term the code adds for a boundary face is the term
of the formula of the specification. -/
theorem proj_boundary_term_formula (p : proj_args) (hr : proj_real_inputs p)
    (f c v i : Nat) :
    proj_boundary_term p f c v i
      = p.dt c / p.mq.b_face_surf f * face_extrapolation p f c v i := by
  obtain ⟨hx, -, hc, hm, hg, ha, hb, hdt⟩ := hr
  obtain ⟨x0, e0⟩ := cs_real_t.eq_real_of_isReal (hx (3 * v + 0))
  obtain ⟨x1, e1⟩ := cs_real_t.eq_real_of_isReal (hx (3 * v + 1))
  obtain ⟨x2, e2⟩ := cs_real_t.eq_real_of_isReal (hx (3 * v + 2))
  obtain ⟨y0, f0⟩ := cs_real_t.eq_real_of_isReal (hc (3 * f + 0))
  obtain ⟨y1, f1⟩ := cs_real_t.eq_real_of_isReal (hc (3 * f + 1))
  obtain ⟨y2, f2⟩ := cs_real_t.eq_real_of_isReal (hc (3 * f + 2))
  obtain ⟨m0, hm0⟩ := cs_real_t.eq_real_of_isReal (hm (3 * c + 0))
  obtain ⟨m1, hm1⟩ := cs_real_t.eq_real_of_isReal (hm (3 * c + 1))
  obtain ⟨m2, hm2⟩ := cs_real_t.eq_real_of_isReal (hm (3 * c + 2))
  obtain ⟨g0, hg0⟩ := cs_real_t.eq_real_of_isReal (hg (9 * c + 3 * i + 0))
  obtain ⟨g1, hg1⟩ := cs_real_t.eq_real_of_isReal (hg (9 * c + 3 * i + 1))
  obtain ⟨g2, hg2⟩ := cs_real_t.eq_real_of_isReal (hg (9 * c + 3 * i + 2))
  obtain ⟨a, hai⟩ := cs_real_t.eq_real_of_isReal (ha (3 * f + i))
  obtain ⟨b0, hb0⟩ := cs_real_t.eq_real_of_isReal (hb (9 * f + 3 * i + 0))
  obtain ⟨b1, hb1⟩ := cs_real_t.eq_real_of_isReal (hb (9 * f + 3 * i + 1))
  obtain ⟨b2, hb2⟩ := cs_real_t.eq_real_of_isReal (hb (9 * f + 3 * i + 2))
  obtain ⟨t, ht⟩ := cs_real_t.eq_real_of_isReal (hdt c)
  simp only [proj_boundary_term, face_extrapolation, e0, e1, e2, f0, f1, f2, hm0, hm1, hm2,
    hg0, hg1, hg2, hai, hb0, hb1, hb2, ht, cs_real_t.real_add_real, cs_real_t.real_sub_real,
    cs_real_t.real_mul_real]
  rw [inv_mul_mul_eq2]
  congr 2
  ring

/-! ## The interior and the boundary formulas -/

theorem ite_zero_congr (c1 c2 : Prop) [Decidable c1] [Decidable c2] (a b : cs_real_t)
    (hc : c1 ↔ c2) (hab : c2 → a = b) : (if c1 then a else 0) = (if c2 then b else 0) := by
  by_cases h : c2
  · rw [if_pos h, if_pos (hc.mpr h), hab h]
  · rw [if_neg h, if_neg (fun h1 => h (hc.mp h1))]

/-- In a single-partition run on a mesh of dimension 3, the value returned
at entry `q` of a vertex on no sliding face is the accumulated displacement
divided by the accumulated weight. -/
theorem project_single_eq (peers : Nat → proj_acc) (p : proj_args) (heap : proj_acc)
    (hdim : p.m.dim = 3) (hsingle : p.m.vtx_interfaces = none) (v i : Nat)
    (hv : v < p.m.n_vertices) (hi : i < 3)
    (hns : ∀ f, f < p.m.n_b_faces → p.ale_bc_type f = cs_ale_bc_t.CS_ALE_SLIDING →
      ¬ b_face_has_vtx p.m f v) :
    cs_ale_project_displacement peers p heap (3 * v + i)
      = (proj_accumulate p heap).disp_proj (3 * v + i) / (proj_accumulate p heap).vtx_counter v ∧
    proj_weight peers p heap v = (proj_accumulate p heap).vtx_counter v := by
  have e : (3 * v + i) / 3 = v := by omega
  obtain ⟨s1, s2⟩ := proj_sliding_other_vtx p (proj_accumulate p heap) v
    (fun f hf hhas hsl => hns f hf hsl hhas)
  constructor
  · unfold cs_ale_project_displacement
    rw [proj_normalize_spec _ _ hdim, e, if_pos hv]
    unfold proj_reduce
    rw [hsingle]
    simp only []
    unfold proj_local
    rw [s1, s2 _ e]
  · unfold proj_weight proj_reduce
    rw [hsingle]
    simp only []
    unfold proj_local
    rw [s1]

/-- C11: in a single-partition run of `cs_ale_project_displacement` (real
data, mesh of dimension 3), for every interior-tagged vertex `v` that is on
no sliding face, the result equals the sum over the interior faces containing
`v` whose first cell is owned, and over both adjacent cells `c`, of
`(dt[c]/cell_vol[c]) * (meshv[c] + gradm[c]*(x_v - cell_cen[c]))`, divided
by the sum over the same faces of `1/cell_vol[c1] + 1/cell_vol[c2]`, which is
the weight of `v`; no boundary face contributes. -/
theorem project_interior_formula (peers : Nat → proj_acc) (p : proj_args) (heap : proj_acc)
    (hr : proj_real_inputs p) (hdim : p.m.dim = 3) (hsingle : p.m.vtx_interfaces = none)
    (v i : Nat) (hv : v < p.m.n_vertices) (hi : i < 3)
    (htag : vtx_interior_tag p heap v = true)
    (hns : ∀ f, f < p.m.n_b_faces → p.ale_bc_type f = cs_ale_bc_t.CS_ALE_SLIDING →
      ¬ b_face_has_vtx p.m f v) :
    cs_ale_project_displacement peers p heap (3 * v + i)
      = interior_numerator p v i / interior_denominator p v ∧
    proj_weight peers p heap v = interior_denominator p v := by
  have e : (3 * v + i) / 3 = v := by omega
  have em : (3 * v + i) % 3 = i := by omega
  obtain ⟨r1, r2⟩ := project_single_eq peers p heap hdim hsingle v i hv hi hns
  obtain ⟨i1, -, i3⟩ := proj_init_spec p heap hdim
  obtain ⟨t1, t2, -⟩ := proj_tag_spec p (proj_init p heap) v
  obtain ⟨n1, n2, n3⟩ := proj_interior_sum p (proj_tag p (proj_init p heap))
  obtain ⟨b1, b2, b3⟩ := proj_boundary_sum p (proj_interior p (proj_tag p (proj_init p heap)))
  have htag2 : (proj_tag p (proj_init p heap)).vtx_interior_indicator v = true := htag
  -- no boundary face contributes
  have hb_disp : (proj_accumulate p heap).disp_proj (3 * v + i)
      = (proj_interior p (proj_tag p (proj_init p heap))).disp_proj (3 * v + i) := by
    unfold proj_accumulate
    rw [b2]
    have : ∀ f, f < p.m.n_b_faces →
        sum_upto (p.m.b_face_vtx_idx (f + 1) - p.m.b_face_vtx_idx f) (fun k =>
          if (proj_interior p (proj_tag p (proj_init p heap))).vtx_interior_indicator
                (p.m.b_face_vtx_lst (p.m.b_face_vtx_idx f + k)) = false ∧
              (3 * v + i) / 3 = p.m.b_face_vtx_lst (p.m.b_face_vtx_idx f + k) then
            proj_boundary_term p f (p.m.b_face_cells f)
              (p.m.b_face_vtx_lst (p.m.b_face_vtx_idx f + k)) ((3 * v + i) % 3)
          else 0) = 0 := by
      intro f _
      refine (sum_upto_congr _ _ (fun _ => 0) (fun k _ => if_neg ?_)).trans
        (sum_upto_const_zero _)
      rintro ⟨h1, h2⟩
      rw [← h2, e, n1, htag2] at h1
      exact Bool.noConfusion h1
    rw [sum_upto_congr _ _ _ this, sum_upto_const_zero, radd_zero]
  have hb_cnt : (proj_accumulate p heap).vtx_counter v
      = (proj_interior p (proj_tag p (proj_init p heap))).vtx_counter v := by
    unfold proj_accumulate
    rw [b3]
    have : ∀ f, f < p.m.n_b_faces →
        sum_upto (p.m.b_face_vtx_idx (f + 1) - p.m.b_face_vtx_idx f) (fun k =>
          if (proj_interior p (proj_tag p (proj_init p heap))).vtx_interior_indicator
                (p.m.b_face_vtx_lst (p.m.b_face_vtx_idx f + k)) = false ∧
              v = p.m.b_face_vtx_lst (p.m.b_face_vtx_idx f + k) then
            1 / p.mq.b_face_surf f
          else 0) = 0 := by
      intro f _
      refine (sum_upto_congr _ _ (fun _ => 0) (fun k _ => if_neg ?_)).trans
        (sum_upto_const_zero _)
      rintro ⟨h1, h2⟩
      rw [← h2, n1, htag2] at h1
      exact Bool.noConfusion h1
    rw [sum_upto_congr _ _ _ this, sum_upto_const_zero, radd_zero]
  -- the interior faces give the two sums
  have hnum : (proj_interior p (proj_tag p (proj_init p heap))).disp_proj (3 * v + i)
      = interior_numerator p v i := by
    rw [n2, t1, i3, e, if_pos hv, rzero_add]
    unfold interior_numerator
    refine sum_upto_congr _ _ _ (fun f _ => sum_upto_congr _ _ _ (fun k _ => ?_))
    refine ite_zero_congr _ _ _ _ ?_ ?_
    · constructor
      · rintro ⟨h1, -, h3⟩
        exact ⟨h1, h3.symm⟩
      · rintro ⟨h1, h3⟩
        exact ⟨h1, by rw [h3]; exact htag2, h3.symm⟩
    · rintro ⟨-, h3⟩
      rw [h3, em]
      exact proj_interior_term_formula p hr _ _ v i
  have hden : (proj_interior p (proj_tag p (proj_init p heap))).vtx_counter v
      = interior_denominator p v := by
    rw [n3, t2, i1, if_pos hv, rzero_add]
    unfold interior_denominator
    refine sum_upto_congr _ _ _ (fun f _ => sum_upto_congr _ _ _ (fun k _ => ?_))
    refine ite_zero_congr _ _ _ _ ?_ (fun _ => rfl)
    constructor
    · rintro ⟨h1, -, h3⟩
      exact ⟨h1, h3.symm⟩
    · rintro ⟨h1, h3⟩
      exact ⟨h1, by rw [h3]; exact htag2, h3.symm⟩
  exact ⟨by rw [r1, hb_disp, hb_cnt, hnum, hden], by rw [r2, hb_cnt, hden]⟩

/-- C12: in a single-partition run of `cs_ale_project_displacement` (real
data, mesh of dimension 3), for every boundary-tagged vertex `v` that is on
no sliding face, the result equals the sum over the boundary faces `f`
containing `v` of `(dt[c_f]/b_face_surf[f]) * (claale[f] +
gradm[c_f]*(x_v - b_face_cog[f]) + clbale[f]*meshv[c_f])`, divided by the sum
over the same faces of `1/b_face_surf[f]`, which is the weight of `v`; no
interior face contributes. -/
theorem project_boundary_formula (peers : Nat → proj_acc) (p : proj_args) (heap : proj_acc)
    (hr : proj_real_inputs p) (hdim : p.m.dim = 3) (hsingle : p.m.vtx_interfaces = none)
    (v i : Nat) (hv : v < p.m.n_vertices) (hi : i < 3)
    (htag : vtx_interior_tag p heap v = false)
    (hns : ∀ f, f < p.m.n_b_faces → p.ale_bc_type f = cs_ale_bc_t.CS_ALE_SLIDING →
      ¬ b_face_has_vtx p.m f v) :
    cs_ale_project_displacement peers p heap (3 * v + i)
      = boundary_numerator p v i / boundary_denominator p v ∧
    proj_weight peers p heap v = boundary_denominator p v := by
  have e : (3 * v + i) / 3 = v := by omega
  have em : (3 * v + i) % 3 = i := by omega
  obtain ⟨r1, r2⟩ := project_single_eq peers p heap hdim hsingle v i hv hi hns
  obtain ⟨i1, -, i3⟩ := proj_init_spec p heap hdim
  obtain ⟨t1, t2, -⟩ := proj_tag_spec p (proj_init p heap) v
  have htag2 : (proj_tag p (proj_init p heap)).vtx_interior_indicator v = false := htag
  obtain ⟨n1, n2, n3⟩ := proj_interior_boundary_vtx p (proj_tag p (proj_init p heap)) v htag2
  obtain ⟨b1, b2, b3⟩ := proj_boundary_sum p (proj_interior p (proj_tag p (proj_init p heap)))
  have hnum : (proj_accumulate p heap).disp_proj (3 * v + i) = boundary_numerator p v i := by
    unfold proj_accumulate
    rw [b2, n3 _ e, t1, i3, e, if_pos hv, rzero_add]
    unfold boundary_numerator
    refine sum_upto_congr _ _ _ (fun f _ => sum_upto_congr _ _ _ (fun k _ => ?_))
    refine ite_zero_congr _ _ _ _ ?_ ?_
    · constructor
      · rintro ⟨-, h3⟩
        exact h3.symm
      · intro h3
        exact ⟨by rw [h3]; exact n1, h3.symm⟩
    · intro h3
      rw [h3, em]
      exact proj_boundary_term_formula p hr _ _ v i
  have hden : (proj_accumulate p heap).vtx_counter v = boundary_denominator p v := by
    unfold proj_accumulate
    rw [b3, n2, t2, i1, if_pos hv, rzero_add]
    unfold boundary_denominator
    refine sum_upto_congr _ _ _ (fun f _ => sum_upto_congr _ _ _ (fun k _ => ?_))
    refine ite_zero_congr _ _ _ _ ?_ (fun _ => rfl)
    constructor
    · rintro ⟨-, h3⟩
      exact h3.symm
    · intro h3
      exact ⟨by rw [h3]; exact n1, h3.symm⟩
  exact ⟨by rw [r1, hnum, hden], by rw [r2, hden]⟩

/-- Evaluation of C11 on the octahedron mesh: the centre is interior-tagged,
lies on no boundary face, and receives the mean over the eight cells of
`dt * meshv`, `7/20` for the first component. -/
theorem project_interior_formula_witness :
    (cs_ale_project_displacement (fun _ => tet_heap.proj) octa_args tet_heap.proj (3 * 0 + 0)
        = interior_numerator octa_args 0 0 / interior_denominator octa_args 0 ∧
      proj_weight (fun _ => tet_heap.proj) octa_args tet_heap.proj 0
        = interior_denominator octa_args 0) ∧
    interior_denominator octa_args 0 = cs_real_t.real 72 ∧
    cs_ale_project_displacement (fun _ => tet_heap.proj) octa_args tet_heap.proj (3 * 0 + 0)
      = cs_real_t.real (7/20) :=
  ⟨project_interior_formula (fun _ => tet_heap.proj) octa_args tet_heap.proj
     ⟨fun _ => rfl, fun _ => rfl, fun _ => rfl, fun _ => rfl, fun _ => rfl, fun _ => rfl,
       fun _ => rfl, fun _ => rfl⟩
     rfl rfl 0 0 (by decide) (by decide) (by decide!)
     (fun f _ h => cs_ale_bc_t.noConfusion h),
   by decide!, by decide!⟩

/-- Evaluation of C12 on the one-tetrahedron mesh with Dirichlet faces:
vertex `O` is boundary-tagged and has weight `2 + 1 + 1 = 4`. -/
theorem project_boundary_formula_witness :
    (cs_ale_project_displacement (fun _ => tet_heap.proj)
        (tet_dirichlet_args (ofList [5, 6, 7]) (ofList [1])) tet_heap.proj (3 * 0 + 0)
        = boundary_numerator (tet_dirichlet_args (ofList [5, 6, 7]) (ofList [1])) 0 0
          / boundary_denominator (tet_dirichlet_args (ofList [5, 6, 7]) (ofList [1])) 0 ∧
      proj_weight (fun _ => tet_heap.proj)
        (tet_dirichlet_args (ofList [5, 6, 7]) (ofList [1])) tet_heap.proj 0
        = boundary_denominator (tet_dirichlet_args (ofList [5, 6, 7]) (ofList [1])) 0) ∧
    boundary_denominator (tet_dirichlet_args (ofList [5, 6, 7]) (ofList [1])) 0
      = cs_real_t.real 4 ∧
    boundary_numerator (tet_dirichlet_args (ofList [5, 6, 7]) (ofList [1])) 0 0
      = cs_real_t.real (3/10) :=
  ⟨project_boundary_formula (fun _ => tet_heap.proj)
     (tet_dirichlet_args (ofList [5, 6, 7]) (ofList [1])) tet_heap.proj
     ⟨fun _ => rfl, fun _ => rfl, fun _ => rfl, fun _ => rfl, fun _ => rfl, fun _ => rfl,
       fun _ => rfl, fun _ => rfl⟩
     rfl rfl 0 0 (by decide) (by decide) (by decide!)
     (fun f _ h => cs_ale_bc_t.noConfusion h),
   by decide!, by decide!⟩

/-! ## The weight accumulator -/

/-- A sum of non-negative real numbers is a non-negative real number that
bounds each of its terms. -/
theorem sum_upto_nonneg (n : Nat) (f : Nat → cs_real_t)
    (h : ∀ k, k < n → ∃ x : ℚ, 0 ≤ x ∧ f k = cs_real_t.real x) :
    ∃ X : ℚ, 0 ≤ X ∧ sum_upto n f = cs_real_t.real X ∧
      ∀ k, k < n → ∀ x : ℚ, f k = cs_real_t.real x → x ≤ X := by
  induction n with
  | zero => exact ⟨0, le_refl 0, rfl, fun k hk => absurd hk (Nat.not_lt_zero k)⟩
  | succ n ih =>
    obtain ⟨X, hX, hs, hb⟩ := ih (fun k hk => h k (Nat.lt_succ_of_lt hk))
    obtain ⟨x, hx, hf⟩ := h n (Nat.lt_succ_self n)
    refine ⟨X + x, by linarith, by rw [sum_upto_succ, hs, hf]; rfl, ?_⟩
    intro k hk y hy
    rcases Nat.lt_succ_iff_lt_or_eq.mp hk with h1 | h1
    · have := hb k h1 y hy
      linarith
    · subst h1
      rw [hf] at hy
      have : x = y := cs_real_t.real.inj hy
      linarith

/-- The sliding faces leave every weight as it is. -/
theorem proj_sliding_counter (p : proj_args) (st : proj_acc) :
    (proj_sliding p st).vtx_counter = st.vtx_counter := by
  unfold proj_sliding
  refine forLoop_keep (fun s : proj_acc => s.vtx_counter = st.vtx_counter) _ _ _ rfl ?_
  intro f _ s hs
  split
  · exact forRange_keep (fun s : proj_acc => s.vtx_counter = st.vtx_counter) _ _ _ _ hs
      (fun j _ _ s2 h2 => h2)
  · exact hs

/-- With positive volumes and surfaces on a mesh of dimension 3, the weight a
partition accumulates at a vertex is a non-negative real number; it is
positive at a vertex of a boundary face that is not sliding, and at an
interior-tagged vertex of an interior face whose first cell is owned. -/
theorem local_weight (p : proj_args) (heap : proj_acc) (hdim : p.m.dim = 3)
    (hpos : positive_geometry p) (v : Nat) (hv : v < p.m.n_vertices) :
    ∃ w : ℚ, 0 ≤ w ∧ (proj_local p heap).vtx_counter v = cs_real_t.real w ∧
      (((∃ f, f < p.m.n_b_faces ∧ p.ale_bc_type f ≠ cs_ale_bc_t.CS_ALE_SLIDING ∧
          b_face_has_vtx p.m f v) ∨
        (vtx_interior_tag p heap v = true ∧
          ∃ f, f < p.m.n_i_faces ∧ p.m.i_face_cells (2 * f + 0) < p.m.n_cells ∧
            i_face_has_vtx p.m f v)) → 0 < w) := by
  obtain ⟨hvol, hsurf⟩ := hpos
  obtain ⟨i1, -, -⟩ := proj_init_spec p heap hdim
  obtain ⟨-, t2, t3⟩ := proj_tag_spec p (proj_init p heap) v
  obtain ⟨n1, -, n3⟩ := proj_interior_sum p (proj_tag p (proj_init p heap))
  obtain ⟨-, -, b3⟩ := proj_boundary_sum p (proj_interior p (proj_tag p (proj_init p heap)))
  -- the terms of the interior faces
  have hit : ∀ f, f < p.m.n_i_faces → ∀ k,
      ∃ x : ℚ, 0 ≤ x ∧
        (if p.m.i_face_cells (2 * f + 0) < p.m.n_cells ∧
            ((proj_tag p (proj_init p heap)).vtx_interior_indicator
                (p.m.i_face_vtx_lst (p.m.i_face_vtx_idx f + k)) = true ∧
              v = p.m.i_face_vtx_lst (p.m.i_face_vtx_idx f + k)) then
          1 / p.mq.cell_vol (p.m.i_face_cells (2 * f + 0))
            + 1 / p.mq.cell_vol (p.m.i_face_cells (2 * f + 1))
        else 0) = cs_real_t.real x ∧
        ((p.m.i_face_cells (2 * f + 0) < p.m.n_cells ∧
            ((proj_tag p (proj_init p heap)).vtx_interior_indicator
                (p.m.i_face_vtx_lst (p.m.i_face_vtx_idx f + k)) = true ∧
              v = p.m.i_face_vtx_lst (p.m.i_face_vtx_idx f + k))) → 0 < x) := by
    intro f hf k
    obtain ⟨⟨s1, hs1, e1⟩, ⟨s2, hs2, e2⟩⟩ := hvol f hf
    split
    · refine ⟨1 / s1 + 1 / s2, by positivity, ?_, fun _ => by positivity⟩
      rw [e1, e2]
      simp [cs_real_t.one_eq, cs_real_t.real_div_real, ne_of_gt hs1, ne_of_gt hs2]
    · rename_i hn
      exact ⟨0, le_refl 0, rfl, fun h => absurd h hn⟩
  have hif : ∀ f, f < p.m.n_i_faces → ∃ X : ℚ, 0 ≤ X ∧
      sum_upto (p.m.i_face_vtx_idx (f + 1) - p.m.i_face_vtx_idx f) (fun k =>
        if p.m.i_face_cells (2 * f + 0) < p.m.n_cells ∧
            ((proj_tag p (proj_init p heap)).vtx_interior_indicator
                (p.m.i_face_vtx_lst (p.m.i_face_vtx_idx f + k)) = true ∧
              v = p.m.i_face_vtx_lst (p.m.i_face_vtx_idx f + k)) then
          1 / p.mq.cell_vol (p.m.i_face_cells (2 * f + 0))
            + 1 / p.mq.cell_vol (p.m.i_face_cells (2 * f + 1))
        else 0) = cs_real_t.real X ∧
      ((vtx_interior_tag p heap v = true ∧ p.m.i_face_cells (2 * f + 0) < p.m.n_cells ∧
          i_face_has_vtx p.m f v) → 0 < X) := by
    intro f hf
    obtain ⟨X, hX, hs, hb⟩ := sum_upto_nonneg _ _
      (fun k _ => let ⟨x, hx, he, _⟩ := hit f hf k; ⟨x, hx, he⟩)
    refine ⟨X, hX, hs, ?_⟩
    rintro ⟨htag, hc, k, hk, hl⟩
    obtain ⟨x, -, he, hp⟩ := hit f hf k
    have hx : 0 < x := hp ⟨hc, by rw [hl]; exact htag, hl.symm⟩
    have := hb k hk x he
    linarith
  obtain ⟨I, hI, hIs, hIb⟩ := sum_upto_nonneg p.m.n_i_faces _
    (fun f hf => let ⟨X, hX, he, _⟩ := hif f hf; ⟨X, hX, he⟩)
  -- the terms of the boundary faces
  have hbt : ∀ f, f < p.m.n_b_faces → ∀ k,
      ∃ x : ℚ, 0 ≤ x ∧
        (if (proj_interior p (proj_tag p (proj_init p heap))).vtx_interior_indicator
              (p.m.b_face_vtx_lst (p.m.b_face_vtx_idx f + k)) = false ∧
            v = p.m.b_face_vtx_lst (p.m.b_face_vtx_idx f + k) then
          1 / p.mq.b_face_surf f
        else 0) = cs_real_t.real x ∧
        (((proj_interior p (proj_tag p (proj_init p heap))).vtx_interior_indicator
              (p.m.b_face_vtx_lst (p.m.b_face_vtx_idx f + k)) = false ∧
            v = p.m.b_face_vtx_lst (p.m.b_face_vtx_idx f + k)) → 0 < x) := by
    intro f hf k
    obtain ⟨s, hs, e⟩ := hsurf f hf
    split
    · refine ⟨1 / s, by positivity, ?_, fun _ => by positivity⟩
      rw [e]
      simp [cs_real_t.one_eq, cs_real_t.real_div_real, ne_of_gt hs]
    · rename_i hn
      exact ⟨0, le_refl 0, rfl, fun h => absurd h hn⟩
  have hbf : ∀ f, f < p.m.n_b_faces → ∃ X : ℚ, 0 ≤ X ∧
      sum_upto (p.m.b_face_vtx_idx (f + 1) - p.m.b_face_vtx_idx f) (fun k =>
        if (proj_interior p (proj_tag p (proj_init p heap))).vtx_interior_indicator
              (p.m.b_face_vtx_lst (p.m.b_face_vtx_idx f + k)) = false ∧
            v = p.m.b_face_vtx_lst (p.m.b_face_vtx_idx f + k) then
          1 / p.mq.b_face_surf f
        else 0) = cs_real_t.real X ∧
      (((proj_tag p (proj_init p heap)).vtx_interior_indicator v = false ∧
          b_face_has_vtx p.m f v) → 0 < X) := by
    intro f hf
    obtain ⟨X, hX, hs, hb⟩ := sum_upto_nonneg _ _
      (fun k _ => let ⟨x, hx, he, _⟩ := hbt f hf k; ⟨x, hx, he⟩)
    refine ⟨X, hX, hs, ?_⟩
    rintro ⟨htag, k, hk, hl⟩
    obtain ⟨x, -, he, hp⟩ := hbt f hf k
    have hx : 0 < x := hp ⟨by rw [hl, n1]; exact htag, hl.symm⟩
    have := hb k hk x he
    linarith
  obtain ⟨B, hB, hBs, hBb⟩ := sum_upto_nonneg p.m.n_b_faces _
    (fun f hf => let ⟨X, hX, he, _⟩ := hbf f hf; ⟨X, hX, he⟩)
  have hcount : (proj_local p heap).vtx_counter v = cs_real_t.real (I + B) := by
    unfold proj_local
    rw [proj_sliding_counter]
    unfold proj_accumulate
    rw [b3, n3, t2, i1, if_pos hv, rzero_add, hIs, hBs]
    rfl
  refine ⟨I + B, by linarith, hcount, ?_⟩
  rintro (⟨f, hf, hns, hhas⟩ | ⟨htag, f, hf, hc, hhas⟩)
  · obtain ⟨X, -, he, hp⟩ := hbf f hf
    have hx : 0 < X := hp ⟨t3 ⟨f, hf, hns, hhas⟩, hhas⟩
    have := hBb f hf X he
    linarith
  · obtain ⟨X, -, he, hp⟩ := hif f hf
    have hx : 0 < X := hp ⟨htag, hc, hhas⟩
    have := hIb f hf X he
    linarith

/-- Adding non-negative real numbers to a real number gives a real number
that is not smaller. -/
theorem foldl_add_nonneg {α : Type} (g : α → cs_real_t) (l : List α) (c0 : ℚ)
    (h : ∀ a ∈ l, ∃ c : ℚ, 0 ≤ c ∧ g a = cs_real_t.real c) :
    ∃ C : ℚ, c0 ≤ C ∧ l.foldl (fun acc a => acc + g a) (cs_real_t.real c0) = cs_real_t.real C := by
  induction l generalizing c0 with
  | nil => exact ⟨c0, le_refl c0, rfl⟩
  | cons a l ih =>
    obtain ⟨c, hc, e⟩ := h a (List.mem_cons_self a l)
    obtain ⟨C, hC, f⟩ := ih (c0 + c) (fun b hb => h b (List.mem_cons_of_mem a hb))
    exact ⟨C, by linarith, by rw [List.foldl_cons, e, cs_real_t.real_add_real]; exact f⟩

/-- C13 (amended): in `cs_ale_project_displacement` with strictly positive
cell volumes and boundary face surfaces (meshes of dimension 3), every vertex
that lies on a boundary face that is not sliding, and every interior-tagged
vertex that lies on an interior face whose first cell is owned, ends with a
strictly positive weight accumulator. -/
theorem weight_positive (world : Nat → proj_args) (heaps : Nat → proj_acc) (rank : Nat)
    (hdim : ∀ r, (world r).m.dim = 3) (hpos : ∀ r, positive_geometry (world r))
    (hcp : copies_in_range world rank) (v : Nat) (hv : v < (world rank).m.n_vertices)
    (htouch :
      (∃ f, f < (world rank).m.n_b_faces ∧
        (world rank).ale_bc_type f ≠ cs_ale_bc_t.CS_ALE_SLIDING ∧
        b_face_has_vtx (world rank).m f v) ∨
      (vtx_interior_tag (world rank) (heaps rank) v = true ∧
        ∃ f, f < (world rank).m.n_i_faces ∧
          (world rank).m.i_face_cells (2 * f + 0) < (world rank).m.n_cells ∧
          i_face_has_vtx (world rank).m f v)) :
    ∃ w : ℚ, 0 < w ∧
      proj_weight (fun r => proj_local (world r) (heaps r)) (world rank) (heaps rank) v
        = cs_real_t.real w := by
  obtain ⟨w, -, hw, hwp⟩ := local_weight (world rank) (heaps rank) (hdim rank) (hpos rank) v hv
  have hw0 : 0 < w := hwp htouch
  unfold proj_weight proj_reduce
  cases hitf : (world rank).m.vtx_interfaces with
  | none => exact ⟨w, hw0, hw⟩
  | some ifs =>
    simp only [cs_interface_set_sum]
    rw [Nat.div_one, hw]
    obtain ⟨C, hC, hf⟩ := foldl_add_nonneg
      (fun c : Nat × Nat => (proj_local (world c.1) (heaps c.1)).vtx_counter (1 * c.2 + v % 1))
      (ifs.copies v) w
      (by
        intro a ha
        obtain ⟨c, hc, he, -⟩ := local_weight (world a.1) (heaps a.1) (hdim a.1) (hpos a.1) a.2
          (hcp ifs hitf v a ha)
        have e2 : 1 * a.2 + v % 1 = a.2 := by omega
        exact ⟨c, hc, by show (proj_local _ _).vtx_counter (1 * a.2 + v % 1) = _; rw [e2]; exact he⟩)
    exact ⟨C, by linarith, hf⟩

/-- The octahedron mesh has positive volumes and surfaces. -/
theorem octa_positive_geometry : positive_geometry octa_args := by
  constructor
  · intro f hf
    have hf12 : f < 12 := hf
    interval_cases f <;>
      exact ⟨⟨1/3, by norm_num, by decide!⟩, ⟨1/3, by norm_num, by decide!⟩⟩
  · intro f hf
    have hf8 : f < 8 := hf
    interval_cases f <;> exact ⟨3/2, by norm_num, by decide!⟩

/-- Evaluation of the amended C13 on the octahedron mesh: the centre is
interior-tagged and lies on interior face 0, its weight is 72. -/
theorem weight_positive_witness :
    (∃ w : ℚ, 0 < w ∧
      proj_weight (fun _ => proj_local octa_args tet_heap.proj) octa_args tet_heap.proj 0
        = cs_real_t.real w) ∧
    proj_weight (fun _ => proj_local octa_args tet_heap.proj) octa_args tet_heap.proj 0
      = cs_real_t.real 72 :=
  ⟨weight_positive (fun _ => octa_args) (fun _ => tet_heap.proj) 0 (fun _ => rfl)
     (fun _ => octa_positive_geometry) (fun ifs h => by cases h) 0 (by decide)
     (Or.inr ⟨by decide!, 0, by decide, by decide, by decide⟩),
   by decide!⟩

/-- C13 (counterexample): the one-tetrahedron mesh has positive volume and
face surfaces; with four sliding boundary faces, vertex `O` is touched by
boundary face `OAB` but its weight accumulator ends at zero, and the
normalization divides by zero there. -/
theorem weight_zero_on_sliding_faces :
    positive_geometry (tet_zero_args cs_ale_bc_t.CS_ALE_SLIDING) ∧
    b_face_has_vtx tet_mesh 0 0 ∧
    proj_weight (fun _ => tet_heap.proj) (tet_zero_args cs_ale_bc_t.CS_ALE_SLIDING)
      tet_heap.proj 0 = cs_real_t.real 0 ∧
    cs_ale_project_displacement (fun _ => tet_heap.proj)
      (tet_zero_args cs_ale_bc_t.CS_ALE_SLIDING) tet_heap.proj (3 * 0 + 0) = cs_real_t.nan := by
  refine ⟨⟨fun f hf => absurd hf (Nat.not_lt_zero f), ?_⟩, by decide, by decide!, by decide!⟩
  intro f hf
  have hf4 : f < 4 := hf
  interval_cases f
  · exact ⟨1/2, by norm_num, by decide!⟩
  · exact ⟨1, by norm_num, by decide!⟩
  · exact ⟨1, by norm_num, by decide!⟩
  · exact ⟨3/2, by norm_num, by decide!⟩

/-- A loop that writes, for every query point `p`, the vector `val p` at the
slot `off p`: entries outside the slots keep their value, and the slot of a
point holds its vector when the points sharing the slot agree on it. -/
theorem write_loop_spec (off : Nat → Nat) (val : Nat → Nat → cs_real_t)
    (res : Nat → cs_real_t) (n : Nat) :
    (∀ q, (∀ p, p < n → q / 3 ≠ off p) →
      forLoop n (fun p r => forLoop 3 (fun i r2 => setAt r2 (3 * off p + i) (val p i)) r) res q
        = res q) ∧
    (∀ p, p < n → ∀ i, i < 3 → (∀ p', p' < n → off p' = off p → val p' i = val p i) →
      forLoop n (fun p r => forLoop 3 (fun i r2 => setAt r2 (3 * off p + i) (val p i)) r) res
        (3 * off p + i) = val p i) := by
  induction n with
  | zero => exact ⟨fun _ _ => rfl, fun p hp => absurd hp (Nat.not_lt_zero p)⟩
  | succ n ih =>
    obtain ⟨ih1, ih2⟩ := ih
    have step : ∀ q,
        forLoop (n + 1)
          (fun p r => forLoop 3 (fun i r2 => setAt r2 (3 * off p + i) (val p i)) r) res q
        = if q / 3 = off n then val n (q % 3)
          else forLoop n
            (fun p r => forLoop 3 (fun i r2 => setAt r2 (3 * off p + i) (val p i)) r) res q := by
      intro q
      exact forLoop3_setAt (off n) (fun i _ => val n i) _ q
    constructor
    · intro q hq
      rw [step, if_neg (hq n (Nat.lt_succ_self n))]
      exact ih1 q (fun p hp => hq p (Nat.lt_succ_of_lt hp))
    · intro p hp i hi hcons
      have e1 : (3 * off p + i) / 3 = off p := by omega
      have e2 : (3 * off p + i) % 3 = i := by omega
      rw [step, e1, e2]
      by_cases h : off p = off n
      · rw [if_pos h]
        exact hcons n (Nat.lt_succ_self n) h.symm
      · rw [if_neg h]
        have hpn : p < n := by
          rcases Nat.lt_succ_iff_lt_or_eq.mp hp with h1 | h1
          · exact h1
          · exact absurd (by rw [h1]) h
        exact ih2 p hpn i hi (fun p' hp' => hcons p' (Nat.lt_succ_of_lt hp'))

/-- The loop of `_fixed_velocity` in the form of `write_loop_spec`. -/
theorem fixed_velocity_eq (gui : String → (Nat → cs_real_t) → Nat → cs_real_t)
    (time : cs_real_t) (n_pts : Nat) (pt_ids : Option (Nat → Nat)) (xyz : Nat → cs_real_t)
    (compact : Bool) (input : cs_ale_bc_input_t) (res : Nat → cs_real_t) :
    _fixed_velocity gui time n_pts pt_ids xyz compact input res
      = forLoop n_pts (fun p r => forLoop 3 (fun i r2 =>
          setAt r2 (3 * point_slot compact pt_ids p + i) (gui input.z_name (fun _ => 0) i)) r)
        res := by
  unfold _fixed_velocity point_slot
  cases compact <;> rfl

/-- C14: every vector `_fixed_velocity` writes (the one at the slot of each
query point) is the velocity configured for the zone name of the closure,
and the result does not depend on the time or on the coordinates passed. -/
theorem fixed_velocity_constant (gui : String → (Nat → cs_real_t) → Nat → cs_real_t)
    (time : cs_real_t) (n_pts : Nat) (pt_ids : Option (Nat → Nat)) (xyz : Nat → cs_real_t)
    (compact : Bool) (input : cs_ale_bc_input_t) (res : Nat → cs_real_t) :
    (∀ p, p < n_pts → ∀ i, i < 3 →
      _fixed_velocity gui time n_pts pt_ids xyz compact input res
          (3 * point_slot compact pt_ids p + i) = gui input.z_name (fun _ => 0) i) ∧
    (∀ (time2 : cs_real_t) (xyz2 : Nat → cs_real_t),
      _fixed_velocity gui time2 n_pts pt_ids xyz2 compact input res
        = _fixed_velocity gui time n_pts pt_ids xyz compact input res) := by
  refine ⟨fun p hp i hi => ?_, fun _ _ => rfl⟩
  rw [fixed_velocity_eq]
  exact (write_loop_spec (point_slot compact pt_ids)
    (fun _ i => gui input.z_name (fun _ => 0) i) res n_pts).2 p hp i hi (fun _ _ _ => rfl)

theorem fixed_velocity_constant_witness :
    _fixed_velocity tet_gui 0 2 (some (idxList [3, 1])) zeros false ⟨"wall"⟩ zeros (3 * 3 + 1)
      = cs_real_t.real 2 :=
  (fixed_velocity_constant tet_gui 0 2 (some (idxList [3, 1])) zeros false ⟨"wall"⟩ zeros).1
    0 (by decide) 1 (by decide)

/-- C15: when the displacement field and the snapshot `_vtx_coord0` exist,
`_fixed_displacement` returns, and the vector it leaves at the slot of query
point `p`, of id `id`, is `(disale[id] + vtx_coord0[id] - vtx_coord[id]) / dtref`. -/
theorem fixed_displacement_formula (g : ale_globals) (time : cs_real_t) (n_pts : Nat)
    (pt_ids : Option (Nat → Nat)) (xyz : Nat → cs_real_t) (compact : Bool)
    (input : cs_ale_bc_input_t) (res : Nat → cs_real_t) (dis : cs_field_t)
    (vtx_coord0 : Nat → cs_real_t) (hd : g.disale = some dis)
    (h0 : g._vtx_coord0 = some vtx_coord0) :
    ∃ out, _fixed_displacement g time n_pts pt_ids xyz compact input res = some out ∧
      ∀ p, p < n_pts → ∀ c, c < 3 →
        out (3 * point_slot compact pt_ids p + c)
          = (dis.val (3 * point_id pt_ids p + c) + vtx_coord0 (3 * point_id pt_ids p + c)
              - g.mesh.vtx_coord (3 * point_id pt_ids p + c)) / g.dtref := by
  unfold _fixed_displacement
  rw [hd]
  by_cases hn : n_pts = 0
  · subst hn
    exact ⟨res, by simp, fun p hp => absurd hp (Nat.not_lt_zero p)⟩
  · simp only [hn, if_false, h0]
    refine ⟨_, rfl, fun p hp c hc => ?_⟩
    refine (write_loop_spec (point_slot compact pt_ids)
      (fun p c => (dis.val (3 * point_id pt_ids p + c) + vtx_coord0 (3 * point_id pt_ids p + c)
              - g.mesh.vtx_coord (3 * point_id pt_ids p + c)) / g.dtref) res n_pts).2
      p hp c hc (fun p2 hp2 h => ?_)
    unfold point_slot at h
    cases compact
    · simp only [Bool.false_eq_true, if_false] at h
      show (dis.val (3 * point_id pt_ids p2 + c) + _ - _) / _ = _
      rw [h]
    · simp only [if_true] at h
      rw [h]

theorem fixed_displacement_formula_witness :
    ∃ out, _fixed_displacement
        { tet_globals with _vtx_coord0 := some (ofList [0, 0, 0, 2, 0, 0, 0, 2, 0, 0, 0, 3]) }
        0 1 (some (idxList [3])) zeros true ⟨"wall"⟩ zeros = some out ∧
      out (3 * 0 + 2) = cs_real_t.real 9 := by
  obtain ⟨out, h1, h2⟩ := fixed_displacement_formula
    { tet_globals with _vtx_coord0 := some (ofList [0, 0, 0, 2, 0, 0, 0, 2, 0, 0, 0, 3]) }
    0 1 (some (idxList [3])) zeros true ⟨"wall"⟩ zeros
    (mk_field cs_mesh_location_type_t.CS_MESH_LOCATION_VERTICES
      (ofList [0, 0, 0, 0, 0, 0, 0, 0, 0, 0, 0, -1/10]) (ofList [0, 0, 0, 0, 0, 0, 0, 0, 0, 0, 0, 0]))
    (ofList [0, 0, 0, 2, 0, 0, 0, 2, 0, 0, 0, 3]) rfl rfl
  refine ⟨out, h1, ?_⟩
  have h3 := h2 0 (by decide) 2 (by decide)
  refine h3.trans ?_
  decide!

/-- Lines 190-213 of `_free_surface`, at an entry of a vertex of the mesh:
the array `_mesh_vel` holds the sum over the faces of the zone. -/
theorem free_surface_mesh_vel_spec (g : ale_globals) (z : cs_zone_t)
    (mesh_vel0 : Nat → cs_real_t) (v i : Nat) (hv : v < g.mesh.n_vertices) (hi : i < 3) :
    free_surface_mesh_vel g z mesh_vel0 (3 * v + i) = free_surface_sum g z v i := by
  have e1 : (3 * v + i) / 3 = v := by omega
  have e2 : (3 * v + i) % 3 = i := by omega
  have hreset : forLoop g.mesh.n_vertices (fun v_id mv =>
      setAt (setAt (setAt mv (3 * v_id + 0) 0) (3 * v_id + 1) 0) (3 * v_id + 2) 0) mesh_vel0
      (3 * v + i) = 0 :=
    (write_loop_spec (fun w => w) (fun _ _ => 0) mesh_vel0 g.mesh.n_vertices).2 v hv i hi
      (fun _ _ _ => rfl)
  unfold free_surface_mesh_vel free_surface_sum
  refine Eq.trans (forLoop_sum (fun _ : Nat → cs_real_t => True)
    (fun s : Nat → cs_real_t => s (3 * v + i)) z.n_elts _
    (fun e =>
      sum_upto (g.mesh.b_face_vtx_idx (z.elt_ids e + 1) - g.mesh.b_face_vtx_idx (z.elt_ids e))
        (fun k =>
          if g.mesh.b_face_vtx_lst (g.mesh.b_face_vtx_idx (z.elt_ids e) + k) = v then
            g.b_massflux (z.elt_ids e) * g.gravity i
              / (cs_math_3_dot_product g.gravity g.mq.b_face_normal (z.elt_ids e)
                  * g.rho_b (z.elt_ids e))
          else 0))
    ?_ _ trivial).2 ?_
  rotate_left
  · rw [hreset, rzero_add]
  · intro e _ s _
    refine ⟨trivial, ?_⟩
    refine (forRange_sum (fun _ : Nat → cs_real_t => True)
      (fun s : Nat → cs_real_t => s (3 * v + i)) _ _ _
      (fun j => if g.mesh.b_face_vtx_lst j = v then
            g.b_massflux (z.elt_ids e) * g.gravity i
              / (cs_math_3_dot_product g.gravity g.mq.b_face_normal (z.elt_ids e)
                  * g.rho_b (z.elt_ids e))
          else 0) ?_ s trivial).2
    intro j _ _ s2 _
    refine ⟨trivial, ?_⟩
    refine (forLoop3_setAt (g.mesh.b_face_vtx_lst j)
      (fun i x => x + g.b_massflux (z.elt_ids e) * g.gravity i
              / (cs_math_3_dot_product g.gravity g.mq.b_face_normal (z.elt_ids e)
                  * g.rho_b (z.elt_ids e))) s2 (3 * v + i)).trans ?_
    rw [e1, e2]
    by_cases h : g.mesh.b_face_vtx_lst j = v
    · rw [if_pos h.symm]
      beta_reduce
      rw [if_pos h]
    · rw [if_neg (fun h1 => h h1.symm)]
      beta_reduce
      rw [if_neg h, radd_zero]

/-- The sum over the faces of a zone is zero for a vertex on none of them. -/
theorem free_surface_sum_zero (g : ale_globals) (z : cs_zone_t) (v i : Nat)
    (h : ∀ e, e < z.n_elts → ¬ b_face_has_vtx g.mesh (z.elt_ids e) v) :
    free_surface_sum g z v i = 0 := by
  unfold free_surface_sum
  refine (sum_upto_congr _ _ (fun _ => 0) (fun e he => ?_)).trans (sum_upto_const_zero _)
  refine (sum_upto_congr _ _ (fun _ => 0) (fun k hk => if_neg ?_)).trans (sum_upto_const_zero _)
  exact fun hk2 => h e he ⟨k, hk, hk2⟩

/-- Two sums over a list with equal start and equal terms are equal. -/
theorem foldl_add_congr {α : Type} (f1 f2 : α → cs_real_t) (l : List α) (a : cs_real_t)
    (h : ∀ c ∈ l, f1 c = f2 c) :
    l.foldl (fun acc c => acc + f1 c) a = l.foldl (fun acc c => acc + f2 c) a := by
  induction l generalizing a with
  | nil => rfl
  | cons c l ih =>
    rw [List.foldl_cons, List.foldl_cons, h c (List.mem_cons_self c l)]
    exact ih _ (fun d hd => h d (List.mem_cons_of_mem c hd))

/-- The read-back loop of `_free_surface`, when the zone exists and an id
list is given. -/
theorem free_surface_eq (peer_vel : Nat → Nat → cs_real_t) (mesh_vel0 : Nat → cs_real_t)
    (g : ale_globals) (time : cs_real_t) (n_pts : Nat) (ids : Nat → Nat)
    (xyz : Nat → cs_real_t) (compact : Bool) (input : cs_ale_bc_input_t)
    (res : Nat → cs_real_t) (z : cs_zone_t)
    (hz : g.zones.find? (fun z => z.name = input.z_name) = some z) :
    _free_surface peer_vel mesh_vel0 g time n_pts (some ids) xyz compact input res
      = some (forLoop n_pts (fun p r => forLoop 3 (fun i r2 =>
          setAt r2 (3 * point_slot compact (some ids) p + i)
            ((match g.mesh.vtx_interfaces with
              | some ifs => cs_interface_set_sum ifs 3 peer_vel
                  (free_surface_mesh_vel g z mesh_vel0)
              | none => free_surface_mesh_vel g z mesh_vel0) (3 * ids p + i))) r) res) := by
  unfold _free_surface
  rw [hz]
  rfl

/-- C17: on every partition the velocity `_free_surface` returns for a vertex
of the mesh is the sum, over the faces `f` of the zone and the occurrences of
the vertex in the vertex list of `f`, of
`b_mass_flux[f] * grav / ((grav . b_face_normal[f]) * rho_b[f])`, the faces
being those of this partition and of the partitions that hold a copy of the
vertex; it is the zero vector for a vertex on no face of the zone. -/
theorem free_surface_formula (world : Nat → ale_globals) (heaps : Nat → Nat → cs_real_t)
    (rank : Nat) (time : cs_real_t) (n_pts : Nat) (ids : Nat → Nat) (xyz : Nat → cs_real_t)
    (compact : Bool) (input : cs_ale_bc_input_t) (res : Nat → cs_real_t)
    (zs : Nat → cs_zone_t)
    (hz : ∀ r, (world r).zones.find? (fun z => z.name = input.z_name) = some (zs r))
    (hcopies : ∀ ifs, (world rank).mesh.vtx_interfaces = some ifs →
      ∀ v c, c ∈ ifs.copies v → c.2 < (world c.1).mesh.n_vertices) :
    ∃ out, _free_surface_spmd world heaps rank time n_pts (some ids) xyz compact input res
        = some out ∧
      ∀ p, p < n_pts → ids p < (world rank).mesh.n_vertices → ∀ i, i < 3 →
        out (3 * point_slot compact (some ids) p + i)
            = free_surface_total world zs rank (ids p) i ∧
        ((∀ e, e < (zs rank).n_elts →
            ¬ b_face_has_vtx (world rank).mesh ((zs rank).elt_ids e) (ids p)) →
          (∀ ifs, (world rank).mesh.vtx_interfaces = some ifs → ∀ c, c ∈ ifs.copies (ids p) →
            ∀ e, e < (zs c.1).n_elts →
              ¬ b_face_has_vtx (world c.1).mesh ((zs c.1).elt_ids e) c.2) →
          out (3 * point_slot compact (some ids) p + i) = 0) := by
  unfold _free_surface_spmd
  rw [free_surface_eq _ _ _ _ _ _ _ _ _ _ (zs rank) (hz rank)]
  refine ⟨_, rfl, fun p hp hv i hi => ?_⟩
  have e1 : (3 * ids p + i) / 3 = ids p := by omega
  have e2 : (3 * ids p + i) % 3 = i := by omega
  have hval := (write_loop_spec (point_slot compact (some ids))
    (fun p i => (match (world rank).mesh.vtx_interfaces with
      | some ifs => cs_interface_set_sum ifs 3
          (fun r => match (world r).zones.find? (fun z : cs_zone_t => z.name = input.z_name) with
            | some z => free_surface_mesh_vel (world r) z (heaps r)
            | none => heaps r)
          (free_surface_mesh_vel (world rank) (zs rank) (heaps rank))
      | none => free_surface_mesh_vel (world rank) (zs rank) (heaps rank)) (3 * ids p + i))
    res n_pts).2 p hp i hi (fun p2 _ h => by
      unfold point_slot at h
      cases compact
      · simp only [Bool.false_eq_true, if_false, point_id] at h
        show _ = _
        beta_reduce
        rw [h]
      · simp only [if_true] at h
        rw [h])
  have htot : (match (world rank).mesh.vtx_interfaces with
      | some ifs => cs_interface_set_sum ifs 3
          (fun r => match (world r).zones.find? (fun z : cs_zone_t => z.name = input.z_name) with
            | some z => free_surface_mesh_vel (world r) z (heaps r)
            | none => heaps r)
          (free_surface_mesh_vel (world rank) (zs rank) (heaps rank))
      | none => free_surface_mesh_vel (world rank) (zs rank) (heaps rank)) (3 * ids p + i)
      = free_surface_total world zs rank (ids p) i := by
    unfold free_surface_total
    cases hifs : (world rank).mesh.vtx_interfaces with
    | none => exact free_surface_mesh_vel_spec (world rank) (zs rank) (heaps rank) (ids p) i hv hi
    | some ifs =>
      show cs_interface_set_sum ifs 3 _ _ (3 * ids p + i) = _
      unfold cs_interface_set_sum
      rw [e1, e2, free_surface_mesh_vel_spec (world rank) (zs rank) (heaps rank) (ids p) i hv hi]
      refine foldl_add_congr _ _ _ _ (fun c hc => ?_)
      beta_reduce
      rw [hz c.1]
      exact free_surface_mesh_vel_spec (world c.1) (zs c.1) (heaps c.1) c.2 i
        (hcopies ifs hifs (ids p) c hc) hi
  refine ⟨hval.trans htot, fun h1 h2 => ?_⟩
  refine (hval.trans htot).trans ?_
  unfold free_surface_total
  cases hifs : (world rank).mesh.vtx_interfaces with
  | none => exact free_surface_sum_zero _ _ _ _ h1
  | some ifs =>
    show List.foldl _ _ _ = 0
    rw [free_surface_sum_zero _ _ _ _ h1]
    exact foldl_add_zero _ _ (fun c hc => free_surface_sum_zero _ _ _ _ (h2 ifs hifs c hc))

theorem free_surface_formula_witness :
    ∃ out, _free_surface_spmd (fun _ => tet_fs_globals) (fun _ => zeros) 0 0 2
        (some (idxList [3, 1])) zeros true ⟨"free_surface"⟩ zeros = some out ∧
      out (3 * 0 + 2) = cs_real_t.real 2 ∧ out (3 * 1 + 2) = cs_real_t.real 0 := by
  have hzc : tet_fs_globals.zones.find? (fun z => z.name = "free_surface") = some tet_fs_zone := by
    simp [tet_fs_globals, tet_fs_zone, List.find?]
  obtain ⟨out, h1, h2⟩ := free_surface_formula (fun _ => tet_fs_globals) (fun _ => zeros) 0 0 2
    (idxList [3, 1]) zeros true ⟨"free_surface"⟩ zeros (fun _ => tet_fs_zone)
    (fun _ => hzc) (fun ifs h => by cases h)
  refine ⟨out, h1, ?_, ?_⟩
  · exact ((h2 0 (by decide) (by decide!) 2 (by decide)).1).trans (by decide!)
  · exact ((h2 1 (by decide) (by decide!) 2 (by decide)).1).trans (by decide!)

/-- The write loop of the evaluators, for vectors that depend on the id of
the query point only. -/
theorem write_loop_slots (compact : Bool) (pt_ids : Option (Nat → Nat))
    (vec : Nat → Nat → cs_real_t) (res : Nat → cs_real_t) (n_pts : Nat) :
    writes_slots n_pts (point_slot compact pt_ids) (fun p i => vec (point_id pt_ids p) i) res
      (forLoop n_pts (fun p r => forLoop 3 (fun i r2 =>
        setAt r2 (3 * point_slot compact pt_ids p + i) (vec (point_id pt_ids p) i)) r) res) := by
  obtain ⟨h1, h2⟩ := write_loop_spec (point_slot compact pt_ids)
    (fun p i => vec (point_id pt_ids p) i) res n_pts
  refine ⟨fun p hp i hi => h2 p hp i hi (fun p2 _ h => ?_), h1⟩
  unfold point_slot at h
  cases compact
  · simp only [Bool.false_eq_true, if_false] at h
    rw [h]
  · simp only [if_true] at h
    rw [h]

/-- C16 (amended): `_fixed_velocity`, `_fixed_displacement` when the
displacement field and the snapshot exist, and `_free_surface` when the zone
exists and an id list is given, write the vector of the `p`-th query point at
slot `p` when `compact` is true and at the slot of its id otherwise (the id is
`pt_ids[p]`, and `p` without an id list), and leave every entry outside these
slots as it was. -/
theorem evaluators_output_slots (gui : String → (Nat → cs_real_t) → Nat → cs_real_t)
    (peer_vel : Nat → Nat → cs_real_t) (mesh_vel0 : Nat → cs_real_t) (g : ale_globals)
    (time : cs_real_t) (n_pts : Nat) (pt_ids : Option (Nat → Nat)) (xyz : Nat → cs_real_t)
    (compact : Bool) (input : cs_ale_bc_input_t) (res : Nat → cs_real_t) :
    writes_slots n_pts (point_slot compact pt_ids) (fun _ i => gui input.z_name (fun _ => 0) i)
      res (_fixed_velocity gui time n_pts pt_ids xyz compact input res) ∧
    (∀ dis vtx_coord0, g.disale = some dis → g._vtx_coord0 = some vtx_coord0 →
      ∃ out, _fixed_displacement g time n_pts pt_ids xyz compact input res = some out ∧
        writes_slots n_pts (point_slot compact pt_ids)
          (fun p c => (dis.val (3 * point_id pt_ids p + c)
            + vtx_coord0 (3 * point_id pt_ids p + c)
            - g.mesh.vtx_coord (3 * point_id pt_ids p + c)) / g.dtref) res out) ∧
    (∀ z ids, g.zones.find? (fun z => z.name = input.z_name) = some z → pt_ids = some ids →
      ∃ out, _free_surface peer_vel mesh_vel0 g time n_pts pt_ids xyz compact input res
          = some out ∧
        writes_slots n_pts (point_slot compact pt_ids)
          (fun p i => (match g.mesh.vtx_interfaces with
            | some ifs => cs_interface_set_sum ifs 3 peer_vel
                (free_surface_mesh_vel g z mesh_vel0)
            | none => free_surface_mesh_vel g z mesh_vel0) (3 * ids p + i)) res out) := by
  refine ⟨?_, fun dis vtx_coord0 hd h0 => ?_, fun z ids hz hids => ?_⟩
  · rw [fixed_velocity_eq]
    exact write_loop_slots compact pt_ids (fun _ i => gui input.z_name (fun _ => 0) i) res n_pts
  · unfold _fixed_displacement
    rw [hd]
    by_cases hn : n_pts = 0
    · subst hn
      exact ⟨res, by simp, fun p hp => absurd hp (Nat.not_lt_zero p), fun _ _ => rfl⟩
    · simp only [hn, if_false, h0]
      exact ⟨_, rfl, write_loop_slots compact pt_ids
        (fun id c => (dis.val (3 * id + c) + vtx_coord0 (3 * id + c)
          - g.mesh.vtx_coord (3 * id + c)) / g.dtref) res n_pts⟩
  · subst hids
    rw [free_surface_eq _ _ _ _ _ _ _ _ _ _ z hz]
    exact ⟨_, rfl, write_loop_slots compact (some ids)
      (fun id i => (match g.mesh.vtx_interfaces with
            | some ifs => cs_interface_set_sum ifs 3 peer_vel
                (free_surface_mesh_vel g z mesh_vel0)
            | none => free_surface_mesh_vel g z mesh_vel0) (3 * id + i)) res n_pts⟩

theorem evaluators_output_slots_witness :
    writes_slots 2 (point_slot false (some (idxList [3, 1])))
      (fun _ i => tet_gui "free_surface" (fun _ => 0) i) zeros
      (_fixed_velocity tet_gui 0 2 (some (idxList [3, 1])) zeros false ⟨"free_surface"⟩ zeros) ∧
    (∃ out, _free_surface (fun _ => zeros) zeros tet_fs_globals 0 2 (some (idxList [3, 1])) zeros
        false ⟨"free_surface"⟩ zeros = some out ∧
      out (3 * 3 + 2) = cs_real_t.real 2 ∧ out (3 * 0 + 2) = 0) := by
  have h := evaluators_output_slots tet_gui (fun _ => zeros) zeros tet_fs_globals 0 2
    (some (idxList [3, 1])) zeros false ⟨"free_surface"⟩ zeros
  refine ⟨h.1, ?_⟩
  obtain ⟨out, h1, h2, h3⟩ := h.2.2 tet_fs_zone (idxList [3, 1])
    (by simp [tet_fs_globals, tet_fs_zone, List.find?]) rfl
  refine ⟨out, h1, (h2 0 (by decide) 2 (by decide)).trans (by decide!), ?_⟩
  refine (h3 (3 * 0 + 2) (fun p hp => ?_)).trans rfl
  have hp2 : p = 0 ∨ p = 1 := by omega
  rcases hp2 with rfl | rfl <;> decide

/-- C16 (counterexample): on the one-tetrahedron mesh `_free_surface` returns
with an id list, and fails without one, instead of using slot `p`. -/
theorem free_surface_requires_ids :
    (_free_surface (fun _ => zeros) zeros tet_fs_globals 0 1 (some (idxList [0])) zeros false
        ⟨"free_surface"⟩ zeros).isSome = true ∧
      _free_surface (fun _ => zeros) zeros tet_fs_globals 0 1 none zeros false
        ⟨"free_surface"⟩ zeros = none := by
  constructor
  · simp [_free_surface, tet_fs_globals, tet_fs_zone, List.find?]
  · simp [_free_surface, tet_fs_globals, tet_fs_zone, List.find?]

/-- C18: on the one-tetrahedron mesh, with the free-surface zone made of the
faces `OAB` and `ABC`, gravity `(0,0,-1)` and unit mass flux and density on
both faces, the mass flux through the zone is 2 and the flux implied by the
vertex velocities `_free_surface` returns is 2/3. -/
theorem free_surface_flux_mismatch :
    ∃ out, _free_surface (fun _ => zeros) zeros tet_fs_globals 0 4 (some (fun p => p)) zeros
        false ⟨"free_surface"⟩ zeros = some out ∧
      tet_fs_globals.mesh.vtx_interfaces = none ∧
      zone_mass_flux tet_fs_globals tet_fs_zone = cs_real_t.real 2 ∧
      zone_implied_flux tet_fs_globals tet_fs_zone out = cs_real_t.real (2/3) := by
  refine ⟨_, free_surface_eq _ _ _ _ _ _ _ _ _ _ tet_fs_zone
    (by simp [tet_fs_globals, tet_fs_zone, List.find?]), rfl, ?_, ?_⟩
  · decide!
  · decide!

/-- Two loops whose bodies agree below the bound give the same result. -/
theorem forLoop_congr {σ : Type} (n : Nat) (b1 b2 : Nat → σ → σ) (s : σ)
    (h : ∀ k, k < n → ∀ st, b1 k st = b2 k st) : forLoop n b1 s = forLoop n b2 s := by
  induction n with
  | zero => rfl
  | succ n ih =>
    show b1 n (forLoop n b1 s) = b2 n (forLoop n b2 s)
    rw [ih (fun k hk => h k (Nat.lt_succ_of_lt hk)), h n (Nat.lt_succ_self n)]

/-- A counted loop over the entries of a list is the fold of its body over
the list. -/
theorem forLoop_get_foldl {α σ : Type} (f : α → σ → σ) (l : List α) (body : Nat → σ → σ)
    (hb : ∀ j a st, l.get? j = some a → body j st = f a st) (s : σ) :
    forLoop l.length body s = l.foldl (fun st a => f a st) s := by
  induction l using List.reverseRecOn generalizing body with
  | nil => rfl
  | append_singleton l a ih =>
    rw [List.foldl_append, List.length_append]
    show body l.length (forLoop l.length body s) = _
    have e : (l ++ [a]).get? l.length = some a := by simp
    rw [hb _ a _ e]
    show f a _ = f a _
    congr 1
    refine ih body (fun j b st hj => hb j b st ?_)
    have hlt : j < l.length := by
      rcases Nat.lt_or_ge j l.length with h | h
      · exact h
      · rw [List.get?_eq_none.mpr h] at hj
        cases hj
    rw [← hj]
    simp [List.getElem?_append_left hlt]

/-- The zone loop of `cs_ale_setup_boundaries` as a fold over the zones. -/
theorem setup_zones_foldl (m : cs_mesh_t) (zones : List cs_zone_t) (impale : Nat → Int)
    (ale_bc_type : Nat → cs_ale_bc_t) (st : setup_locals) :
    setup_zones m zones impale ale_bc_type st
      = zones.foldl (fun s z => setup_zone m zones impale ale_bc_type z s) st := by
  unfold setup_zones
  refine forLoop_get_foldl (fun z s => setup_zone m zones impale ale_bc_type z s) zones _
    (fun j a st hj => ?_) st
  beta_reduce
  rw [hj]

/-- What the body of the zone loop does for any zone: it appends at most one
definition, for the id the zone name stands for, and keeps the closures
already in the table. -/
theorem setup_zone_frame (m : cs_mesh_t) (zones : List cs_zone_t) (impale : Nat → Int)
    (ale_bc_type : Nat → cs_ale_bc_t) (z : cs_zone_t) (st : setup_locals) :
    ∃ news, (setup_zone m zones impale ale_bc_type z st).bc_defs = st.bc_defs ++ news ∧
      news.length ≤ 1 ∧ (∀ d ∈ news, d.z_id = zone_id_by_name zones z.name) ∧
      st._n_input_bc ≤ (setup_zone m zones impale ale_bc_type z st)._n_input_bc ∧
      ∀ k, k < st._n_input_bc →
        (setup_zone m zones impale ale_bc_type z st).input_bc k = st.input_bc k := by
  unfold setup_zone
  have hset : ∀ (t : Nat → String) (n : Nat) (x : String) (k : Nat), k < n →
      setAt t n x k = t k := fun t n x k hk => by
    unfold setAt
    rw [if_neg (by omega)]
  simp only []
  split_ifs
  all_goals first
    | exact ⟨[_], rfl, le_refl _, fun d hd => by rw [List.mem_singleton.mp hd], le_refl _,
        fun _ _ => rfl⟩
    | exact ⟨[_], rfl, le_refl _, fun d hd => by rw [List.mem_singleton.mp hd], Nat.le_succ _,
        fun k hk => hset _ _ _ k hk⟩
    | exact ⟨[], (List.append_nil _).symm, Nat.zero_le _,
        fun d hd => absurd hd (List.not_mem_nil d), le_refl _, fun _ _ => rfl⟩

/-- The zone loop over zones whose names stand for ids other than `zid`
appends no definition for `zid` and keeps the closures already in the
table. -/
theorem setup_fold_frame (m : cs_mesh_t) (zones : List cs_zone_t) (impale : Nat → Int)
    (ale_bc_type : Nat → cs_ale_bc_t) (zid : Int) (l : List cs_zone_t)
    (h : ∀ z ∈ l, zone_id_by_name zones z.name ≠ zid) (st : setup_locals) :
    ∃ extra,
      (l.foldl (fun s z => setup_zone m zones impale ale_bc_type z s) st).bc_defs
        = st.bc_defs ++ extra ∧
      (∀ d ∈ extra, d.z_id ≠ zid) ∧
      st._n_input_bc
        ≤ (l.foldl (fun s z => setup_zone m zones impale ale_bc_type z s) st)._n_input_bc ∧
      ∀ k, k < st._n_input_bc →
        (l.foldl (fun s z => setup_zone m zones impale ale_bc_type z s) st).input_bc k
          = st.input_bc k := by
  induction l generalizing st with
  | nil => exact ⟨[], (List.append_nil _).symm, fun d hd => absurd hd (List.not_mem_nil d),
      le_refl _, fun _ _ => rfl⟩
  | cons a l ih =>
    obtain ⟨news, h1, -, h3, h4, h5⟩ := setup_zone_frame m zones impale ale_bc_type a st
    obtain ⟨extra, k1, k2, k3, k4⟩ := ih (fun z hz => h z (List.mem_cons_of_mem a hz))
      (setup_zone m zones impale ale_bc_type a st)
    refine ⟨news ++ extra, ?_, ?_, le_trans h4 k3, fun k hk => ?_⟩
    · rw [List.foldl_cons, k1, h1, List.append_assoc]
    · intro d hd
      rcases List.mem_append.mp hd with hd | hd
      · rw [h3 d hd]
        exact h a (List.mem_cons_self a l)
      · exact k2 d hd
    · rw [List.foldl_cons, k4 k (lt_of_lt_of_le hk h4), h5 k hk]

/-- The zone loop on a well-formed table, seen from one of its zones `z`:
the state `mid` before the turn of `z` holds no definition for `z`, and
after the turn of `z` no definition for `z` is appended and the closures in
the table are kept. -/
theorem setup_zones_split (m : cs_mesh_t) (zones : List cs_zone_t) (impale : Nat → Int)
    (ale_bc_type : Nat → cs_ale_bc_t) (z : cs_zone_t) (hwf : zones_wf zones)
    (hz : z ∈ zones) (st : setup_locals) (hnd : ∀ d ∈ st.bc_defs, d.z_id ≠ z.id) :
    ∃ mid extra,
      (∀ d ∈ mid.bc_defs, d.z_id ≠ z.id) ∧
      (setup_zones m zones impale ale_bc_type st).bc_defs
        = (setup_zone m zones impale ale_bc_type z mid).bc_defs ++ extra ∧
      (∀ d ∈ extra, d.z_id ≠ z.id) ∧
      ∀ k, k < (setup_zone m zones impale ale_bc_type z mid)._n_input_bc →
        (setup_zones m zones impale ale_bc_type st).input_bc k
          = (setup_zone m zones impale ale_bc_type z mid).input_bc k := by
  obtain ⟨hpair, hname⟩ := hwf
  obtain ⟨l1, l2, hl⟩ := List.append_of_mem hz
  have hp := hpair
  rw [hl, List.pairwise_append] at hp
  obtain ⟨-, hp2, hp3⟩ := hp
  have h1 : ∀ a ∈ l1, zone_id_by_name zones a.name ≠ z.id := by
    intro a ha
    rw [hname a (by rw [hl]; exact List.mem_append_left _ ha)]
    exact hp3 a ha z (List.mem_cons_self z l2)
  have h2 : ∀ a ∈ l2, zone_id_by_name zones a.name ≠ z.id := by
    intro a ha
    rw [hname a (by rw [hl]; exact List.mem_append_right _ (List.mem_cons_of_mem z ha))]
    exact fun e => (List.rel_of_pairwise_cons hp2 ha) e.symm
  obtain ⟨e1, a1, a2, -, -⟩ := setup_fold_frame m zones impale ale_bc_type z.id l1 h1 st
  obtain ⟨e2, b1, b2, -, b4⟩ := setup_fold_frame m zones impale ale_bc_type z.id l2 h2
    (setup_zone m zones impale ale_bc_type z
      (l1.foldl (fun s z => setup_zone m zones impale ale_bc_type z s) st))
  have hfold : setup_zones m zones impale ale_bc_type st
      = l2.foldl (fun s z => setup_zone m zones impale ale_bc_type z s)
          (setup_zone m zones impale ale_bc_type z
            (l1.foldl (fun s z => setup_zone m zones impale ale_bc_type z s) st)) := by
    rw [setup_zones_foldl]
    have hc := congrArg
      (fun l => List.foldl (fun s z => setup_zone m zones impale ale_bc_type z s) st l) hl
    beta_reduce at hc
    rw [hc, List.foldl_append, List.foldl_cons]
  refine ⟨l1.foldl (fun s z => setup_zone m zones impale ale_bc_type z s) st, e2, ?_, ?_, b2, ?_⟩
  · intro d hd
    rw [a1] at hd
    rcases List.mem_append.mp hd with hd | hd
    · exact hnd d hd
    · exact a2 d hd
  · rw [hfold, b1]
  · intro k hk
    rw [hfold, b4 k hk]

/-- The body of the zone loop for a zone that is not skipped, has no
definition yet and has a face: what is appended follows the type of its first
face and the flag of the first vertex of that face. -/
theorem setup_zone_registers (m : cs_mesh_t) (zones : List cs_zone_t) (impale : Nat → Int)
    (ale_bc_type : Nat → cs_ale_bc_t) (z : cs_zone_t) (st : setup_locals)
    (hns : z.id > 0 ∧ z.name ≠ "domain_walls") (hnd : ∀ d ∈ st.bc_defs, d.z_id ≠ z.id)
    (hne : 0 < z.n_elts) :
    (ale_bc_type (z.elt_ids 0) = cs_ale_bc_t.CS_ALE_FIXED →
      (setup_zone m zones impale ale_bc_type z st).bc_defs = st.bc_defs ++
        [{ z_id := zone_id_by_name zones z.name,
           bc_type := cs_param_bc_type_t.CS_PARAM_BC_HMG_DIRICHLET,
           value := cs_xdef_value_t.by_value 0 }]) ∧
    (∀ func, (ale_bc_type (z.elt_ids 0) = cs_ale_bc_t.CS_ALE_IMPOSED_VEL ∧
          impale (m.b_face_vtx_lst (m.b_face_vtx_idx (z.elt_ids 0))) = 0 ∧
          func = ale_analytic_func_t._fixed_velocity) ∨
        (ale_bc_type (z.elt_ids 0) = cs_ale_bc_t.CS_ALE_IMPOSED_VEL ∧
          impale (m.b_face_vtx_lst (m.b_face_vtx_idx (z.elt_ids 0))) ≠ 0 ∧
          func = ale_analytic_func_t._fixed_displacement) ∨
        (ale_bc_type (z.elt_ids 0) = cs_ale_bc_t.CS_FREE_SURFACE ∧
          func = ale_analytic_func_t._free_surface) →
      (setup_zone m zones impale ale_bc_type z st).bc_defs = st.bc_defs ++
        [{ z_id := zone_id_by_name zones z.name,
           bc_type := cs_param_bc_type_t.CS_PARAM_BC_DIRICHLET,
           value := cs_xdef_value_t.by_analytic func st._n_input_bc }] ∧
      (setup_zone m zones impale ale_bc_type z st).input_bc st._n_input_bc = z.name ∧
      (setup_zone m zones impale ale_bc_type z st)._n_input_bc = st._n_input_bc + 1) ∧
    (ale_bc_type (z.elt_ids 0) ≠ cs_ale_bc_t.CS_ALE_FIXED →
      ale_bc_type (z.elt_ids 0) ≠ cs_ale_bc_t.CS_ALE_IMPOSED_VEL →
      ale_bc_type (z.elt_ids 0) ≠ cs_ale_bc_t.CS_FREE_SURFACE →
      (setup_zone m zones impale ale_bc_type z st).bc_defs = st.bc_defs) := by
  have hany : (st.bc_defs.any (fun d => decide (d.z_id = z.id))) = false := by
    rw [List.any_eq_false]
    intro d hd
    simpa using hnd d hd
  unfold setup_zone
  rw [if_pos hns]
  simp only [hany, hne, if_true, Bool.false_eq_true, if_false]
  refine ⟨fun h => ?_, fun func h => ?_, fun h1 h2 h3 => ?_⟩
  · simp [h, cs_equation_add_bc_by_value]
  · rcases h with ⟨h1, h2, rfl⟩ | ⟨h1, h2, rfl⟩ | ⟨h1, rfl⟩
    · simp [h1, h2, cs_equation_add_bc_by_analytic, setAt]
    · simp [h1, h2, cs_equation_add_bc_by_analytic, setAt]
    · simp [h1, cs_equation_add_bc_by_analytic, setAt]
  · simp [h1, h2, h3]

/-- The definitions for zone `z` on the equation after
`cs_ale_setup_boundaries`, on a well-formed zone table and for a zone without
a definition on entry: they are those the body of the zone loop appends at
the turn of `z`, and the closures it stores then are still in the table. -/
theorem setup_boundaries_filter (table0 : Nat → String) (face_type0 : cs_ale_bc_t)
    (imp_dis0 : Int) (impale : Nat → Int) (ale_bc_type : Nat → cs_ale_bc_t) (g : ale_globals)
    (eqp : cs_equation_param_t) (z : cs_zone_t) (heqp : g.mesh_velocity_eqp = some eqp)
    (hwf : zones_wf g.zones) (hz : z ∈ g.zones) (hnd : ∀ d ∈ eqp.bc_defs, d.z_id ≠ z.id) :
    ∃ g1 eqp1 table mid,
      cs_ale_setup_boundaries table0 face_type0 imp_dis0 impale ale_bc_type g = some g1 ∧
      g1.mesh_velocity_eqp = some eqp1 ∧ g1._input_bc = some table ∧
      (∀ d ∈ mid.bc_defs, d.z_id ≠ z.id) ∧
      (∀ news, (setup_zone g.mesh g.zones impale ale_bc_type z mid).bc_defs
          = mid.bc_defs ++ news → (∀ d ∈ news, d.z_id = z.id) →
        eqp1.bc_defs.filter (fun d => decide (d.z_id = z.id)) = news) ∧
      ∀ k, k < (setup_zone g.mesh g.zones impale ale_bc_type z mid)._n_input_bc →
        table k = (setup_zone g.mesh g.zones impale ale_bc_type z mid).input_bc k := by
  obtain ⟨mid, extra, h1, h2, h3, h4⟩ := setup_zones_split g.mesh g.zones impale ale_bc_type z
    hwf hz { _n_input_bc := 0, input_bc := table0, bc_defs := eqp.bc_defs,
             face_type := face_type0, imp_dis := imp_dis0 } hnd
  unfold cs_ale_setup_boundaries
  rw [heqp]
  refine ⟨_, _, _, mid, rfl, rfl, rfl, h1, fun news hn hall => ?_, h4⟩
  show List.filter _ (setup_zones g.mesh g.zones impale ale_bc_type _).bc_defs = news
  rw [h2, hn, List.filter_append, List.filter_append]
  have f1 : mid.bc_defs.filter (fun d => decide (d.z_id = z.id)) = [] := by
    rw [List.filter_eq_nil_iff]
    intro d hd
    simpa using h1 d hd
  have f2 : extra.filter (fun d => decide (d.z_id = z.id)) = [] := by
    rw [List.filter_eq_nil_iff]
    intro d hd
    simpa using h3 d hd
  have f3 : news.filter (fun d => decide (d.z_id = z.id)) = news := by
    rw [List.filter_eq_self]
    intro d hd
    simpa using hall d hd
  rw [f1, f2, f3, List.nil_append, List.append_nil]

/-- C20 (amended): on a well-formed zone table, for a zone that is neither
reserved nor defined on entry, `cs_ale_setup_boundaries` never leaves two
definitions for the zone; when the zone has a face it leaves exactly one if
the type of its first face is Fixed, ImposedVelocity or FreeSurface, and none
for any other type. -/
theorem setup_boundaries_count (table0 : Nat → String) (face_type0 : cs_ale_bc_t)
    (imp_dis0 : Int) (impale : Nat → Int) (ale_bc_type : Nat → cs_ale_bc_t) (g : ale_globals)
    (eqp : cs_equation_param_t) (z : cs_zone_t) (heqp : g.mesh_velocity_eqp = some eqp)
    (hwf : zones_wf g.zones) (hz : z ∈ g.zones)
    (hns : z.id > 0 ∧ z.name ≠ "domain_walls") (hnd : ∀ d ∈ eqp.bc_defs, d.z_id ≠ z.id) :
    ∃ g1 eqp1,
      cs_ale_setup_boundaries table0 face_type0 imp_dis0 impale ale_bc_type g = some g1 ∧
      g1.mesh_velocity_eqp = some eqp1 ∧
      (eqp1.bc_defs.filter (fun d => decide (d.z_id = z.id))).length ≤ 1 ∧
      (0 < z.n_elts →
        (eqp1.bc_defs.filter (fun d => decide (d.z_id = z.id))).length
          = if ale_bc_type (z.elt_ids 0) = cs_ale_bc_t.CS_ALE_FIXED ∨
               ale_bc_type (z.elt_ids 0) = cs_ale_bc_t.CS_ALE_IMPOSED_VEL ∨
               ale_bc_type (z.elt_ids 0) = cs_ale_bc_t.CS_FREE_SURFACE then 1 else 0) := by
  obtain ⟨g1, eqp1, table, mid, r1, r2, -, hmid, hfilter, -⟩ :=
    setup_boundaries_filter table0 face_type0 imp_dis0 impale ale_bc_type g eqp z heqp hwf hz hnd
  obtain ⟨news, n1, n2, n3, -, -⟩ := setup_zone_frame g.mesh g.zones impale ale_bc_type z mid
  rw [hwf.2 z hz] at n3
  have hf := hfilter news n1 n3
  refine ⟨g1, eqp1, r1, r2, by rw [hf]; exact n2, fun hne => ?_⟩
  obtain ⟨s1, s2, s3⟩ := setup_zone_registers g.mesh g.zones impale ale_bc_type z mid hns hmid hne
  rw [hf]
  by_cases h1 : ale_bc_type (z.elt_ids 0) = cs_ale_bc_t.CS_ALE_FIXED
  · rw [if_pos (Or.inl h1)]
    have e := (s1 h1).symm.trans n1
    rw [← List.append_cancel_left e]
    rfl
  by_cases h2 : ale_bc_type (z.elt_ids 0) = cs_ale_bc_t.CS_ALE_IMPOSED_VEL
  · rw [if_pos (Or.inr (Or.inl h2))]
    by_cases h0 : impale (g.mesh.b_face_vtx_lst (g.mesh.b_face_vtx_idx (z.elt_ids 0))) = 0
    · have e := (s2 _ (Or.inl ⟨h2, h0, rfl⟩)).1.symm.trans n1
      rw [← List.append_cancel_left e]
      rfl
    · have e := (s2 _ (Or.inr (Or.inl ⟨h2, h0, rfl⟩))).1.symm.trans n1
      rw [← List.append_cancel_left e]
      rfl
  by_cases h3 : ale_bc_type (z.elt_ids 0) = cs_ale_bc_t.CS_FREE_SURFACE
  · rw [if_pos (Or.inr (Or.inr h3))]
    have e := (s2 _ (Or.inr (Or.inr ⟨h3, rfl⟩))).1.symm.trans n1
    rw [← List.append_cancel_left e]
    rfl
  · rw [if_neg (fun h => h.elim h1 (fun h => h.elim h2 h3))]
    have e := (s3 h1 h2 h3).symm.trans n1
    have e2 : mid.bc_defs ++ [] = mid.bc_defs ++ news := by rw [List.append_nil]; exact e
    rw [← List.append_cancel_left e2]
    rfl

/-- The zone table of the evaluations is well formed. -/
theorem tet_setup_zones_wf : zones_wf tet_setup_globals.zones := by
  constructor
  · show List.Pairwise _ tet_setup_zones
    simp [tet_setup_zones]
  · show ∀ z ∈ tet_setup_zones, zone_id_by_name tet_setup_zones z.name = z.id
    simp [tet_setup_zones, zone_id_by_name, List.find?]

theorem setup_boundaries_count_witness :
    ∃ g1 eqp1,
      cs_ale_setup_boundaries (fun _ => "") cs_ale_bc_t.CS_ALE_FIXED 0 (fun _ => 0)
        tet_sliding_types tet_setup_globals = some g1 ∧
      g1.mesh_velocity_eqp = some eqp1 ∧
      (eqp1.bc_defs.filter (fun d => decide (d.z_id = 3))).length = 1 := by
  obtain ⟨g1, eqp1, h1, h2, -, h3⟩ :=
    setup_boundaries_count (fun _ => "") cs_ale_bc_t.CS_ALE_FIXED 0 (fun _ => 0)
      tet_sliding_types tet_setup_globals { bc_defs := [] }
      { id := 3, name := "bottom", n_elts := 2, elt_ids := idxList [1, 2] } rfl
      tet_setup_zones_wf
      (List.mem_cons_of_mem _ (List.mem_cons_of_mem _ (List.mem_cons_of_mem _
        (List.mem_cons_self _ _))))
      ⟨by decide, by decide⟩ (fun d hd => absurd hd (List.not_mem_nil d))
  exact ⟨g1, eqp1, h1, h2, h3 (by decide)⟩

/-- C20 (counterexample): on the one-tetrahedron mesh the zone `slide`, of id
2, is not reserved, has no definition on entry and has a sliding face, and
`cs_ale_setup_boundaries` registers no boundary condition for it: the
definitions on return are those of the zones `inlet` and `bottom`. -/
theorem setup_boundaries_sliding_zone :
    ∃ g1 eqp1,
      cs_ale_setup_boundaries (fun _ => "") cs_ale_bc_t.CS_ALE_FIXED 0 (fun _ => 0)
        tet_sliding_types tet_setup_globals = some g1 ∧
      g1.mesh_velocity_eqp = some eqp1 ∧
      eqp1.bc_defs
        = [{ z_id := 1, bc_type := cs_param_bc_type_t.CS_PARAM_BC_DIRICHLET,
             value := cs_xdef_value_t.by_analytic ale_analytic_func_t._fixed_velocity 0 },
           { z_id := 3, bc_type := cs_param_bc_type_t.CS_PARAM_BC_HMG_DIRICHLET,
             value := cs_xdef_value_t.by_value 0 }] ∧
      eqp1.bc_defs.filter (fun d => decide (d.z_id = 2)) = [] := by
  refine ⟨_, _, rfl, rfl, ?_, ?_⟩
  · decide!
  · decide!

/-- Lines 639-647, whatever the dimension: the indicator of every vertex of
the mesh is set. -/
theorem proj_init_indicator (p : proj_args) (st : proj_acc) (v : Nat) :
    (proj_init p st).vtx_interior_indicator v
      = if v < p.m.n_vertices then true else st.vtx_interior_indicator v := by
  unfold proj_init
  refine forLoop_inv
    (fun k (s : proj_acc) => s.vtx_interior_indicator v
      = if v < k then true else st.vtx_interior_indicator v)
    p.m.n_vertices _ st (by simp) (fun k _ s hs => ?_)
  show setAt s.vtx_interior_indicator k true v = _
  unfold setAt
  by_cases h : v = k
  · rw [if_pos h, if_pos (by omega)]
  · rw [if_neg h, hs]
    by_cases h1 : v < k
    · rw [if_pos h1, if_pos (by omega)]
    · rw [if_neg h1, if_neg (by omega)]

/-- Lines 653-669: a vertex has the boundary tag after the loop exactly when
it had it before or lies on a boundary face that is not sliding. -/
theorem proj_tag_iff (p : proj_args) (st : proj_acc) (v : Nat) :
    (proj_tag p st).vtx_interior_indicator v = false ↔
      (st.vtx_interior_indicator v = false ∨
        ∃ f, f < p.m.n_b_faces ∧ p.ale_bc_type f ≠ cs_ale_bc_t.CS_ALE_SLIDING ∧
          b_face_has_vtx p.m f v) := by
  unfold proj_tag
  refine forLoop_inv
    (fun k (s : proj_acc) => s.vtx_interior_indicator v = false ↔
      (st.vtx_interior_indicator v = false ∨
        ∃ f, f < k ∧ p.ale_bc_type f ≠ cs_ale_bc_t.CS_ALE_SLIDING ∧ b_face_has_vtx p.m f v))
    p.m.n_b_faces _ st ?_ (fun k _ s hs => ?_)
  · constructor
    · exact fun h => Or.inl h
    · rintro (h | ⟨f, hf, -⟩)
      · exact h
      · exact absurd hf (Nat.not_lt_zero f)
  · beta_reduce at hs
    have hface : ∀ hi : Nat,
        (forRange (p.m.b_face_vtx_idx k) hi (fun j (st2 : proj_acc) =>
          { st2 with vtx_interior_indicator :=
              (setAt st2.vtx_interior_indicator (p.m.b_face_vtx_lst j) false) }) s
          ).vtx_interior_indicator v = false ↔
        (s.vtx_interior_indicator v = false ∨
          ∃ j, j < hi - p.m.b_face_vtx_idx k ∧
            p.m.b_face_vtx_lst (p.m.b_face_vtx_idx k + j) = v) := by
      intro hi
      unfold forRange
      refine forLoop_inv
        (fun n (s2 : proj_acc) => s2.vtx_interior_indicator v = false ↔
          (s.vtx_interior_indicator v = false ∨
            ∃ j, j < n ∧ p.m.b_face_vtx_lst (p.m.b_face_vtx_idx k + j) = v))
        (hi - p.m.b_face_vtx_idx k) _ s ?_ (fun n _ s2 hs2 => ?_)
      · constructor
        · exact fun h => Or.inl h
        · rintro (h | ⟨j, hj, -⟩)
          · exact h
          · exact absurd hj (Nat.not_lt_zero j)
      · beta_reduce at hs2
        show setAt s2.vtx_interior_indicator (p.m.b_face_vtx_lst (p.m.b_face_vtx_idx k + n))
          false v = false ↔ _
        unfold setAt
        by_cases h : v = p.m.b_face_vtx_lst (p.m.b_face_vtx_idx k + n)
        · rw [if_pos h]
          exact ⟨fun _ => Or.inr ⟨n, Nat.lt_succ_self n, h.symm⟩, fun _ => rfl⟩
        · rw [if_neg h, hs2]
          constructor
          · rintro (h1 | ⟨j, hj, e⟩)
            · exact Or.inl h1
            · exact Or.inr ⟨j, Nat.lt_succ_of_lt hj, e⟩
          · rintro (h1 | ⟨j, hj, e⟩)
            · exact Or.inl h1
            · rcases Nat.lt_succ_iff_lt_or_eq.mp hj with h2 | h2
              · exact Or.inr ⟨j, h2, e⟩
              · exact absurd (by rw [← e, h2]) h
    by_cases ht : p.ale_bc_type k ≠ cs_ale_bc_t.CS_ALE_SLIDING
    · beta_reduce
      rw [if_pos ht, hface, hs]
      constructor
      · rintro ((h1 | ⟨f, hf, h2, h3⟩) | h4)
        · exact Or.inl h1
        · exact Or.inr ⟨f, Nat.lt_succ_of_lt hf, h2, h3⟩
        · exact Or.inr ⟨k, Nat.lt_succ_self k, ht, h4⟩
      · rintro (h1 | ⟨f, hf, h2, h3⟩)
        · exact Or.inl (Or.inl h1)
        · rcases Nat.lt_succ_iff_lt_or_eq.mp hf with h4 | h4
          · exact Or.inl (Or.inr ⟨f, h4, h2, h3⟩)
          · subst h4
            exact Or.inr h3
    · beta_reduce
      rw [if_neg ht, hs]
      constructor
      · rintro (h1 | ⟨f, hf, h2, h3⟩)
        · exact Or.inl h1
        · exact Or.inr ⟨f, Nat.lt_succ_of_lt hf, h2, h3⟩
      · rintro (h1 | ⟨f, hf, h2, h3⟩)
        · exact Or.inl h1
        · rcases Nat.lt_succ_iff_lt_or_eq.mp hf with h4 | h4
          · exact Or.inr ⟨f, h4, h2, h3⟩
          · subst h4
            exact absurd h2 ht

/-- C28: a vertex of the mesh is tagged boundary by
`cs_ale_project_displacement` exactly when it lies on a boundary face that is
not sliding, and is tagged interior otherwise (so also when all its boundary
faces are sliding); the tags are the same when the boundary faces are given
in another order. -/
theorem vertex_tag_iff (p : proj_args) (heap : proj_acc) (v : Nat)
    (hv : v < p.m.n_vertices) :
    (vtx_interior_tag p heap v = false ↔
      ∃ f, f < p.m.n_b_faces ∧ p.ale_bc_type f ≠ cs_ale_bc_t.CS_ALE_SLIDING ∧
        b_face_has_vtx p.m f v) ∧
    (vtx_interior_tag p heap v = true ↔
      ∀ f, f < p.m.n_b_faces → b_face_has_vtx p.m f v →
        p.ale_bc_type f = cs_ale_bc_t.CS_ALE_SLIDING) ∧
    (∀ (p2 : proj_args) (heap2 : proj_acc) (σ : Nat → Nat),
      p2.m.n_vertices = p.m.n_vertices → p2.m.n_b_faces = p.m.n_b_faces →
      (∀ f, f < p.m.n_b_faces → σ f < p.m.n_b_faces) →
      (∀ f2, f2 < p.m.n_b_faces → ∃ f, f < p.m.n_b_faces ∧ σ f = f2) →
      (∀ f, f < p.m.n_b_faces → p2.ale_bc_type (σ f) = p.ale_bc_type f ∧
        (b_face_has_vtx p2.m (σ f) v ↔ b_face_has_vtx p.m f v)) →
      vtx_interior_tag p2 heap2 v = vtx_interior_tag p heap v) := by
  have key : ∀ (q : proj_args) (hp : proj_acc), v < q.m.n_vertices →
      (vtx_interior_tag q hp v = false ↔
        ∃ f, f < q.m.n_b_faces ∧ q.ale_bc_type f ≠ cs_ale_bc_t.CS_ALE_SLIDING ∧
          b_face_has_vtx q.m f v) := by
    intro q hp hq
    unfold vtx_interior_tag
    rw [proj_tag_iff, proj_init_indicator, if_pos hq]
    simp
  refine ⟨key p heap hv, ?_, ?_⟩
  · rw [← Bool.not_eq_false, key p heap hv]
    constructor
    · intro h f hf hm
      by_contra hne
      exact h ⟨f, hf, hne, hm⟩
    · rintro h ⟨f, hf, hne, hm⟩
      exact hne (h f hf hm)
  · intro p2 heap2 σ hn hb hσ hsurj hsame
    have e : (vtx_interior_tag p2 heap2 v = false ↔ vtx_interior_tag p heap v = false) := by
      rw [key p heap hv, key p2 heap2 (by rw [hn]; exact hv), hb]
      constructor
      · rintro ⟨f2, hf2, h1, h2⟩
        obtain ⟨f, hf, rfl⟩ := hsurj f2 hf2
        exact ⟨f, hf, by rw [← (hsame f hf).1]; exact h1, (hsame f hf).2.mp h2⟩
      · rintro ⟨f, hf, h1, h2⟩
        exact ⟨σ f, hσ f hf, by rw [(hsame f hf).1]; exact h1, (hsame f hf).2.mpr h2⟩
    cases h1 : vtx_interior_tag p2 heap2 v <;> cases h2 : vtx_interior_tag p heap v <;>
      simp_all

theorem vertex_tag_iff_witness :
    vtx_interior_tag tet_sliding_args tet_heap.proj 3 = false ∧
    vtx_interior_tag (tet_zero_args cs_ale_bc_t.CS_ALE_SLIDING) tet_heap.proj 3 = true :=
  ⟨(vertex_tag_iff tet_sliding_args tet_heap.proj 3 (by decide)).1.mpr
      ⟨1, by decide, by decide, by decide⟩,
   (vertex_tag_iff (tet_zero_args cs_ale_bc_t.CS_ALE_SLIDING) tet_heap.proj 3
      (by decide)).2.1.mpr (fun _ _ _ => rfl)⟩

/-- C29: the loop over the interior faces runs the face body once per face;
for a face whose first cell is a ghost cell (index not below `n_cells`) the
body leaves the accumulated displacement and the weights as they are; for a
face whose first cell is owned it adds, once for each occurrence of an
interior-tagged vertex in the vertex list of the face, the term of the face
to the displacement of the vertex and `1/vol1 + 1/vol2` to its weight. -/
theorem interior_face_contribution (p : proj_args) (st : proj_acc) (f : Nat) :
    proj_interior p st = forLoop p.m.n_i_faces (fun f s => proj_interior_face p f s) st ∧
    (p.m.n_cells ≤ p.m.i_face_cells (2 * f + 0) → proj_interior_face p f st = st) ∧
    (p.m.i_face_cells (2 * f + 0) < p.m.n_cells →
      (proj_interior_face p f st).vtx_interior_indicator = st.vtx_interior_indicator ∧
      (∀ q, (proj_interior_face p f st).disp_proj q = st.disp_proj q +
        sum_upto (p.m.i_face_vtx_idx (f + 1) - p.m.i_face_vtx_idx f) (fun k =>
          if st.vtx_interior_indicator (p.m.i_face_vtx_lst (p.m.i_face_vtx_idx f + k)) = true ∧
              q / 3 = p.m.i_face_vtx_lst (p.m.i_face_vtx_idx f + k) then
            proj_interior_term p (p.m.i_face_cells (2 * f + 0)) (p.m.i_face_cells (2 * f + 1))
              (1 / p.mq.cell_vol (p.m.i_face_cells (2 * f + 0)))
              (1 / p.mq.cell_vol (p.m.i_face_cells (2 * f + 1)))
              (p.m.i_face_vtx_lst (p.m.i_face_vtx_idx f + k)) (q % 3)
          else 0)) ∧
      (∀ v, (proj_interior_face p f st).vtx_counter v = st.vtx_counter v +
        sum_upto (p.m.i_face_vtx_idx (f + 1) - p.m.i_face_vtx_idx f) (fun k =>
          if st.vtx_interior_indicator (p.m.i_face_vtx_lst (p.m.i_face_vtx_idx f + k)) = true ∧
              v = p.m.i_face_vtx_lst (p.m.i_face_vtx_idx f + k) then
            1 / p.mq.cell_vol (p.m.i_face_cells (2 * f + 0))
              + 1 / p.mq.cell_vol (p.m.i_face_cells (2 * f + 1))
          else 0))) := by
  refine ⟨rfl, fun hg => ?_, fun ho => ?_⟩
  · unfold proj_interior_face
    simp only []
    rw [if_neg (by omega)]
  · have hind : ∀ (s : proj_acc), s.vtx_interior_indicator = st.vtx_interior_indicator →
        ∀ j, (proj_interior_vtx p (p.m.i_face_cells (2 * f + 0)) (p.m.i_face_cells (2 * f + 1))
          (1 / p.mq.cell_vol (p.m.i_face_cells (2 * f + 0)))
          (1 / p.mq.cell_vol (p.m.i_face_cells (2 * f + 1))) (p.m.i_face_vtx_lst j)
          s).vtx_interior_indicator = st.vtx_interior_indicator := by
      intro s hs j
      rw [(proj_interior_vtx_spec p _ _ _ _ _ s).1, hs]
    have face : ∀ (val : proj_acc → cs_real_t) (inc : Nat → cs_real_t),
        (∀ j s, s.vtx_interior_indicator = st.vtx_interior_indicator →
          val (proj_interior_vtx p (p.m.i_face_cells (2 * f + 0))
            (p.m.i_face_cells (2 * f + 1))
            (1 / p.mq.cell_vol (p.m.i_face_cells (2 * f + 0)))
            (1 / p.mq.cell_vol (p.m.i_face_cells (2 * f + 1))) (p.m.i_face_vtx_lst j) s)
            = val s + inc j) →
        (proj_interior_face p f st).vtx_interior_indicator = st.vtx_interior_indicator ∧
        val (proj_interior_face p f st) = val st +
          sum_upto (p.m.i_face_vtx_idx (f + 1) - p.m.i_face_vtx_idx f)
            (fun k => inc (p.m.i_face_vtx_idx f + k)) := by
      intro val inc hval
      unfold proj_interior_face
      simp only []
      rw [if_pos ho]
      exact forRange_sum (fun s => s.vtx_interior_indicator = st.vtx_interior_indicator) val _ _
        _ inc (fun j _ _ s2 h2 => ⟨hind s2 h2 j, hval j s2 h2⟩) st rfl
    refine ⟨(face (fun _ => 0) (fun _ => 0) (fun _ _ _ => (radd_zero _).symm)).1,
      fun q => ?_, fun v => ?_⟩
    · refine (face (fun s => s.disp_proj q)
        (fun j => if st.vtx_interior_indicator (p.m.i_face_vtx_lst j) = true ∧
            q / 3 = p.m.i_face_vtx_lst j then
          proj_interior_term p (p.m.i_face_cells (2 * f + 0)) (p.m.i_face_cells (2 * f + 1))
            (1 / p.mq.cell_vol (p.m.i_face_cells (2 * f + 0)))
            (1 / p.mq.cell_vol (p.m.i_face_cells (2 * f + 1))) (p.m.i_face_vtx_lst j) (q % 3)
          else 0) ?_).2
      intro j s hs
      simp only []
      rw [(proj_interior_vtx_spec p _ _ _ _ _ s).2.2 q, hs]
      split
      · rfl
      · exact (radd_zero _).symm
    · refine (face (fun s => s.vtx_counter v)
        (fun j => if st.vtx_interior_indicator (p.m.i_face_vtx_lst j) = true ∧
            v = p.m.i_face_vtx_lst j then
          1 / p.mq.cell_vol (p.m.i_face_cells (2 * f + 0))
            + 1 / p.mq.cell_vol (p.m.i_face_cells (2 * f + 1))
          else 0) ?_).2
      intro j s hs
      simp only []
      rw [(proj_interior_vtx_spec p _ _ _ _ _ s).2.1 v, hs]
      split
      · rename_i h; rw [h.2]
      · exact (radd_zero _).symm

theorem interior_face_contribution_witness :
    proj_interior_face { octa_args with m := { octa_mesh with n_cells := 0 } } 0 tet_heap.proj
        = tet_heap.proj ∧
      (proj_interior_face octa_args 0 (proj_tag octa_args (proj_init octa_args tet_heap.proj))
        ).vtx_counter 0 = cs_real_t.real 6 := by
  refine ⟨(interior_face_contribution { octa_args with m := { octa_mesh with n_cells := 0 } }
      tet_heap.proj 0).2.1 (Nat.zero_le _), ?_⟩
  refine (((interior_face_contribution octa_args
    (proj_tag octa_args (proj_init octa_args tet_heap.proj)) 0).2.2 (by decide)).2.2 0).trans ?_
  decide!

theorem rmul_comm (a b : cs_real_t) : a * b = b * a := by
  cases a <;> cases b <;>
    simp [cs_real_t.real_mul_real, cs_real_t.nan_mul, cs_real_t.mul_nan, mul_comm]

/-- Lines 391-419 of `_ale_solve_poisson_legacy`: the coefficients of a
free-surface face are those the Dirichlet setter gives for `pimpv`. -/
theorem legacy_free_surface_bc_face (ext : legacy_engine) (g : ale_globals)
    (ale_bc_type : Nat → cs_ale_bc_t) (idftnp : Int) (bc : cs_field_bc_coeffs_t) (f : Nat)
    (hf : f < g.mesh.n_b_faces) (ht : ale_bc_type f = cs_ale_bc_t.CS_FREE_SURFACE) :
    ∃ hintt, ∀ i, i < 3 →
      (legacy_free_surface_bc ext g ale_bc_type idftnp bc).a (3 * f + i)
        = (ext.set_dirichlet_vector_aniso (legacy_pimpv g f) hintt
            (fun _ => ext.cs_math_infinite_r)).a i := by
  refine ⟨(if ext.is_isotropic idftnp then
          forLoop 3 (fun isou h => setAt h isou (g.vism (g.mesh.b_face_cells f) / g.mq.b_dist f))
            (fun _ => 0)
        else if ext.is_anisotropic_left idftnp then
          forLoop 6 (fun isou h =>
            setAt h isou (g.vism (6 * g.mesh.b_face_cells f + isou) / g.mq.b_dist f))
            (fun _ => 0)
        else fun _ => 0), fun i hi => ?_⟩
  have e1 : (3 * f + i) / 3 = f := by omega
  have e2 : (3 * f + i) % 3 = i := by omega
  unfold legacy_free_surface_bc
  refine forLoop_inv
    (fun k (b : cs_field_bc_coeffs_t) => f < k → b.a (3 * f + i) = _)
    g.mesh.n_b_faces _ bc (fun h => absurd h (Nat.not_lt_zero f)) (fun k _ b hb hk => ?_) hf
  beta_reduce at hb
  by_cases hkf : k = f
  · subst hkf
    rw [if_pos ht]
    show (if (3 * k + i) / 3 = k then _ else _) = _
    rw [if_pos e1, e2]
    rfl
  · have hlt : f < k := by omega
    by_cases htk : ale_bc_type k = cs_ale_bc_t.CS_FREE_SURFACE
    · beta_reduce
      rw [if_pos htk]
      show (if (3 * f + i) / 3 = k then _ else _) = _
      rw [e1, if_neg (fun h => hkf h.symm)]
      exact hb hlt
    · beta_reduce
      rw [if_neg htk]
      exact hb hlt

/-- C30: for a free-surface boundary face with real data, `grav . n` and the
boundary density non-zero, the Dirichlet value of the legacy backend is the
vector `pimpv = grav * b_massflux / (brom * (grav . n))`; it equals the value
`_free_surface` adds at the vertices of the face, it is a multiple of the
gravity, and `pimpv . n = b_massflux / brom`. -/
theorem free_surface_dirichlet_value (ext : legacy_engine) (g : ale_globals)
    (ale_bc_type : Nat → cs_ale_bc_t) (idftnp : Int) (bc : cs_field_bc_coeffs_t) (f : Nat)
    (gv nv : Nat → ℚ) (m r : ℚ)
    (hf : f < g.mesh.n_b_faces) (ht : ale_bc_type f = cs_ale_bc_t.CS_FREE_SURFACE)
    (hg : ∀ i, i < 3 → g.gravity i = cs_real_t.real (gv i))
    (hn : ∀ i, i < 3 → g.mq.b_face_normal (3 * f + i) = cs_real_t.real (nv i))
    (hm : g.b_massflux f = cs_real_t.real m) (hr : g.rho_b f = cs_real_t.real r)
    (hr0 : r ≠ 0) (hgn : gv 0 * nv 0 + gv 1 * nv 1 + gv 2 * nv 2 ≠ 0) :
    (∃ hintt, ∀ i, i < 3 →
      (legacy_free_surface_bc ext g ale_bc_type idftnp bc).a (3 * f + i)
        = (ext.set_dirichlet_vector_aniso (legacy_pimpv g f) hintt
            (fun _ => ext.cs_math_infinite_r)).a i) ∧
    (∀ i, legacy_pimpv g f i = free_surface_face_velocity g f i) ∧
    (∀ (z : cs_zone_t) (v i : Nat), free_surface_sum g z v i
      = sum_upto z.n_elts (fun e =>
          sum_upto (g.mesh.b_face_vtx_idx (z.elt_ids e + 1) - g.mesh.b_face_vtx_idx (z.elt_ids e))
            (fun k =>
              if g.mesh.b_face_vtx_lst (g.mesh.b_face_vtx_idx (z.elt_ids e) + k) = v then
                free_surface_face_velocity g (z.elt_ids e) i
              else 0))) ∧
    (∃ s : ℚ, ∀ i, i < 3 → legacy_pimpv g f i = cs_real_t.real s * g.gravity i) ∧
    cs_math_3_dot_product (legacy_pimpv g f) g.mq.b_face_normal f
      = g.b_massflux f / g.rho_b f := by
  have hdot : cs_math_3_dot_product g.gravity g.mq.b_face_normal f
      = cs_real_t.real (gv 0 * nv 0 + gv 1 * nv 1 + gv 2 * nv 2) := by
    unfold cs_math_3_dot_product
    rw [hg 0 (by decide), hg 1 (by decide), hg 2 (by decide), hn 0 (by decide),
      hn 1 (by decide), hn 2 (by decide)]
    simp only [cs_real_t.real_mul_real, cs_real_t.real_add_real]
  have hden : r * (gv 0 * nv 0 + gv 1 * nv 1 + gv 2 * nv 2) ≠ 0 := mul_ne_zero hr0 hgn
  have hp : ∀ i, i < 3 → legacy_pimpv g f i
      = cs_real_t.real (gv i * m / (r * (gv 0 * nv 0 + gv 1 * nv 1 + gv 2 * nv 2))) := by
    intro i hi
    unfold legacy_pimpv
    rw [hdot, hg i hi, hm, hr]
    simp only [cs_real_t.real_mul_real, cs_real_t.real_div_real, hden, if_false]
  refine ⟨legacy_free_surface_bc_face ext g ale_bc_type idftnp bc f hf ht, fun i => ?_,
    fun _ _ _ => rfl, ⟨m / (r * (gv 0 * nv 0 + gv 1 * nv 1 + gv 2 * nv 2)), fun i hi => ?_⟩, ?_⟩
  · unfold legacy_pimpv free_surface_face_velocity
    rw [rmul_comm (g.gravity i), rmul_comm (g.rho_b f)]
  · rw [hp i hi, hg i hi, cs_real_t.real_mul_real]
    congr 1
    ring
  · unfold cs_math_3_dot_product
    rw [hp 0 (by decide), hp 1 (by decide), hp 2 (by decide), hn 0 (by decide),
      hn 1 (by decide), hn 2 (by decide), hm, hr]
    simp only [cs_real_t.real_mul_real, cs_real_t.real_add_real, cs_real_t.real_div_real, hr0,
      if_false]
    congr 1
    field_simp
    ring

theorem free_surface_dirichlet_value_witness :
    legacy_pimpv tet_fs_globals 3 2 = cs_real_t.real 2 ∧
      cs_math_3_dot_product (legacy_pimpv tet_fs_globals 3) tet_fs_globals.mq.b_face_normal 3
        = tet_fs_globals.b_massflux 3 / tet_fs_globals.rho_b 3 := by
  have h := free_surface_dirichlet_value tet_engine tet_fs_globals
    (fun _ => cs_ale_bc_t.CS_FREE_SURFACE) 0 (mk_field
      cs_mesh_location_type_t.CS_MESH_LOCATION_CELLS zeros zeros).bc_coeffs 3
    (fun i => if i = 2 then -1 else 0) (fun i => if i = 2 then 1/2 else 1) 1 1
    (by decide) rfl
    (fun i hi => by
      have h3 : i = 0 ∨ i = 1 ∨ i = 2 := by omega
      rcases h3 with rfl | rfl | rfl <;> decide!)
    (fun i hi => by
      have h3 : i = 0 ∨ i = 1 ∨ i = 2 := by omega
      rcases h3 with rfl | rfl | rfl <;> decide!)
    (by decide!) (by decide!) (by norm_num) (by norm_num)
  exact ⟨by decide!, h.2.2.2.2⟩

/-- A loop that copies `src` to the entries `3 * v + i`, `v < n`, `i < d`:
these entries hold the values of `src`. -/
theorem copy_loop_spec (n d : Nat) (src a0 : Nat → cs_real_t) (v i : Nat) (hv : v < n)
    (hi : i < d) :
    forLoop n (fun inod v1 =>
      forLoop d (fun idim v2 => setAt v2 (3 * inod + idim) (src (3 * inod + idim))) v1) a0
      (3 * v + i) = src (3 * v + i) := by
  have hset : ∀ (a : Nat → cs_real_t) (q p : Nat), a p = src p → setAt a q (src q) p = src p := by
    intro a q p h
    unfold setAt
    by_cases hpq : p = q
    · rw [if_pos hpq, hpq]
    · rw [if_neg hpq, h]
  have hinner : ∀ (j : Nat) (a : Nat → cs_real_t) (m : Nat),
      (∀ p, a p = src p →
        forLoop m (fun idim v2 => setAt v2 (3 * j + idim) (src (3 * j + idim))) a p = src p) ∧
      (∀ i, i < m →
        forLoop m (fun idim v2 => setAt v2 (3 * j + idim) (src (3 * j + idim))) a (3 * j + i)
          = src (3 * j + i)) := by
    intro j a m
    induction m with
    | zero => exact ⟨fun p h => h, fun i hi => absurd hi (Nat.not_lt_zero i)⟩
    | succ m ih =>
      refine ⟨fun p h => hset _ _ p (ih.1 p h), fun i hi => ?_⟩
      rcases Nat.lt_succ_iff_lt_or_eq.mp hi with h | h
      · exact hset _ _ _ (ih.2 i h)
      · subst h
        show setAt _ (3 * j + i) (src (3 * j + i)) (3 * j + i) = _
        unfold setAt
        rw [if_pos rfl]
  refine forLoop_inv
    (fun k (a : Nat → cs_real_t) => ∀ v, v < k → ∀ i, i < d → a (3 * v + i) = src (3 * v + i))
    n _ a0 (fun v hv => absurd hv (Nat.not_lt_zero v)) (fun k _ a ha v hv i hi => ?_) v hv i hi
  rcases Nat.lt_succ_iff_lt_or_eq.mp hv with h | h
  · exact (hinner k a d).1 _ (ha v h i hi)
  · subst h
    exact (hinner v a d).2 i hi

/-- C22: on return from `cs_ale_update_mesh`, when `itrale` is 0 the current
mesh velocity equals its previous value at every vertex (field located at the
vertices) or at every cell, ghost cells included (field located at the
cells), for each component below `dim`; when `itrale` is not 0 the current
values are unchanged; the previous values are never modified. -/
theorem update_mesh_reverts_velocity
    (compute : cs_mesh_t → cs_mesh_quantities_t → cs_mesh_quantities_t)
    (itrale : Int) (xyzno0 : Nat → cs_real_t) (g : ale_globals) (mesh_u dis : cs_field_t)
    (hu : g.mesh_u = some mesh_u) (hd : g.disale = some dis) :
    ∃ g1 mesh_u1, cs_ale_update_mesh compute itrale xyzno0 g = some g1 ∧
      g1.mesh_u = some mesh_u1 ∧
      mesh_u1.val_pre = mesh_u.val_pre ∧
      (itrale = 0 →
        mesh_u.location_id = cs_mesh_location_type_t.CS_MESH_LOCATION_VERTICES →
        ∀ v, v < g.mesh.n_vertices → ∀ i, i < g.mesh.dim →
          mesh_u1.val (3 * v + i) = mesh_u.val_pre (3 * v + i)) ∧
      (itrale = 0 →
        mesh_u.location_id = cs_mesh_location_type_t.CS_MESH_LOCATION_CELLS →
        ∀ c, c < g.mesh.n_cells_with_ghosts → ∀ i, i < g.mesh.dim →
          mesh_u1.val (3 * c + i) = mesh_u.val_pre (3 * c + i)) ∧
      (itrale ≠ 0 → mesh_u1.val = mesh_u.val) := by
  simp only [cs_ale_update_mesh, hu, hd]
  refine ⟨_, _, rfl, rfl, ?_, ?_, ?_, ?_⟩
  · show (if itrale = 0 then revert_mesh_velocity _ mesh_u else mesh_u).val_pre = _
    by_cases h0 : itrale = 0
    · rw [if_pos h0]
      unfold revert_mesh_velocity
      split_ifs <;> rfl
    · rw [if_neg h0]
  · intro h0 hl v hv i hi
    show (if itrale = 0 then revert_mesh_velocity _ mesh_u else mesh_u).val _ = _
    rw [if_pos h0]
    unfold revert_mesh_velocity
    rw [if_pos hl]
    exact copy_loop_spec _ _ _ _ v i hv hi
  · intro h0 hl c hc i hi
    show (if itrale = 0 then revert_mesh_velocity _ mesh_u else mesh_u).val _ = _
    rw [if_pos h0]
    unfold revert_mesh_velocity
    have hne : ¬ mesh_u.location_id = cs_mesh_location_type_t.CS_MESH_LOCATION_VERTICES := by
      rw [hl]
      decide
    rw [if_neg hne, if_pos hl]
    exact copy_loop_spec _ _ _ _ c i hc hi
  · intro h0
    show (if itrale = 0 then revert_mesh_velocity _ mesh_u else mesh_u).val = _
    rw [if_neg h0]

theorem update_mesh_reverts_velocity_witness :
    ∃ g1 mesh_u1, cs_ale_update_mesh (const_volume 1) 0 tet_mesh.vtx_coord tet_globals = some g1 ∧
      g1.mesh_u = some mesh_u1 ∧ mesh_u1.val (3 * 3 + 2) = 0 := by
  obtain ⟨g1, mu1, h1, h2, -, h3, -, -⟩ := update_mesh_reverts_velocity (const_volume 1) 0
    tet_mesh.vtx_coord tet_globals
    (mk_field cs_mesh_location_type_t.CS_MESH_LOCATION_VERTICES
      (ofList [0, 0, 0, 0, 0, 0, 0, 0, 0, 0, 0, -1]) (ofList [0, 0, 0, 0, 0, 0, 0, 0, 0, 0, 0, 0]))
    (mk_field cs_mesh_location_type_t.CS_MESH_LOCATION_VERTICES
      (ofList [0, 0, 0, 0, 0, 0, 0, 0, 0, 0, 0, -1/10])
      (ofList [0, 0, 0, 0, 0, 0, 0, 0, 0, 0, 0, 0])) rfl rfl
  exact ⟨g1, mu1, h1, h2, (h3 rfl rfl 3 (by decide) 2 (by decide)).trans (by decide!)⟩

/-- The zone loop only appends definitions. -/
theorem setup_fold_append (m : cs_mesh_t) (zones : List cs_zone_t) (impale : Nat → Int)
    (ale_bc_type : Nat → cs_ale_bc_t) (l : List cs_zone_t) (st : setup_locals) :
    ∃ extra,
      (l.foldl (fun s z => setup_zone m zones impale ale_bc_type z s) st).bc_defs
        = st.bc_defs ++ extra := by
  induction l generalizing st with
  | nil => exact ⟨[], (List.append_nil _).symm⟩
  | cons a l ih =>
    obtain ⟨news, h1, -⟩ := setup_zone_frame m zones impale ale_bc_type a st
    obtain ⟨extra, k1⟩ := ih (setup_zone m zones impale ale_bc_type a st)
    exact ⟨news ++ extra, by rw [List.foldl_cons, k1, h1, List.append_assoc]⟩

/-- The body of the zone loop leaves the state as it is for a zone named
domain_walls, for a zone whose id is not positive, and for a zone that has a
definition. -/
theorem setup_zone_skip (m : cs_mesh_t) (zones : List cs_zone_t) (impale : Nat → Int)
    (ale_bc_type : Nat → cs_ale_bc_t) (z : cs_zone_t) (st : setup_locals)
    (h : z.name = "domain_walls" ∨ z.id ≤ 0 ∨ ∃ d ∈ st.bc_defs, d.z_id = z.id) :
    setup_zone m zones impale ale_bc_type z st = st := by
  unfold setup_zone
  by_cases hns : z.id > 0 ∧ z.name ≠ "domain_walls"
  · rw [if_pos hns]
    rcases h with h | h | ⟨d, hd, hz⟩
    · exact absurd h hns.2
    · exact absurd hns.1 (by omega)
    · have hany : (st.bc_defs.any (fun d => decide (d.z_id = z.id))) = true := by
        rw [List.any_eq_true]
        exact ⟨d, hd, by simpa using hz⟩
      simp only [hany, if_true]
  · rw [if_neg hns]

/-- The zone loop on a well-formed table, seen from one of its zones `z`:
before and after the turn of `z` no definition for `z` is appended. -/
theorem setup_zones_split_any (m : cs_mesh_t) (zones : List cs_zone_t) (impale : Nat → Int)
    (ale_bc_type : Nat → cs_ale_bc_t) (z : cs_zone_t) (hwf : zones_wf zones)
    (hz : z ∈ zones) (st : setup_locals) :
    ∃ mid e1 e2,
      mid.bc_defs = st.bc_defs ++ e1 ∧ (∀ d ∈ e1, d.z_id ≠ z.id) ∧
      (setup_zones m zones impale ale_bc_type st).bc_defs
        = (setup_zone m zones impale ale_bc_type z mid).bc_defs ++ e2 ∧
      (∀ d ∈ e2, d.z_id ≠ z.id) := by
  obtain ⟨hpair, hname⟩ := hwf
  obtain ⟨l1, l2, hl⟩ := List.append_of_mem hz
  have hp := hpair
  rw [hl, List.pairwise_append] at hp
  obtain ⟨-, hp2, hp3⟩ := hp
  have h1 : ∀ a ∈ l1, zone_id_by_name zones a.name ≠ z.id := by
    intro a ha
    rw [hname a (by rw [hl]; exact List.mem_append_left _ ha)]
    exact hp3 a ha z (List.mem_cons_self z l2)
  have h2 : ∀ a ∈ l2, zone_id_by_name zones a.name ≠ z.id := by
    intro a ha
    rw [hname a (by rw [hl]; exact List.mem_append_right _ (List.mem_cons_of_mem z ha))]
    exact fun e => (List.rel_of_pairwise_cons hp2 ha) e.symm
  obtain ⟨e1, a1, a2, -, -⟩ := setup_fold_frame m zones impale ale_bc_type z.id l1 h1 st
  obtain ⟨e2, b1, b2, -, -⟩ := setup_fold_frame m zones impale ale_bc_type z.id l2 h2
    (setup_zone m zones impale ale_bc_type z
      (l1.foldl (fun s z => setup_zone m zones impale ale_bc_type z s) st))
  have hfold : setup_zones m zones impale ale_bc_type st
      = l2.foldl (fun s z => setup_zone m zones impale ale_bc_type z s)
          (setup_zone m zones impale ale_bc_type z
            (l1.foldl (fun s z => setup_zone m zones impale ale_bc_type z s) st)) := by
    rw [setup_zones_foldl]
    have hc := congrArg
      (fun l => List.foldl (fun s z => setup_zone m zones impale ale_bc_type z s) st l) hl
    beta_reduce at hc
    rw [hc, List.foldl_append, List.foldl_cons]
  exact ⟨_, e1, e2, a1, a2, by rw [hfold, b1], b2⟩

/-- C21: `cs_ale_setup_boundaries` keeps the definitions that exist on entry
and appends the new ones after them; on a well-formed zone table none of the
appended definitions is for a zone named domain_walls, for a zone whose id is
not positive (the zone of id 0), or for a zone that has a definition on
entry. -/
theorem setup_boundaries_skips (table0 : Nat → String) (face_type0 : cs_ale_bc_t)
    (imp_dis0 : Int) (impale : Nat → Int) (ale_bc_type : Nat → cs_ale_bc_t) (g : ale_globals)
    (eqp : cs_equation_param_t) (heqp : g.mesh_velocity_eqp = some eqp) :
    ∃ g1 eqp1 extra,
      cs_ale_setup_boundaries table0 face_type0 imp_dis0 impale ale_bc_type g = some g1 ∧
      g1.mesh_velocity_eqp = some eqp1 ∧ eqp1.bc_defs = eqp.bc_defs ++ extra ∧
      ∀ z, zones_wf g.zones → z ∈ g.zones →
        (z.name = "domain_walls" ∨ z.id ≤ 0 ∨ ∃ d ∈ eqp.bc_defs, d.z_id = z.id) →
        ∀ d ∈ extra, d.z_id ≠ z.id := by
  obtain ⟨extra, hx⟩ := setup_fold_append g.mesh g.zones impale ale_bc_type g.zones
    { _n_input_bc := 0, input_bc := table0, bc_defs := eqp.bc_defs,
      face_type := face_type0, imp_dis := imp_dis0 }
  rw [← setup_zones_foldl] at hx
  unfold cs_ale_setup_boundaries
  rw [heqp]
  refine ⟨_, _, extra, rfl, rfl, hx, fun z hwf hz hskip d hd => ?_⟩
  obtain ⟨mid, e1, e2, m1, m2, m3, m4⟩ := setup_zones_split_any g.mesh g.zones impale
    ale_bc_type z hwf hz
    { _n_input_bc := 0, input_bc := table0, bc_defs := eqp.bc_defs,
      face_type := face_type0, imp_dis := imp_dis0 }
  have hmid : z.name = "domain_walls" ∨ z.id ≤ 0 ∨ ∃ d ∈ mid.bc_defs, d.z_id = z.id := by
    rcases hskip with h | h | ⟨d0, hd0, hz0⟩
    · exact Or.inl h
    · exact Or.inr (Or.inl h)
    · exact Or.inr (Or.inr ⟨d0, by rw [m1]; exact List.mem_append_left _ hd0, hz0⟩)
  rw [setup_zone_skip _ _ _ _ z mid hmid, m1, List.append_assoc] at m3
  have hex : extra = e1 ++ e2 := List.append_cancel_left (hx.symm.trans m3)
  rw [hex] at hd
  rcases List.mem_append.mp hd with h | h
  · exact m2 d h
  · exact m4 d h

theorem setup_boundaries_skips_witness :
    ∃ g1 eqp1 extra,
      cs_ale_setup_boundaries (fun _ => "") cs_ale_bc_t.CS_ALE_FIXED 0 (fun _ => 0)
        tet_sliding_types
        { tet_setup_globals with mesh_velocity_eqp := some { bc_defs :=
            [{ z_id := 1, bc_type := cs_param_bc_type_t.CS_PARAM_BC_NEUMANN,
               value := cs_xdef_value_t.by_value 0 }] } } = some g1 ∧
      g1.mesh_velocity_eqp = some eqp1 ∧
      eqp1.bc_defs = [{ z_id := 1, bc_type := cs_param_bc_type_t.CS_PARAM_BC_NEUMANN,
                        value := cs_xdef_value_t.by_value 0 }] ++ extra ∧
      ∀ d ∈ extra, d.z_id ≠ 1 ∧ d.z_id ≠ 0 := by
  obtain ⟨g1, eqp1, extra, h1, h2, h3, h4⟩ :=
    setup_boundaries_skips (fun _ => "") cs_ale_bc_t.CS_ALE_FIXED 0 (fun _ => 0)
      tet_sliding_types
      { tet_setup_globals with mesh_velocity_eqp := some { bc_defs :=
          [{ z_id := 1, bc_type := cs_param_bc_type_t.CS_PARAM_BC_NEUMANN,
             value := cs_xdef_value_t.by_value 0 }] } }
      { bc_defs := [{ z_id := 1, bc_type := cs_param_bc_type_t.CS_PARAM_BC_NEUMANN,
                      value := cs_xdef_value_t.by_value 0 }] } rfl
  refine ⟨g1, eqp1, extra, h1, h2, h3, fun d hd => ⟨?_, ?_⟩⟩
  · exact h4 { id := 1, name := "inlet", n_elts := 1, elt_ids := idxList [0] }
      tet_setup_zones_wf (List.mem_cons_of_mem _ (List.mem_cons_self _ _))
      (Or.inr (Or.inr ⟨_, List.mem_singleton.mpr rfl, rfl⟩)) d hd
  · exact h4 { id := 0, name := "boundary_faces", n_elts := 4, elt_ids := idxList [0, 1, 2, 3] }
      tet_setup_zones_wf (List.mem_cons_self _ _) (Or.inr (Or.inl (le_refl _))) d hd

/-- What `cs_ale_update_mesh` leaves as it is. -/
theorem update_mesh_frame
    (compute : cs_mesh_t → cs_mesh_quantities_t → cs_mesh_quantities_t)
    (itrale : Int) (xyzno0 : Nat → cs_real_t) (g g1 : ale_globals)
    (h : cs_ale_update_mesh compute itrale xyzno0 g = some g1) :
    g1._active = g._active ∧ g1._vtx_coord0 = g._vtx_coord0 ∧ g1._input_bc = g._input_bc ∧
    g1.cs_glob_ale = g.cs_glob_ale ∧ g1.engine_calls = g.engine_calls ∧
    g1.mesh_velocity_eqp = g.mesh_velocity_eqp := by
  unfold cs_ale_update_mesh at h
  cases hu : g.mesh_u with
  | none => simp [hu] at h
  | some mesh_u =>
    cases hd : g.disale with
    | none => simp [hu, hd] at h
    | some dis =>
      simp only [hu, hd, Option.some.injEq] at h
      subst h
      exact ⟨rfl, rfl, rfl, rfl, rfl, rfl⟩

/-- What `cs_ale_setup_boundaries` leaves as it is. -/
theorem setup_boundaries_frame (table0 : Nat → String) (face_type0 : cs_ale_bc_t)
    (imp_dis0 : Int) (impale : Nat → Int) (ale_bc_type : Nat → cs_ale_bc_t)
    (g g1 : ale_globals)
    (h : cs_ale_setup_boundaries table0 face_type0 imp_dis0 impale ale_bc_type g = some g1) :
    g1._active = g._active ∧ g1._vtx_coord0 = g._vtx_coord0 ∧
    g1.cs_glob_ale = g.cs_glob_ale ∧ g1.engine_calls = g.engine_calls ∧
    g1.mesh = g.mesh ∧ g1.disale = g.disale ∧ g1.mesh_u = g.mesh_u := by
  unfold cs_ale_setup_boundaries at h
  cases he : g.mesh_velocity_eqp with
  | none => simp [he] at h
  | some eqp =>
    simp only [he, Option.some.injEq] at h
    subst h
    exact ⟨rfl, rfl, rfl, rfl, rfl, rfl, rfl⟩

/-- What `_ale_solve_poisson_legacy` leaves as it is. -/
theorem legacy_frame (ext : legacy_engine) (solve : solve_vector_args → Nat → cs_real_t)
    (peers : Nat → proj_acc) (heap : ale_heap) (g g1 : ale_globals) (iterns : Int)
    (impale : Nat → Int) (ale_bc_type : Nat → cs_ale_bc_t)
    (h : _ale_solve_poisson_legacy ext solve peers heap g iterns impale ale_bc_type = some g1) :
    g1._active = g._active ∧ g1._vtx_coord0 = g._vtx_coord0 ∧ g1._input_bc = g._input_bc ∧
    g1.cs_glob_ale = g.cs_glob_ale ∧ g1.mesh_velocity_eqp = g.mesh_velocity_eqp ∧
    g1.mesh = g.mesh ∧ n_equation_add g1 = n_equation_add g ∧
    n_equation_init g1 = n_equation_init g ∧
    ∃ dis dis1, g.disale = some dis ∧ g1.disale = some dis1 ∧ dis1.val_pre = dis.val_pre := by
  unfold _ale_solve_poisson_legacy at h
  cases hu : g.mesh_u with
  | none => simp [hu] at h
  | some mesh_u =>
    cases hd : g.disale with
    | none => simp [hu, hd] at h
    | some dis =>
      simp only [hu, hd, Option.some.injEq] at h
      subst h
      refine ⟨rfl, rfl, rfl, rfl, rfl, rfl, ?_, ?_, dis, _, rfl, rfl, rfl⟩
      · simp [n_equation_add, List.count_append]
      · simp [n_equation_init, List.count_append]

/-- What `_ale_solve_poisson_cdo` leaves as it is; the snapshot, the closure
table and the definitions of the equation are left when the snapshot
exists on entry. -/
theorem cdo_frame (solve : ale_globals → Nat → cs_real_t) (heap : ale_heap)
    (g g1 : ale_globals) (impale : Nat → Int) (ale_bc_type : Nat → cs_ale_bc_t)
    (h : _ale_solve_poisson_cdo solve heap g impale ale_bc_type = some g1) :
    g1._active = g._active ∧ g1.cs_glob_ale = g.cs_glob_ale ∧ g1.mesh = g.mesh ∧
    n_equation_add g1 = n_equation_add g ∧
    (∃ dis dis1, g.disale = some dis ∧ g1.disale = some dis1 ∧ dis1.val_pre = dis.val_pre) ∧
    (∀ c, g._vtx_coord0 = some c →
      g1._vtx_coord0 = some c ∧ g1._input_bc = g._input_bc ∧
      g1.mesh_velocity_eqp = g.mesh_velocity_eqp ∧ n_equation_init g1 = n_equation_init g) := by
  unfold _ale_solve_poisson_cdo at h
  cases hd : g.disale with
  | none => simp [hd] at h
  | some dis =>
    cases h0 : g._vtx_coord0 with
    | some c =>
      simp only [hd, cdo_first_call, h0] at h
      cases he : g.mesh_velocity_eqp with
      | none => simp [he] at h
      | some eqp =>
        cases hu : g.mesh_u with
        | none => simp [he, hu] at h
        | some mesh_u =>
          simp only [he, hu, Option.some.injEq] at h
          subst h
          refine ⟨rfl, rfl, rfl, ?_, ⟨dis, _, rfl, rfl, rfl⟩, fun c2 hc2 => ⟨?_, rfl, he.symm ▸ rfl, ?_⟩⟩
          · simp only [n_equation_add, List.count_append]
            split <;> simp
          · rw [← hc2]
          · simp only [n_equation_init, List.count_append]
            split <;> simp
    | none =>
      simp only [hd, cdo_first_call, h0, cs_ale_setup_boundaries] at h
      cases he : g.mesh_velocity_eqp with
      | none => simp [he] at h
      | some eqp =>
        cases hu : g.mesh_u with
        | none => simp [he, hu] at h
        | some mesh_u =>
          simp only [he, hu, Option.some.injEq] at h
          subst h
          refine ⟨rfl, rfl, rfl, ?_, ⟨dis, _, rfl, rfl, rfl⟩, fun c2 hc2 => by cases hc2⟩
          simp only [n_equation_add, List.count_append]
          split <;> simp

/-- What `cs_ale_solve_mesh_velocity` leaves as it is, whatever the backend. -/
theorem solve_frame (ext : legacy_engine) (solve_legacy : solve_vector_args → Nat → cs_real_t)
    (solve_cdo : ale_globals → Nat → cs_real_t) (peers : Nat → proj_acc) (heap : ale_heap)
    (g g1 : ale_globals) (iterns : Int) (impale : Nat → Int) (ale_bc_type : Nat → cs_ale_bc_t)
    (h : cs_ale_solve_mesh_velocity ext solve_legacy solve_cdo peers heap g iterns impale
      ale_bc_type = some g1) :
    g1._active = g._active ∧ g1.cs_glob_ale = g.cs_glob_ale ∧ g1.mesh = g.mesh ∧
    n_equation_add g1 = n_equation_add g ∧
    (∀ dis, g.disale = some dis → ∃ dis1, g1.disale = some dis1 ∧ dis1.val_pre = dis.val_pre) ∧
    (g.cs_glob_ale ≠ cs_ale_type_t.CS_ALE_CDO ∨ g._vtx_coord0 ≠ none →
      g1._vtx_coord0 = g._vtx_coord0 ∧ g1._input_bc = g._input_bc ∧
      g1.mesh_velocity_eqp = g.mesh_velocity_eqp ∧ n_equation_init g1 = n_equation_init g) := by
  unfold cs_ale_solve_mesh_velocity at h
  by_cases hl : g.cs_glob_ale = cs_ale_type_t.CS_ALE_LEGACY
  · rw [if_pos hl] at h
    obtain ⟨a1, a2, a3, a4, a5, a6, a7, a8, dis, dis1, d1, d2, d3⟩ :=
      legacy_frame ext solve_legacy peers heap g g1 iterns impale ale_bc_type h
    refine ⟨a1, a4, a6, a7, fun dis0 h0 => ⟨dis1, d2, ?_⟩, fun _ => ⟨a2, a3, a5, a8⟩⟩
    rw [d3]
    rw [d1] at h0
    cases h0
    rfl
  · rw [if_neg hl] at h
    by_cases hc : g.cs_glob_ale = cs_ale_type_t.CS_ALE_CDO
    · rw [if_pos hc] at h
      obtain ⟨a1, a2, a3, a4, ⟨dis, dis1, d1, d2, d3⟩, a5⟩ :=
        cdo_frame solve_cdo heap g g1 impale ale_bc_type h
      refine ⟨a1, a2, a3, a4, fun dis0 h0 => ⟨dis1, d2, ?_⟩, fun hor => ?_⟩
      · rw [d3]
        rw [d1] at h0
        cases h0
        rfl
      · rcases hor with h1 | h1
        · exact absurd hc h1
        · cases h0 : g._vtx_coord0 with
          | none => exact absurd h0 h1
          | some c =>
            obtain ⟨b1, b2, b3, b4⟩ := a5 c h0
            exact ⟨b1, b2, b3, b4⟩
    · rw [if_neg hc] at h
      cases h
      exact ⟨rfl, rfl, rfl, rfl, fun dis h0 => ⟨dis, h0, rfl⟩, fun _ => ⟨rfl, rfl, rfl, rfl⟩⟩

/-- The function `cs_ale_activate` sets the flag, and registers the equation
when the flag was not set. -/
theorem activate_spec (have_petsc : Bool) (g : ale_globals) :
    (cs_ale_activate have_petsc g)._active = true ∧
    (cs_ale_activate have_petsc g).cs_glob_ale = g.cs_glob_ale ∧
    (cs_ale_activate have_petsc g)._vtx_coord0 = g._vtx_coord0 ∧
    (cs_ale_activate have_petsc g).mesh = g.mesh ∧
    (cs_ale_activate have_petsc g).disale = g.disale ∧
    n_equation_add (cs_ale_activate have_petsc g)
      = n_equation_add g + (if g._active then 0 else 1) := by
  unfold cs_ale_activate
  by_cases ha : g._active = true
  · simp [ha]
  · simp only [ha, if_false, Bool.false_eq_true]
    refine ⟨rfl, rfl, rfl, rfl, rfl, ?_⟩
    cases have_petsc <;> simp [n_equation_add, cs_equation_add, List.count_append]

/-- The function `cs_ale_activate` returns at once when the flag is set. -/
theorem activate_of_active (have_petsc : Bool) (g : ale_globals) (h : g._active = true) :
    cs_ale_activate have_petsc g = g := by
  unfold cs_ale_activate
  rw [if_pos h]

/-- One call: the activation flag and the number of registrations. -/
theorem step_active (c : ale_call) (g g1 : ale_globals) (h : ale_step c g = some g1) :
    g1._active = (g._active || c.is_activate) ∧
    n_equation_add g1
      = n_equation_add g + (if (!g._active && c.is_activate) = true then 1 else 0) := by
  cases c with
  | activate have_petsc =>
    simp only [ale_step, Option.some.injEq] at h
    subst h
    obtain ⟨a1, -, -, -, -, a2⟩ := activate_spec have_petsc g
    rw [a1, a2]
    cases g._active <;> simp [ale_call.is_activate]
  | setup_boundaries heap impale ale_bc_type =>
    obtain ⟨a1, -, -, a4, -⟩ := setup_boundaries_frame _ _ _ _ _ g g1 h
    simp [a1, n_equation_add, a4, ale_call.is_activate]
  | solve_mesh_velocity ext solve_legacy solve_cdo peers heap iterns impale ale_bc_type =>
    obtain ⟨a1, -, -, a4, -⟩ := solve_frame _ _ _ _ _ g g1 _ _ _ h
    simp [a1, a4, ale_call.is_activate]
  | update_mesh compute itrale xyzno0 =>
    obtain ⟨a1, -, -, -, a5, -⟩ := update_mesh_frame _ _ _ g g1 h
    simp [a1, n_equation_add, a5, ale_call.is_activate]
  | update_mesh_quantities compute =>
    simp only [ale_step, Option.some.injEq] at h
    subst h
    simp [n_equation_add, ale_call.is_activate]
  | destroy_all =>
    simp only [ale_step, Option.some.injEq] at h
    subst h
    simp [n_equation_add, ale_call.is_activate, cs_ale_destroy_all]

/-- A sequence of calls: the activation flag and the number of
registrations. -/
theorem run_active (calls : List ale_call) (g g1 : ale_globals)
    (h : ale_run calls g = some g1) :
    g1._active = (g._active || calls.any ale_call.is_activate) ∧
    n_equation_add g1
      = n_equation_add g
        + (if (!g._active && calls.any ale_call.is_activate) = true then 1 else 0) := by
  induction calls generalizing g with
  | nil =>
    simp only [ale_run, Option.some.injEq] at h
    subst h
    simp
  | cons c cs ih =>
    unfold ale_run at h
    cases hs : ale_step c g with
    | none => simp [hs] at h
    | some g2 =>
      simp only [hs] at h
      obtain ⟨a1, a2⟩ := step_active c g g2 hs
      obtain ⟨b1, b2⟩ := ih g2 h
      rw [b1, b2, a1, a2, List.any_cons]
      cases g._active <;> cases c.is_activate <;> cases cs.any ale_call.is_activate <;>
        simp

/-- C23: a second call of `cs_ale_activate` changes no state, and
`cs_ale_is_activated` is true after a call; along every sequence of calls of
the functions of the file, `cs_ale_is_activated` is true exactly when it was
true at the start or the sequence contains a call of `cs_ale_activate`, and
the equation is registered once if the flag was not set at the start and the
sequence contains such a call, however many, and not at all otherwise. -/
theorem activate_idempotent (have_petsc have_petsc2 : Bool) (g : ale_globals) :
    cs_ale_activate have_petsc2 (cs_ale_activate have_petsc g) = cs_ale_activate have_petsc g ∧
    cs_ale_is_activated (cs_ale_activate have_petsc g) = true ∧
    (∀ (calls : List ale_call) (g1 : ale_globals), ale_run calls g = some g1 →
      cs_ale_is_activated g1
        = (cs_ale_is_activated g || calls.any ale_call.is_activate) ∧
      n_equation_add g1
        = n_equation_add g
          + (if (!g._active && calls.any ale_call.is_activate) = true then 1 else 0)) := by
  have hact := (activate_spec have_petsc g).1
  refine ⟨?_, ?_, fun calls g1 h => ?_⟩
  · exact activate_of_active have_petsc2 _ hact
  · unfold cs_ale_is_activated
    rw [if_pos hact]
  · obtain ⟨a1, a2⟩ := run_active calls g g1 h
    refine ⟨?_, a2⟩
    unfold cs_ale_is_activated
    rw [a1]
    cases g._active <;> cases calls.any ale_call.is_activate <;> simp

theorem activate_idempotent_witness :
    ∃ g1, ale_run [ale_call.update_mesh_quantities (const_volume 1), ale_call.activate false,
        ale_call.destroy_all, ale_call.activate false] tet_start_globals = some g1 ∧
      cs_ale_is_activated tet_start_globals = false ∧ cs_ale_is_activated g1 = true ∧
      n_equation_add g1 = 1 := by
  have h := (activate_idempotent false false tet_start_globals).2.2
    [ale_call.update_mesh_quantities (const_volume 1), ale_call.activate false,
      ale_call.destroy_all, ale_call.activate false] _ rfl
  exact ⟨_, rfl, rfl, h.1.trans rfl, h.2.trans rfl⟩

/-- C24 (amended): `cs_ale_activate` leaves the selector `cs_glob_ale` as it
is, and a following `cs_ale_solve_mesh_velocity` runs the CDO backend when
`cs_glob_ale` is `CS_ALE_CDO`, the legacy backend when it is `CS_ALE_LEGACY`,
and does nothing otherwise. -/
theorem solve_after_activate (have_petsc : Bool) (ext : legacy_engine)
    (solve_legacy : solve_vector_args → Nat → cs_real_t)
    (solve_cdo : ale_globals → Nat → cs_real_t) (peers : Nat → proj_acc) (heap : ale_heap)
    (g : ale_globals) (iterns : Int) (impale : Nat → Int) (ale_bc_type : Nat → cs_ale_bc_t) :
    (cs_ale_activate have_petsc g).cs_glob_ale = g.cs_glob_ale ∧
    (g.cs_glob_ale = cs_ale_type_t.CS_ALE_CDO →
      cs_ale_solve_mesh_velocity ext solve_legacy solve_cdo peers heap
          (cs_ale_activate have_petsc g) iterns impale ale_bc_type
        = _ale_solve_poisson_cdo solve_cdo heap (cs_ale_activate have_petsc g) impale
            ale_bc_type) ∧
    (g.cs_glob_ale = cs_ale_type_t.CS_ALE_LEGACY →
      cs_ale_solve_mesh_velocity ext solve_legacy solve_cdo peers heap
          (cs_ale_activate have_petsc g) iterns impale ale_bc_type
        = _ale_solve_poisson_legacy ext solve_legacy peers heap (cs_ale_activate have_petsc g)
            iterns impale ale_bc_type) ∧
    (g.cs_glob_ale ≠ cs_ale_type_t.CS_ALE_CDO → g.cs_glob_ale ≠ cs_ale_type_t.CS_ALE_LEGACY →
      cs_ale_solve_mesh_velocity ext solve_legacy solve_cdo peers heap
          (cs_ale_activate have_petsc g) iterns impale ale_bc_type
        = some (cs_ale_activate have_petsc g)) := by
  have hsel := (activate_spec have_petsc g).2.1
  refine ⟨hsel, fun h => ?_, fun h => ?_, fun h1 h2 => ?_⟩
  · unfold cs_ale_solve_mesh_velocity
    rw [hsel, h, if_neg (by decide), if_pos rfl]
  · unfold cs_ale_solve_mesh_velocity
    rw [hsel, h, if_pos rfl]
  · unfold cs_ale_solve_mesh_velocity
    rw [hsel, if_neg h2, if_neg h1]

theorem solve_after_activate_witness :
    cs_ale_solve_mesh_velocity tet_engine tet_solve_legacy tet_solve_cdo
        (fun _ => tet_heap.proj) tet_heap
        (cs_ale_activate false { tet_start_globals with cs_glob_ale := cs_ale_type_t.CS_ALE_CDO })
        1 (fun _ => 0) (fun _ => cs_ale_bc_t.CS_ALE_FIXED)
      = _ale_solve_poisson_cdo tet_solve_cdo tet_heap
          (cs_ale_activate false
            { tet_start_globals with cs_glob_ale := cs_ale_type_t.CS_ALE_CDO })
          (fun _ => 0) (fun _ => cs_ale_bc_t.CS_ALE_FIXED) :=
  (solve_after_activate false tet_engine tet_solve_legacy tet_solve_cdo
    (fun _ => tet_heap.proj) tet_heap
    { tet_start_globals with cs_glob_ale := cs_ale_type_t.CS_ALE_CDO } 1 (fun _ => 0)
    (fun _ => cs_ale_bc_t.CS_ALE_FIXED)).2.1 rfl

/-- C24 (counterexample): from the state at program start, where
`cs_glob_ale` is 0, `cs_ale_activate` leaves `cs_glob_ale` at 0 and the
following `cs_ale_solve_mesh_velocity` returns the state unchanged, whereas
the CDO backend would have solved the equation. -/
theorem activate_keeps_backend_selector :
    (cs_ale_activate false tet_start_globals).cs_glob_ale = cs_ale_type_t.CS_ALE_NONE ∧
    cs_ale_solve_mesh_velocity tet_engine tet_solve_legacy tet_solve_cdo
        (fun _ => tet_heap.proj) tet_heap (cs_ale_activate false tet_start_globals)
        1 (fun _ => 0) (fun _ => cs_ale_bc_t.CS_ALE_FIXED)
      = some (cs_ale_activate false tet_start_globals) ∧
    ∃ g2, _ale_solve_poisson_cdo tet_solve_cdo tet_heap (cs_ale_activate false tet_start_globals)
        (fun _ => 0) (fun _ => cs_ale_bc_t.CS_ALE_FIXED) = some g2 ∧
      g2.engine_calls
        = (cs_ale_activate false tet_start_globals).engine_calls
          ++ [engine_call_t.equation_init, engine_call_t.solve_steady_state] :=
  ⟨rfl, rfl, _, rfl, by decide!⟩

/-- A sequence of calls of `cs_ale_solve_mesh_velocity` and
`cs_ale_update_mesh` from a state that has the snapshot: the snapshot, the
closure table, the definitions of the equation and the number of
initialisations of the equations are left as they are. -/
theorem run_keeps_snapshot (calls : List ale_call) (g g1 : ale_globals)
    (c0 : Nat → cs_real_t) (hc : ∀ c ∈ calls, c.is_solve = true ∨ c.is_update_mesh = true)
    (h0 : g._vtx_coord0 = some c0) (h : ale_run calls g = some g1) :
    g1._vtx_coord0 = some c0 ∧ g1._input_bc = g._input_bc ∧
    g1.mesh_velocity_eqp = g.mesh_velocity_eqp ∧ n_equation_init g1 = n_equation_init g := by
  induction calls generalizing g with
  | nil =>
    simp only [ale_run, Option.some.injEq] at h
    subst h
    exact ⟨h0, rfl, rfl, rfl⟩
  | cons c cs ih =>
    unfold ale_run at h
    cases hs : ale_step c g with
    | none => simp [hs] at h
    | some g2 =>
      simp only [hs] at h
      have hstep : g2._vtx_coord0 = some c0 ∧ g2._input_bc = g._input_bc ∧
          g2.mesh_velocity_eqp = g.mesh_velocity_eqp ∧
          n_equation_init g2 = n_equation_init g := by
        have hcc := hc c (List.mem_cons_self c cs)
        cases c with
        | solve_mesh_velocity ext solve_legacy solve_cdo peers heap iterns impale ale_bc_type =>
          obtain ⟨-, -, -, -, -, a⟩ := solve_frame _ _ _ _ _ g g2 _ _ _ hs
          obtain ⟨a1, a2, a3, a4⟩ := a (Or.inr (by rw [h0]; exact Option.some_ne_none c0))
          exact ⟨a1.trans h0, a2, a3, a4⟩
        | update_mesh compute itrale xyzno0 =>
          obtain ⟨-, a2, a3, -, a5, a6⟩ := update_mesh_frame _ _ _ g g2 hs
          exact ⟨a2.trans h0, a3, a6, by unfold n_equation_init; rw [a5]⟩
        | activate _ => simp [ale_call.is_solve, ale_call.is_update_mesh] at hcc
        | setup_boundaries _ _ _ => simp [ale_call.is_solve, ale_call.is_update_mesh] at hcc
        | update_mesh_quantities _ => simp [ale_call.is_solve, ale_call.is_update_mesh] at hcc
        | destroy_all => simp [ale_call.is_solve, ale_call.is_update_mesh] at hcc
      obtain ⟨b1, b2, b3, b4⟩ := ih g2 (fun c hcm => hc c (List.mem_cons_of_mem _ hcm))
        hstep.1 h
      exact ⟨b1, b2.trans hstep.2.1, b3.trans hstep.2.2.1, b4.trans hstep.2.2.2⟩

/-- C25: when the fields and the equation exist and no snapshot has been
taken, `_ale_solve_poisson_cdo` returns with the snapshot taken, equal to the
vertex coordinates on entry, with the boundary setup of
`cs_ale_setup_boundaries` done and the equations initialised once more; no
sequence of later calls of `cs_ale_solve_mesh_velocity` and
`cs_ale_update_mesh` changes the snapshot, the closure table or the
definitions of the equation, or initialises the equations again. -/
theorem cdo_snapshot_once (solve : ale_globals → Nat → cs_real_t) (heap : ale_heap)
    (g : ale_globals) (impale : Nat → Int) (ale_bc_type : Nat → cs_ale_bc_t)
    (dis mesh_u : cs_field_t) (eqp : cs_equation_param_t)
    (hd : g.disale = some dis) (hu : g.mesh_u = some mesh_u)
    (he : g.mesh_velocity_eqp = some eqp) (h0 : g._vtx_coord0 = none) :
    ∃ g1 c0 g2, _ale_solve_poisson_cdo solve heap g impale ale_bc_type = some g1 ∧
      g1._vtx_coord0 = some c0 ∧
      (∀ k, k < 3 * g.mesh.n_vertices → c0 k = g.mesh.vtx_coord k) ∧
      cs_ale_setup_boundaries heap.table0 heap.face_type0 heap.imp_dis0 impale ale_bc_type
        { g with _vtx_coord0 := some c0 } = some g2 ∧
      g1.mesh_velocity_eqp = g2.mesh_velocity_eqp ∧ g1._input_bc = g2._input_bc ∧
      n_equation_init g1 = n_equation_init g + 1 ∧
      ∀ (calls : List ale_call) (g3 : ale_globals),
        (∀ c ∈ calls, c.is_solve = true ∨ c.is_update_mesh = true) →
        ale_run calls g1 = some g3 →
        g3._vtx_coord0 = some c0 ∧ g3._input_bc = g1._input_bc ∧
        g3.mesh_velocity_eqp = g1.mesh_velocity_eqp ∧
        n_equation_init g3 = n_equation_init g1 := by
  simp only [_ale_solve_poisson_cdo, hd, cdo_first_call, h0, cs_ale_setup_boundaries, he, hu]
  refine ⟨_, _, _, rfl, rfl, fun k hk => ?_, rfl, rfl, rfl, ?_, fun calls g3 hc hr => ?_⟩
  · show (if k < 3 * g.mesh.n_vertices then g.mesh.vtx_coord k else cs_real_t.nan) = _
    rw [if_pos hk]
  · simp only [n_equation_init, List.count_append]
    split <;> simp
  · exact run_keeps_snapshot calls _ g3 _ hc rfl hr

theorem cdo_snapshot_once_witness :
    ∃ g1 c0, _ale_solve_poisson_cdo tet_solve_cdo tet_heap tet_globals (fun _ => 0)
        (fun _ => cs_ale_bc_t.CS_ALE_FIXED) = some g1 ∧
      g1._vtx_coord0 = some c0 ∧ c0 (3 * 3 + 2) = cs_real_t.real 2 ∧
      n_equation_init g1 = 1 := by
  obtain ⟨g1, c0, g2, h1, h2, h3, -, -, -, h4, -⟩ :=
    cdo_snapshot_once tet_solve_cdo tet_heap tet_globals (fun _ => 0)
      (fun _ => cs_ale_bc_t.CS_ALE_FIXED)
      (mk_field cs_mesh_location_type_t.CS_MESH_LOCATION_VERTICES
        (ofList [0, 0, 0, 0, 0, 0, 0, 0, 0, 0, 0, -1/10])
        (ofList [0, 0, 0, 0, 0, 0, 0, 0, 0, 0, 0, 0]))
      (mk_field cs_mesh_location_type_t.CS_MESH_LOCATION_VERTICES
        (ofList [0, 0, 0, 0, 0, 0, 0, 0, 0, 0, 0, -1])
        (ofList [0, 0, 0, 0, 0, 0, 0, 0, 0, 0, 0, 0]))
      { bc_defs := [] } rfl rfl rfl rfl
  exact ⟨g1, c0, h1, h2, (h3 (3 * 3 + 2) (by decide)).trans (by decide!), h4.trans rfl⟩

/-- A sequence of calls without `cs_ale_update_mesh` leaves the mesh and the
previous displacement as they are. -/
theorem run_keeps_coords (calls : List ale_call) (g g1 : ale_globals) (dis : cs_field_t)
    (hc : ∀ c ∈ calls, c.is_update_mesh = false) (hd : g.disale = some dis)
    (h : ale_run calls g = some g1) :
    g1.mesh = g.mesh ∧ ∃ dis1, g1.disale = some dis1 ∧ dis1.val_pre = dis.val_pre := by
  induction calls generalizing g dis with
  | nil =>
    simp only [ale_run, Option.some.injEq] at h
    subst h
    exact ⟨rfl, dis, hd, rfl⟩
  | cons c cs ih =>
    unfold ale_run at h
    cases hs : ale_step c g with
    | none => simp [hs] at h
    | some g2 =>
      simp only [hs] at h
      have hstep : g2.mesh = g.mesh ∧
          ∃ dis2, g2.disale = some dis2 ∧ dis2.val_pre = dis.val_pre := by
        have hcc := hc c (List.mem_cons_self c cs)
        cases c with
        | solve_mesh_velocity ext solve_legacy solve_cdo peers heap iterns impale ale_bc_type =>
          obtain ⟨-, -, a3, -, a5, -⟩ := solve_frame _ _ _ _ _ g g2 _ _ _ hs
          exact ⟨a3, a5 dis hd⟩
        | update_mesh compute itrale xyzno0 => simp [ale_call.is_update_mesh] at hcc
        | activate have_petsc =>
          simp only [ale_step, Option.some.injEq] at hs
          subst hs
          obtain ⟨-, -, -, a4, a5, -⟩ := activate_spec have_petsc g
          exact ⟨a4, dis, a5.trans hd, rfl⟩
        | setup_boundaries heap impale ale_bc_type =>
          obtain ⟨-, -, -, -, a5, a6, -⟩ := setup_boundaries_frame _ _ _ _ _ g g2 hs
          exact ⟨a5, dis, a6.trans hd, rfl⟩
        | update_mesh_quantities compute =>
          simp only [ale_step, Option.some.injEq] at hs
          subst hs
          exact ⟨rfl, dis, hd, rfl⟩
        | destroy_all =>
          simp only [ale_step, Option.some.injEq] at hs
          subst hs
          exact ⟨rfl, dis, hd, rfl⟩
      obtain ⟨m2, dis2, d2, p2⟩ := hstep
      obtain ⟨b1, dis3, b2, b3⟩ := ih g2 dis2
        (fun c hcm => hc c (List.mem_cons_of_mem _ hcm)) d2 h
      exact ⟨b1.trans m2, dis3, b2, b3.trans p2⟩

theorem radd_sub_self (a b : cs_real_t) : a + (a + b - a) = a + b := by
  cases a <;> cases b <;> simp

/-- C26 (amended): on return from `cs_ale_update_mesh` the relation
`vtx_coord = xyzno0 + disale` holds at every vertex and component below
`dim`; after any sequence of later calls other than `cs_ale_update_mesh`
(so after `cs_ale_solve_mesh_velocity` with either backend) the coordinates
are unchanged and satisfy `vtx_coord = xyzno0 + disala`, with the previous
displacement `disala`. -/
theorem update_mesh_relation
    (compute : cs_mesh_t → cs_mesh_quantities_t → cs_mesh_quantities_t)
    (itrale : Int) (xyzno0 : Nat → cs_real_t) (g : ale_globals) (mesh_u dis : cs_field_t)
    (hu : g.mesh_u = some mesh_u) (hd : g.disale = some dis) :
    ∃ g1 dis1, cs_ale_update_mesh compute itrale xyzno0 g = some g1 ∧
      g1.disale = some dis1 ∧
      (∀ v, v < g.mesh.n_vertices → ∀ i, i < g.mesh.dim →
        g1.mesh.vtx_coord (3 * v + i) = xyzno0 (3 * v + i) + dis1.val (3 * v + i)) ∧
      ∀ (calls : List ale_call) (g2 : ale_globals),
        (∀ c ∈ calls, c.is_update_mesh = false) → ale_run calls g1 = some g2 →
        ∃ dis2, g2.disale = some dis2 ∧
          ∀ v, v < g.mesh.n_vertices → ∀ i, i < g.mesh.dim →
            g2.mesh.vtx_coord (3 * v + i) = g1.mesh.vtx_coord (3 * v + i) ∧
            g2.mesh.vtx_coord (3 * v + i)
              = xyzno0 (3 * v + i) + dis2.val_pre (3 * v + i) := by
  obtain ⟨g1, h1, hc, hdis, -⟩ := cs_ale_update_mesh_eq compute itrale xyzno0 g mesh_u dis hu hd
  refine ⟨g1, _, h1, hdis, fun v hv i hi => ?_, fun calls g2 hcalls hrun => ?_⟩
  · rw [hc]
    exact (update_geometry_spec _ _ xyzno0 dis.val _ v i hv hi).1
  · obtain ⟨hm, dis2, hd2, hp2⟩ := run_keeps_coords calls g1 g2 _ hcalls hdis hrun
    refine ⟨dis2, hd2, fun v hv i hi => ?_⟩
    obtain ⟨e1, e2⟩ := update_geometry_spec g.mesh.n_vertices g.mesh.dim xyzno0 dis.val
      (g.mesh.vtx_coord, dis.val_pre) v i hv hi
    rw [hm, hp2, hc]
    refine ⟨rfl, ?_⟩
    show _ = _ + (update_geometry _ _ _ _ _).2 _
    rw [e1, e2, radd_sub_self]

theorem update_mesh_relation_witness :
    ∃ g1 dis1, cs_ale_update_mesh (const_volume 1) 1 tet_mesh.vtx_coord tet_globals = some g1 ∧
      g1.disale = some dis1 ∧
      g1.mesh.vtx_coord (3 * 3 + 2) = tet_mesh.vtx_coord (3 * 3 + 2) + dis1.val (3 * 3 + 2) := by
  obtain ⟨g1, dis1, h1, h2, h3, -⟩ := update_mesh_relation (const_volume 1) 1
    tet_mesh.vtx_coord tet_globals
    (mk_field cs_mesh_location_type_t.CS_MESH_LOCATION_VERTICES
      (ofList [0, 0, 0, 0, 0, 0, 0, 0, 0, 0, 0, -1]) (ofList [0, 0, 0, 0, 0, 0, 0, 0, 0, 0, 0, 0]))
    (mk_field cs_mesh_location_type_t.CS_MESH_LOCATION_VERTICES
      (ofList [0, 0, 0, 0, 0, 0, 0, 0, 0, 0, 0, -1/10])
      (ofList [0, 0, 0, 0, 0, 0, 0, 0, 0, 0, 0, 0])) rfl rfl
  exact ⟨g1, dis1, h1, h2, h3 3 (by decide) 2 (by decide)⟩

/-- C26 (counterexample): on the one-tetrahedron state, after
`cs_ale_update_mesh` and then `cs_ale_solve_mesh_velocity` with the CDO
backend, `vtx_coord[3][2]` is still 19/10 whereas `xyzno0[3][2] + disale[3][2]`
is 9/5: the solve has changed `disale` and not the coordinates. -/
theorem solve_breaks_coordinate_relation :
    ∃ g2 dis2,
      ale_run [ale_call.update_mesh (const_volume 1) 1 tet_mesh.vtx_coord,
          ale_call.solve_mesh_velocity tet_engine tet_solve_legacy tet_solve_cdo
            (fun _ => tet_heap.proj) tet_heap 1 (fun _ => 0)
            (fun _ => cs_ale_bc_t.CS_ALE_FIXED)] tet_globals = some g2 ∧
      g2.disale = some dis2 ∧
      g2.mesh.vtx_coord (3 * 3 + 2) = cs_real_t.real (19/10) ∧
      tet_mesh.vtx_coord (3 * 3 + 2) + dis2.val (3 * 3 + 2) = cs_real_t.real (9/5) :=
  ⟨_, _, rfl, rfl, by decide!, by decide!⟩

/-- A sequence of calls run in two parts. -/
theorem run_append (l1 l2 : List ale_call) (g g2 : ale_globals)
    (h : ale_run (l1 ++ l2) g = some g2) :
    ∃ g1, ale_run l1 g = some g1 ∧ ale_run l2 g1 = some g2 := by
  induction l1 generalizing g with
  | nil => exact ⟨g, rfl, h⟩
  | cons c cs ih =>
    rw [List.cons_append] at h
    unfold ale_run at h
    cases hs : ale_step c g with
    | none => simp [hs] at h
    | some g3 =>
      simp only [hs] at h
      obtain ⟨g1, a1, a2⟩ := ih g3 h
      refine ⟨g1, ?_, a2⟩
      unfold ale_run
      simp only [hs]
      exact a1

/-- No call of the file changes the selector `cs_glob_ale`, and the snapshot
is not taken by a call other than a solve with the CDO backend. -/
theorem step_no_snapshot (c : ale_call) (g g1 : ale_globals) (h : ale_step c g = some g1) :
    g1.cs_glob_ale = g.cs_glob_ale ∧
    (g._vtx_coord0 = none →
      g.cs_glob_ale ≠ cs_ale_type_t.CS_ALE_CDO ∨ c.is_solve = false →
      g1._vtx_coord0 = none) := by
  cases c with
  | solve_mesh_velocity ext solve_legacy solve_cdo peers heap iterns impale ale_bc_type =>
    obtain ⟨-, a2, -, -, -, a6⟩ := solve_frame _ _ _ _ _ g g1 _ _ _ h
    refine ⟨a2, fun h0 hor => ?_⟩
    rcases hor with h1 | h1
    · exact (a6 (Or.inl h1)).1.trans h0
    · simp [ale_call.is_solve] at h1
  | update_mesh compute itrale xyzno0 =>
    obtain ⟨-, a2, -, a4, -, -⟩ := update_mesh_frame _ _ _ g g1 h
    exact ⟨a4, fun h0 _ => a2.trans h0⟩
  | activate have_petsc =>
    simp only [ale_step, Option.some.injEq] at h
    subst h
    obtain ⟨-, a2, a3, -, -, -⟩ := activate_spec have_petsc g
    exact ⟨a2, fun h0 _ => a3.trans h0⟩
  | setup_boundaries heap impale ale_bc_type =>
    obtain ⟨-, a2, a3, -, -, -, -⟩ := setup_boundaries_frame _ _ _ _ _ g g1 h
    exact ⟨a3, fun h0 _ => a2.trans h0⟩
  | update_mesh_quantities compute =>
    simp only [ale_step, Option.some.injEq] at h
    subst h
    exact ⟨rfl, fun h0 _ => h0⟩
  | destroy_all =>
    simp only [ale_step, Option.some.injEq] at h
    subst h
    exact ⟨rfl, fun _ _ => rfl⟩

/-- A sequence of calls without a solve by the CDO backend, from a state
without snapshot, ends in a state without snapshot. -/
theorem run_no_snapshot (calls : List ale_call) (g g1 : ale_globals)
    (hc : g.cs_glob_ale ≠ cs_ale_type_t.CS_ALE_CDO ∨ ∀ c ∈ calls, c.is_solve = false)
    (h0 : g._vtx_coord0 = none) (h : ale_run calls g = some g1) :
    g1.cs_glob_ale = g.cs_glob_ale ∧ g1._vtx_coord0 = none := by
  induction calls generalizing g with
  | nil =>
    simp only [ale_run, Option.some.injEq] at h
    subst h
    exact ⟨rfl, h0⟩
  | cons c cs ih =>
    unfold ale_run at h
    cases hs : ale_step c g with
    | none => simp [hs] at h
    | some g2 =>
      simp only [hs] at h
      obtain ⟨a1, a2⟩ := step_no_snapshot c g g2 hs
      have h2 : g2._vtx_coord0 = none :=
        a2 h0 (hc.elim Or.inl (fun hall => Or.inr (hall c (List.mem_cons_self c cs))))
      obtain ⟨b1, b2⟩ := ih g2
        (hc.elim (fun hne => Or.inl (by rw [a1]; exact hne))
          (fun hall => Or.inr (fun d hd => hall d (List.mem_cons_of_mem _ hd)))) h2 h
      exact ⟨b1.trans a1, b2⟩

/-- Every sequence of calls leaves the selector `cs_glob_ale` as it is. -/
theorem run_glob_ale (calls : List ale_call) (g g1 : ale_globals)
    (h : ale_run calls g = some g1) : g1.cs_glob_ale = g.cs_glob_ale := by
  induction calls generalizing g with
  | nil =>
    simp only [ale_run, Option.some.injEq] at h
    subst h
    rfl
  | cons c cs ih =>
    unfold ale_run at h
    cases hs : ale_step c g with
    | none => simp [hs] at h
    | some g2 =>
      simp only [hs] at h
      exact (ih g2 h).trans (step_no_snapshot c g g2 hs).1

/-- C27 (amended): when no snapshot has been established (no solve by the
CDO backend has run since a start without snapshot or since
`cs_ale_destroy_all`), a call of `_fixed_displacement` with at least one
query point fails, and so writes no result. -/
theorem fixed_displacement_needs_snapshot (g0 g : ale_globals) (pre post : List ale_call)
    (time : cs_real_t) (n_pts : Nat) (pt_ids : Option (Nat → Nat)) (xyz : Nat → cs_real_t)
    (compact : Bool) (input : cs_ale_bc_input_t) (res : Nat → cs_real_t)
    (hstart : (pre = [] ∧ g0._vtx_coord0 = none) ∨ ∃ pre1, pre = pre1 ++ [ale_call.destroy_all])
    (hpost : g0.cs_glob_ale ≠ cs_ale_type_t.CS_ALE_CDO ∨ ∀ c ∈ post, c.is_solve = false)
    (hrun : ale_run (pre ++ post) g0 = some g) (hn : 0 < n_pts) :
    g._vtx_coord0 = none ∧
    _fixed_displacement g time n_pts pt_ids xyz compact input res = none := by
  obtain ⟨g1, r1, r2⟩ := run_append pre post g0 g hrun
  have hg1 : g1._vtx_coord0 = none := by
    rcases hstart with ⟨hp, h0⟩ | ⟨pre1, hp⟩
    · subst hp
      simp only [ale_run, Option.some.injEq] at r1
      subst r1
      exact h0
    · subst hp
      obtain ⟨g3, -, s2⟩ := run_append pre1 [ale_call.destroy_all] g0 g1 r1
      simp only [ale_run, ale_step, Option.some.injEq] at s2
      subst s2
      rfl
  have hsel : g1.cs_glob_ale = g0.cs_glob_ale := run_glob_ale pre g0 g1 r1
  have hnone : g._vtx_coord0 = none :=
    (run_no_snapshot post g1 g (hpost.elim (fun h => Or.inl (by rw [hsel]; exact h)) Or.inr)
      hg1 r2).2
  refine ⟨hnone, ?_⟩
  unfold _fixed_displacement
  cases g.disale with
  | none => rfl
  | some dis =>
    have hn0 : n_pts ≠ 0 := by omega
    simp only [hn0, if_false, hnone]

theorem fixed_displacement_needs_snapshot_witness :
    ∃ g, ale_run [ale_call.activate false,
        ale_call.solve_mesh_velocity tet_engine tet_solve_legacy tet_solve_cdo
          (fun _ => tet_heap.proj) tet_heap 1 (fun _ => 0) (fun _ => cs_ale_bc_t.CS_ALE_FIXED)]
        tet_start_globals = some g ∧
      _fixed_displacement g 0 1 none zeros false ⟨"inlet"⟩ zeros = none :=
  ⟨_, rfl, (fixed_displacement_needs_snapshot tet_start_globals _ []
    [ale_call.activate false,
      ale_call.solve_mesh_velocity tet_engine tet_solve_legacy tet_solve_cdo
        (fun _ => tet_heap.proj) tet_heap 1 (fun _ => 0) (fun _ => cs_ale_bc_t.CS_ALE_FIXED)]
    0 1 none zeros false ⟨"inlet"⟩ zeros (Or.inl ⟨rfl, rfl⟩) (Or.inl (by decide)) rfl
    (by decide)).2⟩

/-- C27 (counterexample): at program start, without snapshot, a call of
`_fixed_displacement` with no query point returns normally and leaves the
output array as it is. -/
theorem fixed_displacement_no_point :
    tet_start_globals._vtx_coord0 = none ∧
    _fixed_displacement tet_start_globals 0 0 none zeros false ⟨"inlet"⟩ zeros = some zeros :=
  ⟨rfl, rfl⟩

/-- Lines 427-433 of `_ale_solve_poisson_legacy`: after the loop the right-hand
side and the implicit term are zero for every cell, ghost cells included. -/
theorem legacy_zero_arrays (n : Nat) (smbr0 fimp0 : Nat → cs_real_t) :
    (∀ c, c < n → ∀ i, i < 3 →
      (forLoop n (fun cell_id (st : (Nat → cs_real_t) × (Nat → cs_real_t)) =>
        forLoop 3 (fun isou st1 =>
          (setAt st1.1 (3 * cell_id + isou) 0,
           forLoop 3 (fun jsou a => setAt a (9 * cell_id + 3 * jsou + isou) 0) st1.2)) st)
        (smbr0, fimp0)).1 (3 * c + i) = 0) ∧
    (∀ c, c < n → ∀ j, j < 3 → ∀ i, i < 3 →
      (forLoop n (fun cell_id (st : (Nat → cs_real_t) × (Nat → cs_real_t)) =>
        forLoop 3 (fun isou st1 =>
          (setAt st1.1 (3 * cell_id + isou) 0,
           forLoop 3 (fun jsou a => setAt a (9 * cell_id + 3 * jsou + isou) 0) st1.2)) st)
        (smbr0, fimp0)).2 (9 * c + 3 * j + i) = 0) := by
  have hset : ∀ (a : Nat → cs_real_t) (q p : Nat), (a p = 0 ∨ p = q) → setAt a q 0 p = 0 := by
    intro a q p h
    unfold setAt
    by_cases hpq : p = q
    · rw [if_pos hpq]
    · rw [if_neg hpq]
      exact h.resolve_right hpq
  -- the body for one cell keeps the zeros and clears the entries of the cell
  have hcell : ∀ (c : Nat) (st : (Nat → cs_real_t) × (Nat → cs_real_t)),
      let st2 := forLoop 3 (fun isou (st1 : (Nat → cs_real_t) × (Nat → cs_real_t)) =>
          (setAt st1.1 (3 * c + isou) 0,
           forLoop 3 (fun jsou a => setAt a (9 * c + 3 * jsou + isou) 0) st1.2)) st
      (∀ p, (st.1 p = 0 ∨ ∃ i, i < 3 ∧ p = 3 * c + i) → st2.1 p = 0) ∧
      (∀ p, (st.2 p = 0 ∨ ∃ j i, j < 3 ∧ i < 3 ∧ p = 9 * c + 3 * j + i) → st2.2 p = 0) := by
    intro c st
    simp only [forLoop]
    refine ⟨fun p hp => ?_, fun p hp => ?_⟩
    · refine hset _ _ _ ?_
      by_cases h2 : p = 3 * c + 2
      · exact Or.inr h2
      · refine Or.inl (hset _ _ _ ?_)
        by_cases h1 : p = 3 * c + 1
        · exact Or.inr h1
        · refine Or.inl (hset _ _ _ ?_)
          rcases hp with hp | ⟨i, hi, hp⟩
          · exact Or.inl hp
          · right
            omega
    · have h9 : st.2 p = 0 ∨ (p = 9 * c + 0 ∨ p = 9 * c + 1 ∨ p = 9 * c + 2 ∨ p = 9 * c + 3 ∨
          p = 9 * c + 4 ∨ p = 9 * c + 5 ∨ p = 9 * c + 6 ∨ p = 9 * c + 7 ∨ p = 9 * c + 8) := by
        rcases hp with hp | ⟨j, i, hj, hi, hp⟩
        · exact Or.inl hp
        · right
          omega
      have hs : ∀ (a : Nat → cs_real_t) (q : Nat), a p = 0 ∨ p = q → setAt a q 0 p = 0 :=
        fun a q h => hset a q p h
      by_cases e8 : p = 9 * c + 3 * 2 + 2
      · exact hs _ _ (Or.inr e8)
      refine hs _ _ (Or.inl ?_)
      by_cases e5 : p = 9 * c + 3 * 1 + 2
      · exact hs _ _ (Or.inr e5)
      refine hs _ _ (Or.inl ?_)
      by_cases e2 : p = 9 * c + 3 * 0 + 2
      · exact hs _ _ (Or.inr e2)
      refine hs _ _ (Or.inl ?_)
      by_cases e7 : p = 9 * c + 3 * 2 + 1
      · exact hs _ _ (Or.inr e7)
      refine hs _ _ (Or.inl ?_)
      by_cases e4 : p = 9 * c + 3 * 1 + 1
      · exact hs _ _ (Or.inr e4)
      refine hs _ _ (Or.inl ?_)
      by_cases e1 : p = 9 * c + 3 * 0 + 1
      · exact hs _ _ (Or.inr e1)
      refine hs _ _ (Or.inl ?_)
      by_cases e6 : p = 9 * c + 3 * 2 + 0
      · exact hs _ _ (Or.inr e6)
      refine hs _ _ (Or.inl ?_)
      by_cases e3 : p = 9 * c + 3 * 1 + 0
      · exact hs _ _ (Or.inr e3)
      refine hs _ _ (Or.inl ?_)
      by_cases e0 : p = 9 * c + 3 * 0 + 0
      · exact hs _ _ (Or.inr e0)
      refine hs _ _ (Or.inl ?_)
      rcases h9 with h | h
      · exact h
      · omega
  have key := forLoop_inv
    (fun k (st : (Nat → cs_real_t) × (Nat → cs_real_t)) =>
      (∀ c, c < k → ∀ i, i < 3 → st.1 (3 * c + i) = 0) ∧
      (∀ c, c < k → ∀ j, j < 3 → ∀ i, i < 3 → st.2 (9 * c + 3 * j + i) = 0))
    n (fun cell_id (st : (Nat → cs_real_t) × (Nat → cs_real_t)) =>
        forLoop 3 (fun isou st1 =>
          (setAt st1.1 (3 * cell_id + isou) 0,
           forLoop 3 (fun jsou a => setAt a (9 * cell_id + 3 * jsou + isou) 0) st1.2)) st)
    (smbr0, fimp0)
    ⟨fun c hc => absurd hc (Nat.not_lt_zero c), fun c hc => absurd hc (Nat.not_lt_zero c)⟩
    (fun k _ st hst => by
      obtain ⟨h1, h2⟩ := hst
      obtain ⟨c1, c2⟩ := hcell k st
      refine ⟨fun c hc i hi => c1 _ ?_, fun c hc j hj i hi => c2 _ ?_⟩
      · rcases Nat.lt_succ_iff_lt_or_eq.mp hc with h | h
        · exact Or.inl (h1 c h i hi)
        · exact Or.inr ⟨i, hi, by rw [h]⟩
      · rcases Nat.lt_succ_iff_lt_or_eq.mp hc with h | h
        · exact Or.inl (h2 c h j hj i hi)
        · exact Or.inr ⟨j, i, hj, hi, by rw [h]⟩)
  exact key

/-- C31 (amended): the mesh velocity the legacy backend obtains is the result
of the equation engine on arguments whose options are those of the field on
entry with `relaxv = 1`, `thetav = 1`, `istat = -1` and `idifft = -1`,
`iconv` being passed as it is on entry, and whose right-hand side and
implicit term are zero for every cell, ghost cells included. -/
theorem legacy_solve_options (ext : legacy_engine)
    (solve : solve_vector_args → Nat → cs_real_t) (heap : ale_heap) (g : ale_globals)
    (iterns : Int) (ale_bc_type : Nat → cs_ale_bc_t) (mesh_u : cs_field_t) :
    (legacy_solve ext solve heap g iterns ale_bc_type mesh_u).val
      = solve (legacy_solve_args ext heap g iterns ale_bc_type mesh_u) ∧
    (legacy_solve_args ext heap g iterns ale_bc_type mesh_u).var_cal_opt
      = { mesh_u.var_cal_opt with relaxv := 1, thetav := 1, istat := -1, idifft := -1 } ∧
    (legacy_solve_args ext heap g iterns ale_bc_type mesh_u).var_cal_opt.iconv
      = mesh_u.var_cal_opt.iconv ∧
    (∀ c, c < g.mesh.n_cells_with_ghosts → ∀ i, i < 3 →
      (legacy_solve_args ext heap g iterns ale_bc_type mesh_u).smbr (3 * c + i) = 0) ∧
    (∀ c, c < g.mesh.n_cells_with_ghosts → ∀ j, j < 3 → ∀ i, i < 3 →
      (legacy_solve_args ext heap g iterns ale_bc_type mesh_u).fimp (9 * c + 3 * j + i) = 0) :=
  ⟨rfl, rfl, rfl, (legacy_zero_arrays _ _ _).1, (legacy_zero_arrays _ _ _).2⟩

theorem legacy_solve_options_witness :
    (legacy_solve_args tet_engine tet_heap tet_globals 1 (fun _ => cs_ale_bc_t.CS_ALE_FIXED)
      (mk_field cs_mesh_location_type_t.CS_MESH_LOCATION_CELLS zeros zeros)).var_cal_opt.iconv
        = 0 ∧
    (legacy_solve_args tet_engine tet_heap tet_globals 1 (fun _ => cs_ale_bc_t.CS_ALE_FIXED)
      (mk_field cs_mesh_location_type_t.CS_MESH_LOCATION_CELLS zeros zeros)).smbr (3 * 0 + 2)
        = 0 :=
  ⟨(legacy_solve_options tet_engine tet_solve_legacy tet_heap tet_globals 1
      (fun _ => cs_ale_bc_t.CS_ALE_FIXED)
      (mk_field cs_mesh_location_type_t.CS_MESH_LOCATION_CELLS zeros zeros)).2.2.1,
   (legacy_solve_options tet_engine tet_solve_legacy tet_heap tet_globals 1
      (fun _ => cs_ale_bc_t.CS_ALE_FIXED)
      (mk_field cs_mesh_location_type_t.CS_MESH_LOCATION_CELLS zeros zeros)).2.2.2.1 0
      (by decide) 2 (by decide)⟩

/-- C31 (counterexample): on the one-tetrahedron state, when the options of
the mesh velocity have `iconv = 1` on entry, the options the legacy backend
passes to the equation engine have `iconv = 1`. -/
theorem legacy_solve_keeps_iconv :
    (legacy_solve_args tet_engine tet_heap tet_globals 1 (fun _ => cs_ale_bc_t.CS_ALE_FIXED)
      { mk_field cs_mesh_location_type_t.CS_MESH_LOCATION_CELLS zeros zeros with
        var_cal_opt := { iwarni := 0, iconv := 1, istat := 0, idifft := 1, idften := 1,
                         relaxv := 1, thetav := 1 } }).var_cal_opt.iconv = 1 :=
  rfl

/-- What the body of the zone loop does with the closure table: the
definition it appends, if it is by analytic function, refers to the slot
`_n_input_bc` on entry, which is written with the zone name, and the count
grows by one; otherwise the count is kept. -/
theorem setup_zone_slots (m : cs_mesh_t) (zones : List cs_zone_t) (impale : Nat → Int)
    (ale_bc_type : Nat → cs_ale_bc_t) (z : cs_zone_t) (st : setup_locals) :
    ∃ news, (setup_zone m zones impale ale_bc_type z st).bc_defs = st.bc_defs ++ news ∧
      ((closure_slots news = [] ∧
          (setup_zone m zones impale ale_bc_type z st)._n_input_bc = st._n_input_bc ∧
          (setup_zone m zones impale ale_bc_type z st).input_bc = st.input_bc) ∨
       (closure_slots news = [st._n_input_bc] ∧
          (setup_zone m zones impale ale_bc_type z st)._n_input_bc = st._n_input_bc + 1 ∧
          (setup_zone m zones impale ale_bc_type z st).input_bc
            = setAt st.input_bc st._n_input_bc z.name)) := by
  unfold setup_zone
  simp only []
  split_ifs
  all_goals first
    | exact ⟨[_], rfl, Or.inr ⟨rfl, rfl, rfl⟩⟩
    | exact ⟨[_], rfl, Or.inl ⟨rfl, rfl, rfl⟩⟩
    | exact ⟨[], (List.append_nil _).symm, Or.inl ⟨rfl, rfl, rfl⟩⟩

/-- The zone loop over a list of zones: the closures registered use the
slots from the count on entry on, one after the other, and each zone adds at
most one. -/
theorem setup_fold_slots (m : cs_mesh_t) (zones : List cs_zone_t) (impale : Nat → Int)
    (ale_bc_type : Nat → cs_ale_bc_t) (l : List cs_zone_t) (st : setup_locals) :
    ∃ extra n,
      (l.foldl (fun s z => setup_zone m zones impale ale_bc_type z s) st).bc_defs
        = st.bc_defs ++ extra ∧
      (l.foldl (fun s z => setup_zone m zones impale ale_bc_type z s) st)._n_input_bc
        = st._n_input_bc + n ∧
      n ≤ l.length ∧ closure_slots extra = List.range' st._n_input_bc n ∧
      ∀ k, st._n_input_bc + n ≤ k →
        (l.foldl (fun s z => setup_zone m zones impale ale_bc_type z s) st).input_bc k
          = st.input_bc k := by
  induction l generalizing st with
  | nil => exact ⟨[], 0, (List.append_nil _).symm, rfl, le_refl _, rfl, fun _ _ => rfl⟩
  | cons a l ih =>
    obtain ⟨news, h1, h2⟩ := setup_zone_slots m zones impale ale_bc_type a st
    obtain ⟨extra, n, k1, k2, k3, k4, k5⟩ := ih (setup_zone m zones impale ale_bc_type a st)
    rcases h2 with ⟨s1, s2, s3⟩ | ⟨s1, s2, s3⟩
    · refine ⟨news ++ extra, n, ?_, ?_, ?_, ?_, ?_⟩
      · rw [List.foldl_cons, k1, h1, List.append_assoc]
      · rw [List.foldl_cons, k2, s2]
      · exact le_trans k3 (Nat.le_succ _)
      · unfold closure_slots at s1 k4 ⊢
        rw [List.filterMap_append, s1, k4, s2, List.nil_append]
      · intro k hk
        rw [List.foldl_cons, k5 k (by rw [s2]; exact hk), s3]
    · refine ⟨news ++ extra, n + 1, ?_, ?_, ?_, ?_, ?_⟩
      · rw [List.foldl_cons, k1, h1, List.append_assoc]
      · rw [List.foldl_cons, k2, s2]
        omega
      · exact Nat.succ_le_succ k3
      · unfold closure_slots at s1 k4 ⊢
        rw [List.filterMap_append, s1, k4, s2]
        rfl
      · intro k hk
        rw [List.foldl_cons, k5 k (by rw [s2]; omega), s3]
        unfold setAt
        rw [if_neg (by omega)]

/-- C34: in `cs_ale_setup_boundaries` the closures of the definitions
registered by the call use the slots `0, 1, ..., n-1` of the closure table,
in this order, with `n` not above the number of boundary zones: every slot
written is below the number of zones, no slot from `n` on is written, and
two registered closures never share a slot. -/
theorem setup_boundaries_closure_slots (table0 : Nat → String) (face_type0 : cs_ale_bc_t)
    (imp_dis0 : Int) (impale : Nat → Int) (ale_bc_type : Nat → cs_ale_bc_t) (g : ale_globals)
    (eqp : cs_equation_param_t) (heqp : g.mesh_velocity_eqp = some eqp) :
    ∃ g1 eqp1 table extra n,
      cs_ale_setup_boundaries table0 face_type0 imp_dis0 impale ale_bc_type g = some g1 ∧
      g1.mesh_velocity_eqp = some eqp1 ∧ g1._input_bc = some table ∧
      eqp1.bc_defs = eqp.bc_defs ++ extra ∧
      n ≤ g.zones.length ∧ closure_slots extra = List.range n ∧
      (∀ k ∈ closure_slots extra, k < g.zones.length) ∧
      (closure_slots extra).Nodup ∧
      ∀ k, n ≤ k → table k = table0 k := by
  obtain ⟨extra, n, h1, -, h3, h4, h5⟩ := setup_fold_slots g.mesh g.zones impale ale_bc_type
    g.zones { _n_input_bc := 0, input_bc := table0, bc_defs := eqp.bc_defs,
              face_type := face_type0, imp_dis := imp_dis0 }
  rw [← setup_zones_foldl] at h1 h5
  have h4r : closure_slots extra = List.range n := by
    rw [h4, List.range_eq_range']
  unfold cs_ale_setup_boundaries
  rw [heqp]
  refine ⟨_, _, _, extra, n, rfl, rfl, rfl, h1, h3, h4r, fun k hk => ?_, ?_, fun k hk => ?_⟩
  · rw [h4r, List.mem_range] at hk
    omega
  · rw [h4r]
    exact List.nodup_range n
  · exact h5 k (by simpa using hk)

theorem setup_boundaries_closure_slots_witness :
    ∃ g1 eqp1 extra,
      cs_ale_setup_boundaries (fun _ => "") cs_ale_bc_t.CS_ALE_FIXED 0 (fun _ => 0)
        tet_sliding_types tet_setup_globals = some g1 ∧
      g1.mesh_velocity_eqp = some eqp1 ∧ eqp1.bc_defs = [] ++ extra ∧
      ∀ k ∈ closure_slots extra, k < 4 := by
  obtain ⟨g1, eqp1, table, extra, n, h1, h2, -, h4, -, -, h7, -, -⟩ :=
    setup_boundaries_closure_slots (fun _ => "") cs_ale_bc_t.CS_ALE_FIXED 0 (fun _ => 0)
      tet_sliding_types tet_setup_globals { bc_defs := [] } rfl
  exact ⟨g1, eqp1, extra, h1, h2, h4, h7⟩

/-- The body of the zone loop reads the two inputs at the first face of the
zone and at the first vertex of that face only, and not at all for a zone
without faces. -/
theorem setup_zone_same_sample (m : cs_mesh_t) (zones : List cs_zone_t)
    (impale impale2 : Nat → Int) (ale_bc_type ale_bc_type2 : Nat → cs_ale_bc_t)
    (z : cs_zone_t) (st : setup_locals)
    (h : 0 < z.n_elts → same_sample m z impale impale2 ale_bc_type ale_bc_type2) :
    setup_zone m zones impale ale_bc_type z st = setup_zone m zones impale2 ale_bc_type2 z st := by
  unfold setup_zone
  by_cases hne : 0 < z.n_elts
  · obtain ⟨h1, h2⟩ := h hne
    simp only [hne, if_true, h1, h2]
  · simp only [hne, if_false]

/-- The kinds of the definitions the body of the zone loop appends for a zone
that is not skipped, has no definition yet and has a face. -/
theorem setup_zone_kinds (m : cs_mesh_t) (zones : List cs_zone_t) (impale : Nat → Int)
    (ale_bc_type : Nat → cs_ale_bc_t) (z : cs_zone_t) (st : setup_locals)
    (hns : z.id > 0 ∧ z.name ≠ "domain_walls") (hnd : ∀ d ∈ st.bc_defs, d.z_id ≠ z.id)
    (hne : 0 < z.n_elts) :
    ∃ news, (setup_zone m zones impale ale_bc_type z st).bc_defs = st.bc_defs ++ news ∧
      (∀ d ∈ news, d.z_id = zone_id_by_name zones z.name) ∧
      news.map xdef_kind = registered_kinds (zone_id_by_name zones z.name)
        (ale_bc_type (z.elt_ids 0))
        (impale (m.b_face_vtx_lst (m.b_face_vtx_idx (z.elt_ids 0)))) := by
  obtain ⟨s1, s2, s3⟩ := setup_zone_registers m zones impale ale_bc_type z st hns hnd hne
  have hone : ∀ d : cs_xdef_t, d.z_id = zone_id_by_name zones z.name →
      ∀ e ∈ [d], e.z_id = zone_id_by_name zones z.name := fun d hd e he => by
    rw [List.mem_singleton.mp he]
    exact hd
  unfold registered_kinds
  by_cases h1 : ale_bc_type (z.elt_ids 0) = cs_ale_bc_t.CS_ALE_FIXED
  · rw [if_pos h1]
    exact ⟨_, s1 h1, hone _ rfl, rfl⟩
  rw [if_neg h1]
  by_cases h2 : ale_bc_type (z.elt_ids 0) = cs_ale_bc_t.CS_ALE_IMPOSED_VEL
  · rw [if_pos h2]
    by_cases h0 : impale (m.b_face_vtx_lst (m.b_face_vtx_idx (z.elt_ids 0))) = 0
    · rw [if_pos h0]
      exact ⟨_, (s2 _ (Or.inl ⟨h2, h0, rfl⟩)).1, hone _ rfl, rfl⟩
    · rw [if_neg h0]
      exact ⟨_, (s2 _ (Or.inr (Or.inl ⟨h2, h0, rfl⟩))).1, hone _ rfl, rfl⟩
  rw [if_neg h2]
  by_cases h3 : ale_bc_type (z.elt_ids 0) = cs_ale_bc_t.CS_FREE_SURFACE
  · rw [if_pos h3]
    exact ⟨_, (s2 _ (Or.inr (Or.inr ⟨h3, rfl⟩))).1, hone _ rfl, rfl⟩
  · rw [if_neg h3]
    exact ⟨[], by rw [List.append_nil]; exact s3 h1 h2 h3,
      fun d hd => absurd hd (List.not_mem_nil d), rfl⟩

/-- C33: `cs_ale_setup_boundaries` reads `ale_bc_type` at the first face of
each zone that has a face and `impale` at the first vertex of that face only:
two inputs that agree there give the same result; and on a well-formed zone
table, for a zone that is not skipped and has a face, two inputs that agree
on the two values sampled for this zone register the same conditions for it
(those the specification gives for the sampled values), whatever the other
values are. -/
theorem setup_boundaries_sample_only (table0 : Nat → String) (face_type0 : cs_ale_bc_t)
    (imp_dis0 : Int) (impale impale2 : Nat → Int) (ale_bc_type ale_bc_type2 : Nat → cs_ale_bc_t)
    (g : ale_globals) (eqp : cs_equation_param_t) (heqp : g.mesh_velocity_eqp = some eqp) :
    ((∀ z ∈ g.zones, 0 < z.n_elts →
        same_sample g.mesh z impale impale2 ale_bc_type ale_bc_type2) →
      cs_ale_setup_boundaries table0 face_type0 imp_dis0 impale ale_bc_type g
        = cs_ale_setup_boundaries table0 face_type0 imp_dis0 impale2 ale_bc_type2 g) ∧
    (∀ z, zones_wf g.zones → z ∈ g.zones → z.id > 0 ∧ z.name ≠ "domain_walls" →
      (∀ d ∈ eqp.bc_defs, d.z_id ≠ z.id) → 0 < z.n_elts →
      same_sample g.mesh z impale impale2 ale_bc_type ale_bc_type2 →
      ∃ g1 g2 eqp1 eqp2,
        cs_ale_setup_boundaries table0 face_type0 imp_dis0 impale ale_bc_type g = some g1 ∧
        cs_ale_setup_boundaries table0 face_type0 imp_dis0 impale2 ale_bc_type2 g = some g2 ∧
        g1.mesh_velocity_eqp = some eqp1 ∧ g2.mesh_velocity_eqp = some eqp2 ∧
        (eqp1.bc_defs.filter (fun d => decide (d.z_id = z.id))).map xdef_kind
          = registered_kinds z.id (ale_bc_type (z.elt_ids 0))
              (impale (g.mesh.b_face_vtx_lst (g.mesh.b_face_vtx_idx (z.elt_ids 0)))) ∧
        (eqp2.bc_defs.filter (fun d => decide (d.z_id = z.id))).map xdef_kind
          = (eqp1.bc_defs.filter (fun d => decide (d.z_id = z.id))).map xdef_kind) := by
  constructor
  · intro h
    unfold cs_ale_setup_boundaries
    rw [heqp]
    have e : ∀ st, setup_zones g.mesh g.zones impale ale_bc_type st
        = setup_zones g.mesh g.zones impale2 ale_bc_type2 st := by
      intro st
      rw [setup_zones_foldl, setup_zones_foldl]
      exact List.foldl_ext _ _ _ (fun s z hz =>
        setup_zone_same_sample g.mesh g.zones impale impale2 ale_bc_type ale_bc_type2 z s
          (h z hz))
    simp only [e]
  · intro z hwf hz hns hnd hne hsame
    have key : ∀ (imp : Nat → Int) (bc : Nat → cs_ale_bc_t),
        ∃ g1 eqp1,
          cs_ale_setup_boundaries table0 face_type0 imp_dis0 imp bc g = some g1 ∧
          g1.mesh_velocity_eqp = some eqp1 ∧
          (eqp1.bc_defs.filter (fun d => decide (d.z_id = z.id))).map xdef_kind
            = registered_kinds z.id (bc (z.elt_ids 0))
                (imp (g.mesh.b_face_vtx_lst (g.mesh.b_face_vtx_idx (z.elt_ids 0)))) := by
      intro imp bc
      obtain ⟨g1, eqp1, table, mid, r1, r2, -, hmid, hfilter, -⟩ :=
        setup_boundaries_filter table0 face_type0 imp_dis0 imp bc g eqp z heqp hwf hz hnd
      obtain ⟨news, n1, n2, n3⟩ := setup_zone_kinds g.mesh g.zones imp bc z mid hns hmid hne
      rw [hwf.2 z hz] at n2 n3
      exact ⟨g1, eqp1, r1, r2, by rw [hfilter news n1 n2]; exact n3⟩
    obtain ⟨g1, eqp1, a1, a2, a3⟩ := key impale ale_bc_type
    obtain ⟨g2, eqp2, b1, b2, b3⟩ := key impale2 ale_bc_type2
    refine ⟨g1, g2, eqp1, eqp2, a1, b1, a2, b2, a3, ?_⟩
    rw [b3, a3, hsame.1, hsame.2]

theorem setup_boundaries_sample_only_witness :
    cs_ale_setup_boundaries (fun _ => "") cs_ale_bc_t.CS_ALE_FIXED 0 (fun _ => 0)
        tet_sliding_types tet_setup_globals
      = cs_ale_setup_boundaries (fun _ => "") cs_ale_bc_t.CS_ALE_FIXED 0
          (fun v => if v = 3 then 1 else 0)
          (fun f => if f = 2 then cs_ale_bc_t.CS_ALE_SLIDING else tet_sliding_types f)
          tet_setup_globals := by
  refine (setup_boundaries_sample_only (fun _ => "") cs_ale_bc_t.CS_ALE_FIXED 0 (fun _ => 0)
    (fun v => if v = 3 then 1 else 0) tet_sliding_types
    (fun f => if f = 2 then cs_ale_bc_t.CS_ALE_SLIDING else tet_sliding_types f)
    tet_setup_globals { bc_defs := [] } rfl).1 ?_
  intro z hz _
  have hz4 : z ∈ tet_setup_zones := hz
  simp only [tet_setup_zones, List.mem_cons, List.mem_singleton, List.not_mem_nil,
    or_false] at hz4
  rcases hz4 with rfl | rfl | rfl | rfl <;> exact ⟨by decide, by decide⟩

/-- One call: when it is a call of `cs_ale_update_mesh` with the reference
coordinates `xyzno0`, or when the relation holds before the call, the
coordinates of the vertices are `xyzno0` plus the previous displacement after
the call. -/
theorem step_relation (xyzno0 : Nat → cs_real_t) (c : ale_call) (g g1 : ale_globals)
    (h : ale_step c g = some g1) (hc : c.uses_reference xyzno0)
    (hinv : c.is_update_mesh = true ∨
      ∃ dis, g.disale = some dis ∧ ∀ v, v < g.mesh.n_vertices → ∀ i, i < g.mesh.dim →
        g.mesh.vtx_coord (3 * v + i) = xyzno0 (3 * v + i) + dis.val_pre (3 * v + i)) :
    ∃ dis1, g1.disale = some dis1 ∧ ∀ v, v < g1.mesh.n_vertices → ∀ i, i < g1.mesh.dim →
      g1.mesh.vtx_coord (3 * v + i) = xyzno0 (3 * v + i) + dis1.val_pre (3 * v + i) := by
  by_cases hup : c.is_update_mesh = true
  · cases c with
    | update_mesh compute itrale x =>
      have hx : x = xyzno0 := hc
      subst hx
      simp only [ale_step] at h
      unfold cs_ale_update_mesh at h
      cases hu : g.mesh_u with
      | none => simp [hu] at h
      | some mesh_u =>
        cases hd : g.disale with
        | none => simp [hu, hd] at h
        | some dis =>
          simp only [hu, hd, Option.some.injEq] at h
          subst h
          refine ⟨_, rfl, fun v hv i hi => ?_⟩
          obtain ⟨e1, e2⟩ := update_geometry_spec g.mesh.n_vertices g.mesh.dim x dis.val
            (g.mesh.vtx_coord, dis.val_pre) v i hv hi
          show (update_geometry _ _ _ _ _).1 _ = _ + (update_geometry _ _ _ _ _).2 _
          rw [e1, e2, radd_sub_self]
    | activate _ => simp [ale_call.is_update_mesh] at hup
    | setup_boundaries _ _ _ => simp [ale_call.is_update_mesh] at hup
    | solve_mesh_velocity _ _ _ _ _ _ _ _ => simp [ale_call.is_update_mesh] at hup
    | update_mesh_quantities _ => simp [ale_call.is_update_mesh] at hup
    | destroy_all => simp [ale_call.is_update_mesh] at hup
  · obtain ⟨dis, hd, hrel⟩ := hinv.resolve_left hup
    have hrun : ale_run [c] g = some g1 := by
      simp only [ale_run, h]
    obtain ⟨hm, dis1, hd1, hp1⟩ := run_keeps_coords [c] g g1 dis
      (fun d hd => by
        rw [List.mem_singleton.mp hd]
        simpa using hup) hd hrun
    refine ⟨dis1, hd1, fun v hv i hi => ?_⟩
    rw [hm] at hv hi ⊢
    rw [hp1]
    exact hrel v hv i hi

/-- C37: after a call of `cs_ale_update_mesh` with the reference coordinates
`xyzno0`, followed by any sequence of calls of the functions of the file in
which `cs_ale_update_mesh` is called with the same reference, the coordinates
of the vertices are `xyzno0` plus the previous displacement `disala`, for
every vertex and component below `dim`. -/
theorem coordinate_relation_invariant
    (compute : cs_mesh_t → cs_mesh_quantities_t → cs_mesh_quantities_t) (itrale : Int)
    (xyzno0 : Nat → cs_real_t) (rest : List ale_call) (g g1 : ale_globals)
    (hrest : ∀ c ∈ rest, c.uses_reference xyzno0)
    (hrun : ale_run (ale_call.update_mesh compute itrale xyzno0 :: rest) g = some g1) :
    ∃ dis1, g1.disale = some dis1 ∧ ∀ v, v < g1.mesh.n_vertices → ∀ i, i < g1.mesh.dim →
      g1.mesh.vtx_coord (3 * v + i) = xyzno0 (3 * v + i) + dis1.val_pre (3 * v + i) := by
  have key : ∀ (calls : List ale_call) (ga gb : ale_globals),
      (∀ c ∈ calls, c.uses_reference xyzno0) → ale_run calls ga = some gb →
      (∃ dis, ga.disale = some dis ∧ ∀ v, v < ga.mesh.n_vertices → ∀ i, i < ga.mesh.dim →
        ga.mesh.vtx_coord (3 * v + i) = xyzno0 (3 * v + i) + dis.val_pre (3 * v + i)) →
      ∃ dis, gb.disale = some dis ∧ ∀ v, v < gb.mesh.n_vertices → ∀ i, i < gb.mesh.dim →
        gb.mesh.vtx_coord (3 * v + i) = xyzno0 (3 * v + i) + dis.val_pre (3 * v + i) := by
    intro calls
    induction calls with
    | nil =>
      intro ga gb _ hr hinv
      simp only [ale_run, Option.some.injEq] at hr
      subst hr
      exact hinv
    | cons c cs ih =>
      intro ga gb hall hr hinv
      unfold ale_run at hr
      cases hs : ale_step c ga with
      | none => simp [hs] at hr
      | some g2 =>
        simp only [hs] at hr
        exact ih g2 gb (fun d hd => hall d (List.mem_cons_of_mem _ hd)) hr
          (step_relation xyzno0 c ga g2 hs (hall c (List.mem_cons_self c cs)) (Or.inr hinv))
  unfold ale_run at hrun
  cases hs : ale_step (ale_call.update_mesh compute itrale xyzno0) g with
  | none => simp [hs] at hrun
  | some g2 =>
    simp only [hs] at hrun
    exact key rest g2 g1 hrest hrun
      (step_relation xyzno0 _ g g2 hs rfl (Or.inl rfl))

theorem coordinate_relation_invariant_witness :
    ∃ g1, ale_run [ale_call.update_mesh (const_volume 1) 1 tet_mesh.vtx_coord,
        ale_call.solve_mesh_velocity tet_engine tet_solve_legacy tet_solve_cdo
          (fun _ => tet_heap.proj) tet_heap 1 (fun _ => 0)
          (fun _ => cs_ale_bc_t.CS_ALE_FIXED)] tet_globals = some g1 ∧
      ∃ dis1, g1.disale = some dis1 ∧
        ∀ v, v < g1.mesh.n_vertices → ∀ i, i < g1.mesh.dim →
          g1.mesh.vtx_coord (3 * v + i)
            = tet_mesh.vtx_coord (3 * v + i) + dis1.val_pre (3 * v + i) := by
  have hrun : ∃ g1, ale_run [ale_call.update_mesh (const_volume 1) 1 tet_mesh.vtx_coord,
      ale_call.solve_mesh_velocity tet_engine tet_solve_legacy tet_solve_cdo
        (fun _ => tet_heap.proj) tet_heap 1 (fun _ => 0)
        (fun _ => cs_ale_bc_t.CS_ALE_FIXED)] tet_globals = some g1 := ⟨_, rfl⟩
  obtain ⟨g1, hr⟩ := hrun
  exact ⟨g1, hr, coordinate_relation_invariant (const_volume 1) 1 tet_mesh.vtx_coord
    [ale_call.solve_mesh_velocity tet_engine tet_solve_legacy tet_solve_cdo
      (fun _ => tet_heap.proj) tet_heap 1 (fun _ => 0) (fun _ => cs_ale_bc_t.CS_ALE_FIXED)]
    tet_globals g1
    (fun c hc => by
      rw [List.mem_singleton.mp hc]
      trivial) hr⟩

/-- C38: when the coordinates of the queried vertices are the snapshot plus
the previous displacement, with real data and a non-zero reference time step,
the velocity `w` that `_fixed_displacement` writes for a query point of id
`v` satisfies `disala[v] + w * dtref = disale[v]`. -/
theorem fixed_displacement_reaches_target (g : ale_globals) (time : cs_real_t) (n_pts : Nat)
    (pt_ids : Option (Nat → Nat)) (xyz : Nat → cs_real_t) (compact : Bool)
    (input : cs_ale_bc_input_t) (res : Nat → cs_real_t) (dis : cs_field_t)
    (vtx_coord0 : Nat → cs_real_t) (t : ℚ)
    (hd : g.disale = some dis) (h0 : g._vtx_coord0 = some vtx_coord0)
    (ht : g.dtref = cs_real_t.real t) (ht0 : t ≠ 0)
    (hreal : ∀ p, p < n_pts → ∀ c, c < 3 →
      (dis.val (3 * point_id pt_ids p + c)).isReal = true ∧
      (dis.val_pre (3 * point_id pt_ids p + c)).isReal = true ∧
      (vtx_coord0 (3 * point_id pt_ids p + c)).isReal = true)
    (hrel : ∀ p, p < n_pts → ∀ c, c < 3 →
      g.mesh.vtx_coord (3 * point_id pt_ids p + c)
        = vtx_coord0 (3 * point_id pt_ids p + c) + dis.val_pre (3 * point_id pt_ids p + c)) :
    ∃ out, _fixed_displacement g time n_pts pt_ids xyz compact input res = some out ∧
      ∀ p, p < n_pts → ∀ c, c < 3 →
        dis.val_pre (3 * point_id pt_ids p + c)
            + out (3 * point_slot compact pt_ids p + c) * g.dtref
          = dis.val (3 * point_id pt_ids p + c) := by
  unfold _fixed_displacement
  rw [hd]
  by_cases hn : n_pts = 0
  · subst hn
    exact ⟨res, by simp, fun p hp => absurd hp (Nat.not_lt_zero p)⟩
  · simp only [hn, if_false, h0]
    refine ⟨_, rfl, fun p hp c hc => ?_⟩
    have hw := (write_loop_slots compact pt_ids
      (fun id c => (dis.val (3 * id + c) + vtx_coord0 (3 * id + c)
        - g.mesh.vtx_coord (3 * id + c)) / g.dtref) res n_pts).1 p hp c hc
    refine (congrArg (fun w => dis.val_pre (3 * point_id pt_ids p + c) + w * g.dtref) hw).trans ?_
    beta_reduce
    obtain ⟨r1, r2, r3⟩ := hreal p hp c hc
    obtain ⟨a, ea⟩ := cs_real_t.eq_real_of_isReal r1
    obtain ⟨b, eb⟩ := cs_real_t.eq_real_of_isReal r2
    obtain ⟨x, ex⟩ := cs_real_t.eq_real_of_isReal r3
    rw [hrel p hp c hc, ea, eb, ex, ht]
    simp only [cs_real_t.real_add_real, cs_real_t.real_sub_real, cs_real_t.real_div_real, ht0,
      if_false, cs_real_t.real_mul_real]
    congr 1
    field_simp
    ring

theorem fixed_displacement_reaches_target_witness :
    ∃ out, _fixed_displacement
        { tet_globals with _vtx_coord0 := some (ofList [0, 0, 0, 1, 0, 0, 0, 1, 0, 0, 0, 2]),
                           disale := some (mk_field
                             cs_mesh_location_type_t.CS_MESH_LOCATION_VERTICES
                             (ofList [0, 0, 0, 0, 0, 0, 0, 0, 0, 0, 0, -1/10])
                             (ofList [0, 0, 0, 0, 0, 0, 0, 0, 0, 0, 0, 0])) }
        0 1 (some (idxList [3])) zeros true ⟨"wall"⟩ zeros = some out ∧
      (0 : cs_real_t) + out (3 * 0 + 2) * cs_real_t.real (1/10) = cs_real_t.real (-1/10) := by
  obtain ⟨out, h1, h2⟩ := fixed_displacement_reaches_target
    { tet_globals with _vtx_coord0 := some (ofList [0, 0, 0, 1, 0, 0, 0, 1, 0, 0, 0, 2]),
                       disale := some (mk_field
                         cs_mesh_location_type_t.CS_MESH_LOCATION_VERTICES
                         (ofList [0, 0, 0, 0, 0, 0, 0, 0, 0, 0, 0, -1/10])
                         (ofList [0, 0, 0, 0, 0, 0, 0, 0, 0, 0, 0, 0])) }
    0 1 (some (idxList [3])) zeros true ⟨"wall"⟩ zeros
    (mk_field cs_mesh_location_type_t.CS_MESH_LOCATION_VERTICES
      (ofList [0, 0, 0, 0, 0, 0, 0, 0, 0, 0, 0, -1/10])
      (ofList [0, 0, 0, 0, 0, 0, 0, 0, 0, 0, 0, 0]))
    (ofList [0, 0, 0, 1, 0, 0, 0, 1, 0, 0, 0, 2]) (1/10) rfl rfl rfl (by norm_num)
    (fun p hp c hc => ⟨rfl, rfl, rfl⟩)
    (fun p hp c hc => by
      have hp0 : p = 0 := by omega
      subst hp0
      have h3 : c = 0 ∨ c = 1 ∨ c = 2 := by omega
      rcases h3 with rfl | rfl | rfl <;> decide!)
  exact ⟨out, h1, h2 0 (by decide) 2 (by decide)⟩

/-- C35 (divergence): partitioned and unpartitioned runs of `cs_ale_project_displacement`
differ at a shared vertex of a sliding face: on the two-cell mesh, vertex `A`
of the sliding face `OAB` gets the vertical displacement 0 in one piece, and
4/13 on both partitions when the mesh is split along the face `ABC`, because
each partition applies the sliding projection to its own partial sum before
the reduction. -/
theorem partitioned_projection_differs :
    cs_ale_project_displacement (fun _ => tet_heap.proj) duo_args tet_heap.proj (3 * 1 + 2)
      = cs_real_t.real 0 ∧
    cs_ale_project_displacement_spmd duo_world (fun _ => tet_heap.proj) 0 (3 * 1 + 2)
      = cs_real_t.real (4/13) ∧
    cs_ale_project_displacement_spmd duo_world (fun _ => tet_heap.proj) 1 (3 * 0 + 2)
      = cs_real_t.real (4/13) := by
  refine ⟨?_, ?_, ?_⟩ <;> decide!

/-- Relational rule for what a partition accumulates at a vertex on no
sliding face of a mesh of dimension 3. The relation `R t w d0 d1 d2` links
the weight and the three components of the displacement, `t` telling whether
a face has contributed; when it holds for zeros with no contribution, is kept
by the contribution of every face the vertex receives, and can forget that a
face has contributed, it holds when the reduction starts, with `t` saying
that the vertex has a contributing face. -/
theorem proj_local_rel (p : proj_args) (heap : proj_acc) (hdim : p.m.dim = 3) (v : Nat)
    (hv : v < p.m.n_vertices)
    (hns : ∀ f, f < p.m.n_b_faces → b_face_has_vtx p.m f v →
      p.ale_bc_type f ≠ cs_ale_bc_t.CS_ALE_SLIDING)
    (R : Prop → cs_real_t → cs_real_t → cs_real_t → cs_real_t → Prop)
    (hmono : ∀ (t t' : Prop) w d0 d1 d2, (t' → t) → R t w d0 d1 d2 → R t' w d0 d1 d2)
    (h0 : R False 0 0 0 0)
    (hint : ∀ f, f < p.m.n_i_faces → p.m.i_face_cells (2 * f + 0) < p.m.n_cells →
      vtx_interior_tag p heap v = true → i_face_has_vtx p.m f v →
      ∀ (t : Prop) w d0 d1 d2, R t w d0 d1 d2 →
        R True (w + (1 / p.mq.cell_vol (p.m.i_face_cells (2 * f + 0))
                + 1 / p.mq.cell_vol (p.m.i_face_cells (2 * f + 1))))
          (d0 + proj_interior_term p (p.m.i_face_cells (2 * f + 0)) (p.m.i_face_cells (2 * f + 1))
                  (1 / p.mq.cell_vol (p.m.i_face_cells (2 * f + 0)))
                  (1 / p.mq.cell_vol (p.m.i_face_cells (2 * f + 1))) v 0)
          (d1 + proj_interior_term p (p.m.i_face_cells (2 * f + 0)) (p.m.i_face_cells (2 * f + 1))
                  (1 / p.mq.cell_vol (p.m.i_face_cells (2 * f + 0)))
                  (1 / p.mq.cell_vol (p.m.i_face_cells (2 * f + 1))) v 1)
          (d2 + proj_interior_term p (p.m.i_face_cells (2 * f + 0)) (p.m.i_face_cells (2 * f + 1))
                  (1 / p.mq.cell_vol (p.m.i_face_cells (2 * f + 0)))
                  (1 / p.mq.cell_vol (p.m.i_face_cells (2 * f + 1))) v 2))
    (hbnd : ∀ f, f < p.m.n_b_faces → vtx_interior_tag p heap v = false →
      b_face_has_vtx p.m f v →
      ∀ (t : Prop) w d0 d1 d2, R t w d0 d1 d2 →
        R True (w + 1 / p.mq.b_face_surf f)
          (d0 + proj_boundary_term p f (p.m.b_face_cells f) v 0)
          (d1 + proj_boundary_term p f (p.m.b_face_cells f) v 1)
          (d2 + proj_boundary_term p f (p.m.b_face_cells f) v 2)) :
    R ((vtx_interior_tag p heap v = true ∧
          ∃ f, f < p.m.n_i_faces ∧ p.m.i_face_cells (2 * f + 0) < p.m.n_cells ∧
            i_face_has_vtx p.m f v) ∨
        (vtx_interior_tag p heap v = false ∧
          ∃ f, f < p.m.n_b_faces ∧ b_face_has_vtx p.m f v))
      ((proj_local p heap).vtx_counter v) ((proj_local p heap).disp_proj (3 * v + 0))
      ((proj_local p heap).disp_proj (3 * v + 1)) ((proj_local p heap).disp_proj (3 * v + 2)) := by
  have e0 : (3 * v + 0) / 3 = v := by omega
  have e1 : (3 * v + 1) / 3 = v := by omega
  have e2 : (3 * v + 2) / 3 = v := by omega
  have m0 : (3 * v + 0) % 3 = 0 := by omega
  have m1 : (3 * v + 1) % 3 = 1 := by omega
  have m2 : (3 * v + 2) % 3 = 2 := by omega
  obtain ⟨i1, -, i3⟩ := proj_init_spec p heap hdim
  obtain ⟨t1, t2, -⟩ := proj_tag_spec p (proj_init p heap) v
  have hstart : (proj_tag p (proj_init p heap)).vtx_interior_indicator v
        = vtx_interior_tag p heap v ∧
      R False ((proj_tag p (proj_init p heap)).vtx_counter v)
        ((proj_tag p (proj_init p heap)).disp_proj (3 * v + 0))
        ((proj_tag p (proj_init p heap)).disp_proj (3 * v + 1))
        ((proj_tag p (proj_init p heap)).disp_proj (3 * v + 2)) := by
    refine ⟨rfl, ?_⟩
    rw [t2, t1, i1 v, i3, i3, i3, e0, e1, e2]
    simp only [if_pos hv]
    exact h0
  -- the interior faces
  have hin : (proj_interior p (proj_tag p (proj_init p heap))).vtx_interior_indicator v
        = vtx_interior_tag p heap v ∧
      R (vtx_interior_tag p heap v = true ∧
          ∃ f, f < p.m.n_i_faces ∧ p.m.i_face_cells (2 * f + 0) < p.m.n_cells ∧
            i_face_has_vtx p.m f v)
        ((proj_interior p (proj_tag p (proj_init p heap))).vtx_counter v)
        ((proj_interior p (proj_tag p (proj_init p heap))).disp_proj (3 * v + 0))
        ((proj_interior p (proj_tag p (proj_init p heap))).disp_proj (3 * v + 1))
        ((proj_interior p (proj_tag p (proj_init p heap))).disp_proj (3 * v + 2)) := by
    unfold proj_interior
    refine forLoop_inv (fun k (st : proj_acc) =>
      st.vtx_interior_indicator v = vtx_interior_tag p heap v ∧
      R (vtx_interior_tag p heap v = true ∧
          ∃ f, f < k ∧ p.m.i_face_cells (2 * f + 0) < p.m.n_cells ∧ i_face_has_vtx p.m f v)
        (st.vtx_counter v) (st.disp_proj (3 * v + 0)) (st.disp_proj (3 * v + 1))
        (st.disp_proj (3 * v + 2))) _ _ _
      ⟨hstart.1, hmono _ _ _ _ _ _ (fun ⟨_, f, hf, _⟩ => absurd hf (Nat.not_lt_zero f))
        hstart.2⟩ ?_
    intro k hk st hst
    by_cases ho : p.m.i_face_cells (2 * k + 0) < p.m.n_cells
    · simp only [if_pos ho]
      have inner := forRange_inv (fun j (st2 : proj_acc) =>
        st2.vtx_interior_indicator v = vtx_interior_tag p heap v ∧
        R ((vtx_interior_tag p heap v = true ∧
              ∃ f, f < k ∧ p.m.i_face_cells (2 * f + 0) < p.m.n_cells ∧
                i_face_has_vtx p.m f v) ∨
            (vtx_interior_tag p heap v = true ∧
              ∃ j', p.m.i_face_vtx_idx k ≤ j' ∧ j' < j ∧ p.m.i_face_vtx_lst j' = v))
          (st2.vtx_counter v) (st2.disp_proj (3 * v + 0)) (st2.disp_proj (3 * v + 1))
          (st2.disp_proj (3 * v + 2)))
        (p.m.i_face_vtx_idx k) (p.m.i_face_vtx_idx (k + 1))
        (fun j st2 => proj_interior_vtx p (p.m.i_face_cells (2 * k + 0))
          (p.m.i_face_cells (2 * k + 1)) (1 / p.mq.cell_vol (p.m.i_face_cells (2 * k + 0)))
          (1 / p.mq.cell_vol (p.m.i_face_cells (2 * k + 1))) (p.m.i_face_vtx_lst j) st2) st
        ⟨hst.1, hmono _ _ _ _ _ _ (by
          rintro (h | ⟨_, j', a, b, _⟩)
          · exact h
          · omega) hst.2⟩
        (by
          intro j hj1 hj2 st2 h2
          obtain ⟨a, b, c⟩ := proj_interior_vtx_spec p (p.m.i_face_cells (2 * k + 0))
            (p.m.i_face_cells (2 * k + 1)) (1 / p.mq.cell_vol (p.m.i_face_cells (2 * k + 0)))
            (1 / p.mq.cell_vol (p.m.i_face_cells (2 * k + 1))) (p.m.i_face_vtx_lst j) st2
          refine ⟨by rw [a]; exact h2.1, ?_⟩
          rw [b v, c, c, c, e0, e1, e2, m0, m1, m2]
          by_cases hc : st2.vtx_interior_indicator (p.m.i_face_vtx_lst j) = true
              ∧ v = p.m.i_face_vtx_lst j
          · have ht : vtx_interior_tag p heap v = true := by rw [← h2.1, hc.2]; exact hc.1
            rw [if_pos hc, if_pos hc, if_pos hc, if_pos hc, ← hc.2]
            exact hmono True _ _ _ _ _ (fun _ => trivial)
              (hint k hk ho ht ⟨j - p.m.i_face_vtx_idx k, by omega, by
                rw [show p.m.i_face_vtx_idx k + (j - p.m.i_face_vtx_idx k) = j by omega]
                exact hc.2.symm⟩ _ _ _ _ _ h2.2)
          · rw [if_neg hc, if_neg hc, if_neg hc, if_neg hc]
            refine hmono _ _ _ _ _ _ ?_ h2.2
            rintro (h | ⟨ht, j', q1, q2, q3⟩)
            · exact Or.inl h
            · rcases Nat.lt_succ_iff_lt_or_eq.mp q2 with q | q
              · exact Or.inr ⟨ht, j', q1, q, q3⟩
              · subst q
                exact absurd ⟨by rw [q3, h2.1]; exact ht, q3.symm⟩ hc)
      refine ⟨inner.1, hmono _ _ _ _ _ _ ?_ inner.2⟩
      rintro ⟨ht, f, hf, hof, hhas⟩
      rcases Nat.lt_succ_iff_lt_or_eq.mp hf with h | h
      · exact Or.inl ⟨ht, f, h, hof, hhas⟩
      · subst h
        obtain ⟨k', hk', hl⟩ := hhas
        exact Or.inr ⟨ht, p.m.i_face_vtx_idx f + k', Nat.le_add_right _ _, by omega, hl⟩
    · simp only [if_neg ho]
      refine ⟨hst.1, hmono _ _ _ _ _ _ ?_ hst.2⟩
      rintro ⟨ht, f, hf, hof, hhas⟩
      rcases Nat.lt_succ_iff_lt_or_eq.mp hf with h | h
      · exact ⟨ht, f, h, hof, hhas⟩
      · subst h
        exact absurd hof ho
  -- the boundary faces
  have hb : (proj_accumulate p heap).vtx_interior_indicator v
        = vtx_interior_tag p heap v ∧
      R ((vtx_interior_tag p heap v = true ∧
            ∃ f, f < p.m.n_i_faces ∧ p.m.i_face_cells (2 * f + 0) < p.m.n_cells ∧
              i_face_has_vtx p.m f v) ∨
          (vtx_interior_tag p heap v = false ∧
            ∃ f, f < p.m.n_b_faces ∧ b_face_has_vtx p.m f v))
        ((proj_accumulate p heap).vtx_counter v)
        ((proj_accumulate p heap).disp_proj (3 * v + 0))
        ((proj_accumulate p heap).disp_proj (3 * v + 1))
        ((proj_accumulate p heap).disp_proj (3 * v + 2)) := by
    unfold proj_accumulate proj_boundary
    refine forLoop_inv (fun k (st : proj_acc) =>
      st.vtx_interior_indicator v = vtx_interior_tag p heap v ∧
      R ((vtx_interior_tag p heap v = true ∧
            ∃ f, f < p.m.n_i_faces ∧ p.m.i_face_cells (2 * f + 0) < p.m.n_cells ∧
              i_face_has_vtx p.m f v) ∨
          (vtx_interior_tag p heap v = false ∧ ∃ f, f < k ∧ b_face_has_vtx p.m f v))
        (st.vtx_counter v) (st.disp_proj (3 * v + 0)) (st.disp_proj (3 * v + 1))
        (st.disp_proj (3 * v + 2))) _ _ _
      ⟨hin.1, hmono _ _ _ _ _ _ (by
        rintro (h | ⟨_, f, hf, _⟩)
        · exact h
        · exact absurd hf (Nat.not_lt_zero f)) hin.2⟩ ?_
    intro k hk st hst
    have inner := forRange_inv (fun j (st2 : proj_acc) =>
      st2.vtx_interior_indicator v = vtx_interior_tag p heap v ∧
      R (((vtx_interior_tag p heap v = true ∧
              ∃ f, f < p.m.n_i_faces ∧ p.m.i_face_cells (2 * f + 0) < p.m.n_cells ∧
                i_face_has_vtx p.m f v) ∨
            (vtx_interior_tag p heap v = false ∧ ∃ f, f < k ∧ b_face_has_vtx p.m f v)) ∨
          (vtx_interior_tag p heap v = false ∧
            ∃ j', p.m.b_face_vtx_idx k ≤ j' ∧ j' < j ∧ p.m.b_face_vtx_lst j' = v))
        (st2.vtx_counter v) (st2.disp_proj (3 * v + 0)) (st2.disp_proj (3 * v + 1))
        (st2.disp_proj (3 * v + 2)))
      (p.m.b_face_vtx_idx k) (p.m.b_face_vtx_idx (k + 1))
      (fun j st2 => proj_boundary_vtx p k (p.m.b_face_cells k) (p.m.b_face_vtx_lst j) st2) st
      ⟨hst.1, hmono _ _ _ _ _ _ (by
        rintro (h | ⟨_, j', a, b, _⟩)
        · exact h
        · omega) hst.2⟩
      (by
        intro j hj1 hj2 st2 h2
        obtain ⟨a, b, c⟩ := proj_boundary_vtx_spec p k (p.m.b_face_cells k)
          (p.m.b_face_vtx_lst j) st2
        refine ⟨by rw [a]; exact h2.1, ?_⟩
        rw [b v, c, c, c, e0, e1, e2, m0, m1, m2]
        by_cases hc : st2.vtx_interior_indicator (p.m.b_face_vtx_lst j) = false
            ∧ v = p.m.b_face_vtx_lst j
        · have ht : vtx_interior_tag p heap v = false := by rw [← h2.1, hc.2]; exact hc.1
          rw [if_pos hc, if_pos hc, if_pos hc, if_pos hc, ← hc.2]
          exact hmono True _ _ _ _ _ (fun _ => trivial)
            (hbnd k hk ht ⟨j - p.m.b_face_vtx_idx k, by omega, by
              rw [show p.m.b_face_vtx_idx k + (j - p.m.b_face_vtx_idx k) = j by omega]
              exact hc.2.symm⟩ _ _ _ _ _ h2.2)
        · rw [if_neg hc, if_neg hc, if_neg hc, if_neg hc]
          refine hmono _ _ _ _ _ _ ?_ h2.2
          rintro (h | ⟨ht, j', q1, q2, q3⟩)
          · exact Or.inl h
          · rcases Nat.lt_succ_iff_lt_or_eq.mp q2 with q | q
            · exact Or.inr ⟨ht, j', q1, q, q3⟩
            · subst q
              exact absurd ⟨by rw [q3, h2.1]; exact ht, q3.symm⟩ hc)
    refine ⟨inner.1, hmono _ _ _ _ _ _ ?_ inner.2⟩
    rintro (h | ⟨ht, f, hf, hhas⟩)
    · exact Or.inl (Or.inl h)
    · rcases Nat.lt_succ_iff_lt_or_eq.mp hf with h | h
      · exact Or.inl (Or.inr ⟨ht, f, h, hhas⟩)
      · subst h
        obtain ⟨k', hk', hl⟩ := hhas
        exact Or.inr ⟨ht, p.m.b_face_vtx_idx f + k', Nat.le_add_right _ _, by omega, hl⟩
  obtain ⟨s1, s2⟩ := proj_sliding_other_vtx p (proj_accumulate p heap) v hns
  unfold proj_local
  rw [s1, s2 _ e0, s2 _ e1, s2 _ e2]
  exact hb.2

/-- Summing weights and displacements over the copies of a vertex keeps a
relation between the two that is kept by the addition of what a copy holds. -/
theorem foldl_add_rel {α : Type} (T S : cs_real_t → cs_real_t → Prop)
    (hadd : ∀ a b c d, T a b → S c d → T (a + c) (b + d))
    (gw gx : α → cs_real_t) (l : List α) (w0 x0 : cs_real_t) (h0 : T w0 x0)
    (h : ∀ a ∈ l, S (gw a) (gx a)) :
    T (l.foldl (fun acc a => acc + gw a) w0) (l.foldl (fun acc a => acc + gx a) x0) := by
  induction l generalizing w0 x0 with
  | nil => exact h0
  | cons a l ih =>
    rw [List.foldl_cons, List.foldl_cons]
    exact ih _ _ (hadd _ _ _ _ h0 (h a (List.mem_cons_self a l)))
      (fun b hb => h b (List.mem_cons_of_mem a hb))

/-- Relational rule for the reduction and the normalization on a mesh of
dimension 3: when a relation `T` holds between the weight and a displacement
component the partition has accumulated at a vertex, a relation `S` for what
the other partitions have accumulated at its copies, and `T` is kept by the
addition of a pair in `S`, the result at the vertex is the quotient of a
displacement and a weight in `T`, the weight being the one of the vertex. -/
theorem project_spmd_rel (world : Nat → proj_args) (heaps : Nat → proj_acc) (rank : Nat)
    (hdim : (world rank).m.dim = 3) (v : Nat) (hv : v < (world rank).m.n_vertices)
    (i : Nat) (hi : i < 3) (T S : cs_real_t → cs_real_t → Prop)
    (hadd : ∀ a b c d, T a b → S c d → T (a + c) (b + d))
    (hloc : T ((proj_local (world rank) (heaps rank)).vtx_counter v)
      ((proj_local (world rank) (heaps rank)).disp_proj (3 * v + i)))
    (hpeer : ∀ ifs, (world rank).m.vtx_interfaces = some ifs → ∀ c ∈ ifs.copies v,
      S ((proj_local (world c.1) (heaps c.1)).vtx_counter c.2)
        ((proj_local (world c.1) (heaps c.1)).disp_proj (3 * c.2 + i))) :
    ∃ W X, T W X ∧
      proj_weight (fun r => proj_local (world r) (heaps r)) (world rank) (heaps rank) v = W ∧
      cs_ale_project_displacement_spmd world heaps rank (3 * v + i) = X / W := by
  unfold cs_ale_project_displacement_spmd cs_ale_project_displacement proj_weight
  have e : (3 * v + i) / 3 = v := by omega
  have em : (3 * v + i) % 3 = i := by omega
  rw [proj_normalize_spec _ _ hdim, e, if_pos hv]
  unfold proj_reduce
  cases hitf : (world rank).m.vtx_interfaces with
  | none => exact ⟨_, _, hloc, rfl, rfl⟩
  | some ifs =>
    simp only [cs_interface_set_sum]
    rw [e, em, Nat.div_one]
    refine ⟨_, _, ?_, rfl, rfl⟩
    refine foldl_add_rel T S hadd
      (fun a => (proj_local (world a.1) (heaps a.1)).vtx_counter (1 * a.2 + v % 1))
      (fun a => (proj_local (world a.1) (heaps a.1)).disp_proj (3 * a.2 + i))
      (ifs.copies v) _ _ hloc ?_
    intro a ha
    have e2 : 1 * a.2 + v % 1 = a.2 := by omega
    show S ((proj_local (world a.1) (heaps a.1)).vtx_counter (1 * a.2 + v % 1)) _
    rw [e2]
    exact hpeer ifs hitf a ha

/-- The contribution of an interior face between two cells that carry an
affine field, with real inverse volumes `a1`, `a2`: `(a1 + a2)` times the
displacement of the field at the vertex. -/
theorem affine_interior_term (p : proj_args) (A : Nat → Nat → ℚ) (u0 : Nat → ℚ) (dtq : ℚ)
    (c1 c2 : Nat) (h1 : affine_cell p A u0 dtq c1) (h2 : affine_cell p A u0 dtq c2)
    (v : Nat) (x : Nat → ℚ) (hx : ∀ j, j < 3 → p.m.vtx_coord (3 * v + j) = cs_real_t.real (x j))
    (a1 a2 : ℚ) (i : Nat) (hi : i < 3) :
    proj_interior_term p c1 c2 (cs_real_t.real a1) (cs_real_t.real a2) v i
      = cs_real_t.real ((a1 + a2) * (dtq * affine_value A u0 x i)) := by
  obtain ⟨t1, g1, y1, n1, m1⟩ := h1
  obtain ⟨t2, g2, y2, n2, m2⟩ := h2
  unfold proj_interior_term
  simp only []
  rw [t1, t2, m1 i hi, m2 i hi, g1 i 0 hi (by norm_num), g1 i 1 hi (by norm_num),
    g1 i 2 hi (by norm_num), g2 i 0 hi (by norm_num), g2 i 1 hi (by norm_num),
    g2 i 2 hi (by norm_num), hx 0 (by norm_num), hx 1 (by norm_num), hx 2 (by norm_num),
    n1 0 (by norm_num), n1 1 (by norm_num), n1 2 (by norm_num),
    n2 0 (by norm_num), n2 1 (by norm_num), n2 2 (by norm_num)]
  simp only [cs_real_t.real_add_real, cs_real_t.real_sub_real, cs_real_t.real_mul_real]
  congr 1
  unfold affine_value
  ring

/-- The contribution of a boundary face that carries an affine field, as
does its cell, with the real inverse surface `a`: `a` times the displacement
of the field at the vertex. -/
theorem affine_boundary_term (p : proj_args) (A : Nat → Nat → ℚ) (u0 : Nat → ℚ) (dtq : ℚ)
    (f c : Nat) (hf : affine_face p A u0 f) (hc : affine_cell p A u0 dtq c)
    (v : Nat) (x : Nat → ℚ) (hx : ∀ j, j < 3 → p.m.vtx_coord (3 * v + j) = cs_real_t.real (x j))
    (a : ℚ) (ha : 1 / p.mq.b_face_surf f = cs_real_t.real a) (i : Nat) (hi : i < 3) :
    proj_boundary_term p f c v i = cs_real_t.real (a * (dtq * affine_value A u0 x i)) := by
  obtain ⟨b0, y, n, m⟩ := hf
  obtain ⟨t1, g1, y1, -, m1⟩ := hc
  unfold proj_boundary_term
  simp only []
  rw [ha, t1, m i hi, b0 i 0 hi (by norm_num), b0 i 1 hi (by norm_num),
    b0 i 2 hi (by norm_num), m1 0 (by norm_num), m1 1 (by norm_num), m1 2 (by norm_num),
    g1 i 0 hi (by norm_num), g1 i 1 hi (by norm_num), g1 i 2 hi (by norm_num),
    hx 0 (by norm_num), hx 1 (by norm_num), hx 2 (by norm_num),
    n 0 (by norm_num), n 1 (by norm_num), n 2 (by norm_num)]
  simp only [cs_real_t.zero_eq, cs_real_t.real_add_real, cs_real_t.real_sub_real,
    cs_real_t.real_mul_real]
  congr 1
  unfold affine_value
  ring

/-- What a partition accumulates at a vertex on no sliding face when its data
sample an affine field: an undefined weight, or a weight `W` and the
displacement `W * dtq * (A x_v + u0)`. -/
theorem affine_local (p : proj_args) (heap : proj_acc) (hdim : p.m.dim = 3)
    (hwf : face_cells_in_range p.m) (A : Nat → Nat → ℚ) (u0 : Nat → ℚ) (dtq : ℚ)
    (haff : affine_data p A u0 dtq) (v : Nat) (hv : v < p.m.n_vertices) (x : Nat → ℚ)
    (hx : ∀ j, j < 3 → p.m.vtx_coord (3 * v + j) = cs_real_t.real (x j))
    (hns : ∀ f, f < p.m.n_b_faces → b_face_has_vtx p.m f v →
      p.ale_bc_type f ≠ cs_ale_bc_t.CS_ALE_SLIDING) :
    affine_inv (fun i => dtq * affine_value A u0 x i)
      ((proj_local p heap).vtx_counter v) ((proj_local p heap).disp_proj (3 * v + 0))
      ((proj_local p heap).disp_proj (3 * v + 1)) ((proj_local p heap).disp_proj (3 * v + 2)) := by
  refine proj_local_rel p heap hdim v hv hns
    (fun _ => affine_inv (fun i => dtq * affine_value A u0 x i))
    (fun _ _ _ _ _ _ _ h => h)
    (Or.inr ⟨0, rfl, by rw [zero_mul]; rfl, by rw [zero_mul]; rfl, by rw [zero_mul]; rfl⟩) ?_ ?_
  · intro f hf ho _ _ _ w d0 d1 d2 hR
    rcases hR with hn | ⟨W, e, e0, e1, e2⟩
    · exact Or.inl (by rw [hn]; rfl)
    · have hc1 := haff.1 _ (hwf.1 f hf).1
      have hc2 := haff.1 _ (hwf.1 f hf).2
      cases q1 : (1 / p.mq.cell_vol (p.m.i_face_cells (2 * f + 0)) : cs_real_t) with
      | nan => exact Or.inl (by rw [e]; rfl)
      | real a1 =>
        cases q2 : (1 / p.mq.cell_vol (p.m.i_face_cells (2 * f + 1)) : cs_real_t) with
        | nan => exact Or.inl (by rw [e]; rfl)
        | real a2 =>
          refine Or.inr ⟨W + (a1 + a2), by rw [e]; rfl, ?_, ?_, ?_⟩
          · rw [e0, affine_interior_term p A u0 dtq _ _ hc1 hc2 v x hx a1 a2 0 (by norm_num),
              cs_real_t.real_add_real]
            beta_reduce; congr 1; ring
          · rw [e1, affine_interior_term p A u0 dtq _ _ hc1 hc2 v x hx a1 a2 1 (by norm_num),
              cs_real_t.real_add_real]
            beta_reduce; congr 1; ring
          · rw [e2, affine_interior_term p A u0 dtq _ _ hc1 hc2 v x hx a1 a2 2 (by norm_num),
              cs_real_t.real_add_real]
            beta_reduce; congr 1; ring
  · intro f hf _ hhas _ w d0 d1 d2 hR
    rcases hR with hn | ⟨W, e, e0, e1, e2⟩
    · exact Or.inl (by rw [hn]; rfl)
    · have hfa := haff.2 f hf (hns f hf hhas)
      have hc := haff.1 _ (hwf.2 f hf)
      cases q : (1 / p.mq.b_face_surf f : cs_real_t) with
      | nan => exact Or.inl (by rw [e]; rfl)
      | real a =>
        refine Or.inr ⟨W + a, by rw [e]; rfl, ?_, ?_, ?_⟩
        · rw [e0, affine_boundary_term p A u0 dtq f _ hfa hc v x hx a q 0 (by norm_num),
            cs_real_t.real_add_real]
          beta_reduce; congr 1; ring
        · rw [e1, affine_boundary_term p A u0 dtq f _ hfa hc v x hx a q 1 (by norm_num),
            cs_real_t.real_add_real]
          beta_reduce; congr 1; ring
        · rw [e2, affine_boundary_term p A u0 dtq f _ hfa hc v x hx a q 2 (by norm_num),
            cs_real_t.real_add_real]
          beta_reduce; congr 1; ring

/-- C36: `cs_ale_project_displacement` is exact for affine velocity fields:
when on every partition the cells carry `meshv = A * cell_cen + u0`,
`gradm = A` and the uniform time step `dtq`, and the boundary faces that are
not sliding carry `claale = A * b_face_cog + u0` and `clbale = 0`, then at a
vertex of coordinates `x` that is, with its copies, on no sliding face and
whose weight is a non-zero real number, the result is `dtq * (A x + u0)`. -/
theorem project_affine_exact (world : Nat → proj_args) (heaps : Nat → proj_acc) (rank : Nat)
    (A : Nat → Nat → ℚ) (u0 : Nat → ℚ) (dtq : ℚ) (x : Nat → ℚ)
    (hdim : ∀ r, (world r).m.dim = 3) (hwf : ∀ r, face_cells_in_range (world r).m)
    (haff : ∀ r, affine_data (world r) A u0 dtq)
    (v : Nat) (hv : v < (world rank).m.n_vertices)
    (hx : ∀ j, j < 3 → (world rank).m.vtx_coord (3 * v + j) = cs_real_t.real (x j))
    (hns : ∀ f, f < (world rank).m.n_b_faces → b_face_has_vtx (world rank).m f v →
      (world rank).ale_bc_type f ≠ cs_ale_bc_t.CS_ALE_SLIDING)
    (hcp : ∀ ifs, (world rank).m.vtx_interfaces = some ifs → ∀ c ∈ ifs.copies v,
      c.2 < (world c.1).m.n_vertices ∧
      (∀ j, j < 3 → (world c.1).m.vtx_coord (3 * c.2 + j) = cs_real_t.real (x j)) ∧
      ∀ f, f < (world c.1).m.n_b_faces → b_face_has_vtx (world c.1).m f c.2 →
        (world c.1).ale_bc_type f ≠ cs_ale_bc_t.CS_ALE_SLIDING)
    (w : ℚ) (hw : w ≠ 0)
    (hweight : proj_weight (fun r => proj_local (world r) (heaps r)) (world rank) (heaps rank) v
      = cs_real_t.real w)
    (i : Nat) (hi : i < 3) :
    cs_ale_project_displacement_spmd world heaps rank (3 * v + i)
      = cs_real_t.real (dtq * affine_value A u0 x i) := by
  have comp : ∀ (a d0 d1 d2 : cs_real_t),
      affine_inv (fun i => dtq * affine_value A u0 x i) a d0 d1 d2 →
      ∀ (e0 e1 e2 : cs_real_t), d0 = e0 → d1 = e1 → d2 = e2 →
      ∀ y, (i = 0 → y = e0) → (i = 1 → y = e1) → (i = 2 → y = e2) →
      (a = cs_real_t.nan ∨
        ∃ W : ℚ, a = cs_real_t.real W ∧ y = cs_real_t.real (W * (dtq * affine_value A u0 x i))) := by
    intro a d0 d1 d2 h e0 e1 e2 q0 q1 q2 y y0 y1 y2
    rcases h with h | ⟨W, r, r0, r1, r2⟩
    · exact Or.inl h
    · refine Or.inr ⟨W, r, ?_⟩
      interval_cases i
      · rw [y0 rfl, ← q0]; exact r0
      · rw [y1 rfl, ← q1]; exact r1
      · rw [y2 rfl, ← q2]; exact r2
  obtain ⟨W, X, hS, hW, hres⟩ := project_spmd_rel world heaps rank (hdim rank) v hv i hi
    (fun a y => a = cs_real_t.nan ∨
      ∃ W : ℚ, a = cs_real_t.real W ∧ y = cs_real_t.real (W * (dtq * affine_value A u0 x i)))
    (fun a y => a = cs_real_t.nan ∨
      ∃ W : ℚ, a = cs_real_t.real W ∧ y = cs_real_t.real (W * (dtq * affine_value A u0 x i)))
    (by
      intro a b c d h1 h2
      rcases h1 with h1 | ⟨W1, r1, s1⟩
      · exact Or.inl (by rw [h1]; rfl)
      · rcases h2 with h2 | ⟨W2, r2, s2⟩
        · exact Or.inl (by rw [h2]; exact cs_real_t.add_nan _)
        · exact Or.inr ⟨W1 + W2, by rw [r1, r2]; rfl, by
            rw [s1, s2, cs_real_t.real_add_real, add_mul]⟩)
    (comp _ _ _ _
      (affine_local (world rank) (heaps rank) (hdim rank) (hwf rank) A u0 dtq (haff rank) v hv x
        hx hns) _ _ _ rfl rfl rfl _ (fun h => by rw [h]) (fun h => by rw [h]) (fun h => by rw [h]))
    (by
      intro ifs hitf c hc
      obtain ⟨hlt, hxc, hnc⟩ := hcp ifs hitf c hc
      exact comp _ _ _ _
        (affine_local (world c.1) (heaps c.1) (hdim c.1) (hwf c.1) A u0 dtq (haff c.1) c.2 hlt x
          hxc hnc) _ _ _ rfl rfl rfl _ (fun h => by rw [h]) (fun h => by rw [h])
          (fun h => by rw [h]))
  rw [hres]
  rw [hweight] at hW
  rcases hS with hn | ⟨W1, r, s⟩
  · rw [hn] at hW; exact absurd hW (by simp)
  · rw [r] at hW
    have hWw : w = W1 := by injection hW
    rw [s, r, cs_real_t.real_div_real, if_neg (by rw [← hWw]; exact hw)]
    congr 1
    rw [← hWw]
    field_simp

/-- A product that is a real number has real factors. -/
theorem mul_eq_real {a b : cs_real_t} {q : ℚ} (h : a * b = cs_real_t.real q) :
    ∃ t m : ℚ, a = cs_real_t.real t ∧ b = cs_real_t.real m ∧ q = t * m := by
  cases a with
  | nan => exact absurd h (by simp)
  | real t =>
    cases b with
    | nan => exact absurd h (by simp)
    | real m =>
      rw [cs_real_t.real_mul_real] at h
      exact ⟨t, m, rfl, rfl, by injection h with h'; exact h'.symm⟩

/-- With zero gradient, the contribution of an interior face between two
cells of positive volume whose displacements lie between `lo` and `hi`: a
positive weight `a` and a value between `lo * a` and `hi * a`. -/
theorem bounded_interior_term (p : proj_args) (hr : proj_real_inputs p)
    (hgrad : ∀ k, p.gradm k = 0) (c1 c2 v i : Nat) (lo hi : ℚ)
    (hv1 : ∃ s : ℚ, 0 < s ∧ p.mq.cell_vol c1 = cs_real_t.real s)
    (hv2 : ∃ s : ℚ, 0 < s ∧ p.mq.cell_vol c2 = cs_real_t.real s)
    (hb1 : cell_displacement_bounded p c1 i lo hi)
    (hb2 : cell_displacement_bounded p c2 i lo hi) :
    ∃ a n : ℚ, 0 < a ∧
      1 / p.mq.cell_vol c1 + 1 / p.mq.cell_vol c2 = cs_real_t.real a ∧
      proj_interior_term p c1 c2 (1 / p.mq.cell_vol c1) (1 / p.mq.cell_vol c2) v i
        = cs_real_t.real n ∧
      lo * a ≤ n ∧ n ≤ hi * a := by
  obtain ⟨s1, hs1, ev1⟩ := hv1
  obtain ⟨s2, hs2, ev2⟩ := hv2
  obtain ⟨q1, eq1, l1, u1⟩ := hb1
  obtain ⟨q2, eq2, l2, u2⟩ := hb2
  obtain ⟨t1, m1, et1, em1, rfl⟩ := mul_eq_real eq1
  obtain ⟨t2, m2, et2, em2, rfl⟩ := mul_eq_real eq2
  obtain ⟨hx, hc, -⟩ := hr
  obtain ⟨x0, ex0⟩ := cs_real_t.eq_real_of_isReal (hx (3 * v + 0))
  obtain ⟨x1, ex1⟩ := cs_real_t.eq_real_of_isReal (hx (3 * v + 1))
  obtain ⟨x2, ex2⟩ := cs_real_t.eq_real_of_isReal (hx (3 * v + 2))
  obtain ⟨a0, ea0⟩ := cs_real_t.eq_real_of_isReal (hc (3 * c1 + 0))
  obtain ⟨a1, ea1⟩ := cs_real_t.eq_real_of_isReal (hc (3 * c1 + 1))
  obtain ⟨a2, ea2⟩ := cs_real_t.eq_real_of_isReal (hc (3 * c1 + 2))
  obtain ⟨b0, eb0⟩ := cs_real_t.eq_real_of_isReal (hc (3 * c2 + 0))
  obtain ⟨b1, eb1⟩ := cs_real_t.eq_real_of_isReal (hc (3 * c2 + 1))
  obtain ⟨b2, eb2⟩ := cs_real_t.eq_real_of_isReal (hc (3 * c2 + 2))
  have p1 : 0 < 1 / s1 := by positivity
  have p2 : 0 < 1 / s2 := by positivity
  refine ⟨1 / s1 + 1 / s2, 1 / s1 * (t1 * m1) + 1 / s2 * (t2 * m2), by positivity, ?_, ?_, ?_, ?_⟩
  · rw [ev1, ev2]
    simp [cs_real_t.one_eq, cs_real_t.real_div_real, ne_of_gt hs1, ne_of_gt hs2]
  · unfold proj_interior_term
    simp only []
    rw [hgrad, hgrad, hgrad, hgrad, hgrad, hgrad, ev1, ev2, et1, et2, em1, em2,
      ex0, ex1, ex2, ea0, ea1, ea2, eb0, eb1, eb2]
    simp only [cs_real_t.zero_eq, cs_real_t.one_eq, cs_real_t.real_div_real,
      cs_real_t.real_add_real, cs_real_t.real_sub_real, cs_real_t.real_mul_real,
      ne_of_gt hs1, ne_of_gt hs2, if_false]
    congr 1
    ring
  · have g1 := mul_le_mul_of_nonneg_left l1 (le_of_lt p1)
    have g2 := mul_le_mul_of_nonneg_left l2 (le_of_lt p2)
    linarith
  · have g1 := mul_le_mul_of_nonneg_left u1 (le_of_lt p1)
    have g2 := mul_le_mul_of_nonneg_left u2 (le_of_lt p2)
    linarith

/-- With zero gradient and positive volumes, what a partition accumulates at
an interior-tagged vertex on no sliding face whose contributing faces have
cell displacements between `lo` and `hi`: a weight `d >= 0`, positive when
the vertex has a contributing face, and a value between `lo * d` and
`hi * d`. -/
theorem bounded_local (p : proj_args) (heap : proj_acc) (hdim : p.m.dim = 3)
    (hr : proj_real_inputs p) (hvol : positive_volumes p) (hgrad : ∀ k, p.gradm k = 0)
    (v : Nat) (hv : v < p.m.n_vertices) (htag : vtx_interior_tag p heap v = true)
    (hns : ∀ f, f < p.m.n_b_faces → b_face_has_vtx p.m f v →
      p.ale_bc_type f ≠ cs_ale_bc_t.CS_ALE_SLIDING)
    (i : Nat) (hi : i < 3) (lo hi' : ℚ) (hb : interior_faces_bounded p v i lo hi') :
    convex_inv lo hi'
      (∃ f, f < p.m.n_i_faces ∧ p.m.i_face_cells (2 * f + 0) < p.m.n_cells ∧
        i_face_has_vtx p.m f v)
      ((proj_local p heap).vtx_counter v) ((proj_local p heap).disp_proj (3 * v + i)) := by
  have key := proj_local_rel p heap hdim v hv hns
    (fun t w d0 d1 d2 => convex_inv lo hi' t w (if i = 0 then d0 else if i = 1 then d1 else d2))
    (by
      intro t t' w d0 d1 d2 htt h
      obtain ⟨d, n, e1, e2, h1, h2, h3, h4⟩ := h
      exact ⟨d, n, e1, e2, h1, fun h => h2 (htt h), h3, h4⟩)
    (by
      refine ⟨0, 0, rfl, ?_, le_refl 0, fun h => h.elim, by simp, by simp⟩
      split
      · rfl
      · split <;> rfl)
    (by
      intro f hf ho _ hhas t w d0 d1 d2 h
      obtain ⟨d, n, e1, e2, h1, -, h3, h4⟩ := h
      obtain ⟨a, m, ha, ea, em, l, u⟩ := bounded_interior_term p hr hgrad
        (p.m.i_face_cells (2 * f + 0)) (p.m.i_face_cells (2 * f + 1)) v i lo hi'
        (hvol f hf).1 (hvol f hf).2 (hb f hf ho hhas).1 (hb f hf ho hhas).2
      refine ⟨d + a, n + m, by rw [e1, ea]; rfl, ?_, by linarith, fun _ => by linarith,
        by linarith, by linarith⟩
      have hsel : (if i = 0 then d0 else if i = 1 then d1 else d2) = cs_real_t.real n := e2
      interval_cases i
      · simp only [if_true] at hsel ⊢
        rw [hsel, em]; rfl
      · simp only [one_ne_zero, if_false, if_true] at hsel ⊢
        rw [hsel, em]; rfl
      · simp only [OfNat.ofNat_ne_zero, OfNat.ofNat_ne_one, if_false] at hsel ⊢
        rw [hsel, em]; rfl)
    (by
      intro f hf ht
      rw [htag] at ht
      exact Bool.noConfusion ht)
  beta_reduce at key
  have hsel : (if i = 0 then (proj_local p heap).disp_proj (3 * v + 0)
      else if i = 1 then (proj_local p heap).disp_proj (3 * v + 1)
      else (proj_local p heap).disp_proj (3 * v + 2))
      = (proj_local p heap).disp_proj (3 * v + i) := by
    interval_cases i <;> simp
  rw [hsel] at key
  obtain ⟨d, n, e1, e2, h1, h2, h3, h4⟩ := key
  exact ⟨d, n, e1, e2, h1, fun h => h2 (Or.inl ⟨htag, h⟩), h3, h4⟩

/-- C32: in `cs_ale_project_displacement` with zero velocity gradient and
strictly positive cell volumes, at an interior-tagged vertex on no sliding
face that has at least one contributing interior face, component `i` of the
result is a real number between any two bounds `lo` and `hi` of the cell
displacements `dt[c] * meshv[c][i]` of the cells adjacent to its contributing
faces, hence between their minimum and their maximum; the copies of the
vertex on other partitions are interior-tagged vertices on no sliding face
with the same bounds. -/
theorem project_interior_bounds (world : Nat → proj_args) (heaps : Nat → proj_acc)
    (rank : Nat) (hdim : ∀ r, (world r).m.dim = 3) (hr : ∀ r, proj_real_inputs (world r))
    (hvol : ∀ r, positive_volumes (world r)) (hgrad : ∀ r k, (world r).gradm k = 0)
    (v : Nat) (hv : v < (world rank).m.n_vertices)
    (htag : vtx_interior_tag (world rank) (heaps rank) v = true)
    (hns : ∀ f, f < (world rank).m.n_b_faces → b_face_has_vtx (world rank).m f v →
      (world rank).ale_bc_type f ≠ cs_ale_bc_t.CS_ALE_SLIDING)
    (hface : ∃ f, f < (world rank).m.n_i_faces ∧
      (world rank).m.i_face_cells (2 * f + 0) < (world rank).m.n_cells ∧
      i_face_has_vtx (world rank).m f v)
    (i : Nat) (hi : i < 3) (lo hi' : ℚ)
    (hb : interior_faces_bounded (world rank) v i lo hi')
    (hcp : ∀ ifs, (world rank).m.vtx_interfaces = some ifs → ∀ c ∈ ifs.copies v,
      c.2 < (world c.1).m.n_vertices ∧
      vtx_interior_tag (world c.1) (heaps c.1) c.2 = true ∧
      (∀ f, f < (world c.1).m.n_b_faces → b_face_has_vtx (world c.1).m f c.2 →
        (world c.1).ale_bc_type f ≠ cs_ale_bc_t.CS_ALE_SLIDING) ∧
      interior_faces_bounded (world c.1) c.2 i lo hi') :
    ∃ q : ℚ, cs_ale_project_displacement_spmd world heaps rank (3 * v + i) = cs_real_t.real q ∧
      lo ≤ q ∧ q ≤ hi' := by
  obtain ⟨W, X, hT, -, hres⟩ := project_spmd_rel world heaps rank (hdim rank) v hv i hi
    (convex_inv lo hi' True) (convex_inv lo hi' False)
    (by
      intro a b c d h1 h2
      obtain ⟨d1, n1, e1, f1, p1, q1, l1, u1⟩ := h1
      obtain ⟨d2, n2, e2, f2, p2, -, l2, u2⟩ := h2
      have := q1 trivial
      exact ⟨d1 + d2, n1 + n2, by rw [e1, e2]; rfl, by rw [f1, f2]; rfl, by linarith,
        fun _ => by linarith, by linarith, by linarith⟩)
    (by
      obtain ⟨d, n, e1, e2, h1, h2, h3, h4⟩ := bounded_local (world rank) (heaps rank)
        (hdim rank) (hr rank) (hvol rank) (hgrad rank) v hv htag hns i hi lo hi' hb
      exact ⟨d, n, e1, e2, h1, fun _ => h2 hface, h3, h4⟩)
    (by
      intro ifs hitf c hc
      obtain ⟨hlt, htc, hnc, hbc⟩ := hcp ifs hitf c hc
      obtain ⟨d, n, e1, e2, h1, -, h3, h4⟩ := bounded_local (world c.1) (heaps c.1)
        (hdim c.1) (hr c.1) (hvol c.1) (hgrad c.1) c.2 hlt htc hnc i hi lo hi' hbc
      exact ⟨d, n, e1, e2, h1, fun h => h.elim, h3, h4⟩)
  obtain ⟨d, n, e1, e2, -, hd, l, u⟩ := hT
  have hd0 : 0 < d := hd trivial
  refine ⟨n / d, ?_, ?_, ?_⟩
  · rw [hres, e1, e2, cs_real_t.real_div_real, if_neg (ne_of_gt hd0)]
  · exact (le_div_iff₀ hd0).mpr l
  · exact (div_le_iff₀ hd0).mpr u

/-- The data `octa_affine_args` sample the affine field of the evaluations
with the time step 1/10. -/
theorem octa_affine_data :
    affine_data octa_affine_args affine_example_A affine_example_u0 (1/10) := by
  constructor
  · intro c hc
    have hc8 : c < 8 := hc
    refine ⟨rfl, ?_, fun j => [1/4, 1/4, 1/2, 1/4, 1/4, -1/2, 1/4, -1/4, 1/2, 1/4, -1/4, -1/2,
      -1/4, 1/4, 1/2, -1/4, 1/4, -1/2, -1/4, -1/4, 1/2, -1/4, -1/4, -1/2].getD (3 * c + j) 0,
      fun _ _ => rfl, ?_⟩
    · intro i j hi hj
      show cs_real_t.real (affine_example_A ((9 * c + 3 * i + j) % 9 / 3) ((9 * c + 3 * i + j) % 3))
        = _
      rw [show (9 * c + 3 * i + j) % 9 / 3 = i by omega, show (9 * c + 3 * i + j) % 3 = j by omega]
    · intro i hi
      interval_cases c <;> interval_cases i <;> decide!
  · intro f hf _
    have hf8 : f < 8 := hf
    refine ⟨fun _ _ _ _ => rfl, fun j => [1/3, 1/3, 2/3, 1/3, 1/3, -2/3, 1/3, -1/3, 2/3, 1/3,
      -1/3, -2/3, -1/3, 1/3, 2/3, -1/3, 1/3, -2/3, -1/3, -1/3, 2/3, -1/3, -1/3,
      -2/3].getD (3 * f + j) 0, fun _ _ => rfl, ?_⟩
    intro i hi
    interval_cases f <;> interval_cases i <;> decide!

/-- The face connectivity of the octahedron mesh names cells of the mesh. -/
theorem octa_face_cells_in_range : face_cells_in_range octa_mesh := by
  constructor
  · intro f hf
    have hf12 : f < 12 := hf
    interval_cases f <;> exact ⟨by decide, by decide⟩
  · intro f hf
    have hf8 : f < 8 := hf
    interval_cases f <;> decide

/-- The centre of the octahedron mesh has the coordinates `(0,0,0)`. -/
theorem octa_centre_coord (j : Nat) (hj : j < 3) :
    octa_mesh.vtx_coord (3 * 0 + j) = cs_real_t.real 0 := by
  interval_cases j <;> rfl

/-- Evaluation of C36 on the octahedron mesh: at the centre, an interior
vertex of coordinates `(0,0,0)` and weight 72, the vertical displacement is
`dt * u0_z = 3/10`. -/
theorem project_affine_exact_witness :
    cs_ale_project_displacement_spmd (fun _ => octa_affine_args) (fun _ => tet_heap.proj) 0
        (3 * 0 + 2)
      = cs_real_t.real (1/10 * affine_value affine_example_A affine_example_u0 (fun _ => 0) 2) ∧
    (1/10 * affine_value affine_example_A affine_example_u0 (fun _ => 0) 2 : ℚ) = 3/10 :=
  ⟨project_affine_exact (fun _ => octa_affine_args) (fun _ => tet_heap.proj) 0
     affine_example_A affine_example_u0 (1/10) (fun _ => 0) (fun _ => rfl)
     (fun _ => octa_face_cells_in_range) (fun _ => octa_affine_data) 0 (by decide)
     octa_centre_coord (fun _ _ _ h => cs_ale_bc_t.noConfusion h) (fun ifs h => by cases h)
     72 (by norm_num) (by decide!) 2 (by decide),
   by decide!⟩

/-- The cells of the octahedron mesh move by `c/10` along `x` in one time
step, between 0 and 7/10. -/
theorem octa_cells_bounded (c : Nat) (hc : c < 8) :
    cell_displacement_bounded octa_args c 0 0 (7/10) := by
  interval_cases c
  · exact ⟨0, by decide!, by norm_num, by norm_num⟩
  · exact ⟨1/10, by decide!, by norm_num, by norm_num⟩
  · exact ⟨2/10, by decide!, by norm_num, by norm_num⟩
  · exact ⟨3/10, by decide!, by norm_num, by norm_num⟩
  · exact ⟨4/10, by decide!, by norm_num, by norm_num⟩
  · exact ⟨5/10, by decide!, by norm_num, by norm_num⟩
  · exact ⟨6/10, by decide!, by norm_num, by norm_num⟩
  · exact ⟨7/10, by decide!, by norm_num, by norm_num⟩

/-- The cells of the interior faces of the octahedron mesh move by a
displacement between 0 and 7/10 along `x`. -/
theorem octa_faces_bounded : interior_faces_bounded octa_args 0 0 0 (7/10) := by
  intro f hf _ _
  have hf12 : f < 12 := hf
  have h := octa_face_cells_in_range.1 f hf
  exact ⟨octa_cells_bounded _ h.1, octa_cells_bounded _ h.2⟩

/-- Evaluation of C32 on the octahedron mesh, whose cell `c` moves by `c/10`
along `x`: the displacement of the centre along `x` lies between 0 and 7/10;
it is the mean 7/20. -/
theorem project_interior_bounds_witness :
    (∃ q : ℚ, cs_ale_project_displacement_spmd (fun _ => octa_args) (fun _ => tet_heap.proj) 0
        (3 * 0 + 0) = cs_real_t.real q ∧ 0 ≤ q ∧ q ≤ 7/10) ∧
    cs_ale_project_displacement_spmd (fun _ => octa_args) (fun _ => tet_heap.proj) 0 (3 * 0 + 0)
      = cs_real_t.real (7/20) :=
  ⟨project_interior_bounds (fun _ => octa_args) (fun _ => tet_heap.proj) 0 (fun _ => rfl)
     (fun _ => ⟨fun _ => rfl, fun _ => rfl, fun _ => rfl, fun _ => rfl, fun _ => rfl,
       fun _ => rfl, fun _ => rfl, fun _ => rfl⟩)
     (fun _ => octa_positive_geometry.1) (fun _ _ => rfl) 0 (by decide) (by decide!)
     (fun _ _ _ h => cs_ale_bc_t.noConfusion h)
     ⟨0, by decide, by decide, by decide⟩ 0 (by decide) 0 (7/10) octa_faces_bounded
     (fun ifs h => by cases h),
   by decide!⟩

/-- C4: in the legacy backend, when the fields exist, the call returns, and
after the projection, for every vertex `v` of the mesh whose flag `impale[v]`,
an indicator equal to 0 or 1, is different from 1, and every component `i`,
`disale[v][i] = disala[v][i] + dproj[v][i]`, where `dproj` is the output of
`cs_ale_project_displacement` for the solved mesh velocity, its gradient, its
boundary coefficients and the time step; `disala` is left as it is. -/
theorem legacy_displacement_update (ext : legacy_engine)
    (solve : solve_vector_args → Nat → cs_real_t) (peers : Nat → proj_acc) (heap : ale_heap)
    (g : ale_globals) (iterns : Int) (impale : Nat → Int) (ale_bc_type : Nat → cs_ale_bc_t)
    (dis mesh_u : cs_field_t) (hd : g.disale = some dis) (hu : g.mesh_u = some mesh_u) :
    ∃ (g1 : ale_globals) (dis1 mesh_u1 : cs_field_t),
      _ale_solve_poisson_legacy ext solve peers heap g iterns impale ale_bc_type = some g1 ∧
      g1.disale = some dis1 ∧ g1.mesh_u = some mesh_u1 ∧ dis1.val_pre = dis.val_pre ∧
      ∀ v i, v < g.mesh.n_vertices → impale v = 0 ∨ impale v = 1 → impale v ≠ 1 → i < 3 →
        dis1.val (3 * v + i)
          = dis.val_pre (3 * v + i)
            + cs_ale_project_displacement peers
                { m := g.mesh, mq := g.mq, ale_bc_type := ale_bc_type, meshv := mesh_u1.val,
                  gradm := ext.field_gradient_vector g.mesh g.mq mesh_u1 false 1,
                  claale := mesh_u1.bc_coeffs.a, clbale := mesh_u1.bc_coeffs.b, dt := g.dt }
                heap.proj (3 * v + i) := by
  simp only [_ale_solve_poisson_legacy, hd, hu]
  refine ⟨_, _, _, rfl, rfl, rfl, rfl, ?_⟩
  intro v i hv hflag hne hi
  have h0 : impale v = 0 := hflag.resolve_right hne
  show legacy_update_displacement _ _ _ _ _ _ = _
  rw [legacy_update_displacement_spec]
  have e : (3 * v + i) / 3 = v := by omega
  rw [e, if_pos ⟨hv, h0⟩]
  rfl

/-- Evaluation of C4 on the one-tetrahedron state with the legacy solver, no
vertex being imposed: every vertex gets the previous displacement plus the
projected one, and at vertex `C` the displacement `(0,0,-1/10)` held on entry
is replaced by `disala + dproj = 0`. -/
theorem legacy_displacement_update_witness :
    (∃ (g1 : ale_globals) (dis1 mesh_u1 : cs_field_t),
      _ale_solve_poisson_legacy tet_engine tet_solve_legacy (fun _ => tet_heap.proj) tet_heap
        tet_globals 1 (fun _ => 0) (fun _ => cs_ale_bc_t.CS_ALE_FIXED) = some g1 ∧
      g1.disale = some dis1 ∧ g1.mesh_u = some mesh_u1 ∧
      dis1.val_pre = ofList [0, 0, 0, 0, 0, 0, 0, 0, 0, 0, 0, 0] ∧
      ∀ v i, v < tet_globals.mesh.n_vertices →
        (fun _ => (0 : Int)) v = 0 ∨ (fun _ => (0 : Int)) v = 1 →
        (fun _ => (0 : Int)) v ≠ 1 → i < 3 →
        dis1.val (3 * v + i)
          = (ofList [0, 0, 0, 0, 0, 0, 0, 0, 0, 0, 0, 0]) (3 * v + i)
            + cs_ale_project_displacement (fun _ => tet_heap.proj)
                { m := tet_globals.mesh, mq := tet_globals.mq,
                  ale_bc_type := fun _ => cs_ale_bc_t.CS_ALE_FIXED, meshv := mesh_u1.val,
                  gradm := tet_engine.field_gradient_vector tet_globals.mesh tet_globals.mq
                    mesh_u1 false 1,
                  claale := mesh_u1.bc_coeffs.a, clbale := mesh_u1.bc_coeffs.b,
                  dt := tet_globals.dt }
                tet_heap.proj (3 * v + i)) ∧
    (∃ (g1 : ale_globals) (dis1 : cs_field_t),
      _ale_solve_poisson_legacy tet_engine tet_solve_legacy (fun _ => tet_heap.proj) tet_heap
        tet_globals 1 (fun _ => 0) (fun _ => cs_ale_bc_t.CS_ALE_FIXED) = some g1 ∧
      g1.disale = some dis1 ∧ dis1.val (3 * 3 + 2) = cs_real_t.real 0) :=
  ⟨legacy_displacement_update tet_engine tet_solve_legacy (fun _ => tet_heap.proj) tet_heap
     tet_globals 1 (fun _ => 0) (fun _ => cs_ale_bc_t.CS_ALE_FIXED) _ _ rfl rfl,
   ⟨_, _, rfl, rfl, by decide!⟩⟩

end CsAle
